import Mathlib

/-! # Robin-coefficient-aware wide BVH (`zombie/utils/robin_boundary_bvh/mbvh.h`)

A shallow embedding of the vectorized Robin BVH of Zombie and a verification
development over it.

Conventions of the embedding.

* `float` is an arbitrary linearly ordered field `α` (exact arithmetic);
  `enoki::rcp` is the field inverse.
* A packet `FloatP<W>`, `IntP<W>`, `MaskP<W>` is a function on lane numbers
  (`Nat → α`, `Nat → Int`, `Nat → Bool`); only the lanes below the width are
  read or written by the code.
* A `Vector<DIM>` is a function `Fin D → α`; a `VectorP<W, DIM>` is indexed
  first by the coordinate and then by the lane, as in the source.
* `std::vector`s are functions on `Int` indices (the source indexes them with
  `int`s and performs no bounds check).
* Recursion through child indices and the traversal loop carry a fuel
  argument and return `Option`.
-/

set_option linter.unusedVariables false
set_option linter.unusedSectionVars false

namespace Zombie

/-! ## Data model -/

/-- Modelled from the spec: the constant `maxInt` of the underlying library,
the largest `int`, which marks an absent child slot. -/
def maxInt : Int := 2147483647

/-- Modelled from the spec: the reciprocal `enoki::rcp` of the vector library, in
exact arithmetic: the field inverse. It agrees with the library (up to
rounding) at non-zero arguments only: `enoki::rcp(0)` is `+inf`, which no
element of a field represents, whereas the inverse of zero in a field is zero.
Statements about a function that calls `rcp` therefore assume non-zero
divisors; where a zero divisor matters, the definitions of the namespaces
`WithRcp` take the reciprocal as a parameter. -/
def rcp {α : Type} [LinearOrderedField α] (x : α) : α := x⁻¹

/-- Modelled from the spec: the lane-wise masked assignment
`enoki::masked(x, m) = v` of the vector library. -/
def masked {β : Type} (x : Nat → β) (m : Nat → Bool) (v : Nat → β) : Nat → β :=
  fun w => if m w then v w else x w

/-- Modelled from the spec: the horizontal reduction `enoki::any` of the vector
library over the `W` lanes of a mask. -/
def anyLane (W : Nat) (m : Nat → Bool) : Bool :=
  (List.range W).any m

/-- Axis-aligned box `BoundingBox<DIM>` with its two corners. -/
structure BoundingBox (α : Type) (D : Nat) where
  pMin : Fin D → α
  pMax : Fin D → α

/-- Cone of normals `BoundingCone<DIM>`. -/
structure BoundingCone (α : Type) (D : Nat) where
  axis : Fin D → α
  halfAngle : α
  radius : α

/-- Query sphere `BoundingSphere<DIM>`: centre and squared radius. -/
structure BoundingSphere (α : Type) (D : Nat) where
  c : Fin D → α
  r2 : α

/-- Wide node `RobinMbvhNode<DIM>`; `boxMin i w` is coordinate `i` of lane `w`. -/
structure RobinMbvhNode (α : Type) (D : Nat) where
  boxMin : Fin D → Nat → α
  boxMax : Fin D → Nat → α
  coneAxis : Fin D → Nat → α
  coneHalfAngle : Nat → α
  coneRadius : Nat → α
  minRobinCoeff : Nat → α
  maxRobinCoeff : Nat → α
  child : Nat → Int

/-- Leaf record `MbvhLeafNode<WIDTH, DIM>`; `positions i j w` is coordinate `j`
of vertex `i` of the primitive in lane `w`. -/
structure MbvhLeafNode (α : Type) (D : Nat) where
  positions : Fin D → Fin D → Nat → α
  normals : Fin D → Fin D → Nat → α
  maxRobinCoeff : Nat → α
  primitiveIndex : Nat → Int
  hasAdjacentFace : Fin D → Nat → Bool
  ignoreAdjacentFace : Fin D → Nat → Bool

/-- The fields of a Robin primitive (`RobinLineSegment`, `RobinTriangle`) that
`mbvh.h` reads or writes: vertex positions (`soup->positions[indices[i]]`),
vertex normals `n`, adjacency flags, the coefficient pair and the external
index returned by `getIndex()`. -/
structure RobinPrimitive (α : Type) (D : Nat) where
  positions : Fin D → Fin D → α
  n : Fin D → Fin D → α
  hasAdjacentFace : Fin D → Bool
  ignoreAdjacentFace : Fin D → Bool
  minRobinCoeff : α
  maxRobinCoeff : α
  pIndex : Int

/-- Stack entry `TraversalStack` of the traversal. -/
structure TraversalStack (α : Type) where
  node : Int
  distance : α

/-! ## Radius-Bound Strategy -/

namespace RobinMbvhNodeBound2

variable {α : Type} [LinearOrderedField α]

/-- Lower bound `RobinMbvhNodeBound<2>::computeMinSquaredStarRadiusBound` in exact
arithmetic; `exp` stands for `enoki::exp`. It is the value of the code when the
divisor `maxRobinCoeff · rMax` is not zero. -/
def computeMinSquaredStarRadiusBound (exp : α → α)
    (rMin rMax minRobinCoeff maxRobinCoeff minCosTheta maxCosTheta : Nat → α) : Nat → α :=
  let rBound : Nat → α := fun w => rMin w * exp (minCosTheta w * rcp (maxRobinCoeff w * rMax w))
  fun w => rBound w * rBound w

/-- Upper bound `RobinMbvhNodeBound<2>::computeMaxSquaredStarRadiusBound` in exact
arithmetic. It is the value of the code when the divisor `minRobinCoeff · rMin`
is not zero. -/
def computeMaxSquaredStarRadiusBound (exp : α → α)
    (rMin rMax minRobinCoeff maxRobinCoeff minCosTheta maxCosTheta : Nat → α) : Nat → α :=
  let rBound : Nat → α := fun w => rMax w * exp (maxCosTheta w * rcp (minRobinCoeff w * rMin w))
  fun w => rBound w * rBound w

end RobinMbvhNodeBound2

namespace RobinMbvhNodeBound3

variable {α : Type} [LinearOrderedField α]

/-- Lower bound `RobinMbvhNodeBound<3>::computeMinSquaredStarRadiusBound` in exact
arithmetic. It is the value of the code when none of the divisors
`maxRobinCoeff`, `rMax` and `1 − cosThetaOverRobinCoeff / rMax` is zero. -/
def computeMinSquaredStarRadiusBound (maxFloat : α)
    (rMin rMax minRobinCoeff maxRobinCoeff minCosTheta maxCosTheta : Nat → α) : Nat → α :=
  let cosThetaOverRobinCoeff : Nat → α := fun w => minCosTheta w * rcp (maxRobinCoeff w)
  let rBound : Nat → α :=
    fun w => rMin w * rcp (1 - cosThetaOverRobinCoeff w * rcp (rMax w))
  let rBound := masked rBound (fun w => decide (rMax w < cosThetaOverRobinCoeff w))
    (fun _ => maxFloat)
  fun w => rBound w * rBound w

/-- Upper bound `RobinMbvhNodeBound<3>::computeMaxSquaredStarRadiusBound` in exact
arithmetic. It is the value of the code when none of the divisors
`minRobinCoeff`, `rMin` and `1 − cosThetaOverRobinCoeff / rMin` is zero. -/
def computeMaxSquaredStarRadiusBound (maxFloat : α)
    (rMin rMax minRobinCoeff maxRobinCoeff minCosTheta maxCosTheta : Nat → α) : Nat → α :=
  let cosThetaOverRobinCoeff : Nat → α := fun w => maxCosTheta w * rcp (minRobinCoeff w)
  let rBound : Nat → α :=
    fun w => rMax w * rcp (1 - cosThetaOverRobinCoeff w * rcp (rMin w))
  let rBound := masked rBound (fun w => decide (rMin w < cosThetaOverRobinCoeff w))
    (fun _ => maxFloat)
  fun w => rBound w * rBound w

end RobinMbvhNodeBound3

/-! ## Constants and external collaborators -/

/-- Constants and macros of the underlying library that `mbvh.h` uses but
does not define: the two branching widths and the float sentinels. -/
structure Params (α : Type) where
  /-- Macro `FCPW_MBVH_BRANCHING_FACTOR`: lanes of a wide node. -/
  W : Nat
  /-- Macro `FCPW_SIMD_WIDTH`: the template width `WIDTH` of a leaf record. -/
  WIDTH : Nat
  maxFloat : α
  minFloat : α
  epsilon : α

/-- Geometric routines called by `refit` that are defined outside `mbvh.h`. -/
structure GeomOps (α : Type) (D : Nat) where
  /-- Method `PrimitiveType::boundingBox()`. -/
  boundingBox : RobinPrimitive α D → BoundingBox α D
  /-- Function `computeBoundingConeForPrimitives(primitives, centroid, nReferences,
  referenceOffset)`. -/
  computeBoundingConeForPrimitives :
    (Int → RobinPrimitive α D) → (Fin D → α) → Int → Int → BoundingCone α D
  /-- Five-argument `mergeBoundingCones(coneA, coneB, originA, originB, newOrigin)`. -/
  mergeBoundingCones5 :
    BoundingCone α D → BoundingCone α D → (Fin D → α) → (Fin D → α) → (Fin D → α) →
      BoundingCone α D
  /-- Default-constructed `BoundingCone<DIM>`. -/
  defaultCone : BoundingCone α D
  /-- The constant `M_PI`. -/
  pi : α

/-- Routines called by the query that are defined outside `mbvh.h`, together
with the `NodeBound` template parameter of `RobinMbvh`. -/
structure QueryOps (α : Type) (D : Nat) where
  sqrt : α → α
  cos : α → α
  /-- Function `overlapWideBox(boxMin, boxMax, sc, r2, d2Min, d2Max)`: returned mask and
  the two output packets. -/
  overlapWideBox :
    (Fin D → Nat → α) → (Fin D → Nat → α) → (Fin D → α) → α →
      (Nat → Bool) × (Nat → α) × (Nat → α)
  /-- Function `overlapWideCone(axis, halfAngle, radius, sc, boxMin, boxMax, distToBox,
  minAngleRange, maxAngleRange, overlap)`: the two output angle packets and the
  updated in-out mask. -/
  overlapWideCone :
    (Fin D → Nat → α) → (Nat → α) → (Nat → α) → (Fin D → α) →
      (Fin D → Nat → α) → (Fin D → Nat → α) → (Nat → α) → (Nat → Bool) →
      (Nat → α) × (Nat → α) × (Nat → Bool)
  /-- Template parameter member `NodeBound::computeMinSquaredStarRadiusBound`. -/
  computeMinSquaredStarRadiusBound :
    (Nat → α) → (Nat → α) → (Nat → α) → (Nat → α) → (Nat → α) → (Nat → α) → Nat → α
  /-- Template parameter member `NodeBound::computeMaxSquaredStarRadiusBound`. -/
  computeMaxSquaredStarRadiusBound :
    (Nat → α) → (Nat → α) → (Nat → α) → (Nat → α) → (Nat → α) → (Nat → α) → Nat → α
  /-- Function `RobinWidePrimitive::computeSquaredStarRadiusWidePrimitive(positions,
  normals, maxRobinCoeff, hasAdjacentFace, ignoreAdjacentFace, sc, r2,
  flipNormalOrientation, silhouettePrecision, performSilhouetteTests)`. -/
  computeSquaredStarRadiusWidePrimitive :
    (Fin D → Fin D → Nat → α) → (Fin D → Fin D → Nat → α) → (Nat → α) →
      (Fin D → Nat → Bool) → (Fin D → Nat → Bool) → (Fin D → α) → α → Bool → α → Bool →
      Nat → α
  /-- Method `PrimitiveType::computeSquaredStarRadius(s, flipNormalOrientation,
  silhouettePrecision, performSilhouetteTests)`: the sphere after the call. -/
  primitiveComputeSquaredStarRadius :
    RobinPrimitive α D → BoundingSphere α D → Bool → α → Bool → BoundingSphere α D
  /-- Function `sortOrder4(t, a, b, c, d)` called on `order = {0, 1, 2, 3}`: the four
  entries of `order` after the call. -/
  sortOrder4 : (Nat → α) → List Nat

/-- The state of a `RobinMbvh` that `mbvh.h` reads or writes. -/
structure RobinMbvh (α : Type) (D : Nat) where
  nNodes : Int
  flatTree : Int → RobinMbvhNode α D
  leafNodes : Int → MbvhLeafNode α D
  primitives : Int → RobinPrimitive α D
  primitiveTypeSupportsVectorizedQueries : Bool

section Operations

variable {α : Type} [LinearOrderedField α] {D : Nat}

/-- Modelled from the spec: the test `Mbvh::isLeafNode` of the base class; the
sign of `child[0]` tags a leaf, as in `refitRecursive`. -/
def isLeafNode (node : RobinMbvhNode α D) : Bool :=
  decide (node.child 0 < 0)

/-- Modelled from the spec: the default-constructed `BoundingBox<DIM>` of the
underlying library, the empty box with corners `maxFloat` and `minFloat` (the
values the constructor of `RobinMbvhNode` gives to `boxMin` and `boxMax`). -/
def BoundingBox.empty (P : Params α) : BoundingBox α D :=
  { pMin := fun _ => P.maxFloat, pMax := fun _ => P.minFloat }

/-- Modelled from the spec: the box union
`BoundingBox::expandToInclude(const BoundingBox&)` of the underlying library,
the componentwise minimum and maximum of the corners. -/
def BoundingBox.expandToInclude (box b : BoundingBox α D) : BoundingBox α D :=
  { pMin := fun i => min (box.pMin i) (b.pMin i),
    pMax := fun i => max (box.pMax i) (b.pMax i) }

/-- Modelled from the spec: the box centre `BoundingBox::centroid()` of the
underlying library. -/
def BoundingBox.centroid (box : BoundingBox α D) : Fin D → α :=
  fun i => (box.pMin i + box.pMax i) * (1 / 2)

/-! ## Tree maintenance -/

/-- Loop body of `populateLeafNode` for the `p`-th primitive of a leaf. -/
def populateLeafLane (WIDTH : Nat) (leafOffset referenceOffset : Int)
    (primitives : Int → RobinPrimitive α D) (leafNodes : Int → MbvhLeafNode α D) (p : Nat) :
    Int → MbvhLeafNode α D :=
  let referenceIndex : Int := referenceOffset + p
  let leafIndex : Int := leafOffset + ((p / WIDTH : Nat) : Int)
  let w : Nat := p % WIDTH
  let prim := primitives referenceIndex
  let leafNode := leafNodes leafIndex
  Function.update leafNodes leafIndex
    { maxRobinCoeff := Function.update leafNode.maxRobinCoeff w prim.maxRobinCoeff,
      primitiveIndex := Function.update leafNode.primitiveIndex w prim.pIndex,
      positions := fun i j => Function.update (leafNode.positions i j) w (prim.positions i j),
      normals := fun i j => Function.update (leafNode.normals i j) w (prim.n i j),
      hasAdjacentFace := fun i => Function.update (leafNode.hasAdjacentFace i) w
        (prim.hasAdjacentFace i),
      ignoreAdjacentFace := fun i => Function.update (leafNode.ignoreAdjacentFace i) w
        (prim.ignoreAdjacentFace i) }

/-- Both overloads of `populateLeafNode` (`D = 2` for line segments, `D = 3`
for triangles). -/
def populateLeafNode (WIDTH : Nat) (node : RobinMbvhNode α D)
    (primitives : Int → RobinPrimitive α D) (leafNodes : Int → MbvhLeafNode α D) :
    Int → MbvhLeafNode α D :=
  let leafOffset : Int := -node.child 0 - 1
  let referenceOffset : Int := node.child 2
  let nReferences : Int := node.child 3
  (List.range nReferences.toNat).foldl
    (populateLeafLane WIDTH leafOffset referenceOffset primitives) leafNodes

/-- Modelled from the spec: `Mbvh::populateLeafNodes` of the base class, which
re-populates the leaf records from the primitive array by calling
`populateLeafNode` on every leaf node of the flat tree. -/
def populateLeafNodes (P : Params α) (T : RobinMbvh α D) : RobinMbvh α D :=
  { T with
    leafNodes := (List.range T.nNodes.toNat).foldl
      (fun leafNodes (i : Nat) =>
        if isLeafNode (T.flatTree (i : Int)) then
          populateLeafNode P.WIDTH (T.flatTree (i : Int)) T.primitives leafNodes
        else leafNodes)
      T.leafNodes }

/-- Lane assignment `assignBoundingCone(cone, node, index)`. -/
def assignBoundingCone (cone : BoundingCone α D) (node : RobinMbvhNode α D) (index : Nat) :
    RobinMbvhNode α D :=
  { node with
    coneAxis := fun i => Function.update (node.coneAxis i) index (cone.axis i),
    coneHalfAngle := Function.update node.coneHalfAngle index cone.halfAngle,
    coneRadius := Function.update node.coneRadius index cone.radius }

/-- Wrapper `mergeBoundingCones(coneA, coneB, boxA, boxB, mergedBox, node, cone)`
of `mbvh.h`: the value assigned to `cone`. -/
def mergeBoundingCones (G : GeomOps α D) (coneA coneB : BoundingCone α D)
    (boxA boxB mergedBox : BoundingBox α D) : BoundingCone α D :=
  G.mergeBoundingCones5 coneA coneB boxA.centroid boxB.centroid mergedBox.centroid

/-- Box of a leaf in `refitRecursive`: the union of the boxes of its
`nReferences` primitives starting at `referenceOffset`. -/
def leafBox (P : Params α) (G : GeomOps α D) (primitives : Int → RobinPrimitive α D)
    (referenceOffset nReferences : Int) : BoundingBox α D :=
  (List.range nReferences.toNat).foldl
    (fun box (p : Nat) =>
      box.expandToInclude (G.boundingBox (primitives (referenceOffset + (p : Int)))))
    (BoundingBox.empty P)

/-- Body of the child loop of `refitRecursive` for slot `w`, given the result
of the recursive call on that child. -/
def refitSlot (G : GeomOps α D) (nodeIndex : Int) (w : Nat)
    (flatTree : Int → RobinMbvhNode α D) (box : BoundingBox α D) (cone : BoundingCone α D)
    (childBox : BoundingBox α D) (childCone : BoundingCone α D) :
    (Int → RobinMbvhNode α D) × BoundingBox α D × BoundingCone α D :=
  let node := flatTree nodeIndex
  let currentBox := box
  let node : RobinMbvhNode α D :=
    { node with
      boxMin := fun i => Function.update (node.boxMin i) w (childBox.pMin i),
      boxMax := fun i => Function.update (node.boxMax i) w (childBox.pMax i) }
  let box := box.expandToInclude childBox
  let node := assignBoundingCone childCone node w
  let cone := mergeBoundingCones G cone childCone currentBox childBox box
  (Function.update flatTree nodeIndex node, box, cone)

/-- Recursive pass `refitRecursive`; `none` when the fuel is exhausted. -/
def refitRecursive (P : Params α) (G : GeomOps α D) (primitives : Int → RobinPrimitive α D) :
    Nat → (Int → RobinMbvhNode α D) → Int →
      Option ((Int → RobinMbvhNode α D) × BoundingBox α D × BoundingCone α D)
  | 0, _, _ => none
  | fuel + 1, flatTree, nodeIndex =>
    let box : BoundingBox α D := BoundingBox.empty P
    let cone : BoundingCone α D := { G.defaultCone with halfAngle := -G.pi }
    let node := flatTree nodeIndex
    if node.child 0 < 0 then
      let referenceOffset := node.child 2
      let nReferences := node.child 3
      let box := leafBox P G primitives referenceOffset nReferences
      let centroid := box.centroid
      let cone := G.computeBoundingConeForPrimitives primitives centroid nReferences
        referenceOffset
      some (flatTree, box, cone)
    else
      (List.range P.W).foldl
        (fun acc w =>
          match acc with
          | none => none
          | some (flatTree, box, cone) =>
            if (flatTree nodeIndex).child w ≠ maxInt then
              match refitRecursive P G primitives fuel flatTree ((flatTree nodeIndex).child w) with
              | none => none
              | some (flatTree, childBox, childCone) =>
                some (refitSlot G nodeIndex w flatTree box cone childBox childCone)
            else some (flatTree, box, cone))
        (some (flatTree, box, cone))

/-- Method `RobinMbvh::refit`. -/
def refit (P : Params α) (G : GeomOps α D) (fuel : Nat) (T : RobinMbvh α D) :
    Option (RobinMbvh α D) :=
  let T := populateLeafNodes P T
  if T.nNodes > 0 then
    match refitRecursive P G T.primitives fuel T.flatTree 0 with
    | none => none
    | some r => some { T with flatTree := r.1 }
  else some T

/-- Coefficient range of a leaf in `updateRobinCoefficientsRecursive`. -/
def leafRobinCoeffs (P : Params α) (primitives : Int → RobinPrimitive α D)
    (referenceOffset nReferences : Int) : α × α :=
  (List.range nReferences.toNat).foldl
    (fun mm (p : Nat) =>
      let prim := primitives (referenceOffset + (p : Int))
      (min mm.1 prim.minRobinCoeff, max mm.2 prim.maxRobinCoeff))
    (P.maxFloat, P.minFloat)

/-- Body of the child loop of `updateRobinCoefficientsRecursive` for slot `w`,
given the result of the recursive call on that child. -/
def updateSlot (nodeIndex : Int) (w : Nat) (flatTree : Int → RobinMbvhNode α D)
    (minMaxRobinCoeffs childMinMaxRobinCoeffs : α × α) :
    (Int → RobinMbvhNode α D) × (α × α) :=
  let node := flatTree nodeIndex
  let node : RobinMbvhNode α D :=
    { node with
      minRobinCoeff := Function.update node.minRobinCoeff w childMinMaxRobinCoeffs.1,
      maxRobinCoeff := Function.update node.maxRobinCoeff w childMinMaxRobinCoeffs.2 }
  (Function.update flatTree nodeIndex node,
    (min minMaxRobinCoeffs.1 (node.minRobinCoeff w),
     max minMaxRobinCoeffs.2 (node.maxRobinCoeff w)))

/-- Recursive pass `updateRobinCoefficientsRecursive`; `none` when the fuel is
exhausted. -/
def updateRobinCoefficientsRecursive (P : Params α) (primitives : Int → RobinPrimitive α D) :
    Nat → (Int → RobinMbvhNode α D) → Int → Option ((Int → RobinMbvhNode α D) × (α × α))
  | 0, _, _ => none
  | fuel + 1, flatTree, nodeIndex =>
    let node := flatTree nodeIndex
    let minMaxRobinCoeffs : α × α := (P.maxFloat, P.minFloat)
    if node.child 0 < 0 then
      let referenceOffset := node.child 2
      let nReferences := node.child 3
      some (flatTree, leafRobinCoeffs P primitives referenceOffset nReferences)
    else
      (List.range P.W).foldl
        (fun acc w =>
          match acc with
          | none => none
          | some (flatTree, minMaxRobinCoeffs) =>
            if (flatTree nodeIndex).child w ≠ maxInt then
              match updateRobinCoefficientsRecursive P primitives fuel flatTree
                  ((flatTree nodeIndex).child w) with
              | none => none
              | some (flatTree, childMinMaxRobinCoeffs) =>
                some (updateSlot nodeIndex w flatTree minMaxRobinCoeffs childMinMaxRobinCoeffs)
            else some (flatTree, minMaxRobinCoeffs))
        (some (flatTree, minMaxRobinCoeffs))

/-- Loop body of the first pass of `updateRobinCoefficients` for the `p`-th
primitive of a leaf: the primitive and its leaf-record lane are updated. -/
def updateLeafLane (WIDTH : Nat) (minCoeffValues maxCoeffValues : Int → α)
    (leafOffset referenceOffset : Int)
    (st : (Int → RobinPrimitive α D) × (Int → MbvhLeafNode α D)) (p : Nat) :
    (Int → RobinPrimitive α D) × (Int → MbvhLeafNode α D) :=
  let referenceIndex : Int := referenceOffset + p
  let leafIndex : Int := leafOffset + ((p / WIDTH : Nat) : Int)
  let w : Nat := p % WIDTH
  let prim := st.1 referenceIndex
  let leafNode := st.2 leafIndex
  let prim : RobinPrimitive α D := { prim with minRobinCoeff := minCoeffValues prim.pIndex }
  let prim : RobinPrimitive α D := { prim with maxRobinCoeff := maxCoeffValues prim.pIndex }
  (Function.update st.1 referenceIndex prim,
   Function.update st.2 leafIndex
     { leafNode with maxRobinCoeff := Function.update leafNode.maxRobinCoeff w prim.maxRobinCoeff })

/-- First pass of `updateRobinCoefficients` at node `i`. -/
def updateLeafCoefficients (WIDTH : Nat) (minCoeffValues maxCoeffValues : Int → α)
    (flatTree : Int → RobinMbvhNode α D)
    (st : (Int → RobinPrimitive α D) × (Int → MbvhLeafNode α D)) (i : Nat) :
    (Int → RobinPrimitive α D) × (Int → MbvhLeafNode α D) :=
  let node := flatTree i
  if isLeafNode node then
    let leafOffset : Int := -node.child 0 - 1
    let referenceOffset : Int := node.child 2
    let nReferences : Int := node.child 3
    (List.range nReferences.toNat).foldl
      (updateLeafLane WIDTH minCoeffValues maxCoeffValues leafOffset referenceOffset) st
  else st

/-- First loop of `updateRobinCoefficients` over all nodes: the primitives and
the leaf records after it. -/
def updatePrimitiveCoefficients (P : Params α) (minCoeffValues maxCoeffValues : Int → α)
    (T : RobinMbvh α D) : (Int → RobinPrimitive α D) × (Int → MbvhLeafNode α D) :=
  (List.range T.nNodes.toNat).foldl
    (updateLeafCoefficients P.WIDTH minCoeffValues maxCoeffValues T.flatTree)
    (T.primitives, T.leafNodes)

/-- Method `RobinMbvh::updateRobinCoefficients`. -/
def updateRobinCoefficients (P : Params α) (fuel : Nat) (minCoeffValues maxCoeffValues : Int → α)
    (T : RobinMbvh α D) : Option (RobinMbvh α D) :=
  -- update robin coefficients for primitives
  let st := updatePrimitiveCoefficients P minCoeffValues maxCoeffValues T
  let T : RobinMbvh α D := { T with primitives := st.1, leafNodes := st.2 }
  -- update robin coefficients for vectorized nodes
  if T.nNodes > 0 then
    match updateRobinCoefficientsRecursive P T.primitives fuel T.flatTree 0 with
    | none => none
    | some r => some { T with flatTree := r.1 }
  else some T

end Operations

section Query

variable {α : Type} [LinearOrderedField α] {D : Nat}

/-! ## Node Visitor -/

/-- Method `RobinMbvh::visitNodes`: the returned mask and the final values of the
three output packets `r2MinBound`, `r2MaxBound`, `hasSilhouettes`. -/
def visitNodes (P : Params α) (E : QueryOps α D) (flatTree : Int → RobinMbvhNode α D)
    (sc : Fin D → α) (r2 : α) (nodeIndex : Int) :
    (Nat → Bool) × (Nat → α) × (Nat → α) × (Nat → Bool) :=
  let node := flatTree nodeIndex
  let hasSilhouettes : Nat → Bool := fun _ => true
  -- perform box overlap test
  let ob := E.overlapWideBox node.boxMin node.boxMax sc r2
  let r2MinBound := ob.2.1
  let r2MaxBound := ob.2.2
  let overlapBox : Nat → Bool := fun w => decide (node.child w ≠ maxInt) && ob.1 w
  -- early out for Dirichlet case
  let isNotDirichlet : Nat → Bool :=
    fun w => decide (node.minRobinCoeff w < P.maxFloat - P.epsilon)
  let overlapNotDirichletBox : Nat → Bool := fun w => overlapBox w && isNotDirichlet w
  if anyLane P.W overlapNotDirichletBox then
    -- perform cone overlap test
    let oc := E.overlapWideCone node.coneAxis node.coneHalfAngle node.coneRadius sc
      node.boxMin node.boxMax r2MinBound overlapNotDirichletBox
    let maximalAngles0 := oc.1
    let maximalAngles1 := oc.2.1
    let hasSilhouettes := oc.2.2
    let r2MaxBound := masked r2MaxBound hasSilhouettes (fun _ => P.maxFloat)
    -- update mask for Neumann case
    let isNotNeumann : Nat → Bool := fun w => decide (node.maxRobinCoeff w > P.epsilon)
    let overlapNeumannBox : Nat → Bool := fun w => overlapBox w && !isNotNeumann w
    let overlapBox :=
      if anyLane P.W overlapNeumannBox then masked overlapBox overlapNeumannBox hasSilhouettes
      else overlapBox
    -- update bounds for Robin case
    let overlapRobinBox : Nat → Bool := fun w => overlapNotDirichletBox w && isNotNeumann w
    if anyLane P.W overlapRobinBox then
      let overlapRobinBoxNotCone : Nat → Bool := fun w => overlapRobinBox w && !hasSilhouettes w
      let rMin : Nat → α := fun w => E.sqrt (r2MinBound w)
      let rMax : Nat → α := fun w => E.sqrt (r2MaxBound w)
      let minAbsCosTheta : Nat → α :=
        fun w => min |E.cos (maximalAngles0 w)| |E.cos (maximalAngles1 w)|
      let maxAbsCosTheta : Nat → α := fun _ => 1
      let r2MinBound := masked r2MinBound overlapRobinBoxNotCone
        (E.computeMinSquaredStarRadiusBound rMin rMax node.minRobinCoeff node.maxRobinCoeff
          minAbsCosTheta maxAbsCosTheta)
      let r2MaxBound := masked r2MaxBound overlapRobinBoxNotCone
        (E.computeMaxSquaredStarRadiusBound rMin rMax node.minRobinCoeff node.maxRobinCoeff
          minAbsCosTheta maxAbsCosTheta)
      (overlapBox, r2MinBound, r2MaxBound, hasSilhouettes)
    else (overlapBox, r2MinBound, r2MaxBound, hasSilhouettes)
  else (overlapBox, r2MinBound, r2MaxBound, hasSilhouettes)

/-! ## Traversal Engine

The stack `subtree[0 .. stackPtr]` is a list whose last element is the entry at
`stackPtr`; `stackPtr` is the length of the list minus one. -/

/-- Loop state of the generic `enqueueNodes`. -/
structure EnqueueState (α : Type) where
  subtree : List (TraversalStack α)
  tMaxMin : α
  minDist : α
  closestIndex : Int

/-- Exchange of two stack entries, `std::swap(subtree[i], subtree[j])`. -/
def swapEntries {β : Type} (l : List β) (i j : Nat) : List β :=
  match l[i]?, l[j]? with
  | some a, some b => (l.set i b).set j a
  | _, _ => l

/-- Entry pushed for lane `w` by both versions of `enqueueNodes`. -/
def stackEntry (child : Nat → Int) (tMin : Nat → α) (hasSilhouettes : Nat → Bool) (w : Nat) :
    TraversalStack α :=
  { node := child w, distance := tMin w * (if hasSilhouettes w then 1 else -1) }

/-- Loop body of the generic `enqueueNodes` for lane `w`. -/
def enqueueLane (child : Nat → Int) (tMin tMax : Nat → α) (hasSilhouettes mask : Nat → Bool)
    (st : EnqueueState α) (w : Nat) : EnqueueState α :=
  if mask w then
    let subtree := st.subtree ++ [stackEntry child tMin hasSilhouettes w]
    let stackPtr : Int := (subtree.length : Int) - 1
    let tMaxMin := min st.tMaxMin (tMax w)
    if tMin w < st.minDist then
      { subtree := subtree, tMaxMin := tMaxMin, minDist := tMin w, closestIndex := stackPtr }
    else
      { subtree := subtree, tMaxMin := tMaxMin, minDist := st.minDist,
        closestIndex := st.closestIndex }
  else st

/-- Generic `enqueueNodes<WIDTH>`: the stack and `tMaxMin` after the call. -/
def enqueueNodes (WIDTH : Nat) (child : Nat → Int) (tMin tMax : Nat → α)
    (hasSilhouettes mask : Nat → Bool) (minDist tMaxMin : α)
    (subtree : List (TraversalStack α)) : List (TraversalStack α) × α :=
  let st := (List.range WIDTH).foldl (enqueueLane child tMin tMax hasSilhouettes mask)
    { subtree := subtree, tMaxMin := tMaxMin, minDist := minDist, closestIndex := -1 }
  -- put closest node first
  if st.closestIndex ≠ -1 then
    (swapEntries st.subtree (st.subtree.length - 1) st.closestIndex.toNat, st.tMaxMin)
  else (st.subtree, st.tMaxMin)

/-- Loop body of `enqueueNodes<4>` for the lane `W = order[w]`. -/
def enqueueLane4 (child : Nat → Int) (tMin tMax : Nat → α) (hasSilhouettes mask : Nat → Bool)
    (st : List (TraversalStack α) × α) (W : Nat) : List (TraversalStack α) × α :=
  if mask W then
    (st.1 ++ [stackEntry child tMin hasSilhouettes W], min st.2 (tMax W))
  else st

/-- Specialisation `enqueueNodes<4>`: the stack and `tMaxMin` after the call. -/
def enqueueNodes4 (E : QueryOps α D) (child : Nat → Int) (tMin tMax : Nat → α)
    (hasSilhouettes mask : Nat → Bool) (minDist tMaxMin : α)
    (subtree : List (TraversalStack α)) : List (TraversalStack α) × α :=
  -- sort nodes
  let order := E.sortOrder4 tMin
  -- enqueue overlapping nodes in sorted order
  order.foldl (enqueueLane4 child tMin tMax hasSilhouettes mask) (subtree, tMaxMin)

/-- Call `enqueueNodes<FCPW_MBVH_BRANCHING_FACTOR>`: the specialisation is
selected when the branching factor is 4. -/
def enqueueNodesW (P : Params α) (E : QueryOps α D) (child : Nat → Int) (tMin tMax : Nat → α)
    (hasSilhouettes mask : Nat → Bool) (minDist tMaxMin : α)
    (subtree : List (TraversalStack α)) : List (TraversalStack α) × α :=
  if P.W = 4 then enqueueNodes4 E child tMin tMax hasSilhouettes mask minDist tMaxMin subtree
  else enqueueNodes P.W child tMin tMax hasSilhouettes mask minDist tMaxMin subtree

/-- State of the loop of `computeSquaredStarRadius`. -/
structure TraversalState (α : Type) (D : Nat) where
  subtree : List (TraversalStack α)
  s : BoundingSphere α D
  nodesVisited : Int

/-- Fold of the lanes `w < W` of one batch into the squared radius:
`s.r2 = std::min(s.r2, d2[w])`. -/
def foldLanes (r2 : α) (d2 : Nat → α) (W : Int) : α :=
  (List.range W.toNat).foldl (fun r2 w => min r2 (d2 w)) r2

/-- Loop body of the batch path over the records of a leaf: state is the
squared radius and `startReference`. -/
def leafRecordStep (P : Params α) (E : QueryOps α D) (T : RobinMbvh α D) (sc : Fin D → α)
    (flipNormalOrientation : Bool) (silhouettePrecision : α) (currentDist : α)
    (leafOffset nReferences : Int) (st : α × Int) (l : Nat) : α × Int :=
  let leafIndex : Int := leafOffset + l
  let leafNode := T.leafNodes leafIndex
  let d2 := E.computeSquaredStarRadiusWidePrimitive leafNode.positions leafNode.normals
    leafNode.maxRobinCoeff leafNode.hasAdjacentFace leafNode.ignoreAdjacentFace sc st.1
    flipNormalOrientation silhouettePrecision (decide (currentDist ≥ 0))
  -- update squared radius
  let W : Int := min (P.WIDTH : Int) (nReferences - st.2)
  (foldLanes st.1 d2 W, st.2 + P.WIDTH)

/-- Loop body of the fallback path: one primitive is queried. -/
def leafPrimitiveStep (E : QueryOps α D) (T : RobinMbvh α D)
    (flipNormalOrientation : Bool) (silhouettePrecision : α) (currentDist : α)
    (referenceOffset : Int) (st : BoundingSphere α D × Int) (p : Nat) :
    BoundingSphere α D × Int :=
  let referenceIndex : Int := referenceOffset + p
  let prim := T.primitives referenceIndex
  (E.primitiveComputeSquaredStarRadius prim st.1 flipNormalOrientation silhouettePrecision
    (decide (currentDist ≥ 0)), st.2 + 1)

/-- One iteration of the `while (stackPtr >= 0)` loop of
`computeSquaredStarRadius`; the state is returned unchanged when the stack is
empty. -/
def traversalStep (P : Params α) (E : QueryOps α D) (T : RobinMbvh α D) (sc : Fin D → α)
    (flipNormalOrientation : Bool) (silhouettePrecision : α)
    (st : TraversalState α D) : TraversalState α D :=
  match st.subtree.getLast? with
  | none => st
  | some top =>
    -- pop off the next node to work on
    let nodeIndex := top.node
    let currentDist := top.distance
    let subtree := st.subtree.dropLast
    -- if this node is further than the current radius estimate, continue
    if |currentDist| > st.s.r2 then { st with subtree := subtree }
    else
      let node := T.flatTree nodeIndex
      if isLeafNode node then
        if T.primitiveTypeSupportsVectorizedQueries then
          let leafOffset : Int := -node.child 0 - 1
          let nLeafs : Int := node.child 1
          let nReferences : Int := node.child 3
          let r := (List.range nLeafs.toNat).foldl
            (leafRecordStep P E T sc flipNormalOrientation silhouettePrecision currentDist
              leafOffset nReferences) (st.s.r2, 0)
          { subtree := subtree, s := { st.s with r2 := r.1 },
            nodesVisited := st.nodesVisited + 1 }
        else
          let referenceOffset : Int := node.child 2
          let nReferences : Int := node.child 3
          let r := (List.range nReferences.toNat).foldl
            (leafPrimitiveStep E T flipNormalOrientation silhouettePrecision currentDist
              referenceOffset) (st.s, st.nodesVisited)
          { subtree := subtree, s := r.1, nodesVisited := r.2 }
      else
        -- determine which nodes to visit
        let v := visitNodes P E T.flatTree sc st.s.r2 nodeIndex
        let mask := v.1
        let d2Min := v.2.1
        let d2Max := v.2.2.1
        let hasSilhouettes := v.2.2.2
        -- enqueue overlapping boxes in sorted order
        if anyLane P.W mask then
          let q := enqueueNodesW P E node.child d2Min d2Max hasSilhouettes mask st.s.r2 st.s.r2
            subtree
          { subtree := q.1, s := { st.s with r2 := q.2 }, nodesVisited := st.nodesVisited + 1 }
        else { st with subtree := subtree, nodesVisited := st.nodesVisited + 1 }

/-- The `while (stackPtr >= 0)` loop: `none` when the fuel is exhausted before
the stack is empty. -/
def traversalLoop (P : Params α) (E : QueryOps α D) (T : RobinMbvh α D) (sc : Fin D → α)
    (flipNormalOrientation : Bool) (silhouettePrecision : α) :
    Nat → TraversalState α D → Option (TraversalState α D)
  | 0, st => if st.subtree.isEmpty then some st else none
  | fuel + 1, st =>
    if st.subtree.isEmpty then some st
    else traversalLoop P E T sc flipNormalOrientation silhouettePrecision fuel
      (traversalStep P E T sc flipNormalOrientation silhouettePrecision st)

/-- Method `RobinMbvh::computeSquaredStarRadius`: the sphere after the call and
the returned count `nodesVisited`. -/
def computeSquaredStarRadius (P : Params α) (E : QueryOps α D) (T : RobinMbvh α D) (fuel : Nat)
    (s : BoundingSphere α D) (flipNormalOrientation : Bool) (silhouettePrecision : α) :
    Option (BoundingSphere α D × Int) :=
  let sc := s.c
  -- push root node
  let st : TraversalState α D :=
    { subtree := [{ node := 0, distance := 0 }], s := s, nodesVisited := 0 }
  match traversalLoop P E T sc flipNormalOrientation silhouettePrecision fuel st with
  | none => none
  | some st => some (st.s, st.nodesVisited)

end Query

/-! ## Well-formed trees and bottom-up passes -/

section Topology

variable {α : Type} {D : Nat}

/-- Child arrays of a flat tree: its topology. -/
def childOf (flatTree : Int → RobinMbvhNode α D) : Int → Nat → Int :=
  fun j w => (flatTree j).child w

/-- Well-formedness of the subtree below node `i`, of height less than `h`:
`i` is the index of a node and, unless that node is a leaf, every present
child slot holds the root of a well-formed subtree of height less than
`h - 1`. -/
def wellFormedAt (W : Nat) (nNodes : Int) (child : Int → Nat → Int) : Nat → Int → Bool
  | 0, _ => false
  | h + 1, i =>
    decide (0 ≤ i) && decide (i < nNodes) &&
      (decide (child i 0 < 0) ||
        (List.range W).all fun w =>
          decide (child i w = maxInt) || wellFormedAt W nNodes child h (child i w))

/-- Node `j` lies in the subtree below node `i`: it is reached from `i` through
present child slots of internal nodes. -/
inductive Reachable (W : Nat) (child : Int → Nat → Int) : Int → Int → Prop
  | self (i : Int) : Reachable W child i i
  | step {i j : Int} (w : Nat) (hint : ¬ child i 0 < 0) (hw : w < W)
      (hpresent : child i w ≠ maxInt) (hrest : Reachable W child (child i w) j) :
      Reachable W child i j

/-- Reference indices of the primitives in the subtree below node `i`, for a
subtree of height less than `h`. -/
def subtreeReferences (W : Nat) (child : Int → Nat → Int) : Nat → Int → List Int
  | 0, _ => []
  | h + 1, i =>
    if child i 0 < 0 then
      (List.range (child i 3).toNat).map fun (p : Nat) => child i 2 + (p : Int)
    else
      (List.range W).flatMap fun w =>
        if child i w ≠ maxInt then subtreeReferences W child h (child i w) else []

/-- The leaf records are laid out without overlap: two lanes written for the
`p`-th and `q`-th primitive of leaf nodes `i` and `k` coincide only when they
hold the same primitive reference. -/
def LeafLayoutInjective (WIDTH : Nat) (nNodes : Int) (flatTree : Int → RobinMbvhNode α D) :
    Prop :=
  ∀ (i k p q : Nat), (i : Int) < nNodes → (k : Int) < nNodes →
    (flatTree i).child 0 < 0 → (flatTree k).child 0 < 0 →
    (p : Int) < (flatTree i).child 3 → (q : Int) < (flatTree k).child 3 →
    -(flatTree i).child 0 - 1 + ((p / WIDTH : Nat) : Int) =
      -(flatTree k).child 0 - 1 + ((q / WIDTH : Nat) : Int) →
    p % WIDTH = q % WIDTH →
    (flatTree i).child 2 + (p : Int) = (flatTree k).child 2 + (q : Int)

/-- Fields of the primitives and of the leaf records that the first loop of
`updateRobinCoefficients` never writes: they are the same in `st` as in `T`. -/
def FirstPassFrame (T : RobinMbvh α D)
    (st : (Int → RobinPrimitive α D) × (Int → MbvhLeafNode α D)) : Prop :=
  (∀ r, (st.1 r).positions = (T.primitives r).positions ∧ (st.1 r).n = (T.primitives r).n ∧
      (st.1 r).hasAdjacentFace = (T.primitives r).hasAdjacentFace ∧
      (st.1 r).ignoreAdjacentFace = (T.primitives r).ignoreAdjacentFace ∧
      (st.1 r).pIndex = (T.primitives r).pIndex) ∧
  (∀ r, (st.2 r).positions = (T.leafNodes r).positions ∧
      (st.2 r).normals = (T.leafNodes r).normals ∧
      (st.2 r).primitiveIndex = (T.leafNodes r).primitiveIndex ∧
      (st.2 r).hasAdjacentFace = (T.leafNodes r).hasAdjacentFace ∧
      (st.2 r).ignoreAdjacentFace = (T.leafNodes r).ignoreAdjacentFace)

/-- The `p`-th primitive of leaf node `i` carries the new coefficient pair in
the state `st` of the first loop of `updateRobinCoefficients`, and so does its
lane of the leaf records. -/
def PrimitiveUpdated (T : RobinMbvh α D) (WIDTH : Nat) (minCoeffValues maxCoeffValues : Int → α)
    (i p : Nat) (st : (Int → RobinPrimitive α D) × (Int → MbvhLeafNode α D)) : Prop :=
  (st.1 ((T.flatTree i).child 2 + (p : Int))).minRobinCoeff =
      minCoeffValues (T.primitives ((T.flatTree i).child 2 + (p : Int))).pIndex ∧
    (st.1 ((T.flatTree i).child 2 + (p : Int))).maxRobinCoeff =
      maxCoeffValues (T.primitives ((T.flatTree i).child 2 + (p : Int))).pIndex ∧
    (st.2 (-(T.flatTree i).child 0 - 1 + ((p / WIDTH : Nat) : Int))).maxRobinCoeff (p % WIDTH) =
      maxCoeffValues (T.primitives ((T.flatTree i).child 2 + (p : Int))).pIndex

/-- Box of one child slot of a wide node. -/
def slotBox (node : RobinMbvhNode α D) (w : Nat) : BoundingBox α D :=
  { pMin := fun i => node.boxMin i w, pMax := fun i => node.boxMax i w }

/-- Cone of one child slot of a wide node. -/
def slotCone (node : RobinMbvhNode α D) (w : Nat) : BoundingCone α D :=
  { axis := fun i => node.coneAxis i w, halfAngle := node.coneHalfAngle w,
    radius := node.coneRadius w }

/-- Two leaf records agree in lane `w`: every packed field holds the same value
there. -/
def LaneEq (A B : MbvhLeafNode α D) (w : Nat) : Prop :=
  (∀ i j, A.positions i j w = B.positions i j w) ∧
  (∀ i j, A.normals i j w = B.normals i j w) ∧
  A.maxRobinCoeff w = B.maxRobinCoeff w ∧
  A.primitiveIndex w = B.primitiveIndex w ∧
  (∀ i, A.hasAdjacentFace i w = B.hasAdjacentFace i w) ∧
  (∀ i, A.ignoreAdjacentFace i w = B.ignoreAdjacentFace i w)

/-- Minimum of a list of floats seeded with `seed`, as accumulated by
`std::min` from an initial value. -/
def minOver [LinearOrder α] (seed : α) (xs : List α) : α := xs.foldl min seed

/-- Maximum of a list of floats seeded with `seed`, as accumulated by
`std::max` from an initial value. -/
def maxOver [LinearOrder α] (seed : α) (xs : List α) : α := xs.foldl max seed

/-- The common shape of `refitRecursive` and `updateRobinCoefficientsRecursive`:
a value of type `V` is computed bottom-up and the value of every present child
is written into its slot of the parent. -/
structure Pass (α : Type) (D : Nat) (V : Type) where
  W : Nat
  init : V
  leaf : (Nat → Int) → V
  combine : V → V → V
  write : RobinMbvhNode α D → Nat → V → RobinMbvhNode α D
  read : RobinMbvhNode α D → Nat → V

/-- Stateful run of a bottom-up pass from node `i`. -/
def Pass.run {V : Type} (S : Pass α D V) :
    Nat → (Int → RobinMbvhNode α D) → Int → Option ((Int → RobinMbvhNode α D) × V)
  | 0, _, _ => none
  | fuel + 1, t, i =>
    if (t i).child 0 < 0 then some (t, S.leaf (t i).child)
    else
      (List.range S.W).foldl
        (fun acc w =>
          match acc with
          | none => none
          | some (t, v) =>
            if (t i).child w ≠ maxInt then
              match Pass.run S fuel t ((t i).child w) with
              | none => none
              | some (t, cv) => some (Function.update t i (S.write (t i) w cv), S.combine v cv)
            else some (t, v))
        (some (t, S.init))

/-- Value that a bottom-up pass computes for node `i`, as a function of the
topology alone. -/
def Pass.value {V : Type} (S : Pass α D V) (child : Int → Nat → Int) : Nat → Int → V
  | 0, _ => S.init
  | h + 1, i =>
    if child i 0 < 0 then S.leaf (child i)
    else
      (List.range S.W).foldl
        (fun v w => if child i w ≠ maxInt then S.combine v (Pass.value S child h (child i w)) else v)
        S.init

/-- Laws relating the slot writer and the slot reader of a pass. -/
structure Pass.Lawful {V : Type} (S : Pass α D V) : Prop where
  child_write : ∀ n w v, (S.write n w v).child = n.child
  read_write : ∀ n w v, S.read (S.write n w v) w = v
  read_write_ne : ∀ n w w1 v, w1 ≠ w → S.read (S.write n w v) w1 = S.read n w1
  write_read : ∀ n w, S.write n w (S.read n w) = n

/-- Every present slot of every internal node below `i` holds the value of the
pass at the child in that slot. -/
def Pass.Good {V : Type} (S : Pass α D V) : Nat → (Int → RobinMbvhNode α D) → Int → Prop
  | 0, _, _ => True
  | h + 1, t, i =>
    (t i).child 0 < 0 ∨
      ∀ w, w < S.W → (t i).child w ≠ maxInt →
        S.read (t i) w = Pass.value S (childOf t) h ((t i).child w) ∧
          Pass.Good S h t ((t i).child w)

/-- Relation between the tree before and after a run: child arrays are kept, and
every slot either keeps its content or is a present slot of a lane below the
width that holds the value of the pass at the child in that slot. -/
def Pass.Rel {V : Type} (S : Pass α D V) (nNodes : Int) (t t1 : Int → RobinMbvhNode α D) : Prop :=
  ∀ j, (t1 j).child = (t j).child ∧
    ∀ w, S.read (t1 j) w = S.read (t j) w ∨
      ∃ k, w < S.W ∧ (t j).child w ≠ maxInt ∧
        wellFormedAt S.W nNodes (childOf t) k ((t j).child w) = true ∧
        S.read (t1 j) w = Pass.value S (childOf t) k ((t j).child w)

end Topology

section Passes

variable {α : Type} [LinearOrderedField α] {D : Nat}

/-- The pass performed by `refitRecursive`. -/
def refitPass (P : Params α) (G : GeomOps α D) (primitives : Int → RobinPrimitive α D) :
    Pass α D (BoundingBox α D × BoundingCone α D) where
  W := P.W
  init := (BoundingBox.empty P, { G.defaultCone with halfAngle := -G.pi })
  leaf := fun child =>
    let box := leafBox P G primitives (child 2) (child 3)
    (box, G.computeBoundingConeForPrimitives primitives box.centroid (child 3) (child 2))
  combine := fun v cv =>
    (v.1.expandToInclude cv.1,
      mergeBoundingCones G v.2 cv.2 v.1 cv.1 (v.1.expandToInclude cv.1))
  write := fun node w cv =>
    assignBoundingCone cv.2
      { node with
        boxMin := fun i => Function.update (node.boxMin i) w (cv.1.pMin i),
        boxMax := fun i => Function.update (node.boxMax i) w (cv.1.pMax i) } w
  read := fun node w => (slotBox node w, slotCone node w)

/-- The pass performed by `updateRobinCoefficientsRecursive`. -/
def updatePass (P : Params α) (primitives : Int → RobinPrimitive α D) :
    Pass α D (α × α) where
  W := P.W
  init := (P.maxFloat, P.minFloat)
  leaf := fun child => leafRobinCoeffs P primitives (child 2) (child 3)
  combine := fun v cv => (min v.1 cv.1, max v.2 cv.2)
  write := fun node w cv =>
    { node with
      minRobinCoeff := Function.update node.minRobinCoeff w cv.1,
      maxRobinCoeff := Function.update node.maxRobinCoeff w cv.2 }
  read := fun node w => (node.minRobinCoeff w, node.maxRobinCoeff w)

end Passes

/-! ## A concrete scene

A three-node tree over three triangles in exact rational arithmetic, used to
evaluate the definitions above. -/

section Scene

/-- Float limits of IEEE single precision and a branching factor of 4. -/
def sceneParams : Params ℚ where
  W := 4
  WIDTH := 4
  maxFloat := 340282346638528859811704183484516925440
  minFloat := -340282346638528859811704183484516925440
  epsilon := 1 / 8388608

/-- A point of space given by its three coordinates. -/
def point3 (x y z : ℚ) : Fin 3 → ℚ :=
  fun j => if j.val = 0 then x else if j.val = 1 then y else z

/-- A triangle with vertices `a`, `b`, `c`, Robin coefficients `lo ≤ hi` and
external index `idx`. -/
def sceneTriangle (a b c : Fin 3 → ℚ) (lo hi : ℚ) (idx : Int) : RobinPrimitive ℚ 3 where
  positions := fun i => if i.val = 0 then a else if i.val = 1 then b else c
  n := fun _ => point3 0 0 1
  hasAdjacentFace := fun _ => false
  ignoreAdjacentFace := fun _ => true
  minRobinCoeff := lo
  maxRobinCoeff := hi
  pIndex := idx

/-- Primitive array of the scene: two Robin triangles (coefficient 1/8) and one
Dirichlet triangle (coefficient `maxFloat`). -/
def scenePrimitives : Int → RobinPrimitive ℚ 3 :=
  fun r =>
    if r = 0 then sceneTriangle (point3 3 0 0) (point3 4 0 0) (point3 3 1 0) (1 / 8) (1 / 8) 2
    else if r = 1 then
      sceneTriangle (point3 3 1 0) (point3 4 3 0) (point3 3 3 0) (1 / 8) (1 / 8) 0
    else
      sceneTriangle (point3 0 6 0) (point3 0 8 0) (point3 0 6 8)
        sceneParams.maxFloat sceneParams.maxFloat 1

/-- Default-constructed `RobinMbvhNode`. -/
def defaultNode (P : Params ℚ) : RobinMbvhNode ℚ 3 where
  boxMin := fun _ _ => P.maxFloat
  boxMax := fun _ _ => P.minFloat
  coneAxis := fun _ _ => 0
  coneHalfAngle := fun _ => 355 / 113
  coneRadius := fun _ => 0
  minRobinCoeff := fun _ => P.maxFloat
  maxRobinCoeff := fun _ => P.minFloat
  child := fun _ => maxInt

/-- Default-constructed `MbvhLeafNode`. -/
def defaultLeaf (P : Params ℚ) : MbvhLeafNode ℚ 3 where
  positions := fun _ _ _ => P.maxFloat
  normals := fun _ _ _ => 0
  maxRobinCoeff := fun _ => P.minFloat
  primitiveIndex := fun _ => -1
  hasAdjacentFace := fun _ _ => false
  ignoreAdjacentFace := fun _ _ => true

/-- Root of the scene: slot 0 holds the leaf with the two Robin triangles,
slot 1 the leaf with the Dirichlet triangle, slots 2 and 3 are absent. -/
def sceneRoot : RobinMbvhNode ℚ 3 :=
  { defaultNode sceneParams with
    child := fun w => if w = 0 then 1 else if w = 1 then 2 else maxInt
    boxMin := fun i w =>
      if w = 0 then point3 3 0 0 i else if w = 1 then point3 0 6 0 i else sceneParams.maxFloat
    boxMax := fun i w =>
      if w = 0 then point3 4 3 0 i else if w = 1 then point3 0 8 8 i else sceneParams.minFloat
    minRobinCoeff := fun w => if w = 0 then 1 / 8 else sceneParams.maxFloat
    maxRobinCoeff := fun w =>
      if w = 0 then 1 / 8 else if w = 1 then sceneParams.maxFloat else sceneParams.minFloat }

/-- A leaf node: `child = {-leafOffset - 1, nLeafs, referenceOffset, nReferences}`. -/
def sceneLeaf (leafOffset nLeafs referenceOffset nReferences : Int) : RobinMbvhNode ℚ 3 :=
  { defaultNode sceneParams with
    child := fun w =>
      if w = 0 then -leafOffset - 1 else if w = 1 then nLeafs
      else if w = 2 then referenceOffset else if w = 3 then nReferences else maxInt }

/-- Flat tree of the scene. -/
def sceneTree : Int → RobinMbvhNode ℚ 3 :=
  fun i =>
    if i = 0 then sceneRoot else if i = 1 then sceneLeaf 0 1 0 2
    else if i = 2 then sceneLeaf 1 1 2 1 else defaultNode sceneParams

/-- The scene as a wide tree, its leaf records populated from the primitives. -/
def sceneMbvh : RobinMbvh ℚ 3 :=
  populateLeafNodes sceneParams
    { nNodes := 3
      flatTree := sceneTree
      leafNodes := fun _ => defaultLeaf sceneParams
      primitives := scenePrimitives
      primitiveTypeSupportsVectorizedQueries := true }

/-- Geometric routines of the scene: the box of a triangle is the box of its
three vertices; cones are merged by taking the wider angle and radius. -/
def sceneGeomOps : GeomOps ℚ 3 where
  boundingBox := fun prim =>
    { pMin := fun j => min (min (prim.positions 0 j) (prim.positions 1 j)) (prim.positions 2 j),
      pMax := fun j => max (max (prim.positions 0 j) (prim.positions 1 j)) (prim.positions 2 j) }
  computeBoundingConeForPrimitives := fun _ _ _ _ =>
    { axis := point3 0 0 1, halfAngle := 0, radius := 1 }
  mergeBoundingCones5 := fun a b _ _ _ =>
    { axis := b.axis, halfAngle := max a.halfAngle b.halfAngle, radius := max a.radius b.radius }
  defaultCone := { axis := point3 0 0 0, halfAngle := 355 / 113, radius := 0 }
  pi := 355 / 113

/-- Sum of the three coordinates of a vector. -/
def sum3 (f : Fin 3 → ℚ) : ℚ := f 0 + f 1 + f 2

/-- Sorting network `sortOrder4` of the underlying library: lanes by
decreasing key, so that the nearest child is pushed last. -/
def sceneSortOrder4 (t : Nat → ℚ) : List Nat :=
  let a := 0
  let b := 1
  let c := 2
  let d := 3
  let (a, b) := if t a < t b then (b, a) else (a, b)
  let (c, d) := if t c < t d then (d, c) else (c, d)
  let (a, c) := if t a < t c then (c, a) else (a, c)
  let (b, d) := if t b < t d then (d, b) else (b, d)
  let (b, c) := if t b < t c then (c, b) else (b, c)
  [a, b, c, d]

/-- Query routines of the scene in three dimensions: the box test of the
underlying library, a cone test that finds no silhouette, the rational
Radius-Bound Strategy, square roots of the squares that occur, and a primitive
evaluator returning the squared distance to the first vertex. -/
def sceneQueryOps : QueryOps ℚ 3 where
  sqrt := fun x => if x = 9 then 3 else if x = 25 then 5 else if x = 36 then 6 else 0
  cos := fun x => if x = 0 then 1 else 0
  overlapWideBox := fun bMin bMax sc r2 =>
    let d2Min : Nat → ℚ := fun w =>
      sum3 fun i => (max (max (bMin i w - sc i) (sc i - bMax i w)) 0) ^ 2
    let d2Max : Nat → ℚ := fun w => sum3 fun i => (min (bMin i w - sc i) (sc i - bMax i w)) ^ 2
    (fun w => decide (d2Min w ≤ r2), d2Min, d2Max)
  overlapWideCone := fun _ _ _ _ _ _ _ _ => (fun _ => 0, fun _ => 0, fun _ => false)
  computeMinSquaredStarRadiusBound :=
    RobinMbvhNodeBound3.computeMinSquaredStarRadiusBound sceneParams.maxFloat
  computeMaxSquaredStarRadiusBound :=
    RobinMbvhNodeBound3.computeMaxSquaredStarRadiusBound sceneParams.maxFloat
  computeSquaredStarRadiusWidePrimitive := fun positions _ _ _ _ sc _ _ _ _ =>
    fun w => sum3 fun j => (positions 0 j w - sc j) ^ 2
  primitiveComputeSquaredStarRadius := fun prim s _ _ _ =>
    { s with r2 := min s.r2 (sum3 fun j => (prim.positions 0 j - s.c j) ^ 2) }
  sortOrder4 := sceneSortOrder4

/-- Query sphere of the scene: centre at the origin, squared radius 100. -/
def sceneSphere : BoundingSphere ℚ 3 := { c := point3 0 0 0, r2 := 100 }

end Scene

/-! ## Unsupported dimensions and the factory -/

/-- Termination of the process by `exit(status)`: the text written to
`std::cerr` before the call and the exit status. -/
structure ProcessExit where
  cerr : String
  status : Int
  deriving DecidableEq, Repr

/-- The macro `EXIT_FAILURE` of `<cstdlib>`. -/
def EXIT_FAILURE : Int := 1

namespace RobinMbvhNodeBound

variable {α : Type} [LinearOrderedField α]

/-- Primary template `RobinMbvhNodeBound<DIM>::computeMinSquaredStarRadiusBound`:
the diagnostic, `exit(EXIT_FAILURE)`, and the `return 0.0f` that follows it. -/
def computeMinSquaredStarRadiusBound (DIM : Nat)
    (rMin rMax minRobinCoeff maxRobinCoeff minCosTheta maxCosTheta : Nat → α) :
    Except ProcessExit (Nat → α) := do
  let cerr := "RobinMbvhNodeBound::computeMinSquaredStarRadiusBound(): DIM: " ++ toString DIM ++
    " not supported\n"
  let _ ← (Except.error { cerr := cerr, status := EXIT_FAILURE } : Except ProcessExit Unit)
  return fun _ => 0

/-- Primary template `RobinMbvhNodeBound<DIM>::computeMaxSquaredStarRadiusBound`. -/
def computeMaxSquaredStarRadiusBound (DIM : Nat)
    (rMin rMax minRobinCoeff maxRobinCoeff minCosTheta maxCosTheta : Nat → α) :
    Except ProcessExit (Nat → α) := do
  let cerr := "RobinMbvhNodeBound::computeMaxSquaredStarRadiusBound(): DIM: " ++ toString DIM ++
    " not supported\n"
  let _ ← (Except.error { cerr := cerr, status := EXIT_FAILURE } : Except ProcessExit Unit)
  return fun _ => 0

end RobinMbvhNodeBound

section Factory

variable {α : Type} [LinearOrderedField α] {D : Nat}

/-- Selection of `RobinMbvhNodeBound<DIM>::computeMinSquaredStarRadiusBound` by the
compiler: the explicit specialisations for 2 and 3, the primary template for
every other `DIM`. -/
def nodeBoundMin (DIM : Nat) (exp : α → α) (maxFloat : α)
    (rMin rMax minRobinCoeff maxRobinCoeff minCosTheta maxCosTheta : Nat → α) :
    Except ProcessExit (Nat → α) :=
  if DIM = 2 then
    pure (RobinMbvhNodeBound2.computeMinSquaredStarRadiusBound exp rMin rMax minRobinCoeff
      maxRobinCoeff minCosTheta maxCosTheta)
  else if DIM = 3 then
    pure (RobinMbvhNodeBound3.computeMinSquaredStarRadiusBound maxFloat rMin rMax minRobinCoeff
      maxRobinCoeff minCosTheta maxCosTheta)
  else
    RobinMbvhNodeBound.computeMinSquaredStarRadiusBound DIM rMin rMax minRobinCoeff
      maxRobinCoeff minCosTheta maxCosTheta

/-- Selection of `RobinMbvhNodeBound<DIM>::computeMaxSquaredStarRadiusBound`. -/
def nodeBoundMax (DIM : Nat) (exp : α → α) (maxFloat : α)
    (rMin rMax minRobinCoeff maxRobinCoeff minCosTheta maxCosTheta : Nat → α) :
    Except ProcessExit (Nat → α) :=
  if DIM = 2 then
    pure (RobinMbvhNodeBound2.computeMaxSquaredStarRadiusBound exp rMin rMax minRobinCoeff
      maxRobinCoeff minCosTheta maxCosTheta)
  else if DIM = 3 then
    pure (RobinMbvhNodeBound3.computeMaxSquaredStarRadiusBound maxFloat rMin rMax minRobinCoeff
      maxRobinCoeff minCosTheta maxCosTheta)
  else
    RobinMbvhNodeBound.computeMaxSquaredStarRadiusBound DIM rMin rMax minRobinCoeff
      maxRobinCoeff minCosTheta maxCosTheta

/-- Steps of `createVectorizedRobinBvh` that are defined outside `mbvh.h`;
`Bvh` is the scalar hierarchy `RobinBvh`, `Sil` the type `SilhouettePrimitive`. -/
structure BuildOps (α : Type) (D : Nat) (Bvh Sil : Type) where
  /-- Constructor `RobinMbvh(primitives, silhouettes)`. -/
  construct : List (RobinPrimitive α D) → List Sil → RobinMbvh α D
  /-- Method `Mbvh::initialize` called as `mbvh->initialize<RobinBvhNode<DIM>>(robinBvh)`
  (the name is a keyword here): the tree after the call. -/
  initialise : Bvh → RobinMbvh α D → RobinMbvh α D
  /-- Method `printStats()`: the tree after the call and the text it writes. -/
  printStats : RobinMbvh α D → RobinMbvh α D × String
  /-- Text of `timeSpan.count()` for the difference of two clock readings. -/
  showSeconds : Int → String

/-- Function `createVectorizedRobinBvh`: the returned pointer (`none` for
`nullptr`) and the text written to `std::cout`; `t1` and `t2` are the two
readings of the clock. -/
def createVectorizedRobinBvh {Bvh Sil : Type} (P : Params α) (B : BuildOps α D Bvh Sil)
    (t1 t2 : Int) (robinBvh : Bvh) (primitives : List (RobinPrimitive α D))
    (silhouettes : List Sil) (printStats : Bool) : Option (RobinMbvh α D) × String :=
  if primitives.length > 0 then
    let mbvh := B.construct primitives silhouettes
    let mbvh := B.initialise robinBvh mbvh
    if printStats then
      let line := toString P.W ++ "-BVH construction time: " ++ B.showSeconds (t2 - t1) ++
        " seconds\n"
      let r := B.printStats mbvh
      (some r.1, line ++ r.2)
    else (some mbvh, "")
  else (none, "")

end Factory

/-! ## Trace of the traversal loop -/

section Trace

variable {α : Type} [LinearOrderedField α] {D : Nat}

/-- Entries popped by the first `fuel` iterations of the loop of
`computeSquaredStarRadius`, in the order of popping, each with the outcome of
the pruning test: `true` when the entry is processed, `false` when the loop
continues without processing it. -/
def popTrace (P : Params α) (E : QueryOps α D) (T : RobinMbvh α D) (sc : Fin D → α)
    (flipNormalOrientation : Bool) (silhouettePrecision : α) :
    Nat → TraversalState α D → List (TraversalStack α × Bool)
  | 0, _ => []
  | fuel + 1, st =>
    match st.subtree.getLast? with
    | none => []
    | some top =>
      (top, !decide (|top.distance| > st.s.r2)) ::
        popTrace P E T sc flipNormalOrientation silhouettePrecision fuel
          (traversalStep P E T sc flipNormalOrientation silhouettePrecision st)

end Trace

/-- A tree whose root is a leaf holding the first two primitives of the scene,
for a primitive type without vectorized queries. -/
def sceneLeafOnly : RobinMbvh ℚ 3 :=
  { sceneMbvh with
    nNodes := 1
    flatTree := fun i => if i = 0 then sceneLeaf 0 1 0 2 else defaultNode sceneParams
    primitiveTypeSupportsVectorizedQueries := false }

/-! ## Agreement of two nodes on one child slot -/

section Slots

variable {α : Type} [LinearOrderedField α] {D : Nat}

/-- Two wide nodes hold the same data in child slot `w`. -/
def SlotEq (A B : RobinMbvhNode α D) (w : Nat) : Prop :=
  (∀ i, A.boxMin i w = B.boxMin i w) ∧ (∀ i, A.boxMax i w = B.boxMax i w) ∧
  (∀ i, A.coneAxis i w = B.coneAxis i w) ∧ A.coneHalfAngle w = B.coneHalfAngle w ∧
  A.coneRadius w = B.coneRadius w ∧ A.minRobinCoeff w = B.minRobinCoeff w ∧
  A.maxRobinCoeff w = B.maxRobinCoeff w ∧ A.child w = B.child w

/-- The external packet routines of the query work lane by lane: lane `w` of
each output is determined by lane `w` of the inputs (and the query). -/
structure LaneLocal (E : QueryOps α D) : Prop where
  box : ∀ (bMin bMax bMin1 bMax1 : Fin D → Nat → α) (sc : Fin D → α) (r2 : α) (w : Nat),
    (∀ i, bMin i w = bMin1 i w) → (∀ i, bMax i w = bMax1 i w) →
    (E.overlapWideBox bMin bMax sc r2).1 w = (E.overlapWideBox bMin1 bMax1 sc r2).1 w ∧
    (E.overlapWideBox bMin bMax sc r2).2.1 w = (E.overlapWideBox bMin1 bMax1 sc r2).2.1 w ∧
    (E.overlapWideBox bMin bMax sc r2).2.2 w = (E.overlapWideBox bMin1 bMax1 sc r2).2.2 w
  cone : ∀ (axis axis1 : Fin D → Nat → α) (halfAngle halfAngle1 radius radius1 : Nat → α)
    (sc : Fin D → α) (bMin bMax bMin1 bMax1 : Fin D → Nat → α) (dist dist1 : Nat → α)
    (m m1 : Nat → Bool) (w : Nat),
    (∀ i, axis i w = axis1 i w) → halfAngle w = halfAngle1 w → radius w = radius1 w →
    (∀ i, bMin i w = bMin1 i w) → (∀ i, bMax i w = bMax1 i w) → dist w = dist1 w →
    m w = m1 w →
    (E.overlapWideCone axis halfAngle radius sc bMin bMax dist m).1 w =
      (E.overlapWideCone axis1 halfAngle1 radius1 sc bMin1 bMax1 dist1 m1).1 w ∧
    (E.overlapWideCone axis halfAngle radius sc bMin bMax dist m).2.1 w =
      (E.overlapWideCone axis1 halfAngle1 radius1 sc bMin1 bMax1 dist1 m1).2.1 w ∧
    (E.overlapWideCone axis halfAngle radius sc bMin bMax dist m).2.2 w =
      (E.overlapWideCone axis1 halfAngle1 radius1 sc bMin1 bMax1 dist1 m1).2.2 w
  minBound : ∀ (a b c d e f a1 b1 c1 d1 e1 f1 : Nat → α) (w : Nat),
    a w = a1 w → b w = b1 w → c w = c1 w → d w = d1 w → e w = e1 w → f w = f1 w →
    E.computeMinSquaredStarRadiusBound a b c d e f w =
      E.computeMinSquaredStarRadiusBound a1 b1 c1 d1 e1 f1 w
  maxBound : ∀ (a b c d e f a1 b1 c1 d1 e1 f1 : Nat → α) (w : Nat),
    a w = a1 w → b w = b1 w → c w = c1 w → d w = d1 w → e w = e1 w → f w = f1 w →
    E.computeMaxSquaredStarRadiusBound a b c d e f w =
      E.computeMaxSquaredStarRadiusBound a1 b1 c1 d1 e1 f1 w

end Slots

/-- The root of the scene with its first child turned into a Dirichlet child;
the other slots are those of `sceneRoot`. -/
def sceneRootDirichlet : RobinMbvhNode ℚ 3 :=
  { sceneRoot with
    minRobinCoeff := fun w => if w = 0 then sceneParams.maxFloat else sceneRoot.minRobinCoeff w
    maxRobinCoeff := fun w => if w = 0 then sceneParams.maxFloat else sceneRoot.maxRobinCoeff w }

/-! ## Nodes of a subtree -/

/-- Nodes of the subtree below node `i` in preorder, for a subtree of height
less than `h`; a node that is reached along two paths is listed twice, so the
list has no duplicates exactly when no node is shared. -/
def subtreeNodes (W : Nat) (child : Int → Nat → Int) : Nat → Int → List Int
  | 0, _ => []
  | h + 1, i =>
    if child i 0 < 0 then [i]
    else
      i :: (List.range W).flatMap fun w =>
        if child i w ≠ maxInt then subtreeNodes W child h (child i w) else []

/-- Query routines of the scene with a cone test that is positive for every
lane of its mask. -/
def sceneQueryOpsCone : QueryOps ℚ 3 :=
  { sceneQueryOps with overlapWideCone := fun _ _ _ _ _ _ _ m => (fun _ => 0, fun _ => 0, m) }

/-- The root of the scene with its first child turned into a Neumann child
(both coefficients 0). -/
def sceneRootNeumann : RobinMbvhNode ℚ 3 :=
  { sceneRoot with
    minRobinCoeff := fun w => if w = 0 then 0 else sceneRoot.minRobinCoeff w
    maxRobinCoeff := fun w => if w = 0 then 0 else sceneRoot.maxRobinCoeff w }

/-- Lane `w` of a leaf record holds the data of the primitive `prim`: vertex
positions, vertex normals, maximum Robin coefficient, external index and the
two adjacency flags. -/
def LaneHolds {α : Type} {D : Nat} (A : MbvhLeafNode α D) (w : Nat) (prim : RobinPrimitive α D) :
    Prop :=
  (∀ i j, A.positions i j w = prim.positions i j) ∧
  (∀ i j, A.normals i j w = prim.n i j) ∧
  A.maxRobinCoeff w = prim.maxRobinCoeff ∧
  A.primitiveIndex w = prim.pIndex ∧
  (∀ i, A.hasAdjacentFace i w = prim.hasAdjacentFace i) ∧
  (∀ i, A.ignoreAdjacentFace i w = prim.ignoreAdjacentFace i)

/-- Packet `d2` that the batch path computes for record `l` of a leaf when the
running squared radius is `r2`: the call of
`computeSquaredStarRadiusWidePrimitive` on `leafNodes[leafOffset + l]`. -/
def leafContribution {α : Type} [LinearOrderedField α] {D : Nat} (E : QueryOps α D)
    (T : RobinMbvh α D) (sc : Fin D → α) (flipNormalOrientation : Bool)
    (silhouettePrecision : α) (currentDist : α) (leafOffset : Int) (l : Nat) (r2 : α) :
    Nat → α :=
  let leafIndex : Int := leafOffset + l
  let leafNode := T.leafNodes leafIndex
  E.computeSquaredStarRadiusWidePrimitive leafNode.positions leafNode.normals
    leafNode.maxRobinCoeff leafNode.hasAdjacentFace leafNode.ignoreAdjacentFace sc r2
    flipNormalOrientation silhouettePrecision (decide (currentDist ≥ 0))

/-- The root of the scene with both Robin coefficients of its first child set
to 1, so that the 3-D strategy is non-degenerate for that child. -/
def sceneRootRobin : RobinMbvhNode ℚ 3 :=
  { sceneRoot with
    minRobinCoeff := fun w => if w = 0 then 1 else sceneRoot.minRobinCoeff w
    maxRobinCoeff := fun w => if w = 0 then 1 else sceneRoot.maxRobinCoeff w }

/-! ## Radius-Bound Strategy with the reciprocal as a parameter

The functions of `RobinMbvhNodeBound<2>` and `RobinMbvhNodeBound<3>` once more,
with `enoki::rcp` as the parameter `rcp`: nothing is assumed about its value at
zero, so the definitions cover the inputs at which a divisor vanishes. With the
field inverse for `rcp` they are the definitions of `RobinMbvhNodeBound2` and
`RobinMbvhNodeBound3`. -/

namespace RobinMbvhNodeBound2.WithRcp

variable {α : Type} [LinearOrderedField α]

/-- Lower bound `RobinMbvhNodeBound<2>::computeMinSquaredStarRadiusBound`;
`rcp` stands for `enoki::rcp` and `exp` for `enoki::exp`. -/
def computeMinSquaredStarRadiusBound (rcp exp : α → α)
    (rMin rMax minRobinCoeff maxRobinCoeff minCosTheta maxCosTheta : Nat → α) : Nat → α :=
  let rBound : Nat → α := fun w => rMin w * exp (minCosTheta w * rcp (maxRobinCoeff w * rMax w))
  fun w => rBound w * rBound w

/-- Upper bound `RobinMbvhNodeBound<2>::computeMaxSquaredStarRadiusBound`. -/
def computeMaxSquaredStarRadiusBound (rcp exp : α → α)
    (rMin rMax minRobinCoeff maxRobinCoeff minCosTheta maxCosTheta : Nat → α) : Nat → α :=
  let rBound : Nat → α := fun w => rMax w * exp (maxCosTheta w * rcp (minRobinCoeff w * rMin w))
  fun w => rBound w * rBound w

end RobinMbvhNodeBound2.WithRcp

namespace RobinMbvhNodeBound3.WithRcp

variable {α : Type} [LinearOrderedField α]

/-- Lower bound `RobinMbvhNodeBound<3>::computeMinSquaredStarRadiusBound`;
`rcp` stands for `enoki::rcp`. -/
def computeMinSquaredStarRadiusBound (rcp : α → α) (maxFloat : α)
    (rMin rMax minRobinCoeff maxRobinCoeff minCosTheta maxCosTheta : Nat → α) : Nat → α :=
  let cosThetaOverRobinCoeff : Nat → α := fun w => minCosTheta w * rcp (maxRobinCoeff w)
  let rBound : Nat → α :=
    fun w => rMin w * rcp (1 - cosThetaOverRobinCoeff w * rcp (rMax w))
  let rBound := masked rBound (fun w => decide (rMax w < cosThetaOverRobinCoeff w))
    (fun _ => maxFloat)
  fun w => rBound w * rBound w

/-- Upper bound `RobinMbvhNodeBound<3>::computeMaxSquaredStarRadiusBound`. -/
def computeMaxSquaredStarRadiusBound (rcp : α → α) (maxFloat : α)
    (rMin rMax minRobinCoeff maxRobinCoeff minCosTheta maxCosTheta : Nat → α) : Nat → α :=
  let cosThetaOverRobinCoeff : Nat → α := fun w => maxCosTheta w * rcp (minRobinCoeff w)
  let rBound : Nat → α :=
    fun w => rMax w * rcp (1 - cosThetaOverRobinCoeff w * rcp (rMin w))
  let rBound := masked rBound (fun w => decide (rMin w < cosThetaOverRobinCoeff w))
    (fun _ => maxFloat)
  fun w => rBound w * rBound w

end RobinMbvhNodeBound3.WithRcp

/-- A reciprocal that is the field inverse at non-zero arguments and takes the
value `atZero` at zero. -/
def rcpWith {α : Type} [LinearOrderedField α] (atZero : α) (x : α) : α :=
  if x = 0 then atZero else x⁻¹

/-- Primitive array of the scene after the first triangle has moved: its first
vertex is now `(2, 0, 0)` and its third vertex `(3, 1, 1)`. -/
def scenePrimitivesMoved : Int → RobinPrimitive ℚ 3 :=
  fun r =>
    if r = 0 then sceneTriangle (point3 2 0 0) (point3 4 0 0) (point3 3 1 1) (1 / 8) (1 / 8) 2
    else scenePrimitives r

/-- The scene with the moved triangle; the flat tree still holds the boxes of
the old geometry. -/
def sceneMovedMbvh : RobinMbvh ℚ 3 :=
  { sceneMbvh with primitives := scenePrimitivesMoved }

/-! ## Theorems -/

/-! ### Bottom-up passes -/

section PassLemmas

variable {α : Type} {D : Nat} {V : Type}

theorem wellFormedAt_succ_iff (W : Nat) (nNodes : Int) (child : Int → Nat → Int) (h : Nat)
    (i : Int) :
    wellFormedAt W nNodes child (h + 1) i = true ↔
      0 ≤ i ∧ i < nNodes ∧
        (child i 0 < 0 ∨
          ∀ w, w < W → child i w = maxInt ∨ wellFormedAt W nNodes child h (child i w) = true) := by
  simp [wellFormedAt, List.all_eq_true, and_assoc]

theorem wellFormedAt_mono (W : Nat) (nNodes : Int) (child : Int → Nat → Int) :
    ∀ (h : Nat) (i : Int), wellFormedAt W nNodes child h i = true →
      wellFormedAt W nNodes child (h + 1) i = true := by
  intro h
  induction h with
  | zero => intro i hi; simp [wellFormedAt] at hi
  | succ h ih =>
    intro i hi
    rw [wellFormedAt_succ_iff] at hi ⊢
    obtain ⟨h0, h1, h2⟩ := hi
    refine ⟨h0, h1, ?_⟩
    rcases h2 with h2 | h2
    · exact Or.inl h2
    · right
      intro w hw
      rcases h2 w hw with h3 | h3
      · exact Or.inl h3
      · exact Or.inr (ih _ h3)

theorem Pass.value_indep (S : Pass α D V) (nNodes : Int) (child : Int → Nat → Int) :
    ∀ (h k : Nat) (i : Int), wellFormedAt S.W nNodes child h i = true →
      wellFormedAt S.W nNodes child k i = true → S.value child h i = S.value child k i := by
  intro h
  induction h with
  | zero => intro k i hi; simp [wellFormedAt] at hi
  | succ h ih =>
    intro k i hi hk
    cases k with
    | zero => simp [wellFormedAt] at hk
    | succ k =>
      rw [wellFormedAt_succ_iff] at hi hk
      unfold Pass.value
      by_cases hleaf : child i 0 < 0
      · simp [hleaf]
      · simp only [hleaf, if_false]
        apply List.foldl_ext
        intro v w hw
        have hw' : w < S.W := List.mem_range.mp hw
        by_cases hp : child i w = maxInt
        · simp [hp]
        · have h1 := (hi.2.2.resolve_left hleaf w hw').resolve_left hp
          have h2 := (hk.2.2.resolve_left hleaf w hw').resolve_left hp
          simp only [ne_eq, hp, not_false_eq_true, if_true]
          rw [ih k _ h1 h2]

theorem childOf_eq_of_child_eq {t t1 : Int → RobinMbvhNode α D}
    (hc : ∀ j, (t1 j).child = (t j).child) : childOf t1 = childOf t := by
  funext j w
  simp [childOf, hc j]

theorem Pass.Rel.refl (S : Pass α D V) (nNodes : Int) (t : Int → RobinMbvhNode α D) :
    S.Rel nNodes t t := by
  intro j
  exact ⟨rfl, fun w => Or.inl rfl⟩

theorem Pass.Rel.childOf_eq {S : Pass α D V} {nNodes : Int} {t t1 : Int → RobinMbvhNode α D}
    (h : S.Rel nNodes t t1) : childOf t1 = childOf t :=
  childOf_eq_of_child_eq fun j => (h j).1

theorem Pass.Rel.trans {S : Pass α D V} {nNodes : Int} {t t1 t2 : Int → RobinMbvhNode α D}
    (h1 : S.Rel nNodes t t1) (h2 : S.Rel nNodes t1 t2) : S.Rel nNodes t t2 := by
  intro j
  refine ⟨(h2 j).1.trans (h1 j).1, fun w => ?_⟩
  rcases (h2 j).2 w with e2 | ⟨k, hw, hp, hk, e2⟩
  · rcases (h1 j).2 w with e1 | ⟨k, hw, hp, hk, e1⟩
    · exact Or.inl (e2.trans e1)
    · exact Or.inr ⟨k, hw, hp, hk, e2.trans e1⟩
  · right
    rw [h1.childOf_eq, (h1 j).1] at hk e2
    rw [(h1 j).1] at hp
    exact ⟨k, hw, hp, hk, e2⟩

theorem Pass.Rel.write {S : Pass α D V} (hS : S.Lawful) {nNodes : Int}
    (t : Int → RobinMbvhNode α D) (i : Int) (w k : Nat) (hw : w < S.W)
    (hp : (t i).child w ≠ maxInt)
    (hk : wellFormedAt S.W nNodes (childOf t) k ((t i).child w) = true) :
    S.Rel nNodes t
      (Function.update t i (S.write (t i) w (S.value (childOf t) k ((t i).child w)))) := by
  intro j
  by_cases hj : j = i
  · subst hj
    simp only [Function.update_same]
    refine ⟨hS.child_write _ _ _, fun w1 => ?_⟩
    by_cases hw1 : w1 = w
    · subst hw1
      exact Or.inr ⟨k, hw, hp, hk, hS.read_write _ _ _⟩
    · exact Or.inl (hS.read_write_ne _ _ _ _ hw1)
  · rw [Function.update_noteq hj]
    exact ⟨rfl, fun w1 => Or.inl rfl⟩

theorem Pass.Good.of_rel {S : Pass α D V} {nNodes : Int} :
    ∀ (h : Nat) (t t1 : Int → RobinMbvhNode α D) (i : Int),
      S.Good h t i → wellFormedAt S.W nNodes (childOf t) h i = true → S.Rel nNodes t t1 →
        S.Good h t1 i := by
  intro h
  induction h with
  | zero => intro t t1 i _ _ _; trivial
  | succ h ih =>
    intro t t1 i hg hwf hrel
    rw [wellFormedAt_succ_iff] at hwf
    unfold Pass.Good at hg ⊢
    have hc := (hrel i).1
    by_cases hleaf : (t i).child 0 < 0
    · left; rw [hc]; exact hleaf
    · right
      intro w hw hp
      rw [hc] at hp ⊢
      have hg' := (hg.resolve_left hleaf) w hw hp
      have hwfc : wellFormedAt S.W nNodes (childOf t) h ((t i).child w) = true :=
        ((hwf.2.2.resolve_left hleaf) w hw).resolve_left hp
      refine ⟨?_, ih t t1 _ hg'.2 hwfc hrel⟩
      rw [hrel.childOf_eq]
      rcases (hrel i).2 w with e | ⟨k, _, _, hk, e⟩
      · rw [e]; exact hg'.1
      · rw [e]; exact S.value_indep nNodes _ k h _ hk hwfc

theorem Pass.run_spec (S : Pass α D V) (hS : S.Lawful) (nNodes : Int) :
    ∀ (h : Nat) (t : Int → RobinMbvhNode α D) (i : Int),
      wellFormedAt S.W nNodes (childOf t) h i = true →
        ∃ t1, S.run h t i = some (t1, S.value (childOf t) h i) ∧ S.Rel nNodes t t1 ∧
          S.Good h t1 i := by
  intro h
  induction h with
  | zero => intro t i hi; simp [wellFormedAt] at hi
  | succ h ih =>
    intro t i hwf
    rw [wellFormedAt_succ_iff] at hwf
    by_cases hleaf : (t i).child 0 < 0
    · refine ⟨t, ?_, Pass.Rel.refl S nNodes t, ?_⟩
      · have e : childOf t i = (t i).child := rfl
        simp [Pass.run, Pass.value, hleaf, e]
      · unfold Pass.Good; exact Or.inl hleaf
    · have hch := hwf.2.2.resolve_left hleaf
      -- loop invariant over the processed lanes
      have loop : ∀ n, n ≤ S.W →
          ∃ tn, (List.range n).foldl
              (fun acc w =>
                match acc with
                | none => none
                | some (t, v) =>
                  if (t i).child w ≠ maxInt then
                    match Pass.run S h t ((t i).child w) with
                    | none => none
                    | some (t, cv) =>
                      some (Function.update t i (S.write (t i) w cv), S.combine v cv)
                  else some (t, v))
              (some (t, S.init)) =
            some (tn, (List.range n).foldl
              (fun v w =>
                if childOf t i w ≠ maxInt then
                  S.combine v (Pass.value S (childOf t) h (childOf t i w))
                else v) S.init) ∧
            S.Rel nNodes t tn ∧
            ∀ w, w < n → (t i).child w ≠ maxInt →
              S.read (tn i) w = Pass.value S (childOf t) h ((t i).child w) ∧
                S.Good h tn ((t i).child w) := by
        intro n
        induction n with
        | zero =>
          intro _
          exact ⟨t, by simp, Pass.Rel.refl S nNodes t, fun w hw => absurd hw (Nat.not_lt_zero w)⟩
        | succ n ihn =>
          intro hn
          obtain ⟨tn, hfold, hrel, hslots⟩ := ihn (Nat.le_of_succ_le hn)
          have hcn : (tn i).child = (t i).child := (hrel i).1
          rw [List.range_succ, List.foldl_append, List.foldl_append, hfold]
          simp only [List.foldl_cons, List.foldl_nil]
          by_cases hp : (t i).child n = maxInt
          · refine ⟨tn, ?_, hrel, ?_⟩
            · simp [hcn, hp, childOf]
            · intro w hw hpw
              rcases Nat.lt_succ_iff_lt_or_eq.mp hw with hw' | hw'
              · exact hslots w hw' hpw
              · subst hw'; exact absurd hp hpw
          · have hwfc : wellFormedAt S.W nNodes (childOf t) h ((t i).child n) = true :=
              (hch n (Nat.lt_of_succ_le hn)).resolve_left hp
            have hco : childOf tn = childOf t := hrel.childOf_eq
            have hwfc' : wellFormedAt S.W nNodes (childOf tn) h ((tn i).child n) = true := by
              rw [hco, hcn]; exact hwfc
            obtain ⟨t', hrun, hrel', hgood'⟩ := ih tn _ hwfc'
            rw [hco, hcn] at hrun
            rw [hcn] at hgood'
            have hc' : (t' i).child = (t i).child := (hrel' i).1.trans hcn
            have hco' : childOf t' = childOf t := hrel'.childOf_eq.trans hco
            have hrelw : S.Rel nNodes t' (Function.update t' i
                (S.write (t' i) n (S.value (childOf t) h ((t i).child n)))) := by
              have := Pass.Rel.write hS t' i n h (Nat.lt_of_succ_le hn) (by rw [hc']; exact hp)
                (by rw [hco', hc']; exact hwfc)
              rw [hco', hc'] at this
              exact this
            have hrel2 := hrel'.trans hrelw
            refine ⟨_, ?_, hrel.trans hrel2, ?_⟩
            · have e1 : childOf t i n = (t i).child n := rfl
              simp only [hcn, e1, ne_eq, hp, not_false_eq_true, if_true, hrun]
            · intro w hw hpw
              have hwfw : wellFormedAt S.W nNodes (childOf t) h ((t i).child w) = true :=
                (hch w (lt_of_lt_of_le hw hn)).resolve_left hpw
              rcases Nat.lt_succ_iff_lt_or_eq.mp hw with hw' | hw'
              · obtain ⟨hr, hg⟩ := hslots w hw' hpw
                refine ⟨?_, Pass.Good.of_rel h tn _ _ hg (by rw [hco]; exact hwfw) hrel2⟩
                rw [Function.update_same, hS.read_write_ne _ _ _ _ (Nat.ne_of_lt hw')]
                rcases (hrel' i).2 w with e | ⟨k, _, _, hk, e⟩
                · rw [e]; exact hr
                · rw [hco, hcn] at hk e
                  rw [e]
                  exact S.value_indep nNodes _ k h _ hk hwfw
              · subst hw'
                refine ⟨?_, Pass.Good.of_rel h t' _ _ hgood' (by rw [hco']; exact hwfw) hrelw⟩
                rw [Function.update_same, hS.read_write]
      obtain ⟨tW, hfold, hrel, hslots⟩ := loop S.W (le_refl _)
      refine ⟨tW, ?_, hrel, ?_⟩
      · have e : ∀ w, childOf t i w = (t i).child w := fun _ => rfl
        simp only [Pass.run, hleaf, if_false, Pass.value, e] at hfold ⊢
        exact hfold
      · unfold Pass.Good
        right
        intro w hw hpw
        rw [(hrel i).1] at hpw ⊢
        rw [hrel.childOf_eq]
        exact hslots w hw hpw

theorem Pass.run_frame {X : Type} (S : Pass α D V) (obs : RobinMbvhNode α D → X)
    (hobs : ∀ n w v, obs (S.write n w v) = obs n) :
    ∀ (h : Nat) (t t1 : Int → RobinMbvhNode α D) (i : Int) (v : V),
      S.run h t i = some (t1, v) → ∀ j, obs (t1 j) = obs (t j) := by
  intro h
  induction h with
  | zero => intro t t1 i v hrun; simp [Pass.run] at hrun
  | succ h ih =>
    intro t t1 i v hrun
    unfold Pass.run at hrun
    by_cases hleaf : (t i).child 0 < 0
    · simp only [hleaf, if_true, Option.some.injEq, Prod.mk.injEq] at hrun
      intro j; rw [← hrun.1]
    · simp only [hleaf, if_false] at hrun
      have loop : ∀ (l : List Nat) (acc : Option ((Int → RobinMbvhNode α D) × V)),
          (∀ ta va, acc = some (ta, va) → ∀ j, obs (ta j) = obs (t j)) →
          ∀ tb vb, l.foldl
              (fun acc w =>
                match acc with
                | none => none
                | some (t, v) =>
                  if (t i).child w ≠ maxInt then
                    match Pass.run S h t ((t i).child w) with
                    | none => none
                    | some (t, cv) =>
                      some (Function.update t i (S.write (t i) w cv), S.combine v cv)
                  else some (t, v)) acc = some (tb, vb) → ∀ j, obs (tb j) = obs (t j) := by
        intro l
        induction l with
        | nil => intro acc hacc tb vb hf; exact hacc tb vb hf
        | cons w l ihl =>
          intro acc hacc tb vb hf
          rw [List.foldl_cons] at hf
          refine ihl _ ?_ tb vb hf
          intro ta va hstep
          cases acc with
          | none => simp at hstep
          | some p =>
            obtain ⟨t0, v0⟩ := p
            have h0 := hacc t0 v0 rfl
            by_cases hp : (t0 i).child w = maxInt
            · simp only [hp, ne_eq, not_true_eq_false, if_false, Option.some.injEq,
                Prod.mk.injEq] at hstep
              rw [← hstep.1]; exact h0
            · simp only [hp, ne_eq, not_false_eq_true, if_true] at hstep
              cases hr : Pass.run S h t0 ((t0 i).child w) with
              | none => rw [hr] at hstep; simp at hstep
              | some q =>
                obtain ⟨t', cv⟩ := q
                rw [hr] at hstep
                simp only [Option.some.injEq, Prod.mk.injEq] at hstep
                have h1 := ih t0 t' _ cv hr
                intro j
                rw [← hstep.1]
                by_cases hj : j = i
                · subst hj
                  rw [Function.update_same, hobs, h1, h0]
                · rw [Function.update_noteq hj, h1, h0]
      exact loop _ _ (fun ta va e => by
        simp only [Option.some.injEq, Prod.mk.injEq] at e
        intro j; rw [← e.1]) t1 v hrun

theorem Pass.run_fixed (S : Pass α D V) (hS : S.Lawful) (nNodes : Int) :
    ∀ (h : Nat) (t : Int → RobinMbvhNode α D) (i : Int),
      wellFormedAt S.W nNodes (childOf t) h i = true → S.Good h t i →
        S.run h t i = some (t, S.value (childOf t) h i) := by
  intro h
  induction h with
  | zero => intro t i hi; simp [wellFormedAt] at hi
  | succ h ih =>
    intro t i hwf hg
    rw [wellFormedAt_succ_iff] at hwf
    unfold Pass.Good at hg
    have e : ∀ w, childOf t i w = (t i).child w := fun _ => rfl
    have e0 : childOf t i = (t i).child := rfl
    by_cases hleaf : (t i).child 0 < 0
    · simp [Pass.run, Pass.value, hleaf, e0]
    · have hch := hwf.2.2.resolve_left hleaf
      have hgs := hg.resolve_left hleaf
      have loop : ∀ n, n ≤ S.W →
          (List.range n).foldl
              (fun acc w =>
                match acc with
                | none => none
                | some (t, v) =>
                  if (t i).child w ≠ maxInt then
                    match Pass.run S h t ((t i).child w) with
                    | none => none
                    | some (t, cv) =>
                      some (Function.update t i (S.write (t i) w cv), S.combine v cv)
                  else some (t, v))
              (some (t, S.init)) =
            some (t, (List.range n).foldl
              (fun v w =>
                if (t i).child w ≠ maxInt then
                  S.combine v (Pass.value S (childOf t) h ((t i).child w))
                else v) S.init) := by
        intro n
        induction n with
        | zero => intro _; simp
        | succ n ihn =>
          intro hn
          rw [List.range_succ, List.foldl_append, List.foldl_append, ihn (Nat.le_of_succ_le hn)]
          simp only [List.foldl_cons, List.foldl_nil]
          by_cases hp : (t i).child n = maxInt
          · simp [hp]
          · have hwfc := (hch n (Nat.lt_of_succ_le hn)).resolve_left hp
            have hgn := hgs n (Nat.lt_of_succ_le hn) hp
            rw [e] at hwfc
            simp only [ne_eq, hp, not_false_eq_true, if_true, ih t _ hwfc hgn.2]
            rw [← hgn.1, hS.write_read, Function.update_eq_self]
      simp only [Pass.run, hleaf, if_false, Pass.value, e]
      exact loop S.W (le_refl _)

theorem wellFormedAt_mono_le (W : Nat) (nNodes : Int) (child : Int → Nat → Int) (i : Int)
    (h k : Nat) (hk : h ≤ k) (hwf : wellFormedAt W nNodes child h i = true) :
    wellFormedAt W nNodes child k i = true := by
  induction hk with
  | refl => exact hwf
  | step _ ih => exact wellFormedAt_mono W nNodes child _ i ih

theorem Pass.Good.reach {S : Pass α D V} {nNodes : Int} {t : Int → RobinMbvhNode α D}
    {i j : Int} (hr : Reachable S.W (childOf t) i j) :
    ∀ h, wellFormedAt S.W nNodes (childOf t) h i = true → S.Good h t i →
      ∃ k, k ≤ h ∧ wellFormedAt S.W nNodes (childOf t) k j = true ∧ S.Good k t j := by
  induction hr with
  | self i => intro h hwf hg; exact ⟨h, le_refl _, hwf, hg⟩
  | step w hint hw hp _ ihr =>
    intro h hwf hg
    cases h with
    | zero => simp [wellFormedAt] at hwf
    | succ h =>
      rw [wellFormedAt_succ_iff] at hwf
      unfold Pass.Good at hg
      have hwfc := ((hwf.2.2.resolve_left hint) w hw).resolve_left hp
      have hgc := (hg.resolve_left hint) w hw hp
      obtain ⟨k, hk, h1, h2⟩ := ihr h hwfc hgc.2
      exact ⟨k, Nat.le_succ_of_le hk, h1, h2⟩

theorem Pass.Good.slot {S : Pass α D V} {nNodes : Int} {t : Int → RobinMbvhNode α D}
    {i j : Int} (hr : Reachable S.W (childOf t) i j) {h : Nat}
    (hwf : wellFormedAt S.W nNodes (childOf t) h i = true) (hg : S.Good h t i)
    (hint : ¬ (t j).child 0 < 0) {w : Nat} (hw : w < S.W) (hp : (t j).child w ≠ maxInt) :
    ∃ k, k + 1 ≤ h ∧ wellFormedAt S.W nNodes (childOf t) (k + 1) j = true ∧
      wellFormedAt S.W nNodes (childOf t) k ((t j).child w) = true ∧
      S.Good k t ((t j).child w) ∧
      S.read (t j) w = S.value (childOf t) k ((t j).child w) := by
  obtain ⟨k, hkh, hk, hgk⟩ := hg.reach hr h hwf
  cases k with
  | zero => simp [wellFormedAt] at hk
  | succ k =>
    have hk0 := hk
    rw [wellFormedAt_succ_iff] at hk
    unfold Pass.Good at hgk
    have hwfc := ((hk.2.2.resolve_left hint) w hw).resolve_left hp
    have hgc := (hgk.resolve_left hint) w hw hp
    exact ⟨k, hkh, hk0, hwfc, hgc.2, hgc.1⟩

end PassLemmas

section Instances

variable {α : Type} [LinearOrderedField α] {D : Nat}

theorem refitPass_lawful (P : Params α) (G : GeomOps α D) (primitives : Int → RobinPrimitive α D) :
    (refitPass P G primitives).Lawful where
  child_write := by intro n w v; rfl
  read_write := by
    intro n w v
    simp [refitPass, assignBoundingCone, slotBox, slotCone]
  read_write_ne := by
    intro n w w1 v hne
    simp [refitPass, assignBoundingCone, slotBox, slotCone, Function.update_noteq hne]
  write_read := by
    intro n w
    cases n
    simp [refitPass, assignBoundingCone, slotBox, slotCone]

theorem updatePass_lawful (P : Params α) (primitives : Int → RobinPrimitive α D) :
    (updatePass P primitives).Lawful where
  child_write := by intro n w v; rfl
  read_write := by
    intro n w v
    simp [updatePass]
  read_write_ne := by
    intro n w w1 v hne
    simp [updatePass, Function.update_noteq hne]
  write_read := by
    intro n w
    cases n
    simp [updatePass]

theorem refitRecursive_eq_run (P : Params α) (G : GeomOps α D)
    (primitives : Int → RobinPrimitive α D) :
    ∀ (h : Nat) (t : Int → RobinMbvhNode α D) (i : Int),
      refitRecursive P G primitives h t i = (refitPass P G primitives).run h t i := by
  intro h
  induction h with
  | zero => intro t i; rfl
  | succ h ih =>
    intro t i
    unfold refitRecursive Pass.run
    by_cases hleaf : (t i).child 0 < 0
    · simp [hleaf, refitPass]
    · simp only [hleaf, if_false]
      have hW : (refitPass P G primitives).W = P.W := rfl
      rw [hW]
      congr 1
      funext acc w
      cases acc with
      | none => rfl
      | some p =>
        obtain ⟨t0, box, cone⟩ := p
        simp only [ih]
        by_cases hp : (t0 i).child w = maxInt
        · simp [hp]
        · simp only [ne_eq, hp, not_false_eq_true, if_true]
          cases (refitPass P G primitives).run h t0 ((t0 i).child w) with
          | none => rfl
          | some q =>
            obtain ⟨t', cb, cc⟩ := q
            rfl

theorem updateRobinCoefficientsRecursive_eq_run (P : Params α)
    (primitives : Int → RobinPrimitive α D) :
    ∀ (h : Nat) (t : Int → RobinMbvhNode α D) (i : Int),
      updateRobinCoefficientsRecursive P primitives h t i = (updatePass P primitives).run h t i := by
  intro h
  induction h with
  | zero => intro t i; rfl
  | succ h ih =>
    intro t i
    unfold updateRobinCoefficientsRecursive Pass.run
    by_cases hleaf : (t i).child 0 < 0
    · simp [hleaf, updatePass]
    · simp only [hleaf, if_false]
      have hW : (updatePass P primitives).W = P.W := rfl
      rw [hW]
      congr 1
      funext acc w
      cases acc with
      | none => rfl
      | some p =>
        obtain ⟨t0, mm⟩ := p
        simp only [ih]
        by_cases hp : (t0 i).child w = maxInt
        · simp [hp]
        · simp only [ne_eq, hp, not_false_eq_true, if_true]
          cases (updatePass P primitives).run h t0 ((t0 i).child w) with
          | none => rfl
          | some q =>
            obtain ⟨t', cmm⟩ := q
            simp [updateSlot, updatePass]

end Instances

/-! ### Radius-Bound Strategy -/

section Bounds

variable {α : Type} [LinearOrderedField α]

/-- The definitions of `RobinMbvhNodeBound2` and `RobinMbvhNodeBound3` are
those of the namespaces `WithRcp` at the field inverse. -/
theorem bound_eq_withRcp (exp : α → α) (maxFloat : α) :
    RobinMbvhNodeBound2.computeMinSquaredStarRadiusBound exp =
        RobinMbvhNodeBound2.WithRcp.computeMinSquaredStarRadiusBound rcp exp ∧
    RobinMbvhNodeBound2.computeMaxSquaredStarRadiusBound exp =
        RobinMbvhNodeBound2.WithRcp.computeMaxSquaredStarRadiusBound rcp exp ∧
    RobinMbvhNodeBound3.computeMinSquaredStarRadiusBound maxFloat =
        RobinMbvhNodeBound3.WithRcp.computeMinSquaredStarRadiusBound rcp maxFloat ∧
    RobinMbvhNodeBound3.computeMaxSquaredStarRadiusBound maxFloat =
        RobinMbvhNodeBound3.WithRcp.computeMaxSquaredStarRadiusBound rcp maxFloat :=
  ⟨rfl, rfl, rfl, rfl⟩

/-- C7: in two dimensions, in every lane and for all inputs, the lower bound
is the square of `rMin · exp(q)` where `q` is the quotient
`minCosTheta / (maxRobinCoeff · rMax)` as the code computes it,
`minCosTheta · rcp(maxRobinCoeff · rMax)`, whatever `rcp` returns; the upper
bound is the mirrored square of `rMax · exp(maxCosTheta · rcp(minRobinCoeff · rMin))`.
The value in lane `w` depends on lane `w` of the six packets only. Whenever
the divisor is not zero and `rcp` is the reciprocal there, these are the
squares of `rMin · exp(minCosTheta / (maxRobinCoeff · rMax))` and of
`rMax · exp(maxCosTheta / (minRobinCoeff · rMin))`; so are, for a non-zero
divisor, the values in exact arithmetic. -/
theorem bound2_closed_form (r exp : α → α)
    (rMin rMax minRobinCoeff maxRobinCoeff minCosTheta maxCosTheta : Nat → α) (w : Nat) :
    (RobinMbvhNodeBound2.WithRcp.computeMinSquaredStarRadiusBound r exp rMin rMax minRobinCoeff
        maxRobinCoeff minCosTheta maxCosTheta w =
      (rMin w * exp (minCosTheta w * r (maxRobinCoeff w * rMax w))) ^ 2 ∧
    RobinMbvhNodeBound2.WithRcp.computeMaxSquaredStarRadiusBound r exp rMin rMax minRobinCoeff
        maxRobinCoeff minCosTheta maxCosTheta w =
      (rMax w * exp (maxCosTheta w * r (minRobinCoeff w * rMin w))) ^ 2) ∧
    (∀ rMin1 rMax1 minRobinCoeff1 maxRobinCoeff1 minCosTheta1 maxCosTheta1 : Nat → α,
      rMin1 w = rMin w → rMax1 w = rMax w → minRobinCoeff1 w = minRobinCoeff w →
      maxRobinCoeff1 w = maxRobinCoeff w → minCosTheta1 w = minCosTheta w →
      maxCosTheta1 w = maxCosTheta w →
      RobinMbvhNodeBound2.WithRcp.computeMinSquaredStarRadiusBound r exp rMin1 rMax1
          minRobinCoeff1 maxRobinCoeff1 minCosTheta1 maxCosTheta1 w =
        RobinMbvhNodeBound2.WithRcp.computeMinSquaredStarRadiusBound r exp rMin rMax
          minRobinCoeff maxRobinCoeff minCosTheta maxCosTheta w ∧
      RobinMbvhNodeBound2.WithRcp.computeMaxSquaredStarRadiusBound r exp rMin1 rMax1
          minRobinCoeff1 maxRobinCoeff1 minCosTheta1 maxCosTheta1 w =
        RobinMbvhNodeBound2.WithRcp.computeMaxSquaredStarRadiusBound r exp rMin rMax
          minRobinCoeff maxRobinCoeff minCosTheta maxCosTheta w) ∧
    (maxRobinCoeff w * rMax w ≠ 0 →
      (r (maxRobinCoeff w * rMax w) = (maxRobinCoeff w * rMax w)⁻¹ →
        RobinMbvhNodeBound2.WithRcp.computeMinSquaredStarRadiusBound r exp rMin rMax
            minRobinCoeff maxRobinCoeff minCosTheta maxCosTheta w =
          (rMin w * exp (minCosTheta w / (maxRobinCoeff w * rMax w))) ^ 2) ∧
      RobinMbvhNodeBound2.computeMinSquaredStarRadiusBound exp rMin rMax minRobinCoeff
          maxRobinCoeff minCosTheta maxCosTheta w =
        (rMin w * exp (minCosTheta w / (maxRobinCoeff w * rMax w))) ^ 2) ∧
    (minRobinCoeff w * rMin w ≠ 0 →
      (r (minRobinCoeff w * rMin w) = (minRobinCoeff w * rMin w)⁻¹ →
        RobinMbvhNodeBound2.WithRcp.computeMaxSquaredStarRadiusBound r exp rMin rMax
            minRobinCoeff maxRobinCoeff minCosTheta maxCosTheta w =
          (rMax w * exp (maxCosTheta w / (minRobinCoeff w * rMin w))) ^ 2) ∧
      RobinMbvhNodeBound2.computeMaxSquaredStarRadiusBound exp rMin rMax minRobinCoeff
          maxRobinCoeff minCosTheta maxCosTheta w =
        (rMax w * exp (maxCosTheta w / (minRobinCoeff w * rMin w))) ^ 2) := by
  refine ⟨⟨?_, ?_⟩, ?_, ?_, ?_⟩
  · simp only [RobinMbvhNodeBound2.WithRcp.computeMinSquaredStarRadiusBound, sq]
  · simp only [RobinMbvhNodeBound2.WithRcp.computeMaxSquaredStarRadiusBound, sq]
  · intro rMin1 rMax1 minRobinCoeff1 maxRobinCoeff1 minCosTheta1 maxCosTheta1 h1 h2 h3 h4 h5 h6
    simp only [RobinMbvhNodeBound2.WithRcp.computeMinSquaredStarRadiusBound,
      RobinMbvhNodeBound2.WithRcp.computeMaxSquaredStarRadiusBound, h1, h2, h3, h4, h5, h6,
      and_self]
  · intro _
    refine ⟨fun hr => ?_, ?_⟩
    · simp only [RobinMbvhNodeBound2.WithRcp.computeMinSquaredStarRadiusBound, hr,
        div_eq_mul_inv, sq]
    · simp only [RobinMbvhNodeBound2.computeMinSquaredStarRadiusBound, rcp, div_eq_mul_inv, sq]
  · intro _
    refine ⟨fun hr => ?_, ?_⟩
    · simp only [RobinMbvhNodeBound2.WithRcp.computeMaxSquaredStarRadiusBound, hr,
        div_eq_mul_inv, sq]
    · simp only [RobinMbvhNodeBound2.computeMaxSquaredStarRadiusBound, rcp, div_eq_mul_inv, sq]

/-- Witness for C7: over the reals with the exponential function, `rMin = 1`,
`rMax = 2`, both coefficients `1`, both cosines `1`: the divisors are `2` and
`1`, and the bounds are the squares of `1 · exp(1/2)` and `2 · exp(1)`. With
`rMin = 0` the divisor of the upper bound is zero and, for a reciprocal with
`rcp(0) = 7`, the upper bound is the square of `2 · exp(1 · 7)`. -/
theorem bound2_closed_form_witness :
    ((1 : ℝ) * 2 ≠ 0 ∧
      RobinMbvhNodeBound2.computeMinSquaredStarRadiusBound Real.exp (fun _ => 1) (fun _ => 2)
          (fun _ => 1) (fun _ => 1) (fun _ => 1) (fun _ => 1) 0 =
        (1 * Real.exp (1 / (1 * 2))) ^ 2) ∧
    ((1 : ℝ) * 1 ≠ 0 ∧
      RobinMbvhNodeBound2.computeMaxSquaredStarRadiusBound Real.exp (fun _ => 1) (fun _ => 2)
          (fun _ => 1) (fun _ => 1) (fun _ => 1) (fun _ => 1) 0 =
        (2 * Real.exp (1 / (1 * 1))) ^ 2) ∧
    RobinMbvhNodeBound2.WithRcp.computeMaxSquaredStarRadiusBound (rcpWith (7 : ℝ)) Real.exp
        (fun _ => 0) (fun _ => 2) (fun _ => 1) (fun _ => 1) (fun _ => 1) (fun _ => 1) 0 =
      (2 * Real.exp (1 * rcpWith 7 (1 * 0))) ^ 2 :=
  have h := bound2_closed_form (fun x : ℝ => x⁻¹) Real.exp (fun _ => 1) (fun _ => 2)
    (fun _ => 1) (fun _ => 1) (fun _ => 1) (fun _ => 1) 0
  have h0 := bound2_closed_form (rcpWith (7 : ℝ)) Real.exp (fun _ => 0) (fun _ => 2)
    (fun _ => 1) (fun _ => 1) (fun _ => 1) (fun _ => 1) 0
  ⟨⟨by norm_num, (h.2.2.1 (by norm_num)).2⟩, ⟨by norm_num, (h.2.2.2 (by norm_num)).2⟩, h0.1.2⟩

theorem bound3_min_mask_iff (rMax maxRobinCoeff minCosTheta : α) (hr : 0 < rMax) :
    rMax < minCosTheta * rcp maxRobinCoeff ↔ 1 - minCosTheta / (maxRobinCoeff * rMax) < 0 := by
  have e : minCosTheta / (maxRobinCoeff * rMax) = minCosTheta * rcp maxRobinCoeff / rMax := by
    simp only [rcp, div_eq_mul_inv, mul_inv, mul_assoc]
  rw [e, sub_neg, lt_div_iff₀ hr, one_mul]

theorem bound3_min_regular (maxFloat : α)
    (rMin rMax minRobinCoeff maxRobinCoeff minCosTheta maxCosTheta : Nat → α) (w : Nat)
    (hr : 0 < rMax w) (hd : 0 ≤ 1 - minCosTheta w / (maxRobinCoeff w * rMax w)) :
    RobinMbvhNodeBound3.computeMinSquaredStarRadiusBound maxFloat rMin rMax minRobinCoeff
        maxRobinCoeff minCosTheta maxCosTheta w =
      (rMin w / (1 - minCosTheta w / (maxRobinCoeff w * rMax w))) ^ 2 := by
  have hmask : ¬ rMax w < minCosTheta w * rcp (maxRobinCoeff w) := by
    rw [bound3_min_mask_iff _ _ _ hr]; exact not_lt.mpr hd
  have e : minCosTheta w / (maxRobinCoeff w * rMax w) =
      minCosTheta w * rcp (maxRobinCoeff w) * rcp (rMax w) := by
    simp only [rcp, div_eq_mul_inv, mul_inv, mul_assoc]
  simp only [RobinMbvhNodeBound3.computeMinSquaredStarRadiusBound, masked, hmask, decide_False,
    Bool.false_eq_true, if_false, e, sq]
  simp only [rcp, div_eq_mul_inv]

theorem bound3_max_regular (maxFloat : α)
    (rMin rMax minRobinCoeff maxRobinCoeff minCosTheta maxCosTheta : Nat → α) (w : Nat)
    (hr : 0 < rMin w) (hd : 0 ≤ 1 - maxCosTheta w / (minRobinCoeff w * rMin w)) :
    RobinMbvhNodeBound3.computeMaxSquaredStarRadiusBound maxFloat rMin rMax minRobinCoeff
        maxRobinCoeff minCosTheta maxCosTheta w =
      (rMax w / (1 - maxCosTheta w / (minRobinCoeff w * rMin w))) ^ 2 := by
  have hmask : ¬ rMin w < maxCosTheta w * rcp (minRobinCoeff w) := by
    rw [bound3_min_mask_iff _ _ _ hr]; exact not_lt.mpr hd
  have e : maxCosTheta w / (minRobinCoeff w * rMin w) =
      maxCosTheta w * rcp (minRobinCoeff w) * rcp (rMin w) := by
    simp only [rcp, div_eq_mul_inv, mul_inv, mul_assoc]
  simp only [RobinMbvhNodeBound3.computeMaxSquaredStarRadiusBound, masked, hmask, decide_False,
    Bool.false_eq_true, if_false, e, sq]
  simp only [rcp, div_eq_mul_inv]

theorem bound3_min_sentinel (maxFloat : α)
    (rMin rMax minRobinCoeff maxRobinCoeff minCosTheta maxCosTheta : Nat → α) (w : Nat)
    (hmask : rMax w < minCosTheta w * rcp (maxRobinCoeff w)) :
    RobinMbvhNodeBound3.computeMinSquaredStarRadiusBound maxFloat rMin rMax minRobinCoeff
        maxRobinCoeff minCosTheta maxCosTheta w = maxFloat * maxFloat := by
  simp [RobinMbvhNodeBound3.computeMinSquaredStarRadiusBound, masked, hmask]

/-- C8: in three dimensions, for `rMax > 0`, `maxRobinCoeff > 0` and a positive
denominator `1 − minCosTheta / (maxRobinCoeff · rMax)`, the lower bound is the
square of `rMin` divided by that denominator; and, with the roles of the
minimum and maximum exchanged (`rMin > 0`, `minRobinCoeff > 0`), the upper bound
is the square of `rMax / (1 − maxCosTheta / (minRobinCoeff · rMin))` when that
denominator is positive. -/
theorem bound3_closed_form (maxFloat : α)
    (rMin rMax minRobinCoeff maxRobinCoeff minCosTheta maxCosTheta : Nat → α) (w : Nat) :
    (0 < rMax w → 0 < maxRobinCoeff w →
      0 < 1 - minCosTheta w / (maxRobinCoeff w * rMax w) →
      RobinMbvhNodeBound3.computeMinSquaredStarRadiusBound maxFloat rMin rMax minRobinCoeff
          maxRobinCoeff minCosTheta maxCosTheta w =
        (rMin w / (1 - minCosTheta w / (maxRobinCoeff w * rMax w))) ^ 2) ∧
    (0 < rMin w → 0 < minRobinCoeff w →
      0 < 1 - maxCosTheta w / (minRobinCoeff w * rMin w) →
      RobinMbvhNodeBound3.computeMaxSquaredStarRadiusBound maxFloat rMin rMax minRobinCoeff
          maxRobinCoeff minCosTheta maxCosTheta w =
        (rMax w / (1 - maxCosTheta w / (minRobinCoeff w * rMin w))) ^ 2) :=
  ⟨fun hr _ hd => bound3_min_regular maxFloat rMin rMax minRobinCoeff maxRobinCoeff
      minCosTheta maxCosTheta w hr (le_of_lt hd),
   fun hr _ hd => bound3_max_regular maxFloat rMin rMax minRobinCoeff maxRobinCoeff
      minCosTheta maxCosTheta w hr (le_of_lt hd)⟩

/-- Witness for C8: `rMin = 3`, `rMax = 5`, both coefficients `1`, both cosines
`1`; the denominators are `4/5` and `2/3`. -/
theorem bound3_closed_form_witness :
    ((0 : ℚ) < 5 ∧ (0 : ℚ) < 1 ∧ (0 : ℚ) < 1 - 1 / (1 * 5) ∧
      RobinMbvhNodeBound3.computeMinSquaredStarRadiusBound (1000 : ℚ) (fun _ => 3) (fun _ => 5)
          (fun _ => 1) (fun _ => 1) (fun _ => 1) (fun _ => 1) 0 = (3 / (1 - 1 / (1 * 5))) ^ 2) ∧
    ((0 : ℚ) < 3 ∧ (0 : ℚ) < 1 ∧ (0 : ℚ) < 1 - 1 / (1 * 3) ∧
      RobinMbvhNodeBound3.computeMaxSquaredStarRadiusBound (1000 : ℚ) (fun _ => 3) (fun _ => 5)
          (fun _ => 1) (fun _ => 1) (fun _ => 1) (fun _ => 1) 0 = (5 / (1 - 1 / (1 * 3))) ^ 2) :=
  ⟨⟨by norm_num, by norm_num, by norm_num,
      (bound3_closed_form (1000 : ℚ) (fun _ => 3) (fun _ => 5) (fun _ => 1) (fun _ => 1)
        (fun _ => 1) (fun _ => 1) 0).1 (by norm_num) (by norm_num) (by norm_num)⟩,
   ⟨by norm_num, by norm_num, by norm_num,
      (bound3_closed_form (1000 : ℚ) (fun _ => 3) (fun _ => 5) (fun _ => 1) (fun _ => 1)
        (fun _ => 1) (fun _ => 1) 0).2 (by norm_num) (by norm_num) (by norm_num)⟩⟩

/-- The upper bound is the sentinel whenever the mask of the masked
assignment is set, for every reciprocal. -/
theorem bound3_max_sentinel_withRcp (r : α → α) (maxFloat : α)
    (rMin rMax minRobinCoeff maxRobinCoeff minCosTheta maxCosTheta : Nat → α) (w : Nat)
    (hmask : rMin w < maxCosTheta w * r (minRobinCoeff w)) :
    RobinMbvhNodeBound3.WithRcp.computeMaxSquaredStarRadiusBound r maxFloat rMin rMax
        minRobinCoeff maxRobinCoeff minCosTheta maxCosTheta w = maxFloat * maxFloat := by
  simp [RobinMbvhNodeBound3.WithRcp.computeMaxSquaredStarRadiusBound, masked, hmask]

end Bounds

/-! ### Monotone shrinking of the query radius -/

section Monotone

variable {α : Type} [LinearOrderedField α] {D : Nat}

theorem foldl_le_of_step_le {β γ : Type} (m : β → α) (f : β → γ → β)
    (hf : ∀ b c, m (f b c) ≤ m b) : ∀ (l : List γ) (b : β), m (l.foldl f b) ≤ m b := by
  intro l
  induction l with
  | nil => intro b; exact le_refl _
  | cons c l ih => intro b; exact le_trans (ih (f b c)) (hf b c)

theorem foldLanes_le (r2 : α) (d2 : Nat → α) (W : Int) : foldLanes r2 d2 W ≤ r2 :=
  foldl_le_of_step_le (fun r => r) (fun r w => min r (d2 w)) (fun _ _ => min_le_left _ _) _ r2

theorem leafRecordStep_le (P : Params α) (E : QueryOps α D) (T : RobinMbvh α D) (sc : Fin D → α)
    (flip : Bool) (prec currentDist : α) (leafOffset nReferences : Int) (st : α × Int) (l : Nat) :
    (leafRecordStep P E T sc flip prec currentDist leafOffset nReferences st l).1 ≤ st.1 :=
  foldLanes_le _ _ _

theorem enqueueLane_tMaxMin_le (child : Nat → Int) (tMin tMax : Nat → α)
    (hasSilhouettes mask : Nat → Bool) (st : EnqueueState α) (w : Nat) :
    (enqueueLane child tMin tMax hasSilhouettes mask st w).tMaxMin ≤ st.tMaxMin := by
  unfold enqueueLane
  by_cases hm : mask w = true
  · by_cases hlt : tMin w < st.minDist
    · simp only [hm, hlt, if_true]; exact min_le_left _ _
    · simp only [hm, hlt, if_true, if_false]; exact min_le_left _ _
  · simp only [hm, if_false, Bool.false_eq_true]; exact le_refl _

theorem enqueueNodes_tMaxMin_le (WIDTH : Nat) (child : Nat → Int) (tMin tMax : Nat → α)
    (hasSilhouettes mask : Nat → Bool) (minDist tMaxMin : α) (subtree : List (TraversalStack α)) :
    (enqueueNodes WIDTH child tMin tMax hasSilhouettes mask minDist tMaxMin subtree).2 ≤
      tMaxMin := by
  have h := foldl_le_of_step_le (fun st : EnqueueState α => st.tMaxMin)
    (enqueueLane child tMin tMax hasSilhouettes mask)
    (enqueueLane_tMaxMin_le child tMin tMax hasSilhouettes mask) (List.range WIDTH)
    { subtree := subtree, tMaxMin := tMaxMin, minDist := minDist, closestIndex := -1 }
  unfold enqueueNodes
  simp only
  split <;> exact h

theorem enqueueLane4_tMaxMin_le (child : Nat → Int) (tMin tMax : Nat → α)
    (hasSilhouettes mask : Nat → Bool) (st : List (TraversalStack α) × α) (w : Nat) :
    (enqueueLane4 child tMin tMax hasSilhouettes mask st w).2 ≤ st.2 := by
  unfold enqueueLane4
  by_cases hm : mask w = true
  · simp only [hm, if_true]; exact min_le_left _ _
  · simp only [hm, if_false, Bool.false_eq_true]; exact le_refl _

theorem enqueueNodes4_tMaxMin_le (E : QueryOps α D) (child : Nat → Int) (tMin tMax : Nat → α)
    (hasSilhouettes mask : Nat → Bool) (minDist tMaxMin : α) (subtree : List (TraversalStack α)) :
    (enqueueNodes4 E child tMin tMax hasSilhouettes mask minDist tMaxMin subtree).2 ≤ tMaxMin :=
  foldl_le_of_step_le (fun st : List (TraversalStack α) × α => st.2)
    (enqueueLane4 child tMin tMax hasSilhouettes mask)
    (enqueueLane4_tMaxMin_le child tMin tMax hasSilhouettes mask) _ (subtree, tMaxMin)

theorem enqueueNodesW_tMaxMin_le (P : Params α) (E : QueryOps α D) (child : Nat → Int)
    (tMin tMax : Nat → α) (hasSilhouettes mask : Nat → Bool) (minDist tMaxMin : α)
    (subtree : List (TraversalStack α)) :
    (enqueueNodesW P E child tMin tMax hasSilhouettes mask minDist tMaxMin subtree).2 ≤
      tMaxMin := by
  unfold enqueueNodesW
  split
  · exact enqueueNodes4_tMaxMin_le E child tMin tMax hasSilhouettes mask minDist tMaxMin subtree
  · exact enqueueNodes_tMaxMin_le P.W child tMin tMax hasSilhouettes mask minDist tMaxMin subtree

theorem traversalStep_r2_le (P : Params α) (E : QueryOps α D) (T : RobinMbvh α D)
    (sc : Fin D → α) (flip : Bool) (prec : α)
    (hbatch : T.primitiveTypeSupportsVectorizedQueries = true) (st : TraversalState α D) :
    (traversalStep P E T sc flip prec st).s.r2 ≤ st.s.r2 := by
  unfold traversalStep
  cases st.subtree.getLast? with
  | none => exact le_refl _
  | some top =>
    simp only
    by_cases hprune : |top.distance| > st.s.r2
    · simp only [hprune, if_true]; exact le_refl _
    · simp only [hprune, if_false]
      by_cases hleaf : isLeafNode (T.flatTree top.node) = true
      · simp only [hleaf, hbatch, if_true]
        exact foldl_le_of_step_le (fun r : α × Int => r.1) _
          (fun r l => leafRecordStep_le P E T sc flip prec top.distance _ _ r l) _ (st.s.r2, 0)
      · simp only [hleaf, if_false, Bool.false_eq_true]
        split
        · exact enqueueNodesW_tMaxMin_le P E _ _ _ _ _ _ _ _
        · exact le_refl _

theorem traversalLoop_r2_le (P : Params α) (E : QueryOps α D) (T : RobinMbvh α D)
    (sc : Fin D → α) (flip : Bool) (prec : α)
    (hbatch : T.primitiveTypeSupportsVectorizedQueries = true) :
    ∀ (fuel : Nat) (st st1 : TraversalState α D),
      traversalLoop P E T sc flip prec fuel st = some st1 → st1.s.r2 ≤ st.s.r2 := by
  intro fuel
  induction fuel with
  | zero =>
    intro st st1 h
    unfold traversalLoop at h
    split at h
    · simp only [Option.some.injEq] at h; rw [← h]
    · simp at h
  | succ fuel ih =>
    intro st st1 h
    unfold traversalLoop at h
    split at h
    · simp only [Option.some.injEq] at h; rw [← h]
    · exact le_trans (ih _ _ h) (traversalStep_r2_le P E T sc flip prec hbatch st)

/-- C1: on the batch path the squared radius of the query sphere does not
increase across any iteration of the traversal loop, and the squared radius
after `computeSquaredStarRadius` returns is at most the one before the call. -/
theorem computeSquaredStarRadius_monotone (P : Params α) (E : QueryOps α D) (T : RobinMbvh α D)
    (fuel : Nat) (s : BoundingSphere α D) (flip : Bool) (prec : α)
    (result : BoundingSphere α D × Int)
    (hbatch : T.primitiveTypeSupportsVectorizedQueries = true)
    (hrun : computeSquaredStarRadius P E T fuel s flip prec = some result) :
    result.1.r2 ≤ s.r2 ∧
      ∀ (sc : Fin D → α) (st : TraversalState α D),
        (traversalStep P E T sc flip prec st).s.r2 ≤ st.s.r2 := by
  refine ⟨?_, fun sc st => traversalStep_r2_le P E T sc flip prec hbatch st⟩
  unfold computeSquaredStarRadius at hrun
  simp only at hrun
  split at hrun
  · simp at hrun
  · rename_i st1 hloop
    simp only [Option.some.injEq] at hrun
    rw [← hrun]
    exact traversalLoop_r2_le P E T s.c flip prec hbatch fuel _ st1 hloop

set_option maxRecDepth 100000 in
/-- Witness for C1: the query of the scene returns, with squared radius 36
after the call and 100 before it. -/
theorem computeSquaredStarRadius_monotone_witness :
    sceneMbvh.primitiveTypeSupportsVectorizedQueries = true ∧
      ∃ result, computeSquaredStarRadius sceneParams sceneQueryOps sceneMbvh 10 sceneSphere
          false 0 = some result ∧ result.1.r2 = 36 ∧ result.2 = 2 ∧
        result.1.r2 ≤ sceneSphere.r2 := by
  have hsome : (computeSquaredStarRadius sceneParams sceneQueryOps sceneMbvh 10 sceneSphere
      false 0).map (fun r => (r.1.r2, r.2)) = some (36, 2) := by decide!
  cases hrun : computeSquaredStarRadius sceneParams sceneQueryOps sceneMbvh 10 sceneSphere
      false 0 with
  | none => rw [hrun] at hsome; simp at hsome
  | some result =>
    rw [hrun] at hsome
    simp only [Option.map_some', Option.some.injEq, Prod.mk.injEq] at hsome
    exact ⟨rfl, result, rfl, hsome.1, hsome.2,
      (computeSquaredStarRadius_monotone sceneParams sceneQueryOps sceneMbvh 10 sceneSphere
        false 0 result rfl hrun).1⟩

end Monotone

/-! ### Degenerate Robin bound in the traversal -/

section Degenerate

variable {α : Type} [LinearOrderedField α] {D : Nat}

theorem anyLane_of_lane (W : Nat) (m : Nat → Bool) (w : Nat) (hw : w < W) (hm : m w = true) :
    anyLane W m = true := by
  unfold anyLane
  rw [List.any_eq_true]
  exact ⟨w, List.mem_range.mpr hw, hm⟩

theorem mem_swapEntries {β : Type} (l : List β) (i j : Nat) (x : β) (hx : x ∈ l) :
    x ∈ swapEntries l i j := by
  unfold swapEntries
  split
  · rename_i a b hi hj
    obtain ⟨hil, hia⟩ := List.getElem?_eq_some.mp hi
    obtain ⟨hjl, hjb⟩ := List.getElem?_eq_some.mp hj
    obtain ⟨k, hk⟩ := List.mem_iff_getElem?.mp hx
    rw [List.mem_iff_getElem?]
    by_cases hki : k = i
    · refine ⟨j, ?_⟩
      rw [List.getElem?_set_self (by rw [List.length_set]; exact hjl)]
      rw [hki, hi] at hk
      exact hk
    · by_cases hkj : k = j
      · refine ⟨i, ?_⟩
        have hij : j ≠ i := fun e => hki (hkj.trans e)
        rw [List.getElem?_set_ne hij, List.getElem?_set_self hil]
        rw [hkj, hj] at hk
        exact hk
      · refine ⟨k, ?_⟩
        rw [List.getElem?_set_ne (Ne.symm hkj), List.getElem?_set_ne (Ne.symm hki)]
        exact hk
  · exact hx

theorem enqueueLane_subtree_mono (child : Nat → Int) (tMin tMax : Nat → α)
    (hasSilhouettes mask : Nat → Bool) (x : TraversalStack α) :
    ∀ (l : List Nat) (st : EnqueueState α), x ∈ st.subtree →
      x ∈ (l.foldl (enqueueLane child tMin tMax hasSilhouettes mask) st).subtree := by
  intro l
  induction l with
  | nil => intro st hx; exact hx
  | cons w l ih =>
    intro st hx
    rw [List.foldl_cons]
    apply ih
    unfold enqueueLane
    by_cases hm : mask w = true
    · by_cases hlt : tMin w < st.minDist
      · simp only [hm, hlt, if_true]; exact List.mem_append_left _ hx
      · simp only [hm, hlt, if_true, if_false]; exact List.mem_append_left _ hx
    · simp only [hm, if_false, Bool.false_eq_true]; exact hx

theorem enqueueLane_pushes (child : Nat → Int) (tMin tMax : Nat → α)
    (hasSilhouettes mask : Nat → Bool) (w : Nat) (hm : mask w = true) :
    ∀ (l : List Nat) (st : EnqueueState α), w ∈ l →
      stackEntry child tMin hasSilhouettes w ∈
        (l.foldl (enqueueLane child tMin tMax hasSilhouettes mask) st).subtree := by
  intro l
  induction l with
  | nil => intro st hw; simp at hw
  | cons v l ih =>
    intro st hw
    rw [List.foldl_cons]
    rcases List.mem_cons.mp hw with e | hw'
    · subst e
      apply enqueueLane_subtree_mono
      unfold enqueueLane
      by_cases hlt : tMin w < st.minDist
      · simp only [hm, hlt, if_true]; simp
      · simp only [hm, hlt, if_true, if_false]; simp
    · exact ih _ hw'

theorem enqueueNodes_pushes (WIDTH : Nat) (child : Nat → Int) (tMin tMax : Nat → α)
    (hasSilhouettes mask : Nat → Bool) (minDist tMaxMin : α) (subtree : List (TraversalStack α))
    (w : Nat) (hw : w < WIDTH) (hm : mask w = true) :
    stackEntry child tMin hasSilhouettes w ∈
      (enqueueNodes WIDTH child tMin tMax hasSilhouettes mask minDist tMaxMin subtree).1 := by
  have h := enqueueLane_pushes child tMin tMax hasSilhouettes mask w hm (List.range WIDTH)
    { subtree := subtree, tMaxMin := tMaxMin, minDist := minDist, closestIndex := -1 }
    (List.mem_range.mpr hw)
  unfold enqueueNodes
  simp only
  split
  · exact mem_swapEntries _ _ _ _ h
  · exact h

theorem enqueueLane4_subtree_mono (child : Nat → Int) (tMin tMax : Nat → α)
    (hasSilhouettes mask : Nat → Bool) (x : TraversalStack α) :
    ∀ (l : List Nat) (st : List (TraversalStack α) × α), x ∈ st.1 →
      x ∈ (l.foldl (enqueueLane4 child tMin tMax hasSilhouettes mask) st).1 := by
  intro l
  induction l with
  | nil => intro st hx; exact hx
  | cons w l ih =>
    intro st hx
    rw [List.foldl_cons]
    apply ih
    unfold enqueueLane4
    by_cases hm : mask w = true
    · simp only [hm, if_true]; exact List.mem_append_left _ hx
    · simp only [hm, if_false, Bool.false_eq_true]; exact hx

theorem enqueueLane4_pushes (child : Nat → Int) (tMin tMax : Nat → α)
    (hasSilhouettes mask : Nat → Bool) (w : Nat) (hm : mask w = true) :
    ∀ (l : List Nat) (st : List (TraversalStack α) × α), w ∈ l →
      stackEntry child tMin hasSilhouettes w ∈
        (l.foldl (enqueueLane4 child tMin tMax hasSilhouettes mask) st).1 := by
  intro l
  induction l with
  | nil => intro st hw; simp at hw
  | cons v l ih =>
    intro st hw
    rw [List.foldl_cons]
    rcases List.mem_cons.mp hw with e | hw'
    · subst e
      apply enqueueLane4_subtree_mono
      unfold enqueueLane4
      simp only [hm, if_true]; simp
    · exact ih _ hw'

theorem enqueueNodesW_pushes (P : Params α) (E : QueryOps α D) (child : Nat → Int)
    (tMin tMax : Nat → α) (hasSilhouettes mask : Nat → Bool) (minDist tMaxMin : α)
    (subtree : List (TraversalStack α)) (w : Nat) (hw : w < P.W) (hm : mask w = true)
    (hsort : P.W = 4 → w ∈ E.sortOrder4 tMin) :
    stackEntry child tMin hasSilhouettes w ∈
      (enqueueNodesW P E child tMin tMax hasSilhouettes mask minDist tMaxMin subtree).1 := by
  unfold enqueueNodesW
  split
  · rename_i h4
    exact enqueueLane4_pushes child tMin tMax hasSilhouettes mask w hm _ _ (hsort h4)
  · exact enqueueNodes_pushes P.W child tMin tMax hasSilhouettes mask minDist tMaxMin subtree
      w hw hm

theorem traversalStep_discard (P : Params α) (E : QueryOps α D) (T : RobinMbvh α D)
    (sc : Fin D → α) (flip : Bool) (prec : α) (st : TraversalState α D)
    (top : TraversalStack α) (htop : st.subtree.getLast? = some top)
    (hfar : |top.distance| > st.s.r2) :
    traversalStep P E T sc flip prec st = { st with subtree := st.subtree.dropLast } := by
  unfold traversalStep
  rw [htop]
  simp only [hfar, if_true]

/-- Lanes of `visitNodes` at a true-Robin child that overlaps the sphere and is
not occlusion-relevant: the child stays in the mask and its lower bound is the
one computed by the Radius-Bound Strategy. -/
theorem visitNodes_robin_not_cone (P : Params α) (E : QueryOps α D)
    (flatTree : Int → RobinMbvhNode α D) (sc : Fin D → α) (r2 : α) (nodeIndex : Int) (w : Nat)
    (ob : (Nat → Bool) × (Nat → α) × (Nat → α))
    (oc : (Nat → α) × (Nat → α) × (Nat → Bool))
    (hob : ob = E.overlapWideBox (flatTree nodeIndex).boxMin (flatTree nodeIndex).boxMax sc r2)
    (hoc : oc = E.overlapWideCone (flatTree nodeIndex).coneAxis
      (flatTree nodeIndex).coneHalfAngle (flatTree nodeIndex).coneRadius sc
      (flatTree nodeIndex).boxMin (flatTree nodeIndex).boxMax ob.2.1
      (fun w => (decide ((flatTree nodeIndex).child w ≠ maxInt) && ob.1 w) &&
        decide ((flatTree nodeIndex).minRobinCoeff w < P.maxFloat - P.epsilon)))
    (hw : w < P.W)
    (hpresent : (flatTree nodeIndex).child w ≠ maxInt)
    (hbox : ob.1 w = true)
    (hnd : (flatTree nodeIndex).minRobinCoeff w < P.maxFloat - P.epsilon)
    (hnn : (flatTree nodeIndex).maxRobinCoeff w > P.epsilon)
    (hns : oc.2.2 w = false) :
    (visitNodes P E flatTree sc r2 nodeIndex).1 w = true ∧
    (visitNodes P E flatTree sc r2 nodeIndex).2.2.2 w = false ∧
    (visitNodes P E flatTree sc r2 nodeIndex).2.1 w =
      E.computeMinSquaredStarRadiusBound
        (fun w => E.sqrt (ob.2.1 w))
        (fun w => E.sqrt (masked ob.2.2 oc.2.2 (fun _ => P.maxFloat) w))
        (flatTree nodeIndex).minRobinCoeff (flatTree nodeIndex).maxRobinCoeff
        (fun w => min |E.cos (oc.1 w)| |E.cos (oc.2.1 w)|) (fun _ => 1) w := by
  have hlane : ((decide ((flatTree nodeIndex).child w ≠ maxInt) && ob.1 w) &&
      decide ((flatTree nodeIndex).minRobinCoeff w < P.maxFloat - P.epsilon)) = true := by
    simp [hpresent, hbox, hnd]
  have hnd' : anyLane P.W (fun w =>
      (decide ((flatTree nodeIndex).child w ≠ maxInt) && ob.1 w) &&
        decide ((flatTree nodeIndex).minRobinCoeff w < P.maxFloat - P.epsilon)) = true :=
    anyLane_of_lane _ _ w hw hlane
  have hrb : anyLane P.W (fun w =>
      ((decide ((flatTree nodeIndex).child w ≠ maxInt) && ob.1 w) &&
        decide ((flatTree nodeIndex).minRobinCoeff w < P.maxFloat - P.epsilon)) &&
        decide ((flatTree nodeIndex).maxRobinCoeff w > P.epsilon)) = true :=
    anyLane_of_lane _ _ w hw (by rw [hlane]; simp [hnn])
  unfold visitNodes
  simp only [← hob]
  simp only [← hoc]
  simp only [hnd', hrb, if_true]
  refine ⟨?_, hns, ?_⟩
  · split
    · simp [masked, hpresent, hbox, hnn]
    · simp [hpresent, hbox]
  · simp only [masked, hlane, hns, hnn, decide_True, Bool.not_false, Bool.and_self, if_true]

end Degenerate

section DegenerateClaim

variable {α : Type} [LinearOrderedField α] {D : Nat}

set_option maxRecDepth 100000 in
/-- C10, as stated, fails on the scene: slot 0 of the root is a true-Robin child
(coefficients 1/8) that overlaps the sphere, is not occlusion-relevant and has
the degenerate lower bound (`rMax = 5 < 8 = minCosTheta / maxRobinCoeff`). It
stays in the mask with lower bound `maxFloat²` and is pushed with distance
`−maxFloat²`; when it is popped with squared radius `36 ≤ maxFloat` the test
`|distance| > s.r2` discards it: the stack becomes empty, the radius and the
visit count are unchanged, and its leaf is never visited. -/
theorem degenerate_robin_child_discarded :
    (sceneRoot.minRobinCoeff 0 < sceneParams.maxFloat - sceneParams.epsilon ∧
      sceneRoot.maxRobinCoeff 0 > sceneParams.epsilon ∧
      (5 : ℚ) < 1 / sceneRoot.maxRobinCoeff 0) ∧
    ((visitNodes sceneParams sceneQueryOps sceneMbvh.flatTree sceneSphere.c 100 0).1 0 = true ∧
      (visitNodes sceneParams sceneQueryOps sceneMbvh.flatTree sceneSphere.c 100 0).2.1 0 =
        sceneParams.maxFloat * sceneParams.maxFloat ∧
      (visitNodes sceneParams sceneQueryOps sceneMbvh.flatTree sceneSphere.c 100 0).2.2.2 0 =
        false) ∧
    ((traversalStep sceneParams sceneQueryOps sceneMbvh sceneSphere.c false 0
        { subtree := [{ node := 0, distance := 0 }], s := sceneSphere,
          nodesVisited := 0 }).subtree.map (fun e => (e.node, e.distance)) =
      [(1, -(sceneParams.maxFloat * sceneParams.maxFloat)), (2, -36)]) ∧
    ((traversalStep sceneParams sceneQueryOps sceneMbvh sceneSphere.c false 0
        (traversalStep sceneParams sceneQueryOps sceneMbvh sceneSphere.c false 0
          { subtree := [{ node := 0, distance := 0 }], s := sceneSphere,
            nodesVisited := 0 })).subtree.map (fun e => (e.node, e.distance)) =
      [(1, -(sceneParams.maxFloat * sceneParams.maxFloat))]) ∧
    ((traversalStep sceneParams sceneQueryOps sceneMbvh sceneSphere.c false 0
        { subtree := [{ node := 1,
                        distance := -(sceneParams.maxFloat * sceneParams.maxFloat) }],
          s := { sceneSphere with r2 := 36 }, nodesVisited := 2 }).subtree.length = 0 ∧
      (traversalStep sceneParams sceneQueryOps sceneMbvh sceneSphere.c false 0
        { subtree := [{ node := 1,
                        distance := -(sceneParams.maxFloat * sceneParams.maxFloat) }],
          s := { sceneSphere with r2 := 36 }, nodesVisited := 2 }).s.r2 = 36 ∧
      (traversalStep sceneParams sceneQueryOps sceneMbvh sceneSphere.c false 0
        { subtree := [{ node := 1,
                        distance := -(sceneParams.maxFloat * sceneParams.maxFloat) }],
          s := { sceneSphere with r2 := 36 }, nodesVisited := 2 }).nodesVisited = 2 ∧
      (36 : ℚ) ≤ sceneParams.maxFloat) ∧
    (computeSquaredStarRadius sceneParams sceneQueryOps sceneMbvh 10 sceneSphere false 0).map
        (fun r => (r.1.r2, r.2)) = some (36, 2) := by
  refine ⟨by decide!, by decide!, by decide!, by decide!, by decide!, by decide!⟩

/-- C10, amended: in three dimensions, a true-Robin child without occlusion
relevance whose lower bound takes the degenerate sentinel
(`rMax < minCosTheta / maxRobinCoeff`) stays in the mask returned by
`visitNodes`, with lower bound `maxFloat²`, and is pushed by `enqueueNodes`
with signed distance `−maxFloat²`; when that entry is popped, the test
`|distance| > s.r2` discards it for every current squared radius up to
`maxFloat` (given `maxFloat > 1`): the radius and the visit count are unchanged
and nothing of its subtree is visited through this entry. -/
theorem degenerate_robin_child_pruned (P : Params α) (E : QueryOps α D) (T : RobinMbvh α D)
    (sc : Fin D → α) (r2 : α) (nodeIndex : Int) (w : Nat)
    (ob : (Nat → Bool) × (Nat → α) × (Nat → α))
    (oc : (Nat → α) × (Nat → α) × (Nat → Bool))
    (h3 : E.computeMinSquaredStarRadiusBound =
      RobinMbvhNodeBound3.computeMinSquaredStarRadiusBound P.maxFloat)
    (hM : 1 < P.maxFloat)
    (hob : ob = E.overlapWideBox (T.flatTree nodeIndex).boxMin (T.flatTree nodeIndex).boxMax sc r2)
    (hoc : oc = E.overlapWideCone (T.flatTree nodeIndex).coneAxis
      (T.flatTree nodeIndex).coneHalfAngle (T.flatTree nodeIndex).coneRadius sc
      (T.flatTree nodeIndex).boxMin (T.flatTree nodeIndex).boxMax ob.2.1
      (fun w => (decide ((T.flatTree nodeIndex).child w ≠ maxInt) && ob.1 w) &&
        decide ((T.flatTree nodeIndex).minRobinCoeff w < P.maxFloat - P.epsilon)))
    (hw : w < P.W)
    (hpresent : (T.flatTree nodeIndex).child w ≠ maxInt)
    (hbox : ob.1 w = true)
    (hnd : (T.flatTree nodeIndex).minRobinCoeff w < P.maxFloat - P.epsilon)
    (hnn : (T.flatTree nodeIndex).maxRobinCoeff w > P.epsilon)
    (hns : oc.2.2 w = false)
    (hdeg : E.sqrt (ob.2.2 w) <
      min |E.cos (oc.1 w)| |E.cos (oc.2.1 w)| / (T.flatTree nodeIndex).maxRobinCoeff w) :
    (visitNodes P E T.flatTree sc r2 nodeIndex).1 w = true ∧
    (visitNodes P E T.flatTree sc r2 nodeIndex).2.1 w = P.maxFloat * P.maxFloat ∧
    (visitNodes P E T.flatTree sc r2 nodeIndex).2.2.2 w = false ∧
    stackEntry (T.flatTree nodeIndex).child (visitNodes P E T.flatTree sc r2 nodeIndex).2.1
        (visitNodes P E T.flatTree sc r2 nodeIndex).2.2.2 w =
      { node := (T.flatTree nodeIndex).child w, distance := -(P.maxFloat * P.maxFloat) } ∧
    (∀ (minDist tMaxMin : α) (subtree : List (TraversalStack α)),
      (P.W = 4 → w ∈ E.sortOrder4 (visitNodes P E T.flatTree sc r2 nodeIndex).2.1) →
      { node := (T.flatTree nodeIndex).child w, distance := -(P.maxFloat * P.maxFloat) } ∈
        (enqueueNodesW P E (T.flatTree nodeIndex).child
          (visitNodes P E T.flatTree sc r2 nodeIndex).2.1
          (visitNodes P E T.flatTree sc r2 nodeIndex).2.2.1
          (visitNodes P E T.flatTree sc r2 nodeIndex).2.2.2
          (visitNodes P E T.flatTree sc r2 nodeIndex).1 minDist tMaxMin subtree).1) ∧
    (∀ (flip : Bool) (prec : α) (st : TraversalState α D),
      st.subtree.getLast? =
          some { node := (T.flatTree nodeIndex).child w,
                 distance := -(P.maxFloat * P.maxFloat) } →
        st.s.r2 ≤ P.maxFloat →
        traversalStep P E T sc flip prec st = { st with subtree := st.subtree.dropLast }) := by
  obtain ⟨hmask, hsil, hmin⟩ := visitNodes_robin_not_cone P E T.flatTree sc r2 nodeIndex w ob oc
    hob hoc hw hpresent hbox hnd hnn hns
  have hval : (visitNodes P E T.flatTree sc r2 nodeIndex).2.1 w = P.maxFloat * P.maxFloat := by
    rw [hmin, h3]
    apply bound3_min_sentinel
    simp only [masked, hns, Bool.false_eq_true, if_false, rcp, ← div_eq_mul_inv]
    exact hdeg
  have hentry : stackEntry (T.flatTree nodeIndex).child
      (visitNodes P E T.flatTree sc r2 nodeIndex).2.1
      (visitNodes P E T.flatTree sc r2 nodeIndex).2.2.2 w =
      { node := (T.flatTree nodeIndex).child w, distance := -(P.maxFloat * P.maxFloat) } := by
    simp [stackEntry, hval, hsil]
  refine ⟨hmask, hval, hsil, hentry, ?_, ?_⟩
  · intro minDist tMaxMin subtree hsort
    rw [← hentry]
    exact enqueueNodesW_pushes P E _ _ _ _ _ minDist tMaxMin subtree w hw hmask hsort
  · intro flip prec st htop hr2
    apply traversalStep_discard P E T sc flip prec st _ htop
    simp only [abs_neg, abs_mul_self]
    have h0 : (0 : α) < P.maxFloat := lt_trans zero_lt_one hM
    have h1 : P.maxFloat * 1 < P.maxFloat * P.maxFloat := mul_lt_mul_of_pos_left hM h0
    rw [mul_one] at h1
    exact lt_of_le_of_lt hr2 h1

set_option maxRecDepth 100000 in
/-- Witness for the amended C10: slot 0 of the root of the scene. -/
theorem degenerate_robin_child_pruned_witness :
    (visitNodes sceneParams sceneQueryOps sceneMbvh.flatTree sceneSphere.c 100 0).1 0 = true ∧
    (visitNodes sceneParams sceneQueryOps sceneMbvh.flatTree sceneSphere.c 100 0).2.1 0 =
      sceneParams.maxFloat * sceneParams.maxFloat ∧
    (visitNodes sceneParams sceneQueryOps sceneMbvh.flatTree sceneSphere.c 100 0).2.2.2 0 =
      false :=
  have h := degenerate_robin_child_pruned sceneParams sceneQueryOps sceneMbvh sceneSphere.c
    100 0 0
    (sceneQueryOps.overlapWideBox (sceneMbvh.flatTree 0).boxMin (sceneMbvh.flatTree 0).boxMax
      sceneSphere.c 100)
    (sceneQueryOps.overlapWideCone (sceneMbvh.flatTree 0).coneAxis
      (sceneMbvh.flatTree 0).coneHalfAngle (sceneMbvh.flatTree 0).coneRadius sceneSphere.c
      (sceneMbvh.flatTree 0).boxMin (sceneMbvh.flatTree 0).boxMax
      (sceneQueryOps.overlapWideBox (sceneMbvh.flatTree 0).boxMin (sceneMbvh.flatTree 0).boxMax
        sceneSphere.c 100).2.1
      (fun w => (decide ((sceneMbvh.flatTree 0).child w ≠ maxInt) &&
          (sceneQueryOps.overlapWideBox (sceneMbvh.flatTree 0).boxMin
            (sceneMbvh.flatTree 0).boxMax sceneSphere.c 100).1 w) &&
        decide ((sceneMbvh.flatTree 0).minRobinCoeff w <
          sceneParams.maxFloat - sceneParams.epsilon)))
    rfl (by decide!) rfl rfl (by decide) (by decide) (by decide!) (by decide!) (by decide!)
    rfl (by decide!)
  ⟨h.1, h.2.1, h.2.2.1⟩

end DegenerateClaim

/-! ### Seeded minima and maxima -/

section Folds

variable {α : Type} [LinearOrder α]

theorem minOver_le_seed (s : α) (xs : List α) : minOver s xs ≤ s := by
  unfold minOver
  induction xs generalizing s with
  | nil => exact le_refl _
  | cons x xs ih => exact le_trans (ih (min s x)) (min_le_left _ _)

theorem seed_le_maxOver (s : α) (xs : List α) : s ≤ maxOver s xs := by
  unfold maxOver
  induction xs generalizing s with
  | nil => exact le_refl _
  | cons x xs ih => exact le_trans (le_max_left _ _) (ih (max s x))

theorem minOver_le_of_mem (s : α) (xs : List α) (x : α) (hx : x ∈ xs) : minOver s xs ≤ x := by
  unfold minOver
  induction xs generalizing s with
  | nil => simp at hx
  | cons y xs ih =>
    rcases List.mem_cons.mp hx with e | hx'
    · subst e
      exact le_trans (minOver_le_seed (min s x) xs) (min_le_right _ _)
    · exact ih (min s y) hx'

theorem le_maxOver_of_mem (s : α) (xs : List α) (x : α) (hx : x ∈ xs) : x ≤ maxOver s xs := by
  unfold maxOver
  induction xs generalizing s with
  | nil => simp at hx
  | cons y xs ih =>
    rcases List.mem_cons.mp hx with e | hx'
    · subst e
      exact le_trans (le_max_right _ _) (seed_le_maxOver (max s x) xs)
    · exact ih (max s y) hx'

theorem minOver_reseed (a s : α) (xs : List α) (ha : a ≤ s) :
    minOver a xs = min a (minOver s xs) := by
  unfold minOver
  induction xs generalizing a s with
  | nil => simp [min_eq_left ha]
  | cons x xs ih =>
    rw [List.foldl_cons, List.foldl_cons, ih (min a x) (min s x) (min_le_min_right x ha)]
    have hY : xs.foldl min (min s x) ≤ x := le_trans (minOver_le_seed _ xs) (min_le_right _ _)
    rw [min_assoc, min_eq_right hY]

theorem maxOver_reseed (a s : α) (xs : List α) (ha : s ≤ a) :
    maxOver a xs = max a (maxOver s xs) := by
  unfold maxOver
  induction xs generalizing a s with
  | nil => simp [max_eq_left ha]
  | cons x xs ih =>
    rw [List.foldl_cons, List.foldl_cons, ih (max a x) (max s x) (max_le_max_right x ha)]
    have hY : x ≤ xs.foldl max (max s x) := le_trans (le_max_right _ _) (seed_le_maxOver _ xs)
    rw [max_assoc, max_eq_right hY]

theorem minOver_append (s : α) (xs ys : List α) :
    minOver s (xs ++ ys) = min (minOver s xs) (minOver s ys) := by
  have h : minOver s (xs ++ ys) = minOver (minOver s xs) ys := by
    unfold minOver; rw [List.foldl_append]
  rw [h, minOver_reseed _ s ys (minOver_le_seed s xs)]

theorem maxOver_append (s : α) (xs ys : List α) :
    maxOver s (xs ++ ys) = max (maxOver s xs) (maxOver s ys) := by
  have h : maxOver s (xs ++ ys) = maxOver (maxOver s xs) ys := by
    unfold maxOver; rw [List.foldl_append]
  rw [h, maxOver_reseed _ s ys (seed_le_maxOver s xs)]

end Folds

/-! ### Boxes computed by `refit` -/

section RefitBoxes

variable {α : Type} [LinearOrderedField α] {D : Nat}

theorem subtreeReferences_indep (W : Nat) (nNodes : Int) (child : Int → Nat → Int) :
    ∀ (h k : Nat) (i : Int), wellFormedAt W nNodes child h i = true →
      wellFormedAt W nNodes child k i = true →
      subtreeReferences W child h i = subtreeReferences W child k i := by
  intro h
  induction h with
  | zero => intro k i hi; simp [wellFormedAt] at hi
  | succ h ih =>
    intro k i hi hk
    cases k with
    | zero => simp [wellFormedAt] at hk
    | succ k =>
      rw [wellFormedAt_succ_iff] at hi hk
      unfold subtreeReferences
      by_cases hleaf : child i 0 < 0
      · simp [hleaf]
      · simp only [hleaf, if_false]
        apply List.flatMap_congr
        intro w hw
        have hw' : w < W := List.mem_range.mp hw
        by_cases hp : child i w = maxInt
        · simp [hp]
        · have h1 := (hi.2.2.resolve_left hleaf w hw').resolve_left hp
          have h2 := (hk.2.2.resolve_left hleaf w hw').resolve_left hp
          simp only [ne_eq, hp, not_false_eq_true, if_true]
          exact ih k _ h1 h2

theorem expand_fold_pMin (f : Nat → BoundingBox α D) (d : Fin D) :
    ∀ (l : List Nat) (b : BoundingBox α D),
      (l.foldl (fun box p => box.expandToInclude (f p)) b).pMin d =
        minOver (b.pMin d) (l.map fun p => (f p).pMin d) := by
  intro l
  induction l with
  | nil => intro b; rfl
  | cons p l ih =>
    intro b
    rw [List.foldl_cons, ih]
    rfl

theorem expand_fold_pMax (f : Nat → BoundingBox α D) (d : Fin D) :
    ∀ (l : List Nat) (b : BoundingBox α D),
      (l.foldl (fun box p => box.expandToInclude (f p)) b).pMax d =
        maxOver (b.pMax d) (l.map fun p => (f p).pMax d) := by
  intro l
  induction l with
  | nil => intro b; rfl
  | cons p l ih =>
    intro b
    rw [List.foldl_cons, ih]
    rfl

/-- The box that `refitRecursive` computes for a node is, coordinate by
coordinate, the seeded minimum and maximum over the boxes of the primitives
referenced below the node. -/
theorem refit_value_box (P : Params α) (G : GeomOps α D) (primitives : Int → RobinPrimitive α D)
    (child : Int → Nat → Int) (d : Fin D) :
    ∀ (h : Nat) (i : Int),
      ((refitPass P G primitives).value child h i).1.pMin d =
          minOver P.maxFloat ((subtreeReferences P.W child h i).map
            fun r => (G.boundingBox (primitives r)).pMin d) ∧
      ((refitPass P G primitives).value child h i).1.pMax d =
          maxOver P.minFloat ((subtreeReferences P.W child h i).map
            fun r => (G.boundingBox (primitives r)).pMax d) := by
  intro h
  induction h with
  | zero => intro i; exact ⟨rfl, rfl⟩
  | succ h ih =>
    intro i
    unfold Pass.value subtreeReferences
    by_cases hleaf : child i 0 < 0
    · simp only [hleaf, if_true]
      constructor
      · show (leafBox P G primitives (child i 2) (child i 3)).pMin d = _
        unfold leafBox
        rw [expand_fold_pMin (fun p => G.boundingBox (primitives (child i 2 + (p : Int)))) d]
        simp [BoundingBox.empty, List.map_map, Function.comp_def]
      · show (leafBox P G primitives (child i 2) (child i 3)).pMax d = _
        unfold leafBox
        rw [expand_fold_pMax (fun p => G.boundingBox (primitives (child i 2 + (p : Int)))) d]
        simp [BoundingBox.empty, List.map_map, Function.comp_def]
    · simp only [hleaf, if_false]
      have hW : (refitPass P G primitives).W = P.W := rfl
      rw [hW]
      have loop : ∀ n,
          ((List.range n).foldl
              (fun v w =>
                if child i w ≠ maxInt then
                  (refitPass P G primitives).combine v
                    ((refitPass P G primitives).value child h (child i w))
                else v) (refitPass P G primitives).init).1.pMin d =
            minOver P.maxFloat (((List.range n).flatMap fun w =>
              if child i w ≠ maxInt then subtreeReferences P.W child h (child i w) else []).map
              fun r => (G.boundingBox (primitives r)).pMin d) ∧
          ((List.range n).foldl
              (fun v w =>
                if child i w ≠ maxInt then
                  (refitPass P G primitives).combine v
                    ((refitPass P G primitives).value child h (child i w))
                else v) (refitPass P G primitives).init).1.pMax d =
            maxOver P.minFloat (((List.range n).flatMap fun w =>
              if child i w ≠ maxInt then subtreeReferences P.W child h (child i w) else []).map
              fun r => (G.boundingBox (primitives r)).pMax d) := by
        intro n
        induction n with
        | zero => exact ⟨rfl, rfl⟩
        | succ n ihn =>
          simp only [List.range_succ, List.foldl_append, List.flatMap_append, List.map_append,
            minOver_append, maxOver_append, List.foldl_cons, List.foldl_nil, List.flatMap_cons,
            List.flatMap_nil, List.append_nil]
          by_cases hp : child i n = maxInt
          · simp only [hp, ne_eq, not_true_eq_false, if_false, List.map_nil]
            refine ⟨?_, ?_⟩
            · rw [ihn.1]
              exact (min_eq_left (minOver_le_seed _ _)).symm
            · rw [ihn.2]
              exact (max_eq_left (seed_le_maxOver _ _)).symm
          · simp only [hp, ne_eq, not_false_eq_true, if_true]
            refine ⟨?_, ?_⟩
            · rw [← ihn.1, ← (ih (child i n)).1]; rfl
            · rw [← ihn.2, ← (ih (child i n)).2]; rfl
      exact loop P.W

end RefitBoxes

section MoreFolds

variable {α : Type} [LinearOrder α]

theorem le_minOver_iff (a s : α) (xs : List α) :
    a ≤ minOver s xs ↔ a ≤ s ∧ ∀ x ∈ xs, a ≤ x := by
  unfold minOver
  induction xs generalizing s with
  | nil => simp
  | cons x xs ih =>
    rw [List.foldl_cons, ih, le_min_iff]
    simp only [List.mem_cons, forall_eq_or_imp, and_assoc]

theorem maxOver_le_iff (a s : α) (xs : List α) :
    maxOver s xs ≤ a ↔ s ≤ a ∧ ∀ x ∈ xs, x ≤ a := by
  unfold maxOver
  induction xs generalizing s with
  | nil => simp
  | cons x xs ih =>
    rw [List.foldl_cons, ih, max_le_iff]
    simp only [List.mem_cons, forall_eq_or_imp, and_assoc]

theorem minOver_le_minOver_of_subset (s : α) (xs ys : List α) (hsub : ∀ y ∈ ys, y ∈ xs) :
    minOver s xs ≤ minOver s ys :=
  (le_minOver_iff _ _ _).mpr
    ⟨minOver_le_seed s xs, fun y hy => minOver_le_of_mem s xs y (hsub y hy)⟩

theorem maxOver_le_maxOver_of_subset (s : α) (xs ys : List α) (hsub : ∀ y ∈ ys, y ∈ xs) :
    maxOver s ys ≤ maxOver s xs :=
  (maxOver_le_iff _ _ _).mpr
    ⟨seed_le_maxOver s xs, fun y hy => le_maxOver_of_mem s xs y (hsub y hy)⟩

end MoreFolds

section LeafTest

variable {α : Type} {D : Nat}

theorem isLeafNode_eq_false_iff (node : RobinMbvhNode α D) :
    isLeafNode node = false ↔ ¬ node.child 0 < 0 := by
  simp [isLeafNode]

end LeafTest

section RefitClaims

variable {α : Type} [LinearOrderedField α] {D : Nat}

theorem subtreeReferences_child_subset (W : Nat) (child : Int → Nat → Int) (h : Nat) (i : Int)
    (hint : ¬ child i 0 < 0) (w : Nat) (hw : w < W) (hp : child i w ≠ maxInt) :
    ∀ r ∈ subtreeReferences W child h (child i w), r ∈ subtreeReferences W child (h + 1) i := by
  intro r hr
  unfold subtreeReferences
  simp only [hint, if_false, List.mem_flatMap, List.mem_range]
  exact ⟨w, hw, by simp only [ne_eq, hp, not_false_eq_true, if_true]; exact hr⟩

theorem refit_value_contains (P : Params α) (G : GeomOps α D)
    (primitives : Int → RobinPrimitive α D) (child : Int → Nat → Int) (h : Nat) (i : Int)
    (hint : ¬ child i 0 < 0) (w : Nat) (hw : w < P.W) (hp : child i w ≠ maxInt) (d : Fin D) :
    ((refitPass P G primitives).value child (h + 1) i).1.pMin d ≤
        ((refitPass P G primitives).value child h (child i w)).1.pMin d ∧
      ((refitPass P G primitives).value child h (child i w)).1.pMax d ≤
        ((refitPass P G primitives).value child (h + 1) i).1.pMax d := by
  rw [(refit_value_box P G primitives child d (h + 1) i).1,
    (refit_value_box P G primitives child d (h + 1) i).2,
    (refit_value_box P G primitives child d h (child i w)).1,
    (refit_value_box P G primitives child d h (child i w)).2]
  have hsub := subtreeReferences_child_subset P.W child h i hint w hw hp
  constructor
  · apply minOver_le_minOver_of_subset
    intro y hy
    obtain ⟨r, hr, e⟩ := List.mem_map.mp hy
    exact List.mem_map.mpr ⟨r, hsub r hr, e⟩
  · apply maxOver_le_maxOver_of_subset
    intro y hy
    obtain ⟨r, hr, e⟩ := List.mem_map.mp hy
    exact List.mem_map.mpr ⟨r, hsub r hr, e⟩

/-- Result of `refit` on a well-formed tree: the flat tree after the call, related
to the one before by the pass of `refitRecursive`. -/
theorem refit_spec (P : Params α) (G : GeomOps α D) (T : RobinMbvh α D) (h : Nat)
    (hwf : wellFormedAt P.W T.nNodes (childOf T.flatTree) h 0 = true) :
    ∃ t1, refit P G h T = some { populateLeafNodes P T with flatTree := t1 } ∧
      (refitPass P G T.primitives).Rel T.nNodes T.flatTree t1 ∧
      (refitPass P G T.primitives).Good h t1 0 ∧
      wellFormedAt P.W T.nNodes (childOf t1) h 0 = true := by
  obtain ⟨t1, hrun, hrel, hgood⟩ :=
    (refitPass P G T.primitives).run_spec (refitPass_lawful P G T.primitives) T.nNodes h
      T.flatTree 0 hwf
  refine ⟨t1, ?_, hrel, hgood, by rw [hrel.childOf_eq]; exact hwf⟩
  have hn : T.nNodes > 0 := by
    cases h with
    | zero => simp [wellFormedAt] at hwf
    | succ h =>
      rw [wellFormedAt_succ_iff] at hwf
      exact hwf.2.1
  have hpop : (populateLeafNodes P T).flatTree = T.flatTree := rfl
  have hpoppr : (populateLeafNodes P T).primitives = T.primitives := rfl
  have hpopn : (populateLeafNodes P T).nNodes = T.nNodes := rfl
  unfold refit
  simp only [hpop, hpoppr, hpopn, hn, if_true, refitRecursive_eq_run, hrun]

/-- C2: `refit` on a well-formed tree returns a tree with the same number of
nodes, the same child arrays and the same primitives in which, for every
internal node and every present child slot `w`, `boxMin[w]` and `boxMax[w]`
are, coordinate by coordinate, the minimum and the maximum (seeded with the
corners `maxFloat`, `minFloat` of the empty box) over the bounding boxes of
all primitives in the subtree of that child; and the box that
`refitRecursive` computes for the node itself contains every present child
slot box. -/
theorem refit_boxes_tight (P : Params α) (G : GeomOps α D) (T : RobinMbvh α D) (h : Nat)
    (hwf : wellFormedAt P.W T.nNodes (childOf T.flatTree) h 0 = true) :
    ∃ T1, refit P G h T = some T1 ∧
      T1.nNodes = T.nNodes ∧ childOf T1.flatTree = childOf T.flatTree ∧
      T1.primitives = T.primitives ∧
      ∀ j w, Reachable P.W (childOf T1.flatTree) 0 j → isLeafNode (T1.flatTree j) = false →
        w < P.W → (T1.flatTree j).child w ≠ maxInt →
        (∀ d,
          (T1.flatTree j).boxMin d w =
              minOver P.maxFloat
                ((subtreeReferences P.W (childOf T1.flatTree) h ((T1.flatTree j).child w)).map
                  fun r => (G.boundingBox (T1.primitives r)).pMin d) ∧
            (T1.flatTree j).boxMax d w =
              maxOver P.minFloat
                ((subtreeReferences P.W (childOf T1.flatTree) h ((T1.flatTree j).child w)).map
                  fun r => (G.boundingBox (T1.primitives r)).pMax d)) ∧
        ∀ t, childOf t = childOf T1.flatTree →
          ∃ t2 box cone, refitRecursive P G T1.primitives h t j = some (t2, box, cone) ∧
            ∀ d, box.pMin d ≤ (T1.flatTree j).boxMin d w ∧
              (T1.flatTree j).boxMax d w ≤ box.pMax d := by
  obtain ⟨t1, hrefit, hrel, hgood, hwf1⟩ := refit_spec P G T h hwf
  refine ⟨_, hrefit, rfl, hrel.childOf_eq, rfl, ?_⟩
  intro j w hreach hleaf hw hp
  have hprim : ({ populateLeafNodes P T with flatTree := t1 } : RobinMbvh α D).primitives =
      T.primitives := rfl
  simp only [hprim] at hreach hleaf hp ⊢
  have hint : ¬ (t1 j).child 0 < 0 := (isLeafNode_eq_false_iff _).mp hleaf
  obtain ⟨k, hkh, hwfj, hwfc, _, hread⟩ :=
    Pass.Good.slot (S := refitPass P G T.primitives) hreach hwf1 hgood hint hw hp
  have hwfch : wellFormedAt P.W T.nNodes (childOf t1) h ((t1 j).child w) = true :=
    wellFormedAt_mono_le _ _ _ _ k h (Nat.le_of_succ_le hkh) hwfc
  have hslot : slotBox (t1 j) w =
      ((refitPass P G T.primitives).value (childOf t1) k ((t1 j).child w)).1 :=
    congrArg Prod.fst hread
  have hmin : ∀ d, (t1 j).boxMin d w =
      ((refitPass P G T.primitives).value (childOf t1) k ((t1 j).child w)).1.pMin d :=
    fun d => congrFun (congrArg BoundingBox.pMin hslot) d
  have hmax : ∀ d, (t1 j).boxMax d w =
      ((refitPass P G T.primitives).value (childOf t1) k ((t1 j).child w)).1.pMax d :=
    fun d => congrFun (congrArg BoundingBox.pMax hslot) d
  refine ⟨?_, ?_⟩
  · intro d
    rw [hmin d, hmax d, (refit_value_box P G T.primitives (childOf t1) d k _).1,
      (refit_value_box P G T.primitives (childOf t1) d k _).2,
      subtreeReferences_indep P.W T.nNodes (childOf t1) k h _ hwfc hwfch]
    exact ⟨rfl, rfl⟩
  · intro t hct
    have hwfjt : wellFormedAt P.W T.nNodes (childOf t) (k + 1) j = true := by
      rw [hct]; exact hwfj
    have hwfjh : wellFormedAt P.W T.nNodes (childOf t) h j = true :=
      wellFormedAt_mono_le _ _ _ _ (k + 1) h hkh hwfjt
    obtain ⟨t2, hrun, _, _⟩ :=
      (refitPass P G T.primitives).run_spec (refitPass_lawful P G T.primitives) T.nNodes h t j
        hwfjh
    refine ⟨t2, _, _, by rw [refitRecursive_eq_run]; exact hrun, ?_⟩
    intro d
    rw [hmin d, hmax d, hct,
      ← (refitPass P G T.primitives).value_indep T.nNodes (childOf t1) (k + 1) h j hwfj
        (by rw [← hct]; exact hwfjh)]
    exact refit_value_contains P G T.primitives (childOf t1) k j hint w hw hp d

set_option maxRecDepth 100000 in
/-- Witness for C2: in the scene with the moved triangle the flat tree is
well-formed with height bound 2 and slot 0 of the root still stores the box
`[3,4] × [0,3] × [0,0]` of the old geometry; after `refit` the child arrays
are the same and the slot holds the box `[2,4] × [0,3] × [0,1]` of the two
Robin triangles as they are now. -/
theorem refit_boxes_tight_witness :
    wellFormedAt sceneParams.W sceneMovedMbvh.nNodes (childOf sceneMovedMbvh.flatTree) 2 0 =
        true ∧
      ((sceneMovedMbvh.flatTree 0).boxMin 0 0, (sceneMovedMbvh.flatTree 0).boxMin 1 0,
        (sceneMovedMbvh.flatTree 0).boxMin 2 0, (sceneMovedMbvh.flatTree 0).boxMax 0 0,
        (sceneMovedMbvh.flatTree 0).boxMax 1 0, (sceneMovedMbvh.flatTree 0).boxMax 2 0) =
        (3, 0, 0, 4, 3, 0) ∧
      ∃ T1, refit sceneParams sceneGeomOps 2 sceneMovedMbvh = some T1 ∧
        childOf T1.flatTree = childOf sceneMovedMbvh.flatTree ∧
        T1.primitives = sceneMovedMbvh.primitives ∧
        subtreeReferences sceneParams.W (childOf T1.flatTree) 2 ((T1.flatTree 0).child 0) =
          [0, 1] ∧
        (∀ d, (T1.flatTree 0).boxMin d 0 =
            minOver sceneParams.maxFloat
              ([0, 1].map fun r => (sceneGeomOps.boundingBox (T1.primitives r)).pMin d) ∧
          (T1.flatTree 0).boxMax d 0 =
            maxOver sceneParams.minFloat
              ([0, 1].map fun r => (sceneGeomOps.boundingBox (T1.primitives r)).pMax d)) ∧
        ((T1.flatTree 0).boxMin 0 0, (T1.flatTree 0).boxMin 1 0, (T1.flatTree 0).boxMin 2 0,
          (T1.flatTree 0).boxMax 0 0, (T1.flatTree 0).boxMax 1 0, (T1.flatTree 0).boxMax 2 0) =
          (2, 0, 0, 4, 3, 1) := by
  have hw : wellFormedAt sceneParams.W sceneMovedMbvh.nNodes (childOf sceneMovedMbvh.flatTree) 2
      0 = true := by decide
  obtain ⟨T1, h1, _, hc, hp, h2⟩ :=
    refit_boxes_tight sceneParams sceneGeomOps sceneMovedMbvh 2 hw
  have hv : (refit sceneParams sceneGeomOps 2 sceneMovedMbvh).map (fun T1 =>
      (subtreeReferences sceneParams.W (childOf T1.flatTree) 2 ((T1.flatTree 0).child 0),
        isLeafNode (T1.flatTree 0), (T1.flatTree 0).child 0)) =
      some ([0, 1], false, 1) := by decide!
  have hb : (refit sceneParams sceneGeomOps 2 sceneMovedMbvh).map (fun T1 =>
      ((T1.flatTree 0).boxMin 0 0, (T1.flatTree 0).boxMin 1 0, (T1.flatTree 0).boxMin 2 0,
        (T1.flatTree 0).boxMax 0 0, (T1.flatTree 0).boxMax 1 0, (T1.flatTree 0).boxMax 2 0)) =
      some (2, 0, 0, 4, 3, 1) := by decide!
  rw [h1] at hv hb
  simp only [Option.map_some', Option.some.injEq, Prod.mk.injEq] at hv
  simp only [Option.map_some', Option.some.injEq] at hb
  obtain ⟨hrefs, hleaf, hchild⟩ := hv
  have hslot := (h2 0 0 (Reachable.self 0) hleaf (by decide) (by rw [hchild]; decide)).1
  rw [hrefs] at hslot
  exact ⟨hw, by decide!, T1, h1, hc, hp, hrefs, hslot, hb⟩

end RefitClaims

/-! ### Leaf records -/

section LeafRecords

variable {α : Type} {D : Nat}

theorem foldl_rel {S X : Type} (R : S → S → Prop) (f g : S → X → S)
    (hstep : ∀ a b x, R a b → R (f a x) (g b x)) :
    ∀ (l : List X) (a b : S), R a b → R (l.foldl f a) (l.foldl g b) := by
  intro l
  induction l with
  | nil => intro a b h; exact h
  | cons x l ih => intro a b h; exact ih _ _ (hstep a b x h)

theorem laneEq_refl (A : MbvhLeafNode α D) (w : Nat) : LaneEq A A w :=
  ⟨fun _ _ => rfl, fun _ _ => rfl, rfl, rfl, fun _ => rfl, fun _ => rfl⟩

theorem laneEq_symm {A B : MbvhLeafNode α D} {w : Nat} (h : LaneEq A B w) : LaneEq B A w :=
  ⟨fun i j => (h.1 i j).symm, fun i j => (h.2.1 i j).symm, h.2.2.1.symm, h.2.2.2.1.symm,
    fun i => (h.2.2.2.2.1 i).symm, fun i => (h.2.2.2.2.2 i).symm⟩

theorem laneEq_trans {A B C : MbvhLeafNode α D} {w : Nat} (h : LaneEq A B w)
    (h' : LaneEq B C w) : LaneEq A C w :=
  ⟨fun i j => (h.1 i j).trans (h'.1 i j), fun i j => (h.2.1 i j).trans (h'.2.1 i j),
    h.2.2.1.trans h'.2.2.1, h.2.2.2.1.trans h'.2.2.2.1,
    fun i => (h.2.2.2.2.1 i).trans (h'.2.2.2.2.1 i),
    fun i => (h.2.2.2.2.2 i).trans (h'.2.2.2.2.2 i)⟩

theorem leafNodes_ext (L L1 : Int → MbvhLeafNode α D) (h : ∀ r w, LaneEq (L r) (L1 r) w) :
    L = L1 := by
  funext r
  have hr := h r
  cases hA : L r
  cases hB : L1 r
  rw [hA, hB] at hr
  simp only [LaneEq] at hr
  simp only [MbvhLeafNode.mk.injEq]
  refine ⟨?_, ?_, ?_, ?_, ?_, ?_⟩
  · funext i j w; exact (hr w).1 i j
  · funext i j w; exact (hr w).2.1 i j
  · funext w; exact (hr w).2.2.1
  · funext w; exact (hr w).2.2.2.1
  · funext i w; exact (hr w).2.2.2.2.1 i
  · funext i w; exact (hr w).2.2.2.2.2 i

theorem populateLeafLane_written (WIDTH : Nat) (leafOffset referenceOffset : Int)
    (primitives : Int → RobinPrimitive α D) (L L1 : Int → MbvhLeafNode α D) (p : Nat) :
    LaneEq (populateLeafLane WIDTH leafOffset referenceOffset primitives L p
        (leafOffset + ((p / WIDTH : Nat) : Int)))
      (populateLeafLane WIDTH leafOffset referenceOffset primitives L1 p
        (leafOffset + ((p / WIDTH : Nat) : Int))) (p % WIDTH) := by
  simp [populateLeafLane, LaneEq]

theorem populateLeafLane_other (WIDTH : Nat) (leafOffset referenceOffset : Int)
    (primitives : Int → RobinPrimitive α D) (L : Int → MbvhLeafNode α D) (p : Nat)
    (r : Int) (w : Nat)
    (hne : ¬ (r = leafOffset + ((p / WIDTH : Nat) : Int) ∧ w = p % WIDTH)) :
    LaneEq (populateLeafLane WIDTH leafOffset referenceOffset primitives L p r) (L r) w := by
  unfold populateLeafLane
  by_cases hr : r = leafOffset + ((p / WIDTH : Nat) : Int)
  · have hw : w ≠ p % WIDTH := fun e => hne ⟨hr, e⟩
    subst hr
    simp [LaneEq, Function.update_noteq hw]
  · simp only [Function.update_noteq hr]
    exact laneEq_refl _ _

/-- Relation kept by two runs of the same leaf-record writes: every lane of the
second state agrees with the first state or with the fixed state `L0`. -/
theorem populateLeafLane_rel (WIDTH : Nat) (leafOffset referenceOffset : Int)
    (primitives : Int → RobinPrimitive α D) (L0 A B : Int → MbvhLeafNode α D) (p : Nat)
    (h : ∀ r w, LaneEq (B r) (A r) w ∨ LaneEq (B r) (L0 r) w) :
    ∀ r w,
      LaneEq (populateLeafLane WIDTH leafOffset referenceOffset primitives B p r)
          (populateLeafLane WIDTH leafOffset referenceOffset primitives A p r) w ∨
        LaneEq (populateLeafLane WIDTH leafOffset referenceOffset primitives B p r) (L0 r) w := by
  intro r w
  by_cases hrw : r = leafOffset + ((p / WIDTH : Nat) : Int) ∧ w = p % WIDTH
  · obtain ⟨hr, hw⟩ := hrw
    subst hr
    subst hw
    exact Or.inl (populateLeafLane_written WIDTH leafOffset referenceOffset primitives B A p)
  · have hB := populateLeafLane_other WIDTH leafOffset referenceOffset primitives B p r w hrw
    have hA := populateLeafLane_other WIDTH leafOffset referenceOffset primitives A p r w hrw
    rcases h r w with e | e
    · exact Or.inl (laneEq_trans hB (laneEq_trans e (laneEq_symm hA)))
    · exact Or.inr (laneEq_trans hB e)

theorem populateLeafNode_congr (WIDTH : Nat) (n n1 : RobinMbvhNode α D) (hc : n1.child = n.child)
    (primitives : Int → RobinPrimitive α D) (L : Int → MbvhLeafNode α D) :
    populateLeafNode WIDTH n1 primitives L = populateLeafNode WIDTH n primitives L := by
  unfold populateLeafNode
  rw [hc]

end LeafRecords

section PopulateIdempotent

variable {α : Type} {D : Nat}

theorem populateLeafNodes_flatTree_congr (P : Params α) (T : RobinMbvh α D)
    (t1 : Int → RobinMbvhNode α D) (hc : ∀ j, (t1 j).child = (T.flatTree j).child) :
    (populateLeafNodes P { T with flatTree := t1 }).leafNodes =
      (populateLeafNodes P T).leafNodes := by
  unfold populateLeafNodes
  simp only
  apply List.foldl_ext
  intro L i _
  simp only [isLeafNode, hc]
  rw [populateLeafNode_congr P.WIDTH _ _ (hc i)]

theorem populateLeafNodes_idem (P : Params α) (T : RobinMbvh α D) :
    (populateLeafNodes P (populateLeafNodes P T)).leafNodes =
      (populateLeafNodes P T).leafNodes := by
  have key : ∀ (L0 A B : Int → MbvhLeafNode α D),
      (∀ r w, LaneEq (B r) (A r) w ∨ LaneEq (B r) (L0 r) w) →
      ∀ r w,
        LaneEq ((List.range T.nNodes.toNat).foldl
            (fun leafNodes (i : Nat) =>
              if isLeafNode (T.flatTree (i : Int)) then
                populateLeafNode P.WIDTH (T.flatTree (i : Int)) T.primitives leafNodes
              else leafNodes) B r)
          ((List.range T.nNodes.toNat).foldl
            (fun leafNodes (i : Nat) =>
              if isLeafNode (T.flatTree (i : Int)) then
                populateLeafNode P.WIDTH (T.flatTree (i : Int)) T.primitives leafNodes
              else leafNodes) A r) w ∨
        LaneEq ((List.range T.nNodes.toNat).foldl
            (fun leafNodes (i : Nat) =>
              if isLeafNode (T.flatTree (i : Int)) then
                populateLeafNode P.WIDTH (T.flatTree (i : Int)) T.primitives leafNodes
              else leafNodes) B r) (L0 r) w := by
    intro L0 A B h
    refine foldl_rel
      (fun A B : Int → MbvhLeafNode α D => ∀ r w, LaneEq (B r) (A r) w ∨ LaneEq (B r) (L0 r) w)
      _ _ ?_ (List.range T.nNodes.toNat) A B h
    intro A B i hAB
    by_cases hleaf : isLeafNode (T.flatTree (i : Int)) = true
    · simp only [hleaf, if_true]
      unfold populateLeafNode
      refine foldl_rel
        (fun A B : Int → MbvhLeafNode α D =>
          ∀ r w, LaneEq (B r) (A r) w ∨ LaneEq (B r) (L0 r) w) _ _ ?_ _ A B hAB
      intro A B p hAB
      exact populateLeafLane_rel P.WIDTH _ _ T.primitives L0 A B p hAB
    · simp only [hleaf, if_false, Bool.false_eq_true]
      exact hAB
  have h := key (populateLeafNodes P T).leafNodes T.leafNodes (populateLeafNodes P T).leafNodes
    (fun r w => Or.inr (laneEq_refl _ _))
  apply leafNodes_ext
  intro r w
  have hpop : (populateLeafNodes P (populateLeafNodes P T)).leafNodes =
      (List.range T.nNodes.toNat).foldl
        (fun leafNodes (i : Nat) =>
          if isLeafNode (T.flatTree (i : Int)) then
            populateLeafNode P.WIDTH (T.flatTree (i : Int)) T.primitives leafNodes
          else leafNodes) (populateLeafNodes P T).leafNodes := rfl
  have hpop1 : (populateLeafNodes P T).leafNodes =
      (List.range T.nNodes.toNat).foldl
        (fun leafNodes (i : Nat) =>
          if isLeafNode (T.flatTree (i : Int)) then
            populateLeafNode P.WIDTH (T.flatTree (i : Int)) T.primitives leafNodes
          else leafNodes) T.leafNodes := rfl
  rcases h r w with e | e
  · rw [hpop]
    rw [← hpop1] at e
    exact e
  · rw [hpop]
    exact e

end PopulateIdempotent

/-! ### Idempotence of `refit` -/

section RefitIdempotent

variable {α : Type} [LinearOrderedField α] {D : Nat}

/-- C6: `refit` is idempotent on a well-formed tree: a second call returns
exactly the tree (node boxes, node cones, leaf records) that the first call
returned; and the box and cone written into a present slot of an internal
node depend only on the child arrays and the primitives: a tree with the same
child arrays and primitives, whatever its stored boxes, cones and leaf
records, gets the same slot boxes and cones. -/
theorem refit_idempotent (P : Params α) (G : GeomOps α D) (T : RobinMbvh α D) (h : Nat)
    (hwf : wellFormedAt P.W T.nNodes (childOf T.flatTree) h 0 = true) :
    ∃ T1, refit P G h T = some T1 ∧ refit P G h T1 = some T1 ∧
      ∀ T2 : RobinMbvh α D, T2.nNodes = T.nNodes → T2.primitives = T.primitives →
        childOf T2.flatTree = childOf T.flatTree →
        ∃ T3, refit P G h T2 = some T3 ∧
          ∀ j w, Reachable P.W (childOf T.flatTree) 0 j → isLeafNode (T.flatTree j) = false →
            w < P.W → (T.flatTree j).child w ≠ maxInt →
            slotBox (T3.flatTree j) w = slotBox (T1.flatTree j) w ∧
              slotCone (T3.flatTree j) w = slotCone (T1.flatTree j) w := by
  obtain ⟨t1, hrefit, hrel, hgood, hwf1⟩ := refit_spec P G T h hwf
  refine ⟨_, hrefit, ?_, ?_⟩
  · -- second call
    have hn : T.nNodes > 0 := by
      cases h with
      | zero => simp [wellFormedAt] at hwf
      | succ h =>
        rw [wellFormedAt_succ_iff] at hwf
        exact hwf.2.1
    have hfix := (refitPass P G T.primitives).run_fixed (refitPass_lawful P G T.primitives)
      T.nNodes h t1 0 hwf1 hgood
    have hleaf : (populateLeafNodes P
        ({ populateLeafNodes P T with flatTree := t1 } : RobinMbvh α D)).leafNodes =
        (populateLeafNodes P T).leafNodes := by
      rw [populateLeafNodes_flatTree_congr P (populateLeafNodes P T) t1 (fun j => (hrel j).1)]
      exact populateLeafNodes_idem P T
    have hpop : populateLeafNodes P
        ({ populateLeafNodes P T with flatTree := t1 } : RobinMbvh α D) =
        { populateLeafNodes P T with flatTree := t1 } := by
      have e : populateLeafNodes P
          ({ populateLeafNodes P T with flatTree := t1 } : RobinMbvh α D) =
          { ({ populateLeafNodes P T with flatTree := t1 } : RobinMbvh α D) with
            leafNodes := (populateLeafNodes P
              ({ populateLeafNodes P T with flatTree := t1 } : RobinMbvh α D)).leafNodes } := rfl
      rw [e, hleaf]
    unfold refit
    simp only [hpop]
    have hn1 : (populateLeafNodes P T).nNodes > 0 := hn
    have hprim : (populateLeafNodes P T).primitives = T.primitives := rfl
    simp only [hn1, if_true, refitRecursive_eq_run, hprim, hfix]
  · intro T2 hn2 hp2 hc2
    have hwf2 : wellFormedAt P.W T2.nNodes (childOf T2.flatTree) h 0 = true := by
      rw [hn2, hc2]; exact hwf
    obtain ⟨t3, hrefit2, hrel2, hgood2, hwf3⟩ := refit_spec P G T2 h hwf2
    refine ⟨_, hrefit2, ?_⟩
    intro j w hreach hleaf hw hp
    have hco1 : childOf t1 = childOf T.flatTree := hrel.childOf_eq
    have hco3 : childOf t3 = childOf T.flatTree := hrel2.childOf_eq.trans hc2
    have hc1 : (t1 j).child = (T.flatTree j).child := (hrel j).1
    have hc3 : (t3 j).child = (T.flatTree j).child := by
      have := (hrel2 j).1
      rw [this]
      funext w
      exact congrFun (congrFun hc2 j) w
    have hint : ¬ (T.flatTree j).child 0 < 0 := (isLeafNode_eq_false_iff _).mp hleaf
    obtain ⟨k1, _, _, hwfc1, _, hread1⟩ :=
      Pass.Good.slot (S := refitPass P G T.primitives) (t := t1) (by rw [hco1]; exact hreach)
        hwf1 hgood (by rw [hc1]; exact hint) hw (by rw [hc1]; exact hp)
    rw [hp2] at hgood2
    rw [hn2] at hwf3
    obtain ⟨k3, _, _, hwfc3, _, hread3⟩ :=
      Pass.Good.slot (S := refitPass P G T.primitives) (t := t3) (by rw [hco3]; exact hreach)
        hwf3 hgood2 (by rw [hc3]; exact hint) hw (by rw [hc3]; exact hp)
    rw [hco1, hc1] at hwfc1 hread1
    rw [hco3, hc3] at hwfc3 hread3
    have hval := (refitPass P G T.primitives).value_indep T.nNodes (childOf T.flatTree) k3 k1 _
      hwfc3 hwfc1
    have hreadeq : (refitPass P G T.primitives).read (t3 j) w =
        (refitPass P G T.primitives).read (t1 j) w := by
      rw [hread3, hread1, hval]
    exact ⟨congrArg Prod.fst hreadeq, congrArg Prod.snd hreadeq⟩

set_option maxRecDepth 100000 in
/-- Witness for C6: the scene. -/
theorem refit_idempotent_witness :
    wellFormedAt sceneParams.W sceneMbvh.nNodes (childOf sceneMbvh.flatTree) 2 0 = true ∧
      ∃ T1, refit sceneParams sceneGeomOps 2 sceneMbvh = some T1 ∧
        refit sceneParams sceneGeomOps 2 T1 = some T1 := by
  have hw : wellFormedAt sceneParams.W sceneMbvh.nNodes (childOf sceneMbvh.flatTree) 2 0 = true := by
    decide
  obtain ⟨T1, h1, h2, _⟩ := refit_idempotent sceneParams sceneGeomOps sceneMbvh 2 hw
  exact ⟨hw, T1, h1, h2⟩

end RefitIdempotent

/-! ### Coefficient update -/

section FoldInvariants

theorem foldl_invariant {S X : Type} (f : S → X → S) (J : S → Prop) :
    ∀ (l : List X) (s : S), (∀ s y, y ∈ l → J s → J (f s y)) → J s → J (l.foldl f s) := by
  intro l
  induction l with
  | nil => intro s _ h; exact h
  | cons x l ih =>
    intro s hstep h
    rw [List.foldl_cons]
    exact ih _ (fun s y hy => hstep s y (List.mem_cons_of_mem _ hy))
      (hstep s x (List.mem_cons_self _ _) h)

theorem foldl_establish {S X : Type} (f : S → X → S) (J Q : S → Prop) (x : X) :
    ∀ (l : List X) (s : S), (∀ s y, y ∈ l → J s → J (f s y)) → (∀ s, J s → Q (f s x)) →
      (∀ s y, y ∈ l → J s → Q s → Q (f s y)) → x ∈ l → J s → Q (l.foldl f s) := by
  intro l
  induction l with
  | nil => intro s _ _ _ hx; simp at hx
  | cons y l ih =>
    intro s hJ hest hstable hx h
    rw [List.foldl_cons]
    have hJ' : ∀ s z, z ∈ l → J s → J (f s z) :=
      fun s z hz => hJ s z (List.mem_cons_of_mem _ hz)
    have hstable' : ∀ s z, z ∈ l → J s → Q s → Q (f s z) :=
      fun s z hz => hstable s z (List.mem_cons_of_mem _ hz)
    have hJy : J (f s y) := hJ s y (List.mem_cons_self _ _) h
    rcases List.mem_cons.mp hx with e | hx'
    · subst e
      have hq : Q (f s x) := hest s h
      have := foldl_invariant f (fun s => J s ∧ Q s) l (f s x)
        (fun s z hz hs => ⟨hJ' s z hz hs.1, hstable' s z hz hs.1 hs.2⟩) ⟨hJy, hq⟩
      exact this.2
    · exact ih _ hJ' hest hstable' hx' hJy

end FoldInvariants

section UpdateFrame

variable {α : Type} [LinearOrderedField α] {D : Nat}

theorem updateLeafLane_frame (T : RobinMbvh α D) (WIDTH : Nat) (minV maxV : Int → α)
    (leafOffset referenceOffset : Int)
    (st : (Int → RobinPrimitive α D) × (Int → MbvhLeafNode α D)) (p : Nat)
    (h : FirstPassFrame T st) :
    FirstPassFrame T (updateLeafLane WIDTH minV maxV leafOffset referenceOffset st p) := by
  unfold updateLeafLane
  refine ⟨fun r => ?_, fun r => ?_⟩
  · simp only
    by_cases hr : r = referenceOffset + (p : Int)
    · subst hr
      simp only [Function.update_same]
      exact h.1 _
    · simp only [Function.update_noteq hr]
      exact h.1 r
  · simp only
    by_cases hr : r = leafOffset + ((p / WIDTH : Nat) : Int)
    · subst hr
      simp only [Function.update_same]
      exact h.2 _
    · simp only [Function.update_noteq hr]
      exact h.2 r

theorem updateLeafCoefficients_frame (T : RobinMbvh α D) (WIDTH : Nat) (minV maxV : Int → α)
    (flatTree : Int → RobinMbvhNode α D)
    (st : (Int → RobinPrimitive α D) × (Int → MbvhLeafNode α D)) (i : Nat)
    (h : FirstPassFrame T st) :
    FirstPassFrame T (updateLeafCoefficients WIDTH minV maxV flatTree st i) := by
  unfold updateLeafCoefficients
  simp only
  split
  · exact foldl_invariant _ (FirstPassFrame T) _ _
      (fun s p _ hs => updateLeafLane_frame T WIDTH minV maxV _ _ s p hs) h
  · exact h

theorem updatePrimitiveCoefficients_frame (P : Params α) (minV maxV : Int → α)
    (T : RobinMbvh α D) : FirstPassFrame T (updatePrimitiveCoefficients P minV maxV T) := by
  unfold updatePrimitiveCoefficients
  refine foldl_invariant _ (FirstPassFrame T) _ _
    (fun s i _ hs => updateLeafCoefficients_frame T P.WIDTH minV maxV T.flatTree s i hs) ?_
  exact ⟨fun r => ⟨rfl, rfl, rfl, rfl, rfl⟩, fun r => ⟨rfl, rfl, rfl, rfl, rfl⟩⟩

/-- Result of `updateRobinCoefficients` on a well-formed tree. -/
theorem updateRobinCoefficients_spec (P : Params α) (minV maxV : Int → α) (T : RobinMbvh α D)
    (h : Nat) (hwf : wellFormedAt P.W T.nNodes (childOf T.flatTree) h 0 = true) :
    ∃ t1,
      updateRobinCoefficients P h minV maxV T =
        some { T with
          primitives := (updatePrimitiveCoefficients P minV maxV T).1
          leafNodes := (updatePrimitiveCoefficients P minV maxV T).2
          flatTree := t1 } ∧
      (∃ v, (updatePass P (updatePrimitiveCoefficients P minV maxV T).1).run h T.flatTree 0 =
        some (t1, v)) ∧
      (updatePass P (updatePrimitiveCoefficients P minV maxV T).1).Rel T.nNodes T.flatTree t1 ∧
      (updatePass P (updatePrimitiveCoefficients P minV maxV T).1).Good h t1 0 ∧
      wellFormedAt P.W T.nNodes (childOf t1) h 0 = true := by
  obtain ⟨t1, hrun, hrel, hgood⟩ :=
    (updatePass P (updatePrimitiveCoefficients P minV maxV T).1).run_spec
      (updatePass_lawful P _) T.nNodes h T.flatTree 0 hwf
  refine ⟨t1, ?_, ⟨_, hrun⟩, hrel, hgood, by rw [hrel.childOf_eq]; exact hwf⟩
  have hn : T.nNodes > 0 := by
    cases h with
    | zero => simp [wellFormedAt] at hwf
    | succ h =>
      rw [wellFormedAt_succ_iff] at hwf
      exact hwf.2.1
  unfold updateRobinCoefficients
  simp only [hn, if_true, updateRobinCoefficientsRecursive_eq_run, hrun]

/-- C5: `updateRobinCoefficients` changes no geometry and no topology. On a
well-formed tree it returns a tree in which every node has the same `boxMin`,
`boxMax`, `coneAxis`, `coneHalfAngle`, `coneRadius` and `child` as before,
every leaf record the same positions, normals, adjacency and ignore flags and
`primitiveIndex`, every primitive the same geometry, flags and external
index, and every node the same `minRobinCoeff` and `maxRobinCoeff` in the
lanes that are not present slots below the branching factor. -/
theorem updateRobinCoefficients_frame (P : Params α) (minV maxV : Int → α) (T : RobinMbvh α D)
    (h : Nat) (hwf : wellFormedAt P.W T.nNodes (childOf T.flatTree) h 0 = true) :
    ∃ T1, updateRobinCoefficients P h minV maxV T = some T1 ∧
      T1.nNodes = T.nNodes ∧
      T1.primitiveTypeSupportsVectorizedQueries = T.primitiveTypeSupportsVectorizedQueries ∧
      (∀ j, (T1.flatTree j).boxMin = (T.flatTree j).boxMin ∧
        (T1.flatTree j).boxMax = (T.flatTree j).boxMax ∧
        (T1.flatTree j).coneAxis = (T.flatTree j).coneAxis ∧
        (T1.flatTree j).coneHalfAngle = (T.flatTree j).coneHalfAngle ∧
        (T1.flatTree j).coneRadius = (T.flatTree j).coneRadius ∧
        (T1.flatTree j).child = (T.flatTree j).child) ∧
      (∀ r, (T1.leafNodes r).positions = (T.leafNodes r).positions ∧
        (T1.leafNodes r).normals = (T.leafNodes r).normals ∧
        (T1.leafNodes r).primitiveIndex = (T.leafNodes r).primitiveIndex ∧
        (T1.leafNodes r).hasAdjacentFace = (T.leafNodes r).hasAdjacentFace ∧
        (T1.leafNodes r).ignoreAdjacentFace = (T.leafNodes r).ignoreAdjacentFace) ∧
      (∀ r, (T1.primitives r).positions = (T.primitives r).positions ∧
        (T1.primitives r).n = (T.primitives r).n ∧
        (T1.primitives r).hasAdjacentFace = (T.primitives r).hasAdjacentFace ∧
        (T1.primitives r).ignoreAdjacentFace = (T.primitives r).ignoreAdjacentFace ∧
        (T1.primitives r).pIndex = (T.primitives r).pIndex) ∧
      (∀ j w, (P.W ≤ w ∨ (T.flatTree j).child w = maxInt) →
        (T1.flatTree j).minRobinCoeff w = (T.flatTree j).minRobinCoeff w ∧
          (T1.flatTree j).maxRobinCoeff w = (T.flatTree j).maxRobinCoeff w) := by
  obtain ⟨t1, hupd, ⟨v, hrun⟩, hrel, _, _⟩ := updateRobinCoefficients_spec P minV maxV T h hwf
  have hframe := updatePrimitiveCoefficients_frame P minV maxV T
  refine ⟨_, hupd, rfl, rfl, ?_, hframe.2, hframe.1, ?_⟩
  · intro j
    have hobs := (updatePass P (updatePrimitiveCoefficients P minV maxV T).1).run_frame
      (fun n => (n.boxMin, n.boxMax, n.coneAxis, n.coneHalfAngle, n.coneRadius, n.child))
      (fun _ _ _ => rfl) h T.flatTree t1 0 v hrun j
    simp only [Prod.mk.injEq] at hobs
    exact hobs
  · intro j w hw
    rcases (hrel j).2 w with e | ⟨k, hlt, hp, _, _⟩
    · simp only [updatePass, Prod.mk.injEq] at e
      exact e
    · rcases hw with hw | hw
      · exact absurd hlt (Nat.not_lt.mpr hw)
      · exact absurd hw hp

set_option maxRecDepth 100000 in
/-- Witness for C5: the scene, with new coefficients `(1, 2)`, `(3, 4)`, `(5, 6)`
for the external indices 0, 1, 2. -/
theorem updateRobinCoefficients_frame_witness :
    wellFormedAt sceneParams.W sceneMbvh.nNodes (childOf sceneMbvh.flatTree) 2 0 = true ∧
      ∃ T1, updateRobinCoefficients sceneParams 2 (fun i => 2 * (i : ℚ) + 1)
          (fun i => 2 * (i : ℚ) + 2) sceneMbvh = some T1 ∧
        (T1.flatTree 0).boxMin = (sceneMbvh.flatTree 0).boxMin ∧
        (T1.flatTree 0).child = (sceneMbvh.flatTree 0).child := by
  have hw : wellFormedAt sceneParams.W sceneMbvh.nNodes (childOf sceneMbvh.flatTree) 2 0 = true := by
    decide
  obtain ⟨T1, h1, _, _, h2, _⟩ := updateRobinCoefficients_frame sceneParams
    (fun i => 2 * (i : ℚ) + 1) (fun i => 2 * (i : ℚ) + 2) sceneMbvh 2 hw
  exact ⟨hw, T1, h1, (h2 0).1, (h2 0).2.2.2.2.2⟩

end UpdateFrame

section UpdatePrimitives

variable {α : Type} [LinearOrderedField α] {D : Nat}

theorem updateLeafLane_establish (T : RobinMbvh α D) (WIDTH : Nat) (minV maxV : Int → α)
    (i p : Nat) (st : (Int → RobinPrimitive α D) × (Int → MbvhLeafNode α D))
    (hJ : FirstPassFrame T st) :
    PrimitiveUpdated T WIDTH minV maxV i p
      (updateLeafLane WIDTH minV maxV (-(T.flatTree i).child 0 - 1) ((T.flatTree i).child 2)
        st p) := by
  have hidx := (hJ.1 ((T.flatTree i).child 2 + (p : Int))).2.2.2.2
  simp [PrimitiveUpdated, updateLeafLane, hidx]

theorem updateLeafLane_stable (T : RobinMbvh α D) (WIDTH : Nat) (minV maxV : Int → α)
    (i p k q : Nat) (st : (Int → RobinPrimitive α D) × (Int → MbvhLeafNode α D))
    (hJ : FirstPassFrame T st) (hQ : PrimitiveUpdated T WIDTH minV maxV i p st)
    (hinj : -(T.flatTree i).child 0 - 1 + ((p / WIDTH : Nat) : Int) =
        -(T.flatTree k).child 0 - 1 + ((q / WIDTH : Nat) : Int) →
      p % WIDTH = q % WIDTH →
      (T.flatTree i).child 2 + (p : Int) = (T.flatTree k).child 2 + (q : Int)) :
    PrimitiveUpdated T WIDTH minV maxV i p
      (updateLeafLane WIDTH minV maxV (-(T.flatTree k).child 0 - 1) ((T.flatTree k).child 2)
        st q) := by
  have hidx := (hJ.1 ((T.flatTree k).child 2 + (q : Int))).2.2.2.2
  obtain ⟨h1, h2, h3⟩ := hQ
  unfold PrimitiveUpdated updateLeafLane
  simp only
  have hprim : ∀ (f : RobinPrimitive α D → α) (g : Int → α),
      f (st.1 ((T.flatTree i).child 2 + (p : Int))) =
        g (T.primitives ((T.flatTree i).child 2 + (p : Int))).pIndex →
      (f { st.1 ((T.flatTree k).child 2 + (q : Int)) with
            minRobinCoeff := minV (st.1 ((T.flatTree k).child 2 + (q : Int))).pIndex,
            maxRobinCoeff := maxV (st.1 ((T.flatTree k).child 2 + (q : Int))).pIndex } =
        g (T.primitives ((T.flatTree k).child 2 + (q : Int))).pIndex) →
      f (Function.update st.1 ((T.flatTree k).child 2 + (q : Int))
          { st.1 ((T.flatTree k).child 2 + (q : Int)) with
            minRobinCoeff := minV (st.1 ((T.flatTree k).child 2 + (q : Int))).pIndex,
            maxRobinCoeff := maxV (st.1 ((T.flatTree k).child 2 + (q : Int))).pIndex }
          ((T.flatTree i).child 2 + (p : Int))) =
        g (T.primitives ((T.flatTree i).child 2 + (p : Int))).pIndex := by
    intro f g hold hnew
    by_cases hr : (T.flatTree i).child 2 + (p : Int) = (T.flatTree k).child 2 + (q : Int)
    · rw [hr, Function.update_same]; exact hnew
    · rw [Function.update_noteq hr]; exact hold
  refine ⟨?_, ?_, ?_⟩
  · exact hprim (fun x => x.minRobinCoeff) minV h1 (by simp only [hidx])
  · exact hprim (fun x => x.maxRobinCoeff) maxV h2 (by simp only [hidx])
  · by_cases hrec : -(T.flatTree i).child 0 - 1 + ((p / WIDTH : Nat) : Int) =
        -(T.flatTree k).child 0 - 1 + ((q / WIDTH : Nat) : Int)
    · rw [hrec, Function.update_same]
      simp only
      by_cases hw : p % WIDTH = q % WIDTH
      · rw [hw, Function.update_same, hidx, hinj hrec hw]
      · rw [Function.update_noteq hw, ← hrec]
        exact h3
    · rw [Function.update_noteq hrec]
      exact h3

theorem updatePrimitiveCoefficients_updated (P : Params α) (minV maxV : Int → α)
    (T : RobinMbvh α D) (hlayout : LeafLayoutInjective P.WIDTH T.nNodes T.flatTree)
    (i p : Nat) (hi : (i : Int) < T.nNodes) (hleaf : (T.flatTree i).child 0 < 0)
    (hp : (p : Int) < (T.flatTree i).child 3) :
    PrimitiveUpdated T P.WIDTH minV maxV i p (updatePrimitiveCoefficients P minV maxV T) := by
  unfold updatePrimitiveCoefficients
  have hmem : ∀ k, k ∈ List.range T.nNodes.toNat → (k : Int) < T.nNodes := by
    intro k hk
    have := List.mem_range.mp hk
    omega
  have hmemp : ∀ (k q : Nat), q ∈ List.range ((T.flatTree k).child 3).toNat →
      (q : Int) < (T.flatTree k).child 3 := by
    intro k q hq
    have := List.mem_range.mp hq
    omega
  refine foldl_establish _ (FirstPassFrame T) (PrimitiveUpdated T P.WIDTH minV maxV i p) i _ _
    ?_ ?_ ?_ ?_ ?_
  · exact fun s k _ hs => updateLeafCoefficients_frame T P.WIDTH minV maxV T.flatTree s k hs
  · intro s hs
    have hl : isLeafNode (T.flatTree i) = true := by simp [isLeafNode, hleaf]
    unfold updateLeafCoefficients
    simp only [hl, if_true]
    refine foldl_establish _ (FirstPassFrame T) (PrimitiveUpdated T P.WIDTH minV maxV i p) p _ _
      ?_ ?_ ?_ ?_ hs
    · exact fun s q _ hs => updateLeafLane_frame T P.WIDTH minV maxV _ _ s q hs
    · exact fun s hs => updateLeafLane_establish T P.WIDTH minV maxV i p s hs
    · intro s q hq hs hQ
      exact updateLeafLane_stable T P.WIDTH minV maxV i p i q s hs hQ
        (hlayout i i p q hi hi hleaf hleaf hp (hmemp i q hq))
    · rw [List.mem_range]; omega
  · intro s k hk hs hQ
    unfold updateLeafCoefficients
    simp only
    split
    · rename_i hl
      have hleafk : (T.flatTree k).child 0 < 0 := by simpa [isLeafNode] using hl
      have := foldl_invariant
        (updateLeafLane P.WIDTH minV maxV (-(T.flatTree k).child 0 - 1) ((T.flatTree k).child 2))
        (fun s => FirstPassFrame T s ∧ PrimitiveUpdated T P.WIDTH minV maxV i p s)
        (List.range ((T.flatTree k).child 3).toNat) s
        (fun s q hq hs =>
          ⟨updateLeafLane_frame T P.WIDTH minV maxV _ _ s q hs.1,
            updateLeafLane_stable T P.WIDTH minV maxV i p k q s hs.1 hs.2
              (hlayout i k p q hi (hmem k hk) hleaf hleafk hp (hmemp k q hq))⟩)
        ⟨hs, hQ⟩
      exact this.2
    · exact hQ
  · rw [List.mem_range]; omega
  · exact ⟨fun r => ⟨rfl, rfl, rfl, rfl, rfl⟩, fun r => ⟨rfl, rfl, rfl, rfl, rfl⟩⟩

/-- C4: after `updateRobinCoefficients(minValues, maxValues)` on a well-formed
tree whose leaf records do not overlap, every primitive referenced by a leaf
node has `minRobinCoeff = minValues[its external index]` and
`maxRobinCoeff = maxValues[its external index]`, and the lane that holds the
`p`-th primitive of a leaf (record `leafOffset + p div WIDTH`, lane
`p mod WIDTH`) has `maxRobinCoeff` equal to that primitive's new
`maxRobinCoeff`. -/
theorem updateRobinCoefficients_primitives (P : Params α) (minV maxV : Int → α)
    (T : RobinMbvh α D) (h : Nat)
    (hwf : wellFormedAt P.W T.nNodes (childOf T.flatTree) h 0 = true)
    (hlayout : LeafLayoutInjective P.WIDTH T.nNodes T.flatTree) :
    ∃ T1, updateRobinCoefficients P h minV maxV T = some T1 ∧
      ∀ (i p : Nat), (i : Int) < T.nNodes → isLeafNode (T.flatTree i) = true →
        (p : Int) < (T.flatTree i).child 3 →
        (T1.primitives ((T.flatTree i).child 2 + (p : Int))).minRobinCoeff =
            minV (T1.primitives ((T.flatTree i).child 2 + (p : Int))).pIndex ∧
          (T1.primitives ((T.flatTree i).child 2 + (p : Int))).maxRobinCoeff =
            maxV (T1.primitives ((T.flatTree i).child 2 + (p : Int))).pIndex ∧
          (T1.leafNodes (-(T.flatTree i).child 0 - 1 + ((p / P.WIDTH : Nat) : Int))).maxRobinCoeff
              (p % P.WIDTH) =
            (T1.primitives ((T.flatTree i).child 2 + (p : Int))).maxRobinCoeff := by
  obtain ⟨t1, hupd, _, _, _, _⟩ := updateRobinCoefficients_spec P minV maxV T h hwf
  refine ⟨_, hupd, ?_⟩
  intro i p hi hleaf hp
  have hleaf' : (T.flatTree i).child 0 < 0 := by simpa [isLeafNode] using hleaf
  obtain ⟨h1, h2, h3⟩ := updatePrimitiveCoefficients_updated P minV maxV T hlayout i p hi hleaf' hp
  have hidx := ((updatePrimitiveCoefficients_frame P minV maxV T).1
    ((T.flatTree i).child 2 + (p : Int))).2.2.2.2
  simp only [hidx]
  exact ⟨h1, h2, h3.trans h2.symm⟩

theorem scene_layout :
    LeafLayoutInjective sceneParams.WIDTH sceneMbvh.nNodes sceneMbvh.flatTree := by
  intro i k p q hi hk hli hlk hp hq hrec hlane
  have hn : sceneMbvh.nNodes = 3 := rfl
  have hW : sceneParams.WIDTH = 4 := rfl
  have hft : sceneMbvh.flatTree = sceneTree := rfl
  rw [hn] at hi hk
  rw [hW] at hrec hlane
  rw [hft] at hli hlk hp hq hrec ⊢
  have hi' : i < 3 := by omega
  have hk' : k < 3 := by omega
  interval_cases i <;> interval_cases k <;>
    simp [sceneTree, sceneLeaf, sceneRoot, defaultNode] at hli hlk hp hq hrec ⊢ <;>
    omega

set_option maxRecDepth 100000 in
/-- Witness for C4: on the scene, with `minValues[i] = 2i + 1` and
`maxValues[i] = 2i + 2`, the second primitive of leaf node 1 (reference 1,
external index 0) gets the pair `(1, 2)` and lane 1 of leaf record 0 gets 2. -/
theorem updateRobinCoefficients_primitives_witness :
    wellFormedAt sceneParams.W sceneMbvh.nNodes (childOf sceneMbvh.flatTree) 2 0 = true ∧
      LeafLayoutInjective sceneParams.WIDTH sceneMbvh.nNodes sceneMbvh.flatTree ∧
      ∃ T1, updateRobinCoefficients sceneParams 2 (fun i => 2 * (i : ℚ) + 1)
          (fun i => 2 * (i : ℚ) + 2) sceneMbvh = some T1 ∧
        ((T1.primitives 1).pIndex, (T1.primitives 1).minRobinCoeff,
          (T1.primitives 1).maxRobinCoeff, (T1.leafNodes 0).maxRobinCoeff 1) = (0, 1, 2, 2) := by
  have hw : wellFormedAt sceneParams.W sceneMbvh.nNodes (childOf sceneMbvh.flatTree) 2 0 = true := by
    decide
  obtain ⟨T1, h1, _⟩ := updateRobinCoefficients_primitives sceneParams
    (fun i => 2 * (i : ℚ) + 1) (fun i => 2 * (i : ℚ) + 2) sceneMbvh 2 hw scene_layout
  have hv : (updateRobinCoefficients sceneParams 2 (fun i => 2 * (i : ℚ) + 1)
      (fun i => 2 * (i : ℚ) + 2) sceneMbvh).map (fun T1 =>
      ((T1.primitives 1).pIndex, (T1.primitives 1).minRobinCoeff,
        (T1.primitives 1).maxRobinCoeff, (T1.leafNodes 0).maxRobinCoeff 1)) =
      some (0, 1, 2, 2) := by decide!
  rw [h1] at hv
  simp only [Option.map_some', Option.some.injEq] at hv
  exact ⟨hw, scene_layout, T1, h1, hv⟩

end UpdatePrimitives

section UpdateRanges

variable {α : Type} [LinearOrderedField α] {D : Nat}

theorem foldl_min_max_pair {X : Type} (f g : X → α) :
    ∀ (l : List X) (a b : α),
      l.foldl (fun (mm : α × α) x => (min mm.1 (f x), max mm.2 (g x))) (a, b) =
        (minOver a (l.map f), maxOver b (l.map g)) := by
  intro l
  induction l with
  | nil => intro a b; rfl
  | cons x l ih =>
    intro a b
    rw [List.foldl_cons, ih]
    rfl

theorem leafRobinCoeffs_eq (P : Params α) (primitives : Int → RobinPrimitive α D)
    (referenceOffset nReferences : Int) :
    leafRobinCoeffs P primitives referenceOffset nReferences =
      (minOver P.maxFloat ((List.range nReferences.toNat).map
          fun (p : Nat) => (primitives (referenceOffset + (p : Int))).minRobinCoeff),
        maxOver P.minFloat ((List.range nReferences.toNat).map
          fun (p : Nat) => (primitives (referenceOffset + (p : Int))).maxRobinCoeff)) := by
  unfold leafRobinCoeffs
  exact foldl_min_max_pair _ _ _ _ _

theorem foldl_if_eq_filter {S X : Type} (c : X → Bool) (F : S → X → S) :
    ∀ (l : List X) (a : S),
      l.foldl (fun v x => if c x = true then F v x else v) a = (l.filter c).foldl F a := by
  intro l
  induction l with
  | nil => intro a; rfl
  | cons x l ih =>
    intro a
    rw [List.foldl_cons, ih]
    by_cases hc : c x = true
    · simp [hc, List.filter_cons]
    · simp [hc, List.filter_cons]

/-- C3: after `updateRobinCoefficients` on a well-formed tree, for every internal
node and every present child slot `w`, `minRobinCoeff[w]` is the minimum and
`maxRobinCoeff[w]` the maximum (seeded with `maxFloat` and `minFloat`) over the
ranges of that child: over the `minRobinCoeff` / `maxRobinCoeff` of the child's
primitives when the child is a leaf, and over the child's own present slots
when the child is internal. -/
theorem updateRobinCoefficients_ranges_tight (P : Params α) (minV maxV : Int → α)
    (T : RobinMbvh α D) (h : Nat)
    (hwf : wellFormedAt P.W T.nNodes (childOf T.flatTree) h 0 = true) :
    ∃ T1, updateRobinCoefficients P h minV maxV T = some T1 ∧
      ∀ j w, Reachable P.W (childOf T1.flatTree) 0 j → isLeafNode (T1.flatTree j) = false →
        w < P.W → (T1.flatTree j).child w ≠ maxInt →
        (isLeafNode (T1.flatTree ((T1.flatTree j).child w)) = true →
          (T1.flatTree j).minRobinCoeff w =
              minOver P.maxFloat
                ((List.range ((T1.flatTree ((T1.flatTree j).child w)).child 3).toNat).map
                  fun (p : Nat) =>
                    (T1.primitives ((T1.flatTree ((T1.flatTree j).child w)).child 2 +
                      (p : Int))).minRobinCoeff) ∧
            (T1.flatTree j).maxRobinCoeff w =
              maxOver P.minFloat
                ((List.range ((T1.flatTree ((T1.flatTree j).child w)).child 3).toNat).map
                  fun (p : Nat) =>
                    (T1.primitives ((T1.flatTree ((T1.flatTree j).child w)).child 2 +
                      (p : Int))).maxRobinCoeff)) ∧
        (isLeafNode (T1.flatTree ((T1.flatTree j).child w)) = false →
          (T1.flatTree j).minRobinCoeff w =
              minOver P.maxFloat
                (((List.range P.W).filter fun v =>
                    decide ((T1.flatTree ((T1.flatTree j).child w)).child v ≠ maxInt)).map
                  fun v => (T1.flatTree ((T1.flatTree j).child w)).minRobinCoeff v) ∧
            (T1.flatTree j).maxRobinCoeff w =
              maxOver P.minFloat
                (((List.range P.W).filter fun v =>
                    decide ((T1.flatTree ((T1.flatTree j).child w)).child v ≠ maxInt)).map
                  fun v => (T1.flatTree ((T1.flatTree j).child w)).maxRobinCoeff v)) := by
  obtain ⟨t1, hupd, _, _, hgood, hwf1⟩ := updateRobinCoefficients_spec P minV maxV T h hwf
  refine ⟨_, hupd, ?_⟩
  intro j w hreach hleaf hw hp
  simp only at hreach hleaf hp ⊢
  have hint : ¬ (t1 j).child 0 < 0 := (isLeafNode_eq_false_iff _).mp hleaf
  obtain ⟨k, _, _, hwfc, hgc, hread⟩ :=
    Pass.Good.slot (S := updatePass P (updatePrimitiveCoefficients P minV maxV T).1) hreach hwf1
      hgood hint hw hp
  have hpair : ((t1 j).minRobinCoeff w, (t1 j).maxRobinCoeff w) =
      (updatePass P (updatePrimitiveCoefficients P minV maxV T).1).value (childOf t1) k
        ((t1 j).child w) := hread
  cases k with
  | zero => simp [wellFormedAt] at hwfc
  | succ k =>
    unfold Pass.value at hpair
    unfold Pass.Good at hgc
    have ec : ∀ v, childOf t1 ((t1 j).child w) v = (t1 ((t1 j).child w)).child v := fun _ => rfl
    have ec0 : childOf t1 ((t1 j).child w) = (t1 ((t1 j).child w)).child := rfl
    refine ⟨?_, ?_⟩
    · intro hl
      have hl' : (t1 ((t1 j).child w)).child 0 < 0 := by simpa [isLeafNode] using hl
      simp only [ec, hl', if_true, ec0] at hpair
      have e := leafRobinCoeffs_eq P (updatePrimitiveCoefficients P minV maxV T).1
        ((t1 ((t1 j).child w)).child 2) ((t1 ((t1 j).child w)).child 3)
      have hpair' := hpair.trans e
      simp only [Prod.mk.injEq] at hpair'
      exact hpair'
    · intro hl
      have hl' : ¬ (t1 ((t1 j).child w)).child 0 < 0 := (isLeafNode_eq_false_iff _).mp hl
      simp only [ec, hl', if_false] at hpair
      have hgs := hgc.resolve_left hl'
      have hfold : (List.range (updatePass P (updatePrimitiveCoefficients P minV maxV T).1).W).foldl
          (fun v x =>
            if (t1 ((t1 j).child w)).child x ≠ maxInt then
              (updatePass P (updatePrimitiveCoefficients P minV maxV T).1).combine v
                ((updatePass P (updatePrimitiveCoefficients P minV maxV T).1).value (childOf t1) k
                  ((t1 ((t1 j).child w)).child x))
            else v)
          (updatePass P (updatePrimitiveCoefficients P minV maxV T).1).init =
          (List.range P.W).foldl
            (fun v x =>
              if decide ((t1 ((t1 j).child w)).child x ≠ maxInt) = true then
                (min v.1 ((t1 ((t1 j).child w)).minRobinCoeff x),
                  max v.2 ((t1 ((t1 j).child w)).maxRobinCoeff x))
              else v)
            (P.maxFloat, P.minFloat) := by
        apply List.foldl_ext
        intro v x hx
        have hx' : x < P.W := List.mem_range.mp hx
        by_cases hpx : (t1 ((t1 j).child w)).child x = maxInt
        · simp [hpx]
        · have hr := (hgs x hx' hpx).1
          simp only [ne_eq, hpx, not_false_eq_true, if_true, decide_True]
          rw [← hr]
          rfl
      rw [hfold, foldl_if_eq_filter, foldl_min_max_pair] at hpair
      simp only [Prod.mk.injEq] at hpair
      exact hpair

set_option maxRecDepth 100000 in
/-- Witness for C3: on the scene, with `minValues[i] = 2i + 1` and
`maxValues[i] = 2i + 2`, slot 0 of the root (a leaf with external indices 2
and 0) gets the range `(1, 6)` and slot 1 (external index 1) the range
`(3, 4)`. -/
theorem updateRobinCoefficients_ranges_tight_witness :
    wellFormedAt sceneParams.W sceneMbvh.nNodes (childOf sceneMbvh.flatTree) 2 0 = true ∧
      ∃ T1, updateRobinCoefficients sceneParams 2 (fun i => 2 * (i : ℚ) + 1)
          (fun i => 2 * (i : ℚ) + 2) sceneMbvh = some T1 ∧
        ((T1.flatTree 0).minRobinCoeff 0, (T1.flatTree 0).maxRobinCoeff 0,
          (T1.flatTree 0).minRobinCoeff 1, (T1.flatTree 0).maxRobinCoeff 1) = (1, 6, 3, 4) := by
  have hw : wellFormedAt sceneParams.W sceneMbvh.nNodes (childOf sceneMbvh.flatTree) 2 0 = true := by
    decide
  obtain ⟨T1, h1, _⟩ := updateRobinCoefficients_ranges_tight sceneParams
    (fun i => 2 * (i : ℚ) + 1) (fun i => 2 * (i : ℚ) + 2) sceneMbvh 2 hw
  have hv : (updateRobinCoefficients sceneParams 2 (fun i => 2 * (i : ℚ) + 1)
      (fun i => 2 * (i : ℚ) + 2) sceneMbvh).map (fun T1 =>
      ((T1.flatTree 0).minRobinCoeff 0, (T1.flatTree 0).maxRobinCoeff 0,
        (T1.flatTree 0).minRobinCoeff 1, (T1.flatTree 0).maxRobinCoeff 1)) =
      some (1, 6, 3, 4) := by decide!
  rw [h1] at hv
  simp only [Option.map_some', Option.some.injEq] at hv
  exact ⟨hw, T1, h1, hv⟩

end UpdateRanges

section SeedNeutral

variable {α : Type} [LinearOrder α]

theorem minOver_eq_seed_or_mem (s : α) (xs : List α) : minOver s xs = s ∨ minOver s xs ∈ xs := by
  unfold minOver
  induction xs generalizing s with
  | nil => exact Or.inl rfl
  | cons x xs ih =>
    rw [List.foldl_cons]
    rcases ih (min s x) with e | e
    · rcases min_choice s x with c | c
      · exact Or.inl (e.trans c)
      · exact Or.inr (by rw [e, c]; exact List.mem_cons_self _ _)
    · exact Or.inr (List.mem_cons_of_mem _ e)

theorem maxOver_eq_seed_or_mem (s : α) (xs : List α) : maxOver s xs = s ∨ maxOver s xs ∈ xs := by
  unfold maxOver
  induction xs generalizing s with
  | nil => exact Or.inl rfl
  | cons x xs ih =>
    rw [List.foldl_cons]
    rcases ih (max s x) with e | e
    · rcases max_choice s x with c | c
      · exact Or.inl (e.trans c)
      · exact Or.inr (by rw [e, c]; exact List.mem_cons_self _ _)
    · exact Or.inr (List.mem_cons_of_mem _ e)

/-- The seed is neutral on a non-empty list of floats, none of which exceeds
it: the seeded minimum is then the least element of the list. -/
theorem minOver_isLeast (s : α) (xs : List α) (hne : xs ≠ []) (hle : ∀ x ∈ xs, x ≤ s) :
    minOver s xs ∈ xs ∧ ∀ x ∈ xs, minOver s xs ≤ x := by
  refine ⟨?_, fun x hx => minOver_le_of_mem s xs x hx⟩
  rcases minOver_eq_seed_or_mem s xs with e | e
  · obtain ⟨y, hy⟩ := List.exists_mem_of_ne_nil xs hne
    have h1 : minOver s xs ≤ y := minOver_le_of_mem s xs y hy
    have h2 : y = s := le_antisymm (hle y hy) (by rw [← e]; exact h1)
    rw [e, ← h2]
    exact hy
  · exact e

/-- The seed is neutral on a non-empty list of floats, none of which is below
it: the seeded maximum is then the greatest element of the list. -/
theorem maxOver_isGreatest (s : α) (xs : List α) (hne : xs ≠ []) (hle : ∀ x ∈ xs, s ≤ x) :
    maxOver s xs ∈ xs ∧ ∀ x ∈ xs, x ≤ maxOver s xs := by
  refine ⟨?_, fun x hx => le_maxOver_of_mem s xs x hx⟩
  rcases maxOver_eq_seed_or_mem s xs with e | e
  · obtain ⟨y, hy⟩ := List.exists_mem_of_ne_nil xs hne
    have h1 : y ≤ maxOver s xs := le_maxOver_of_mem s xs y hy
    have h2 : y = s := le_antisymm (by rw [← e]; exact h1) (hle y hy)
    rw [e, ← h2]
    exact hy
  · exact e

end SeedNeutral

/-! ### Degenerate upper bound: no candidate radius is pruned -/

section DegenerateUpper

variable {α : Type} [LinearOrderedField α] {D : Nat}

/-- Clearing lane `w` of the mask does not change the running minimum of the
generic enqueue loop when `tMax w` is at least that minimum. -/
theorem enqueueLane_fold_drop_lane (child : Nat → Int) (tMin tMax : Nat → α)
    (hasSilhouettes mask : Nat → Bool) (w : Nat) :
    ∀ (l : List Nat) (st st1 : EnqueueState α), st.tMaxMin = st1.tMaxMin →
      st.tMaxMin ≤ tMax w →
      (l.foldl (enqueueLane child tMin tMax hasSilhouettes mask) st).tMaxMin =
        (l.foldl (enqueueLane child tMin tMax hasSilhouettes
          (fun v => mask v && decide (v ≠ w))) st1).tMaxMin := by
  intro l
  induction l with
  | nil => intro st st1 h _; simpa using h
  | cons v l ih =>
    intro st st1 h hle
    simp only [List.foldl_cons]
    apply ih
    · by_cases hv : v = w
      · subst hv
        by_cases hm : mask v = true
        · have : (enqueueLane child tMin tMax hasSilhouettes mask st v).tMaxMin =
              min st.tMaxMin (tMax v) := by
            simp only [enqueueLane, hm, if_true]; split <;> rfl
          rw [this, min_eq_left hle]
          simp [enqueueLane, h]
        · simp [enqueueLane, hm, h]
      · by_cases hm : mask v = true
        · have h1 : (enqueueLane child tMin tMax hasSilhouettes mask st v).tMaxMin =
              min st.tMaxMin (tMax v) := by
            simp only [enqueueLane, hm, if_true]; split <;> rfl
          have h2 : (enqueueLane child tMin tMax hasSilhouettes
              (fun v => mask v && decide (v ≠ w)) st1 v).tMaxMin = min st1.tMaxMin (tMax v) := by
            simp only [enqueueLane, hm, hv, ne_eq, not_false_eq_true, decide_True, Bool.and_self,
              if_true]
            split <;> rfl
          rw [h1, h2, h]
        · simp [enqueueLane, hm, h]
    · exact le_trans (enqueueLane_tMaxMin_le child tMin tMax hasSilhouettes mask st v) hle

/-- Clearing lane `w` of the mask does not change the running minimum of the
4-wide enqueue loop when `tMax w` is at least that minimum. -/
theorem enqueueLane4_fold_drop_lane (child : Nat → Int) (tMin tMax : Nat → α)
    (hasSilhouettes mask : Nat → Bool) (w : Nat) :
    ∀ (l : List Nat) (st st1 : List (TraversalStack α) × α), st.2 = st1.2 →
      st.2 ≤ tMax w →
      (l.foldl (enqueueLane4 child tMin tMax hasSilhouettes mask) st).2 =
        (l.foldl (enqueueLane4 child tMin tMax hasSilhouettes
          (fun v => mask v && decide (v ≠ w))) st1).2 := by
  intro l
  induction l with
  | nil => intro st st1 h _; simpa using h
  | cons v l ih =>
    intro st st1 h hle
    simp only [List.foldl_cons]
    apply ih
    · by_cases hv : v = w
      · subst hv
        by_cases hm : mask v = true
        · simp [enqueueLane4, hm, ← h]; exact hle
        · simp [enqueueLane4, hm, h]
      · by_cases hm : mask v = true
        · simp [enqueueLane4, hm, hv, h]
        · simp [enqueueLane4, hm, h]
    · exact le_trans (enqueueLane4_tMaxMin_le child tMin tMax hasSilhouettes mask st v) hle

theorem enqueueNodes_snd (WIDTH : Nat) (child : Nat → Int) (tMin tMax : Nat → α)
    (hasSilhouettes mask : Nat → Bool) (minDist tMaxMin : α)
    (subtree : List (TraversalStack α)) :
    (enqueueNodes WIDTH child tMin tMax hasSilhouettes mask minDist tMaxMin subtree).2 =
      ((List.range WIDTH).foldl (enqueueLane child tMin tMax hasSilhouettes mask)
        { subtree := subtree, tMaxMin := tMaxMin, minDist := minDist,
          closestIndex := -1 }).tMaxMin := by
  simp only [enqueueNodes]
  split <;> rfl

/-- When the mask of the upper bound is set, the bound is at least every
squared radius `r2 ≤ maxFloat`, and a child whose `tMax` is that bound does
not shrink the running squared radius in either version of `enqueueNodes`. -/
theorem degenerate_max_bound_withRcp (E : QueryOps α D) (r : α → α) (maxFloat : α)
    (rMin rMax minRobinCoeff maxRobinCoeff minCosTheta maxCosTheta : Nat → α) (w : Nat)
    (r2 : α) (hM : 1 ≤ maxFloat) (hr2 : r2 ≤ maxFloat)
    (hdeg : rMin w < maxCosTheta w * r (minRobinCoeff w)) :
    r2 ≤ RobinMbvhNodeBound3.WithRcp.computeMaxSquaredStarRadiusBound r maxFloat rMin rMax
        minRobinCoeff maxRobinCoeff minCosTheta maxCosTheta w ∧
    min r2 (RobinMbvhNodeBound3.WithRcp.computeMaxSquaredStarRadiusBound r maxFloat rMin rMax
        minRobinCoeff maxRobinCoeff minCosTheta maxCosTheta w) = r2 ∧
    ∀ (WIDTH : Nat) (child : Nat → Int) (tMin tMax : Nat → α)
      (hasSilhouettes mask : Nat → Bool) (minDist : α) (subtree : List (TraversalStack α)),
      tMax w = RobinMbvhNodeBound3.WithRcp.computeMaxSquaredStarRadiusBound r maxFloat rMin rMax
        minRobinCoeff maxRobinCoeff minCosTheta maxCosTheta w →
      (enqueueNodes WIDTH child tMin tMax hasSilhouettes mask minDist r2 subtree).2 =
        (enqueueNodes WIDTH child tMin tMax hasSilhouettes
          (fun v => mask v && decide (v ≠ w)) minDist r2 subtree).2 ∧
      (enqueueNodes4 E child tMin tMax hasSilhouettes mask minDist r2 subtree).2 =
        (enqueueNodes4 E child tMin tMax hasSilhouettes
          (fun v => mask v && decide (v ≠ w)) minDist r2 subtree).2 := by
  have hb := bound3_max_sentinel_withRcp r maxFloat rMin rMax minRobinCoeff maxRobinCoeff
    minCosTheta maxCosTheta w hdeg
  have hM0 : 0 ≤ maxFloat := le_trans zero_le_one hM
  have hle : r2 ≤ maxFloat * maxFloat :=
    le_trans hr2 (le_mul_of_one_le_left hM0 hM)
  rw [hb]
  refine ⟨hle, min_eq_left hle, ?_⟩
  intro WIDTH child tMin tMax hasSilhouettes mask minDist subtree htMax
  constructor
  · rw [enqueueNodes_snd, enqueueNodes_snd]
    exact enqueueLane_fold_drop_lane child tMin tMax hasSilhouettes mask w _ _ _ rfl
      (by rw [htMax]; exact hle)
  · simp only [enqueueNodes4]
    exact enqueueLane4_fold_drop_lane child tMin tMax hasSilhouettes mask w _ _ _ rfl
      (by rw [htMax]; exact hle)

/-- C11: in 3-D, whenever the degenerate test of the upper bound is true as the
code evaluates it, `rMin w < maxCosTheta w · rcp(minRobinCoeff w)`, for any
reciprocal `rcp` (so also at `minRobinCoeff = 0`, where the reciprocal of the
vector library is `+inf`), the bound returned by
`computeMaxSquaredStarRadiusBound` is at least every squared radius
`r2 ≤ maxFloat`, so `min r2 bound = r2`; and a child whose `tMax` is that
bound does not shrink the running squared radius in either version of
`enqueueNodes`: the radius after the call is the one obtained with that child
cleared from the mask. In exact arithmetic, for `minRobinCoeff ≠ 0`, the test
is `rMin < maxCosTheta / minRobinCoeff` and the same holds. -/
theorem degenerate_max_bound_prunes_nothing (E : QueryOps α D) (maxFloat : α)
    (rMin rMax minRobinCoeff maxRobinCoeff minCosTheta maxCosTheta : Nat → α) (w : Nat)
    (r2 : α) (hM : 1 ≤ maxFloat) (hr2 : r2 ≤ maxFloat) :
    (∀ r : α → α, rMin w < maxCosTheta w * r (minRobinCoeff w) →
      r2 ≤ RobinMbvhNodeBound3.WithRcp.computeMaxSquaredStarRadiusBound r maxFloat rMin rMax
          minRobinCoeff maxRobinCoeff minCosTheta maxCosTheta w ∧
      min r2 (RobinMbvhNodeBound3.WithRcp.computeMaxSquaredStarRadiusBound r maxFloat rMin rMax
          minRobinCoeff maxRobinCoeff minCosTheta maxCosTheta w) = r2 ∧
      ∀ (WIDTH : Nat) (child : Nat → Int) (tMin tMax : Nat → α)
        (hasSilhouettes mask : Nat → Bool) (minDist : α) (subtree : List (TraversalStack α)),
        tMax w = RobinMbvhNodeBound3.WithRcp.computeMaxSquaredStarRadiusBound r maxFloat rMin
          rMax minRobinCoeff maxRobinCoeff minCosTheta maxCosTheta w →
        (enqueueNodes WIDTH child tMin tMax hasSilhouettes mask minDist r2 subtree).2 =
          (enqueueNodes WIDTH child tMin tMax hasSilhouettes
            (fun v => mask v && decide (v ≠ w)) minDist r2 subtree).2 ∧
        (enqueueNodes4 E child tMin tMax hasSilhouettes mask minDist r2 subtree).2 =
          (enqueueNodes4 E child tMin tMax hasSilhouettes
            (fun v => mask v && decide (v ≠ w)) minDist r2 subtree).2) ∧
    (minRobinCoeff w ≠ 0 → rMin w < maxCosTheta w / minRobinCoeff w →
      r2 ≤ RobinMbvhNodeBound3.computeMaxSquaredStarRadiusBound maxFloat rMin rMax
          minRobinCoeff maxRobinCoeff minCosTheta maxCosTheta w ∧
      min r2 (RobinMbvhNodeBound3.computeMaxSquaredStarRadiusBound maxFloat rMin rMax
          minRobinCoeff maxRobinCoeff minCosTheta maxCosTheta w) = r2 ∧
      ∀ (WIDTH : Nat) (child : Nat → Int) (tMin tMax : Nat → α)
        (hasSilhouettes mask : Nat → Bool) (minDist : α) (subtree : List (TraversalStack α)),
        tMax w = RobinMbvhNodeBound3.computeMaxSquaredStarRadiusBound maxFloat rMin rMax
          minRobinCoeff maxRobinCoeff minCosTheta maxCosTheta w →
        (enqueueNodes WIDTH child tMin tMax hasSilhouettes mask minDist r2 subtree).2 =
          (enqueueNodes WIDTH child tMin tMax hasSilhouettes
            (fun v => mask v && decide (v ≠ w)) minDist r2 subtree).2 ∧
        (enqueueNodes4 E child tMin tMax hasSilhouettes mask minDist r2 subtree).2 =
          (enqueueNodes4 E child tMin tMax hasSilhouettes
            (fun v => mask v && decide (v ≠ w)) minDist r2 subtree).2) := by
  refine ⟨fun r hdeg => degenerate_max_bound_withRcp E r maxFloat rMin rMax minRobinCoeff
    maxRobinCoeff minCosTheta maxCosTheta w r2 hM hr2 hdeg, ?_⟩
  intro _ hdeg
  exact degenerate_max_bound_withRcp E rcp maxFloat rMin rMax minRobinCoeff
    maxRobinCoeff minCosTheta maxCosTheta w r2 hM hr2
    (by rw [rcp, ← div_eq_mul_inv]; exact hdeg)

/-- Witness for C11. A Robin slot with `minRobinCoeff = 0`, `rMin = 3`,
`rMax = 5`, `maxCosTheta = 1`, `maxFloat = 1000` and running radius
`r2 = 100`, with a reciprocal whose value at zero is `1000000`: the test
`3 < 1 · 1000000` is true and the bound is at least 100. In exact arithmetic,
`minRobinCoeff = 1/8` (so `3 < 8`). -/
theorem degenerate_max_bound_prunes_nothing_witness :
    (((1 : ℚ) ≤ 1000 ∧ (100 : ℚ) ≤ 1000 ∧ (3 : ℚ) < 1 * rcpWith 1000000 0) ∧
      (100 : ℚ) ≤ RobinMbvhNodeBound3.WithRcp.computeMaxSquaredStarRadiusBound
        (rcpWith 1000000) (1000 : ℚ) (fun _ => 3) (fun _ => 5) (fun _ => 0) (fun _ => 1)
        (fun _ => 1) (fun _ => 1) 0 ∧
      min (100 : ℚ) (RobinMbvhNodeBound3.WithRcp.computeMaxSquaredStarRadiusBound
        (rcpWith 1000000) (1000 : ℚ) (fun _ => 3) (fun _ => 5) (fun _ => 0) (fun _ => 1)
        (fun _ => 1) (fun _ => 1) 0) = 100) ∧
    (((1 : ℚ) / 8 ≠ 0 ∧ (3 : ℚ) < 1 / (1 / 8)) ∧
      (100 : ℚ) ≤ RobinMbvhNodeBound3.computeMaxSquaredStarRadiusBound (1000 : ℚ) (fun _ => 3)
        (fun _ => 5) (fun _ => 1 / 8) (fun _ => 1 / 8) (fun _ => 1) (fun _ => 1) 0 ∧
      min (100 : ℚ) (RobinMbvhNodeBound3.computeMaxSquaredStarRadiusBound (1000 : ℚ)
        (fun _ => 3) (fun _ => 5) (fun _ => 1 / 8) (fun _ => 1 / 8) (fun _ => 1)
        (fun _ => 1) 0) = 100) :=
  have h0 := (degenerate_max_bound_prunes_nothing sceneQueryOps (1000 : ℚ) (fun _ => 3)
    (fun _ => 5) (fun _ => 0) (fun _ => 1) (fun _ => 1) (fun _ => 1) 0 100
    (by norm_num) (by norm_num)).1 (rcpWith 1000000) (by norm_num [rcpWith])
  have h := (degenerate_max_bound_prunes_nothing sceneQueryOps (1000 : ℚ) (fun _ => 3)
    (fun _ => 5) (fun _ => 1 / 8) (fun _ => 1 / 8) (fun _ => 1) (fun _ => 1) 0 100
    (by norm_num) (by norm_num)).2 (by norm_num) (by norm_num)
  ⟨⟨⟨by norm_num, by norm_num, by norm_num [rcpWith]⟩, h0.1, h0.2.1⟩,
    ⟨⟨by norm_num, by norm_num⟩, h.1, h.2.1⟩⟩

end DegenerateUpper

/-! ### Unsupported dimensions and the factory -/

section FactoryClaims

variable {α : Type} [LinearOrderedField α] {D : Nat}

/-- C12: for every dimension other than 2 and 3 and every input, both
`computeMinSquaredStarRadiusBound` and `computeMaxSquaredStarRadiusBound` of
the Radius-Bound Strategy end in `exit(EXIT_FAILURE)` after writing a
diagnostic that names the dimension; neither returns a value, in particular
not the packet 0 of the unreachable `return 0.0f`. -/
theorem unsupported_dimension_fails (DIM : Nat) (h2 : DIM ≠ 2) (h3 : DIM ≠ 3) (exp : α → α)
    (maxFloat : α) (rMin rMax minRobinCoeff maxRobinCoeff minCosTheta maxCosTheta : Nat → α) :
    (nodeBoundMin DIM exp maxFloat rMin rMax minRobinCoeff maxRobinCoeff minCosTheta maxCosTheta =
      Except.error
        { cerr := "RobinMbvhNodeBound::computeMinSquaredStarRadiusBound(): DIM: " ++
            toString DIM ++ " not supported\n",
          status := EXIT_FAILURE }) ∧
    (nodeBoundMax DIM exp maxFloat rMin rMax minRobinCoeff maxRobinCoeff minCosTheta maxCosTheta =
      Except.error
        { cerr := "RobinMbvhNodeBound::computeMaxSquaredStarRadiusBound(): DIM: " ++
            toString DIM ++ " not supported\n",
          status := EXIT_FAILURE }) ∧
    EXIT_FAILURE ≠ 0 ∧
    (∀ v : Nat → α,
      nodeBoundMin DIM exp maxFloat rMin rMax minRobinCoeff maxRobinCoeff minCosTheta
          maxCosTheta ≠ Except.ok v ∧
      nodeBoundMax DIM exp maxFloat rMin rMax minRobinCoeff maxRobinCoeff minCosTheta
          maxCosTheta ≠ Except.ok v) ∧
    nodeBoundMin DIM exp maxFloat rMin rMax minRobinCoeff maxRobinCoeff minCosTheta
        maxCosTheta ≠ Except.ok (fun _ => 0) ∧
    nodeBoundMax DIM exp maxFloat rMin rMax minRobinCoeff maxRobinCoeff minCosTheta
        maxCosTheta ≠ Except.ok (fun _ => 0) := by
  have hmin : nodeBoundMin DIM exp maxFloat rMin rMax minRobinCoeff maxRobinCoeff minCosTheta
      maxCosTheta = Except.error
        { cerr := "RobinMbvhNodeBound::computeMinSquaredStarRadiusBound(): DIM: " ++
            toString DIM ++ " not supported\n",
          status := EXIT_FAILURE } := by
    simp only [nodeBoundMin, h2, h3, if_false,
      RobinMbvhNodeBound.computeMinSquaredStarRadiusBound]
    rfl
  have hmax : nodeBoundMax DIM exp maxFloat rMin rMax minRobinCoeff maxRobinCoeff minCosTheta
      maxCosTheta = Except.error
        { cerr := "RobinMbvhNodeBound::computeMaxSquaredStarRadiusBound(): DIM: " ++
            toString DIM ++ " not supported\n",
          status := EXIT_FAILURE } := by
    simp only [nodeBoundMax, h2, h3, if_false,
      RobinMbvhNodeBound.computeMaxSquaredStarRadiusBound]
    rfl
  refine ⟨hmin, hmax, by decide, ?_, ?_, ?_⟩
  · intro v
    rw [hmin, hmax]
    exact ⟨fun h => (by cases h), fun h => (by cases h)⟩
  · rw [hmin]; intro h; cases h
  · rw [hmax]; intro h; cases h

/-- Witness for C12: dimension 4 over the rationals. -/
theorem unsupported_dimension_fails_witness :
    nodeBoundMin 4 (fun x : ℚ => x) 1000 (fun _ => 3) (fun _ => 5) (fun _ => 1 / 8)
        (fun _ => 1 / 8) (fun _ => 1) (fun _ => 1) =
      Except.error
        { cerr := "RobinMbvhNodeBound::computeMinSquaredStarRadiusBound(): DIM: " ++
            toString 4 ++ " not supported\n",
          status := EXIT_FAILURE } :=
  (unsupported_dimension_fails 4 (by decide) (by decide) (fun x : ℚ => x) 1000 (fun _ => 3)
    (fun _ => 5) (fun _ => 1 / 8) (fun _ => 1 / 8) (fun _ => 1) (fun _ => 1)).1

/-- C13: `createVectorizedRobinBvh` returns the null pointer exactly when the
primitive array is empty; for a non-empty array it returns the tree built by
the constructor and initialised from the scalar hierarchy (after `printStats`
has run on it when the flag is set), and the flag does not change whether a
tree is returned. -/
theorem createVectorizedRobinBvh_null_iff_empty {Bvh Sil : Type} (P : Params α)
    (B : BuildOps α D Bvh Sil) (t1 t2 : Int) (robinBvh : Bvh)
    (primitives : List (RobinPrimitive α D)) (silhouettes : List Sil) (printStats : Bool) :
    ((createVectorizedRobinBvh P B t1 t2 robinBvh primitives silhouettes printStats).1 = none ↔
      primitives = []) ∧
    (∀ (p : RobinPrimitive α D) (ps : List (RobinPrimitive α D)),
      (createVectorizedRobinBvh P B t1 t2 robinBvh (p :: ps) silhouettes false).1 =
        some (B.initialise robinBvh (B.construct (p :: ps) silhouettes)) ∧
      (createVectorizedRobinBvh P B t1 t2 robinBvh (p :: ps) silhouettes true).1 =
        some (B.printStats (B.initialise robinBvh (B.construct (p :: ps) silhouettes))).1) ∧
    ((createVectorizedRobinBvh P B t1 t2 robinBvh primitives silhouettes true).1.isSome =
      (createVectorizedRobinBvh P B t1 t2 robinBvh primitives silhouettes false).1.isSome) ∧
    (createVectorizedRobinBvh P B t1 t2 robinBvh primitives silhouettes false).2 = "" := by
  refine ⟨?_, ?_, ?_, ?_⟩
  · cases primitives with
    | nil => simp [createVectorizedRobinBvh]
    | cons p ps => cases printStats <;> simp [createVectorizedRobinBvh]
  · intro p ps
    simp [createVectorizedRobinBvh]
  · cases primitives with
    | nil => simp [createVectorizedRobinBvh]
    | cons p ps => simp [createVectorizedRobinBvh]
  · cases primitives with
    | nil => simp [createVectorizedRobinBvh]
    | cons p ps => simp [createVectorizedRobinBvh]

end FactoryClaims

/-! ### Shape of the stack after `enqueueNodes` -/

section EnqueueShape

variable {α : Type} [LinearOrderedField α] {D : Nat}

theorem cons_set_perm {β : Type} (x b : β) :
    ∀ (t : List β) (j : Nat), t[j]? = some b → (b :: t.set j x).Perm (x :: t) := by
  intro t
  induction t with
  | nil => intro j h; simp at h
  | cons y t ih =>
    intro j h
    cases j with
    | zero =>
      simp only [List.getElem?_cons_zero, Option.some.injEq] at h
      subst h
      simp only [List.set_cons_zero]
      exact List.Perm.swap _ _ _
    | succ j =>
      simp only [List.getElem?_cons_succ] at h
      simp only [List.set_cons_succ]
      exact ((List.Perm.swap y b _).trans ((ih j h).cons y)).trans (List.Perm.swap x y t)

theorem swapEntries_perm {β : Type} : ∀ (l : List β) (i j : Nat), (swapEntries l i j).Perm l := by
  intro l
  induction l with
  | nil => intro i j; simp [swapEntries]
  | cons x t ih =>
    intro i j
    cases i with
    | zero =>
      cases j with
      | zero => simp [swapEntries]
      | succ j =>
        unfold swapEntries
        cases hb : t[j]? with
        | none => simp [hb]
        | some b =>
          simp only [List.getElem?_cons_zero, List.getElem?_cons_succ, hb, List.set_cons_zero,
            List.set_cons_succ]
          exact cons_set_perm x b t j hb
    | succ i =>
      cases j with
      | zero =>
        unfold swapEntries
        cases ha : t[i]? with
        | none => simp [ha]
        | some a =>
          simp only [List.getElem?_cons_zero, List.getElem?_cons_succ, ha, List.set_cons_zero,
            List.set_cons_succ]
          exact cons_set_perm x a t i ha
      | succ j =>
        have h := ih i j
        unfold swapEntries at h ⊢
        simp only [List.getElem?_cons_succ]
        cases ha : t[i]? with
        | none => simp
        | some a =>
          cases hb : t[j]? with
          | none => simp
          | some b =>
            simp only [ha, hb] at h
            simp only [List.set_cons_succ]
            exact h.cons x

theorem swapEntries_append {β : Type} (base q : List β) (i j : Nat) :
    swapEntries (base ++ q) (base.length + i) (base.length + j) = base ++ swapEntries q i j := by
  unfold swapEntries
  have hi : (base ++ q)[base.length + i]? = q[i]? := by
    rw [List.getElem?_append_right (Nat.le_add_right _ _)]; simp
  have hj : (base ++ q)[base.length + j]? = q[j]? := by
    rw [List.getElem?_append_right (Nat.le_add_right _ _)]; simp
  rw [hi, hj]
  cases ha : q[i]? with
  | none => rfl
  | some a =>
    cases hb : q[j]? with
    | none => rfl
    | some b =>
      simp only
      rw [List.set_append_right _ _ (Nat.le_add_right _ _)]
      rw [List.set_append_right _ _ (by simp)]
      simp

/-- The generic loop appends the entries of the masked lanes, in lane order. -/
theorem enqueueLane_fold_subtree (child : Nat → Int) (tMin tMax : Nat → α)
    (hasSilhouettes mask : Nat → Bool) :
    ∀ (l : List Nat) (st : EnqueueState α),
      (l.foldl (enqueueLane child tMin tMax hasSilhouettes mask) st).subtree =
        st.subtree ++ (l.filter mask).map (stackEntry child tMin hasSilhouettes) := by
  intro l
  induction l with
  | nil => intro st; simp
  | cons v l ih =>
    intro st
    simp only [List.foldl_cons]
    rw [ih]
    by_cases hm : mask v = true
    · have : (enqueueLane child tMin tMax hasSilhouettes mask st v).subtree =
          st.subtree ++ [stackEntry child tMin hasSilhouettes v] := by
        simp only [enqueueLane, hm, if_true]; split <;> rfl
      rw [this]
      simp [List.filter_cons, hm]
    · simp [enqueueLane, hm, List.filter_cons]

/-- The index `closestIndex` stays inside the part of the stack pushed by the call. -/
theorem enqueueLane_fold_closest (child : Nat → Int) (tMin tMax : Nat → α)
    (hasSilhouettes mask : Nat → Bool) (n0 : Nat) :
    ∀ (l : List Nat) (st : EnqueueState α),
      (st.closestIndex = -1 ∨
        ((n0 : Int) ≤ st.closestIndex ∧ st.closestIndex < st.subtree.length)) →
      n0 ≤ st.subtree.length →
      ((l.foldl (enqueueLane child tMin tMax hasSilhouettes mask) st).closestIndex = -1 ∨
        ((n0 : Int) ≤ (l.foldl (enqueueLane child tMin tMax hasSilhouettes mask) st).closestIndex ∧
          (l.foldl (enqueueLane child tMin tMax hasSilhouettes mask) st).closestIndex <
            (l.foldl (enqueueLane child tMin tMax hasSilhouettes mask) st).subtree.length)) := by
  intro l
  induction l with
  | nil => intro st h _; simpa using h
  | cons v l ih =>
    intro st h hn
    simp only [List.foldl_cons]
    by_cases hm : mask v = true
    · by_cases hlt : tMin v < st.minDist
      · apply ih
        · right
          simp only [enqueueLane, hm, hlt, if_true, List.length_append, List.length_singleton]
          push_cast
          constructor <;> omega
        · simp only [enqueueLane, hm, hlt, if_true, List.length_append, List.length_singleton]
          omega
      · apply ih
        · simp only [enqueueLane, hm, hlt, if_true, if_false, List.length_append,
            List.length_singleton]
          rcases h with h | h
          · left; exact h
          · right; push_cast; constructor <;> omega
        · simp only [enqueueLane, hm, hlt, if_true, if_false, List.length_append,
            List.length_singleton]
          omega
    · apply ih
      · simpa [enqueueLane, hm] using h
      · simpa [enqueueLane, hm] using hn

end EnqueueShape

section EnqueueShape2

variable {α : Type} [LinearOrderedField α] {D : Nat}

/-- Generic `enqueueNodes`: the old stack is kept and the entries of the masked
lanes are pushed above it, in some order. -/
theorem enqueueNodes_stack (WIDTH : Nat) (child : Nat → Int) (tMin tMax : Nat → α)
    (hasSilhouettes mask : Nat → Bool) (minDist tMaxMin : α)
    (subtree : List (TraversalStack α)) :
    ∃ pushed : List (TraversalStack α),
      (enqueueNodes WIDTH child tMin tMax hasSilhouettes mask minDist tMaxMin subtree).1 =
        subtree ++ pushed ∧
      pushed.Perm (((List.range WIDTH).filter mask).map
        (stackEntry child tMin hasSilhouettes)) := by
  have hsub := enqueueLane_fold_subtree child tMin tMax hasSilhouettes mask (List.range WIDTH)
    { subtree := subtree, tMaxMin := tMaxMin, minDist := minDist, closestIndex := -1 }
  have hci := enqueueLane_fold_closest child tMin tMax hasSilhouettes mask subtree.length
    (List.range WIDTH)
    { subtree := subtree, tMaxMin := tMaxMin, minDist := minDist, closestIndex := -1 }
    (Or.inl rfl) (le_refl _)
  simp only [enqueueNodes]
  generalize (List.range WIDTH).foldl (enqueueLane child tMin tMax hasSilhouettes mask)
    { subtree := subtree, tMaxMin := tMaxMin, minDist := minDist, closestIndex := -1 } = st
    at hsub hci
  simp only at hsub
  generalize ((List.range WIDTH).filter mask).map (stackEntry child tMin hasSilhouettes) = q
    at hsub
  by_cases hc : st.closestIndex = -1
  · simp only [hc, ne_eq, not_true_eq_false, if_false]
    exact ⟨q, hsub, List.Perm.refl _⟩
  · simp only [hc, ne_eq, not_false_eq_true, if_true]
    rcases hci with h | ⟨h1, h2⟩
    · exact absurd h hc
    · rw [hsub, List.length_append] at h2
      have e1 : (st.subtree.length - 1) = subtree.length + (q.length - 1) := by
        rw [hsub, List.length_append]; push_cast at h2; omega
      have e2 : st.closestIndex.toNat =
          subtree.length + (st.closestIndex.toNat - subtree.length) := by
        omega
      rw [e1, e2, hsub, swapEntries_append]
      exact ⟨_, rfl, swapEntries_perm _ _ _⟩

theorem enqueueLane4_fold_stack (child : Nat → Int) (tMin tMax : Nat → α)
    (hasSilhouettes mask : Nat → Bool) :
    ∀ (l : List Nat) (st : List (TraversalStack α) × α),
      (l.foldl (enqueueLane4 child tMin tMax hasSilhouettes mask) st).1 =
        st.1 ++ (l.filter mask).map (stackEntry child tMin hasSilhouettes) := by
  intro l
  induction l with
  | nil => intro st; simp
  | cons v l ih =>
    intro st
    simp only [List.foldl_cons]
    rw [ih]
    by_cases hm : mask v = true
    · simp [enqueueLane4, List.filter_cons, hm]
    · simp [enqueueLane4, hm, List.filter_cons]

/-- Specialisation `enqueueNodes<4>`: the old stack is kept and the entries of the
masked lanes are pushed above it in the order given by `sortOrder4`. -/
theorem enqueueNodes4_stack (E : QueryOps α D) (child : Nat → Int) (tMin tMax : Nat → α)
    (hasSilhouettes mask : Nat → Bool) (minDist tMaxMin : α)
    (subtree : List (TraversalStack α)) :
    (enqueueNodes4 E child tMin tMax hasSilhouettes mask minDist tMaxMin subtree).1 =
      subtree ++ ((E.sortOrder4 tMin).filter mask).map
        (stackEntry child tMin hasSilhouettes) := by
  simp only [enqueueNodes4]
  exact enqueueLane4_fold_stack child tMin tMax hasSilhouettes mask _ _

theorem stackEntry_distance (child : Nat → Int) (tMin : Nat → α) (hasSilhouettes : Nat → Bool)
    (w : Nat) :
    stackEntry child tMin hasSilhouettes w =
      { node := child w, distance := if hasSilhouettes w = true then tMin w else -tMin w } := by
  unfold stackEntry
  by_cases h : hasSilhouettes w = true <;> simp [h]

end EnqueueShape2

/-! ### Sign of the stored distance -/

section SignedDistance

variable {α : Type} [LinearOrderedField α] {D : Nat}

set_option maxRecDepth 100000 in
/-- C14, counterexample: two children with mask bit set, `child = (5, 7)`, min
bounds `(4, 9)`, `hasSilhouettes = (true, false)`, pushed above the stack
`[(3, 1)]`. Both versions of `enqueueNodes` store `+4` for the child with
`hasSilhouettes` set and `−9` for the other one; the entries `(5, −4)` and
`(7, +9)` of the claim are not on the stack. In the query of the scene the
root pushes its second child, for which `hasSilhouettes` is clear and the min
bound is 36, with the distance `−36`. -/
theorem enqueueNodes_sign_counterexample :
    ((enqueueNodes 2 (fun w => if w = 0 then 5 else 7) (fun w => if w = 0 then (4 : ℚ) else 9)
        (fun _ => 100) (fun w => decide (w = 0)) (fun _ => true) 100 100
        [{ node := 3, distance := 1 }]).1.map (fun e => (e.node, e.distance)) =
      [(3, 1), (7, -9), (5, 4)]) ∧
    ((enqueueNodes4 sceneQueryOps (fun w => if w = 0 then 5 else 7)
        (fun w => if w = 0 then (4 : ℚ) else 9) (fun _ => 100) (fun w => decide (w = 0))
        (fun w => decide (w < 2)) 100 100
        [{ node := 3, distance := 1 }]).1.map (fun e => (e.node, e.distance)) =
      [(3, 1), (7, -9), (5, 4)]) ∧
    ((5, -4) ∉ [((3 : Int), (1 : ℚ)), (7, -9), (5, 4)] ∧
      (7, 9) ∉ [((3 : Int), (1 : ℚ)), (7, -9), (5, 4)]) ∧
    ((visitNodes sceneParams sceneQueryOps sceneMbvh.flatTree sceneSphere.c 100 0).1 1 = true ∧
      (visitNodes sceneParams sceneQueryOps sceneMbvh.flatTree sceneSphere.c 100 0).2.1 1 = 36 ∧
      (visitNodes sceneParams sceneQueryOps sceneMbvh.flatTree sceneSphere.c 100 0).2.2.2 1 =
        false ∧
      (sceneMbvh.flatTree 0).child 1 = 2 ∧
      ((2 : Int), (-36 : ℚ)) ∈
        (traversalStep sceneParams sceneQueryOps sceneMbvh sceneSphere.c false 0
          { subtree := [{ node := 0, distance := 0 }], s := sceneSphere,
            nodesVisited := 0 }).subtree.map (fun e => (e.node, e.distance)) ∧
      ((2 : Int), (36 : ℚ)) ∉
        (traversalStep sceneParams sceneQueryOps sceneMbvh sceneSphere.c false 0
          { subtree := [{ node := 0, distance := 0 }], s := sceneSphere,
            nodesVisited := 0 }).subtree.map (fun e => (e.node, e.distance))) := by
  refine ⟨by decide!, by decide!, ⟨by decide!, by decide!⟩, by decide!, by decide!, by decide!,
    by decide!, by decide!, by decide!⟩

/-- C14, amended: for every child whose mask bit is set, `enqueueNodes` (the
generic version for a lane `w < WIDTH`, the 4-wide version for a lane that
`sortOrder4` returns) keeps the old stack and pushes above it an entry whose
node is that child's index and whose signed distance is `+`(its min bound)
when `hasSilhouettes` is set and `−`(its min bound) otherwise; every pushed
entry is of this form for some lane with mask bit set. -/
theorem enqueueNodes_signed_entry (E : QueryOps α D) (WIDTH : Nat) (child : Nat → Int)
    (tMin tMax : Nat → α) (hasSilhouettes mask : Nat → Bool) (minDist tMaxMin : α)
    (subtree : List (TraversalStack α)) (w : Nat) (hm : mask w = true) :
    (w < WIDTH → ∃ pushed : List (TraversalStack α),
      (enqueueNodes WIDTH child tMin tMax hasSilhouettes mask minDist tMaxMin subtree).1 =
        subtree ++ pushed ∧
      ({ node := child w,
         distance := if hasSilhouettes w = true then tMin w else -tMin w } :
        TraversalStack α) ∈ pushed ∧
      ∀ e ∈ pushed, ∃ v, v < WIDTH ∧ mask v = true ∧ e =
        { node := child v, distance := if hasSilhouettes v = true then tMin v else -tMin v }) ∧
    (w ∈ E.sortOrder4 tMin → ∃ pushed : List (TraversalStack α),
      (enqueueNodes4 E child tMin tMax hasSilhouettes mask minDist tMaxMin subtree).1 =
        subtree ++ pushed ∧
      ({ node := child w,
         distance := if hasSilhouettes w = true then tMin w else -tMin w } :
        TraversalStack α) ∈ pushed ∧
      ∀ e ∈ pushed, ∃ v, v ∈ E.sortOrder4 tMin ∧ mask v = true ∧ e =
        { node := child v, distance := if hasSilhouettes v = true then tMin v else -tMin v }) := by
  constructor
  · intro hw
    obtain ⟨pushed, h1, h2⟩ := enqueueNodes_stack WIDTH child tMin tMax hasSilhouettes mask
      minDist tMaxMin subtree
    refine ⟨pushed, h1, ?_, ?_⟩
    · rw [h2.mem_iff, ← stackEntry_distance]
      exact List.mem_map.mpr ⟨w, List.mem_filter.mpr ⟨List.mem_range.mpr hw, hm⟩, rfl⟩
    · intro e he
      rw [h2.mem_iff] at he
      obtain ⟨v, hv, rfl⟩ := List.mem_map.mp he
      rw [List.mem_filter] at hv
      exact ⟨v, List.mem_range.mp hv.1, hv.2, stackEntry_distance _ _ _ _⟩
  · intro hw
    refine ⟨_, enqueueNodes4_stack E child tMin tMax hasSilhouettes mask minDist tMaxMin subtree,
      ?_, ?_⟩
    · rw [← stackEntry_distance]
      exact List.mem_map.mpr ⟨w, List.mem_filter.mpr ⟨hw, hm⟩, rfl⟩
    · intro e he
      obtain ⟨v, hv, rfl⟩ := List.mem_map.mp he
      rw [List.mem_filter] at hv
      exact ⟨v, hv.1, hv.2, stackEntry_distance _ _ _ _⟩

set_option maxRecDepth 100000 in
/-- Witness for the amended C14: lane 0 of the two children of the
counterexample, in the generic version of width 2. -/
theorem enqueueNodes_signed_entry_witness :
    ∃ pushed : List (TraversalStack ℚ),
      (enqueueNodes 2 (fun w => if w = 0 then 5 else 7) (fun w => if w = 0 then (4 : ℚ) else 9)
        (fun _ => 100) (fun w => decide (w = 0)) (fun _ => true) 100 100
        [{ node := 3, distance := 1 }]).1 = [{ node := 3, distance := 1 }] ++ pushed ∧
      ({ node := 5, distance := 4 } : TraversalStack ℚ) ∈ pushed :=
  have h := (enqueueNodes_signed_entry sceneQueryOps 2 (fun w => if w = 0 then 5 else 7)
    (fun w => if w = 0 then (4 : ℚ) else 9) (fun _ => 100) (fun w => decide (w = 0))
    (fun _ => true) 100 100 [{ node := 3, distance := 1 }] 0 rfl).1 (by decide)
  h.elim fun pushed hp => ⟨pushed, hp.1, hp.2.1⟩

end SignedDistance

/-! ### The pruning rule at the pop -/

section PopRule

variable {α : Type} [LinearOrderedField α] {D : Nat}

/-- The fallback loop over the primitives of a leaf adds one to the count for
each primitive. -/
theorem leafPrimitiveStep_fold_count (E : QueryOps α D) (T : RobinMbvh α D) (flip : Bool)
    (prec currentDist : α) (referenceOffset : Int) :
    ∀ (k : Nat) (st : BoundingSphere α D × Int),
      ((List.range k).foldl (leafPrimitiveStep E T flip prec currentDist referenceOffset) st).2 =
        st.2 + k := by
  intro k
  induction k with
  | zero => intro st; simp
  | succ k ih =>
    intro st
    rw [List.range_succ, List.foldl_append, List.foldl_cons, List.foldl_nil]
    simp only [leafPrimitiveStep]
    rw [ih]
    push_cast
    ring

/-- Number added to `nodesVisited` when the entry for node `nodeIndex` passes the
pruning test: one for an internal node and for a leaf on the batch path, one
per primitive for a leaf on the fallback path. -/
theorem traversalStep_count (P : Params α) (E : QueryOps α D) (T : RobinMbvh α D)
    (sc : Fin D → α) (flip : Bool) (prec : α) (st : TraversalState α D)
    (top : TraversalStack α) (htop : st.subtree.getLast? = some top)
    (hnear : ¬ |top.distance| > st.s.r2) :
    (traversalStep P E T sc flip prec st).nodesVisited =
      st.nodesVisited +
        (if isLeafNode (T.flatTree top.node) = true ∧
            T.primitiveTypeSupportsVectorizedQueries = false
          then (((T.flatTree top.node).child 3).toNat : Int) else 1) := by
  unfold traversalStep
  simp only [htop, hnear, if_false]
  by_cases hl : isLeafNode (T.flatTree top.node) = true
  · by_cases hb : T.primitiveTypeSupportsVectorizedQueries = true
    · simp [hl, hb]
    · simp only [Bool.not_eq_true] at hb
      simp only [hl, hb, if_true, Bool.false_eq_true, if_false, and_self]
      rw [leafPrimitiveStep_fold_count]
  · simp only [Bool.not_eq_true] at hl
    simp only [hl, Bool.false_eq_true, if_false, false_and]
    split <;> rfl

/-- C15: a popped entry is discarded (the squared radius and the visit count
are unchanged and the stack is the old one without its top) if and only if the
absolute value of its stored distance is strictly greater than the current
squared radius; an entry whose magnitude equals the current squared radius is
processed and counted. A leaf that is queried one primitive at a time is
assumed to hold at least one primitive. -/
theorem pop_discarded_iff_far (P : Params α) (E : QueryOps α D) (T : RobinMbvh α D)
    (sc : Fin D → α) (flip : Bool) (prec : α) (st : TraversalState α D)
    (top : TraversalStack α) (htop : st.subtree.getLast? = some top)
    (hleaf : isLeafNode (T.flatTree top.node) = true →
      T.primitiveTypeSupportsVectorizedQueries = false → 0 < (T.flatTree top.node).child 3) :
    (((traversalStep P E T sc flip prec st).s.r2 = st.s.r2 ∧
        (traversalStep P E T sc flip prec st).nodesVisited = st.nodesVisited ∧
        (traversalStep P E T sc flip prec st).subtree = st.subtree.dropLast) ↔
      |top.distance| > st.s.r2) ∧
    (|top.distance| > st.s.r2 →
      traversalStep P E T sc flip prec st = { st with subtree := st.subtree.dropLast }) ∧
    (|top.distance| = st.s.r2 →
      st.nodesVisited < (traversalStep P E T sc flip prec st).nodesVisited) := by
  have hproc : ¬ |top.distance| > st.s.r2 →
      st.nodesVisited < (traversalStep P E T sc flip prec st).nodesVisited := by
    intro hnear
    rw [traversalStep_count P E T sc flip prec st top htop hnear]
    by_cases hc : isLeafNode (T.flatTree top.node) = true ∧
        T.primitiveTypeSupportsVectorizedQueries = false
    · have := hleaf hc.1 hc.2
      simp only [hc, and_self, if_true]
      omega
    · simp only [hc, if_false]
      omega
  refine ⟨⟨?_, ?_⟩, ?_, ?_⟩
  · intro h
    by_contra hnear
    have := hproc hnear
    omega
  · intro hfar
    rw [traversalStep_discard P E T sc flip prec st top htop hfar]
    exact ⟨rfl, rfl, rfl⟩
  · exact traversalStep_discard P E T sc flip prec st top htop
  · intro heq
    exact hproc (by rw [heq]; exact lt_irrefl _)

set_option maxRecDepth 100000 in
/-- Witness for C15: the root entry of the scene query has distance 0, which is
not greater than the squared radius 100, so it is processed and counted. -/
theorem pop_discarded_iff_far_witness :
    (((traversalStep sceneParams sceneQueryOps sceneMbvh sceneSphere.c false 0
          { subtree := [{ node := 0, distance := 0 }], s := sceneSphere,
            nodesVisited := 0 }).s.r2 = sceneSphere.r2 ∧
        (traversalStep sceneParams sceneQueryOps sceneMbvh sceneSphere.c false 0
          { subtree := [{ node := 0, distance := 0 }], s := sceneSphere,
            nodesVisited := 0 }).nodesVisited = 0 ∧
        (traversalStep sceneParams sceneQueryOps sceneMbvh sceneSphere.c false 0
          { subtree := [{ node := 0, distance := 0 }], s := sceneSphere,
            nodesVisited := 0 }).subtree = []) ↔
      |(0 : ℚ)| > sceneSphere.r2) :=
  (pop_discarded_iff_far sceneParams sceneQueryOps sceneMbvh sceneSphere.c false 0
    { subtree := [{ node := 0, distance := 0 }], s := sceneSphere, nodesVisited := 0 }
    { node := 0, distance := 0 } rfl (fun h => absurd h (by decide))).1

end PopRule

/-! ### The visit count -/

section VisitCount

variable {α : Type} [LinearOrderedField α] {D : Nat}

theorem isEmpty_iff_getLast?_none {β : Type} (l : List β) :
    l.isEmpty = true ↔ l.getLast? = none := by
  cases l <;> simp

/-- The count after a loop that returns is the count before plus, for each
entry of the trace that passed the pruning test, one for an internal node or a
leaf on the batch path and the number of primitives for a leaf on the fallback
path. -/
theorem traversalLoop_count (P : Params α) (E : QueryOps α D) (T : RobinMbvh α D)
    (sc : Fin D → α) (flip : Bool) (prec : α) :
    ∀ (fuel : Nat) (st st1 : TraversalState α D),
      traversalLoop P E T sc flip prec fuel st = some st1 →
      st1.nodesVisited = st.nodesVisited +
        (((popTrace P E T sc flip prec fuel st).filter (fun e => e.2)).map
          (fun e => if isLeafNode (T.flatTree e.1.node) = true ∧
              T.primitiveTypeSupportsVectorizedQueries = false
            then (((T.flatTree e.1.node).child 3).toNat : Int) else 1)).sum := by
  intro fuel
  induction fuel with
  | zero =>
    intro st st1 h
    simp only [traversalLoop] at h
    split at h
    · cases h; simp [popTrace]
    · cases h
  | succ fuel ih =>
    intro st st1 h
    simp only [traversalLoop] at h
    split at h
    · rename_i hemp
      cases h
      rw [isEmpty_iff_getLast?_none] at hemp
      simp [popTrace, hemp]
    · rename_i hemp
      rw [isEmpty_iff_getLast?_none] at hemp
      cases htop : st.subtree.getLast? with
      | none => exact absurd htop hemp
      | some top =>
        have hrec := ih _ _ h
        rw [hrec]
        simp only [popTrace, htop]
        by_cases hfar : |top.distance| > st.s.r2
        · rw [traversalStep_discard P E T sc flip prec st top htop hfar]
          simp [hfar, List.filter_cons]
        · rw [traversalStep_count P E T sc flip prec st top htop hfar]
          simp only [hfar, decide_False, Bool.not_false, List.filter_cons, if_true,
            List.map_cons, List.sum_cons]
          ring

set_option maxRecDepth 100000 in
/-- C16, counterexample: a tree whose root is a leaf with two primitives,
queried one primitive at a time. One entry is popped and it passes the pruning
test, so one leaf is visited, but the value returned is 2; on the batch path
the same tree gives 1. -/
theorem fallback_leaf_counted_per_primitive :
    (sceneLeafOnly.primitiveTypeSupportsVectorizedQueries = false ∧
      isLeafNode (sceneLeafOnly.flatTree 0) = true ∧ (sceneLeafOnly.flatTree 0).child 3 = 2) ∧
    ((popTrace sceneParams sceneQueryOps sceneLeafOnly sceneSphere.c false 0 5
        { subtree := [{ node := 0, distance := 0 }], s := sceneSphere,
          nodesVisited := 0 }).map (fun e => (e.1.node, e.2)) = [(0, true)]) ∧
    ((computeSquaredStarRadius sceneParams sceneQueryOps sceneLeafOnly 5 sceneSphere false
        0).map (fun r => r.2) = some 2) ∧
    ((computeSquaredStarRadius sceneParams sceneQueryOps
        { sceneLeafOnly with primitiveTypeSupportsVectorizedQueries := true } 5 sceneSphere
        false 0).map (fun r => r.2) = some 1) := by
  refine ⟨⟨by decide!, by decide!, by decide!⟩, by decide!, by decide!, by decide!⟩

/-- C16, amended: the value returned by `computeSquaredStarRadius` is the sum,
over the popped entries that passed the pruning test, of one for a processed
internal node, one for a processed leaf on the batch path, and the number of
primitives of the leaf (`child[3]`) for a processed leaf on the fallback path;
on the batch path it is therefore the number of popped entries that passed the
pruning test. -/
theorem nodesVisited_counts_visits (P : Params α) (E : QueryOps α D) (T : RobinMbvh α D)
    (fuel : Nat) (s : BoundingSphere α D) (flip : Bool) (prec : α)
    (result : BoundingSphere α D × Int)
    (hrun : computeSquaredStarRadius P E T fuel s flip prec = some result) :
    result.2 =
      (((popTrace P E T s.c flip prec fuel
          { subtree := [{ node := 0, distance := 0 }], s := s, nodesVisited := 0 }).filter
            (fun e => e.2)).map
        (fun e => if isLeafNode (T.flatTree e.1.node) = true ∧
            T.primitiveTypeSupportsVectorizedQueries = false
          then (((T.flatTree e.1.node).child 3).toNat : Int) else 1)).sum ∧
    (T.primitiveTypeSupportsVectorizedQueries = true →
      result.2 =
        (((popTrace P E T s.c flip prec fuel
          { subtree := [{ node := 0, distance := 0 }], s := s, nodesVisited := 0 }).filter
            (fun e => e.2)).length : Int)) := by
  simp only [computeSquaredStarRadius] at hrun
  cases hl : traversalLoop P E T s.c flip prec fuel
      { subtree := [{ node := 0, distance := 0 }], s := s, nodesVisited := 0 } with
  | none => rw [hl] at hrun; cases hrun
  | some st1 =>
    rw [hl] at hrun
    cases hrun
    have h := traversalLoop_count P E T s.c flip prec fuel _ _ hl
    simp only [zero_add] at h
    refine ⟨h, ?_⟩
    intro hb
    rw [h]
    simp [hb]

set_option maxRecDepth 100000 in
/-- Witness for the amended C16: the query of the scene pops three entries, two
of which pass the pruning test, and returns the count 2. -/
theorem nodesVisited_counts_visits_witness :
    ∃ result, computeSquaredStarRadius sceneParams sceneQueryOps sceneMbvh 10 sceneSphere
        false 0 = some result ∧ result.2 = 2 ∧
      (result.2 =
        (((popTrace sceneParams sceneQueryOps sceneMbvh sceneSphere.c false 0 10
          { subtree := [{ node := 0, distance := 0 }], s := sceneSphere,
            nodesVisited := 0 }).filter (fun e => e.2)).length : Int)) := by
  have hsome : (computeSquaredStarRadius sceneParams sceneQueryOps sceneMbvh 10 sceneSphere
      false 0).map (fun r => r.2) = some 2 := by decide!
  cases hrun : computeSquaredStarRadius sceneParams sceneQueryOps sceneMbvh 10 sceneSphere
      false 0 with
  | none => rw [hrun] at hsome; simp at hsome
  | some result =>
    rw [hrun] at hsome
    simp only [Option.map_some', Option.some.injEq] at hsome
    exact ⟨result, rfl, hsome,
      (nodesVisited_counts_visits sceneParams sceneQueryOps sceneMbvh 10 sceneSphere false 0
        result hrun).2 (by decide!)⟩

end VisitCount

/-! ### Entries pushed by one iteration of the traversal -/

section PushedEntries

variable {α : Type} [LinearOrderedField α] {D : Nat}

/-- A lane of the mask returned by `visitNodes` has a present child slot and
passed the box-overlap test. -/
theorem visitNodes_mask_sub (P : Params α) (E : QueryOps α D)
    (flatTree : Int → RobinMbvhNode α D) (sc : Fin D → α) (r2 : α) (nodeIndex : Int) (w : Nat)
    (hmask : (visitNodes P E flatTree sc r2 nodeIndex).1 w = true) :
    (flatTree nodeIndex).child w ≠ maxInt ∧
      (E.overlapWideBox (flatTree nodeIndex).boxMin (flatTree nodeIndex).boxMax sc r2).1 w =
        true := by
  have key : (decide ((flatTree nodeIndex).child w ≠ maxInt) &&
      (E.overlapWideBox (flatTree nodeIndex).boxMin (flatTree nodeIndex).boxMax sc r2).1 w) =
        true := by
    unfold visitNodes at hmask
    simp only at hmask
    split at hmask
    · split at hmask
      · split at hmask
        · simp only [masked] at hmask
          split at hmask
          · rename_i hn
            simp only [Bool.and_eq_true] at hn
            simp only [Bool.and_eq_true]
            exact hn.1
          · exact hmask
        · exact hmask
      · split at hmask
        · simp only [masked] at hmask
          split at hmask
          · rename_i hn
            simp only [Bool.and_eq_true] at hn
            simp only [Bool.and_eq_true]
            exact hn.1
          · exact hmask
        · exact hmask
    · exact hmask
  simp only [Bool.and_eq_true, decide_eq_true_eq] at key
  exact key

/-- Call `enqueueNodes<FCPW_MBVH_BRANCHING_FACTOR>`: the old stack is kept and
every entry pushed above it is the entry of a lane with mask bit set. -/
theorem enqueueNodesW_stack_mem (P : Params α) (E : QueryOps α D) (child : Nat → Int)
    (tMin tMax : Nat → α) (hasSilhouettes mask : Nat → Bool) (minDist tMaxMin : α)
    (subtree : List (TraversalStack α)) :
    ∃ pushed : List (TraversalStack α),
      (enqueueNodesW P E child tMin tMax hasSilhouettes mask minDist tMaxMin subtree).1 =
        subtree ++ pushed ∧
      ∀ e ∈ pushed, ∃ v, mask v = true ∧ e = stackEntry child tMin hasSilhouettes v := by
  unfold enqueueNodesW
  by_cases h4 : P.W = 4
  · simp only [h4, if_true]
    refine ⟨_, enqueueNodes4_stack E child tMin tMax hasSilhouettes mask minDist tMaxMin subtree,
      ?_⟩
    intro e he
    obtain ⟨v, hv, rfl⟩ := List.mem_map.mp he
    exact ⟨v, (List.mem_filter.mp hv).2, rfl⟩
  · simp only [h4, if_false]
    obtain ⟨pushed, h1, h2⟩ := enqueueNodes_stack P.W child tMin tMax hasSilhouettes mask
      minDist tMaxMin subtree
    refine ⟨pushed, h1, ?_⟩
    intro e he
    rw [h2.mem_iff] at he
    obtain ⟨v, hv, rfl⟩ := List.mem_map.mp he
    exact ⟨v, (List.mem_filter.mp hv).2, rfl⟩

/-- One iteration of the loop keeps the stack below the popped entry and pushes
only entries of lanes in the mask that `visitNodes` returns for the popped
node. -/
theorem traversalStep_stack_mem (P : Params α) (E : QueryOps α D) (T : RobinMbvh α D)
    (sc : Fin D → α) (flip : Bool) (prec : α) (st : TraversalState α D)
    (top : TraversalStack α) (htop : st.subtree.getLast? = some top) :
    ∃ pushed : List (TraversalStack α),
      (traversalStep P E T sc flip prec st).subtree = st.subtree.dropLast ++ pushed ∧
      ∀ e ∈ pushed, ∃ v,
        (visitNodes P E T.flatTree sc st.s.r2 top.node).1 v = true ∧
        e.node = (T.flatTree top.node).child v := by
  unfold traversalStep
  simp only [htop]
  by_cases hfar : |top.distance| > st.s.r2
  · simp only [hfar, if_true]
    exact ⟨[], by simp, by simp⟩
  · simp only [hfar, if_false]
    by_cases hl : isLeafNode (T.flatTree top.node) = true
    · simp only [hl, if_true]
      by_cases hb : T.primitiveTypeSupportsVectorizedQueries = true
      · simp only [hb, if_true]
        exact ⟨[], by simp, by simp⟩
      · simp only [hb, if_false]
        exact ⟨[], by simp, by simp⟩
    · simp only [hl, if_false]
      by_cases hany : anyLane P.W (visitNodes P E T.flatTree sc st.s.r2 top.node).1 = true
      · simp only [hany, if_true]
        obtain ⟨pushed, h1, h2⟩ := enqueueNodesW_stack_mem P E (T.flatTree top.node).child
          (visitNodes P E T.flatTree sc st.s.r2 top.node).2.1
          (visitNodes P E T.flatTree sc st.s.r2 top.node).2.2.1
          (visitNodes P E T.flatTree sc st.s.r2 top.node).2.2.2
          (visitNodes P E T.flatTree sc st.s.r2 top.node).1 st.s.r2 st.s.r2 st.subtree.dropLast
        refine ⟨pushed, h1, ?_⟩
        intro e he
        obtain ⟨v, hv, rfl⟩ := h2 e he
        exact ⟨v, hv, rfl⟩
      · simp only [hany, if_false]
        exact ⟨[], by simp, by simp⟩

end PushedEntries

section PresentChildren

variable {α : Type} [LinearOrderedField α] {D : Nat}

theorem traversalStep_empty (P : Params α) (E : QueryOps α D) (T : RobinMbvh α D)
    (sc : Fin D → α) (flip : Bool) (prec : α) (st : TraversalState α D)
    (hemp : st.subtree.getLast? = none) : traversalStep P E T sc flip prec st = st := by
  unfold traversalStep
  simp only [hemp]

/-- C18: every lane of the mask returned by `visitNodes` has a present child
slot (`child[w] ≠ maxInt`) and passed the box-overlap test against the query
sphere; hence every entry that one iteration of the traversal pushes is a
present child of the popped node, and no entry on the stack of the traversal
ever holds the absent sentinel `maxInt`. -/
theorem pushed_children_present (P : Params α) (E : QueryOps α D) (T : RobinMbvh α D)
    (sc : Fin D → α) (flip : Bool) (prec : α) :
    (∀ (r2 : α) (nodeIndex : Int) (w : Nat),
      (visitNodes P E T.flatTree sc r2 nodeIndex).1 w = true →
      (T.flatTree nodeIndex).child w ≠ maxInt ∧
        (E.overlapWideBox (T.flatTree nodeIndex).boxMin (T.flatTree nodeIndex).boxMax sc
          r2).1 w = true) ∧
    (∀ (st : TraversalState α D) (top : TraversalStack α), st.subtree.getLast? = some top →
      ∃ pushed : List (TraversalStack α),
        (traversalStep P E T sc flip prec st).subtree = st.subtree.dropLast ++ pushed ∧
        ∀ e ∈ pushed, e.node ≠ maxInt ∧ ∃ v, e.node = (T.flatTree top.node).child v) ∧
    (∀ (s : BoundingSphere α D) (n : Nat) (e : TraversalStack α),
      e ∈ ((traversalStep P E T sc flip prec)^[n]
        { subtree := [{ node := 0, distance := 0 }], s := s, nodesVisited := 0 }).subtree →
      e.node ≠ maxInt) := by
  have hstep : ∀ (st : TraversalState α D) (top : TraversalStack α),
      st.subtree.getLast? = some top →
      ∃ pushed : List (TraversalStack α),
        (traversalStep P E T sc flip prec st).subtree = st.subtree.dropLast ++ pushed ∧
        ∀ e ∈ pushed, e.node ≠ maxInt ∧ ∃ v, e.node = (T.flatTree top.node).child v := by
    intro st top htop
    obtain ⟨pushed, h1, h2⟩ := traversalStep_stack_mem P E T sc flip prec st top htop
    refine ⟨pushed, h1, ?_⟩
    intro e he
    obtain ⟨v, hv, hnode⟩ := h2 e he
    exact ⟨by rw [hnode]; exact (visitNodes_mask_sub P E T.flatTree sc st.s.r2 top.node v hv).1,
      v, hnode⟩
  refine ⟨fun r2 nodeIndex w h => visitNodes_mask_sub P E T.flatTree sc r2 nodeIndex w h,
    hstep, ?_⟩
  intro s n
  induction n with
  | zero =>
    intro e he
    simp only [Function.iterate_zero, id_eq, List.mem_singleton] at he
    subst he
    show (0 : Int) ≠ maxInt
    decide
  | succ n ih =>
    intro e he
    rw [Function.iterate_succ_apply'] at he
    cases htop : ((traversalStep P E T sc flip prec)^[n]
        { subtree := [{ node := 0, distance := 0 }], s := s, nodesVisited := 0 }).subtree.getLast?
      with
    | none =>
      rw [traversalStep_empty P E T sc flip prec _ htop] at he
      exact ih e he
    | some top =>
      obtain ⟨pushed, h1, h2⟩ := hstep _ top htop
      rw [h1, List.mem_append] at he
      rcases he with he | he
      · exact ih e (List.dropLast_subset _ he)
      · exact (h2 e he).1

set_option maxRecDepth 100000 in
/-- Witness for C18: lane 1 of the root of the scene is in the mask returned by
`visitNodes`; its child slot holds node 2. -/
theorem pushed_children_present_witness :
    (visitNodes sceneParams sceneQueryOps sceneMbvh.flatTree sceneSphere.c 100 0).1 1 = true ∧
    (sceneMbvh.flatTree 0).child 1 ≠ maxInt ∧
    (sceneQueryOps.overlapWideBox (sceneMbvh.flatTree 0).boxMin (sceneMbvh.flatTree 0).boxMax
      sceneSphere.c 100).1 1 = true :=
  have hm : (visitNodes sceneParams sceneQueryOps sceneMbvh.flatTree sceneSphere.c 100 0).1 1 =
    true := by decide!
  ⟨hm, (pushed_children_present sceneParams sceneQueryOps sceneMbvh sceneSphere.c false 0).1
    100 0 1 hm⟩

end PresentChildren

/-! ### Dirichlet children -/

section Dirichlet

variable {α : Type} [LinearOrderedField α] {D : Nat}

/-- Lane `w` of the result of `visitNodes` when the lane is not an overlapping
non-Dirichlet lane, the cone test leaves it clear, and it is not an
overlapping Neumann lane: the results of the box test. -/
theorem visitNodes_box_lane (P : Params α) (E : QueryOps α D)
    (flatTree : Int → RobinMbvhNode α D) (sc : Fin D → α) (r2 : α) (nodeIndex : Int) (w : Nat)
    (ob : (Nat → Bool) × (Nat → α) × (Nat → α))
    (oc : (Nat → α) × (Nat → α) × (Nat → Bool))
    (hob : ob = E.overlapWideBox (flatTree nodeIndex).boxMin (flatTree nodeIndex).boxMax sc r2)
    (hoc : oc = E.overlapWideCone (flatTree nodeIndex).coneAxis
      (flatTree nodeIndex).coneHalfAngle (flatTree nodeIndex).coneRadius sc
      (flatTree nodeIndex).boxMin (flatTree nodeIndex).boxMax ob.2.1
      (fun w => (decide ((flatTree nodeIndex).child w ≠ maxInt) && ob.1 w) &&
        decide ((flatTree nodeIndex).minRobinCoeff w < P.maxFloat - P.epsilon)))
    (hd : ¬ (flatTree nodeIndex).minRobinCoeff w < P.maxFloat - P.epsilon)
    (hnn : (flatTree nodeIndex).maxRobinCoeff w > P.epsilon)
    (hns : oc.2.2 w = false) :
    (visitNodes P E flatTree sc r2 nodeIndex).1 w =
      (decide ((flatTree nodeIndex).child w ≠ maxInt) && ob.1 w) ∧
    (visitNodes P E flatTree sc r2 nodeIndex).2.1 w = ob.2.1 w ∧
    (visitNodes P E flatTree sc r2 nodeIndex).2.2.1 w = ob.2.2 w := by
  unfold visitNodes
  simp only [← hob]
  simp only [← hoc]
  split
  · split
    · split
      · simp [masked, hd, hnn, hns]
      · simp [masked, hd, hnn, hns]
    · split
      · simp [masked, hd, hnn, hns]
      · simp [masked, hd, hnn, hns]
  · exact ⟨rfl, rfl, rfl⟩

/-- Result of `visitNodes` when no lane is an overlapping non-Dirichlet lane:
the results of the box test, with `hasSilhouettes` left at its initial value. -/
theorem visitNodes_early_out (P : Params α) (E : QueryOps α D)
    (flatTree : Int → RobinMbvhNode α D) (sc : Fin D → α) (r2 : α) (nodeIndex : Int)
    (hnone : anyLane P.W (fun w =>
      (decide ((flatTree nodeIndex).child w ≠ maxInt) &&
        (E.overlapWideBox (flatTree nodeIndex).boxMin (flatTree nodeIndex).boxMax sc r2).1 w) &&
      decide ((flatTree nodeIndex).minRobinCoeff w < P.maxFloat - P.epsilon)) = false) :
    visitNodes P E flatTree sc r2 nodeIndex =
      (fun w => decide ((flatTree nodeIndex).child w ≠ maxInt) &&
          (E.overlapWideBox (flatTree nodeIndex).boxMin (flatTree nodeIndex).boxMax sc r2).1 w,
        (E.overlapWideBox (flatTree nodeIndex).boxMin (flatTree nodeIndex).boxMax sc r2).2.1,
        (E.overlapWideBox (flatTree nodeIndex).boxMin (flatTree nodeIndex).boxMax sc r2).2.2,
        fun _ => true) := by
  unfold visitNodes
  simp only [hnone, Bool.false_eq_true, if_false]

theorem anyLane_eq_false (W : Nat) (m : Nat → Bool) (h : ∀ w, w < W → m w = false) :
    anyLane W m = false := by
  unfold anyLane
  rw [List.any_eq_false]
  intro w hw
  rw [h w (List.mem_range.mp hw)]
  simp

/-- C19: for a purely Dirichlet child (`minRobinCoeff ≥ maxFloat − epsilon` and
`minRobinCoeff ≤ maxRobinCoeff`) the visit bit, min bound and max bound
returned by `visitNodes` are those of the box-overlap test (the visit bit
together with the test that the slot is present), whatever the cone data of
the node is; and when no overlapping child of the node is non-Dirichlet the
whole result is that of the box test, with `hasSilhouettes` left set, and does
not depend on the cone-overlap test or the Radius-Bound Strategy. The cone
test is assumed never to set a lane that was clear on entry, and
`epsilon < maxFloat − epsilon`. -/
theorem dirichlet_child_box_only (P : Params α) (E : QueryOps α D)
    (flatTree : Int → RobinMbvhNode α D) (sc : Fin D → α) (r2 : α) (nodeIndex : Int)
    (heps : P.epsilon < P.maxFloat - P.epsilon)
    (hcone : ∀ (axis : Fin D → Nat → α) (halfAngle radius : Nat → α) (o : Fin D → α)
      (bMin bMax : Fin D → Nat → α) (dist : Nat → α) (m : Nat → Bool) (v : Nat),
      m v = false → (E.overlapWideCone axis halfAngle radius o bMin bMax dist m).2.2 v = false) :
    (∀ w, P.maxFloat - P.epsilon ≤ (flatTree nodeIndex).minRobinCoeff w →
      (flatTree nodeIndex).minRobinCoeff w ≤ (flatTree nodeIndex).maxRobinCoeff w →
      (visitNodes P E flatTree sc r2 nodeIndex).1 w =
        (decide ((flatTree nodeIndex).child w ≠ maxInt) &&
          (E.overlapWideBox (flatTree nodeIndex).boxMin (flatTree nodeIndex).boxMax sc r2).1 w) ∧
      (visitNodes P E flatTree sc r2 nodeIndex).2.1 w =
        (E.overlapWideBox (flatTree nodeIndex).boxMin (flatTree nodeIndex).boxMax sc r2).2.1 w ∧
      (visitNodes P E flatTree sc r2 nodeIndex).2.2.1 w =
        (E.overlapWideBox (flatTree nodeIndex).boxMin (flatTree nodeIndex).boxMax sc
          r2).2.2 w) ∧
    ((∀ w, w < P.W → (flatTree nodeIndex).child w ≠ maxInt →
        (E.overlapWideBox (flatTree nodeIndex).boxMin (flatTree nodeIndex).boxMax sc r2).1 w =
          true →
        P.maxFloat - P.epsilon ≤ (flatTree nodeIndex).minRobinCoeff w) →
      visitNodes P E flatTree sc r2 nodeIndex =
        (fun w => decide ((flatTree nodeIndex).child w ≠ maxInt) &&
            (E.overlapWideBox (flatTree nodeIndex).boxMin (flatTree nodeIndex).boxMax sc
              r2).1 w,
          (E.overlapWideBox (flatTree nodeIndex).boxMin (flatTree nodeIndex).boxMax sc r2).2.1,
          (E.overlapWideBox (flatTree nodeIndex).boxMin (flatTree nodeIndex).boxMax sc r2).2.2,
          fun _ => true) ∧
      ∀ E1 : QueryOps α D, E1.overlapWideBox = E.overlapWideBox →
        visitNodes P E1 flatTree sc r2 nodeIndex = visitNodes P E flatTree sc r2 nodeIndex) := by
  constructor
  · intro w hd hle
    have hd1 : ¬ (flatTree nodeIndex).minRobinCoeff w < P.maxFloat - P.epsilon := not_lt.mpr hd
    have hnn : (flatTree nodeIndex).maxRobinCoeff w > P.epsilon :=
      lt_of_lt_of_le heps (le_trans hd hle)
    refine visitNodes_box_lane P E flatTree sc r2 nodeIndex w _ _ rfl rfl hd1 hnn ?_
    apply hcone
    simp [hd1]
  · intro hall
    have hnone : ∀ E1 : QueryOps α D, E1.overlapWideBox = E.overlapWideBox →
        anyLane P.W (fun w =>
          (decide ((flatTree nodeIndex).child w ≠ maxInt) &&
            (E1.overlapWideBox (flatTree nodeIndex).boxMin (flatTree nodeIndex).boxMax sc
              r2).1 w) &&
          decide ((flatTree nodeIndex).minRobinCoeff w < P.maxFloat - P.epsilon)) = false := by
      intro E1 hE1
      apply anyLane_eq_false
      intro w hw
      rw [hE1]
      by_cases hp : (flatTree nodeIndex).child w ≠ maxInt
      · by_cases hb : (E.overlapWideBox (flatTree nodeIndex).boxMin
            (flatTree nodeIndex).boxMax sc r2).1 w = true
        · have := not_lt.mpr (hall w hw hp hb)
          simp [this]
        · simp [hb]
      · simp [hp]
    refine ⟨visitNodes_early_out P E flatTree sc r2 nodeIndex (hnone E rfl), ?_⟩
    intro E1 hE1
    rw [visitNodes_early_out P E1 flatTree sc r2 nodeIndex (hnone E1 hE1),
      visitNodes_early_out P E flatTree sc r2 nodeIndex (hnone E rfl), hE1]

set_option maxRecDepth 100000 in
/-- Witness for C19: slot 1 of the root of the scene is a Dirichlet child; the
box test gives it the bounds 36 and 128. -/
theorem dirichlet_child_box_only_witness :
    (sceneParams.maxFloat - sceneParams.epsilon ≤ (sceneMbvh.flatTree 0).minRobinCoeff 1 ∧
      (sceneMbvh.flatTree 0).minRobinCoeff 1 ≤ (sceneMbvh.flatTree 0).maxRobinCoeff 1) ∧
    (visitNodes sceneParams sceneQueryOps sceneMbvh.flatTree sceneSphere.c 100 0).1 1 =
      (decide ((sceneMbvh.flatTree 0).child 1 ≠ maxInt) &&
        (sceneQueryOps.overlapWideBox (sceneMbvh.flatTree 0).boxMin
          (sceneMbvh.flatTree 0).boxMax sceneSphere.c 100).1 1) ∧
    (visitNodes sceneParams sceneQueryOps sceneMbvh.flatTree sceneSphere.c 100 0).2.1 1 =
      (sceneQueryOps.overlapWideBox (sceneMbvh.flatTree 0).boxMin
        (sceneMbvh.flatTree 0).boxMax sceneSphere.c 100).2.1 1 ∧
    (visitNodes sceneParams sceneQueryOps sceneMbvh.flatTree sceneSphere.c 100 0).2.2.1 1 =
      (sceneQueryOps.overlapWideBox (sceneMbvh.flatTree 0).boxMin
        (sceneMbvh.flatTree 0).boxMax sceneSphere.c 100).2.2 1 :=
  have hd : sceneParams.maxFloat - sceneParams.epsilon ≤ (sceneMbvh.flatTree 0).minRobinCoeff 1 :=
    by decide!
  have hle : (sceneMbvh.flatTree 0).minRobinCoeff 1 ≤ (sceneMbvh.flatTree 0).maxRobinCoeff 1 :=
    by decide!
  ⟨⟨hd, hle⟩, (dirichlet_child_box_only sceneParams sceneQueryOps sceneMbvh.flatTree
    sceneSphere.c 100 0 (by decide!) (fun _ _ _ _ _ _ _ _ _ _ => rfl)).1 1 hd hle⟩

end Dirichlet

/-! ### Lane by lane form of the Node Visitor -/

section LaneForm

variable {α : Type} [LinearOrderedField α] {D : Nat}

theorem anyLane_false_lane (W : Nat) (m : Nat → Bool) (h : anyLane W m = false) (w : Nat)
    (hw : w < W) : m w = false := by
  unfold anyLane at h
  rw [List.any_eq_false] at h
  simpa using h w (List.mem_range.mpr hw)

/-- Outputs of `visitNodes` for lane `w` in terms of the data of the lane and of
the flag `enoki::any(overlapNotDirichletBox)`; `ob` and `oc` are the results of
the box test and of the cone test. -/
theorem visitNodes_lane_form (P : Params α) (E : QueryOps α D)
    (flatTree : Int → RobinMbvhNode α D) (sc : Fin D → α) (r2 : α) (nodeIndex : Int) (w : Nat)
    (hw : w < P.W)
    (ob : (Nat → Bool) × (Nat → α) × (Nat → α))
    (oc : (Nat → α) × (Nat → α) × (Nat → Bool))
    (hob : ob = E.overlapWideBox (flatTree nodeIndex).boxMin (flatTree nodeIndex).boxMax sc r2)
    (hoc : oc = E.overlapWideCone (flatTree nodeIndex).coneAxis
      (flatTree nodeIndex).coneHalfAngle (flatTree nodeIndex).coneRadius sc
      (flatTree nodeIndex).boxMin (flatTree nodeIndex).boxMax ob.2.1
      (fun w => (decide ((flatTree nodeIndex).child w ≠ maxInt) && ob.1 w) &&
        decide ((flatTree nodeIndex).minRobinCoeff w < P.maxFloat - P.epsilon))) :
    (anyLane P.W (fun w => (decide ((flatTree nodeIndex).child w ≠ maxInt) && ob.1 w) &&
        decide ((flatTree nodeIndex).minRobinCoeff w < P.maxFloat - P.epsilon)) = false →
      (visitNodes P E flatTree sc r2 nodeIndex).1 w =
          (decide ((flatTree nodeIndex).child w ≠ maxInt) && ob.1 w) ∧
        (visitNodes P E flatTree sc r2 nodeIndex).2.1 w = ob.2.1 w ∧
        (visitNodes P E flatTree sc r2 nodeIndex).2.2.1 w = ob.2.2 w ∧
        (visitNodes P E flatTree sc r2 nodeIndex).2.2.2 w = true) ∧
    (anyLane P.W (fun w => (decide ((flatTree nodeIndex).child w ≠ maxInt) && ob.1 w) &&
        decide ((flatTree nodeIndex).minRobinCoeff w < P.maxFloat - P.epsilon)) = true →
      (visitNodes P E flatTree sc r2 nodeIndex).1 w =
          (if ((decide ((flatTree nodeIndex).child w ≠ maxInt) && ob.1 w) &&
              !decide ((flatTree nodeIndex).maxRobinCoeff w > P.epsilon)) = true
            then oc.2.2 w else (decide ((flatTree nodeIndex).child w ≠ maxInt) && ob.1 w)) ∧
        (visitNodes P E flatTree sc r2 nodeIndex).2.1 w =
          (if ((((decide ((flatTree nodeIndex).child w ≠ maxInt) && ob.1 w) &&
                decide ((flatTree nodeIndex).minRobinCoeff w < P.maxFloat - P.epsilon)) &&
                decide ((flatTree nodeIndex).maxRobinCoeff w > P.epsilon)) && !oc.2.2 w) = true
            then E.computeMinSquaredStarRadiusBound (fun w => E.sqrt (ob.2.1 w))
              (fun w => E.sqrt (masked ob.2.2 oc.2.2 (fun _ => P.maxFloat) w))
              (flatTree nodeIndex).minRobinCoeff (flatTree nodeIndex).maxRobinCoeff
              (fun w => min |E.cos (oc.1 w)| |E.cos (oc.2.1 w)|) (fun _ => 1) w
            else ob.2.1 w) ∧
        (visitNodes P E flatTree sc r2 nodeIndex).2.2.1 w =
          (if ((((decide ((flatTree nodeIndex).child w ≠ maxInt) && ob.1 w) &&
                decide ((flatTree nodeIndex).minRobinCoeff w < P.maxFloat - P.epsilon)) &&
                decide ((flatTree nodeIndex).maxRobinCoeff w > P.epsilon)) && !oc.2.2 w) = true
            then E.computeMaxSquaredStarRadiusBound (fun w => E.sqrt (ob.2.1 w))
              (fun w => E.sqrt (masked ob.2.2 oc.2.2 (fun _ => P.maxFloat) w))
              (flatTree nodeIndex).minRobinCoeff (flatTree nodeIndex).maxRobinCoeff
              (fun w => min |E.cos (oc.1 w)| |E.cos (oc.2.1 w)|) (fun _ => 1) w
            else masked ob.2.2 oc.2.2 (fun _ => P.maxFloat) w) ∧
        (visitNodes P E flatTree sc r2 nodeIndex).2.2.2 w = oc.2.2 w) := by
  constructor
  · intro hany
    unfold visitNodes
    simp only [← hob]
    simp only [hany, Bool.false_eq_true, if_false, and_self]
  · intro hany
    unfold visitNodes
    simp only [← hob]
    simp only [← hoc]
    simp only [hany, if_true]
    by_cases hN : anyLane P.W (fun w => (decide ((flatTree nodeIndex).child w ≠ maxInt) &&
        ob.1 w) && !decide ((flatTree nodeIndex).maxRobinCoeff w > P.epsilon)) = true
    · by_cases hR : anyLane P.W (fun w =>
          ((decide ((flatTree nodeIndex).child w ≠ maxInt) && ob.1 w) &&
            decide ((flatTree nodeIndex).minRobinCoeff w < P.maxFloat - P.epsilon)) &&
          decide ((flatTree nodeIndex).maxRobinCoeff w > P.epsilon)) = true
      · simp only [hN, hR, if_true, masked, and_true]
      · simp only [Bool.not_eq_true] at hR
        have hRw := anyLane_false_lane _ _ hR w hw
        simp only at hRw
        simp only [hN, hR, if_true, Bool.false_eq_true, if_false, masked, hRw, Bool.false_and,
          and_true]
    · simp only [Bool.not_eq_true] at hN
      have hNw := anyLane_false_lane _ _ hN w hw
      simp only at hNw
      by_cases hR : anyLane P.W (fun w =>
          ((decide ((flatTree nodeIndex).child w ≠ maxInt) && ob.1 w) &&
            decide ((flatTree nodeIndex).minRobinCoeff w < P.maxFloat - P.epsilon)) &&
          decide ((flatTree nodeIndex).maxRobinCoeff w > P.epsilon)) = true
      · simp only [hN, hR, if_true, Bool.false_eq_true, if_false, masked, hNw, and_true]
      · simp only [Bool.not_eq_true] at hR
        have hRw := anyLane_false_lane _ _ hR w hw
        simp only at hRw
        simp only [hN, hR, Bool.false_eq_true, if_false, masked, hNw, hRw, Bool.false_and,
          and_true]

end LaneForm

/-! ### Coupling of the lanes through `enoki::any` -/

section LaneCoupling

set_option maxRecDepth 100000 in
/-- C20, counterexample: the root of the scene and the same node with its first
child turned into a Dirichlet child agree on slot 1 (a Dirichlet child that
overlaps the query sphere), but `hasSilhouettes[1]` is clear for the first
node and set for the second. Whatever the cone test and the Radius-Bound
Strategy are, the pair (`hasSilhouettes[1]`, max bound of slot 1) differs
between the two nodes. -/
theorem hasSilhouettes_depends_on_other_slots :
    SlotEq sceneRoot sceneRootDirichlet 1 ∧
    (visitNodes sceneParams sceneQueryOps (fun _ => sceneRoot) sceneSphere.c 100 0).2.2.2 1 =
      false ∧
    (visitNodes sceneParams sceneQueryOps (fun _ => sceneRootDirichlet) sceneSphere.c 100
      0).2.2.2 1 = true ∧
    ∀ E : QueryOps ℚ 3, E.overlapWideBox = sceneQueryOps.overlapWideBox →
      ((visitNodes sceneParams E (fun _ => sceneRoot) sceneSphere.c 100 0).2.2.2 1,
        (visitNodes sceneParams E (fun _ => sceneRoot) sceneSphere.c 100 0).2.2.1 1) ≠
      ((visitNodes sceneParams E (fun _ => sceneRootDirichlet) sceneSphere.c 100 0).2.2.2 1,
        (visitNodes sceneParams E (fun _ => sceneRootDirichlet) sceneSphere.c 100
          0).2.2.1 1) := by
  refine ⟨?_, by decide!, by decide!, ?_⟩
  · unfold SlotEq
    decide!
  · intro E hE
    have hA := (visitNodes_lane_form sceneParams E (fun _ => sceneRoot) sceneSphere.c 100 0 1
      (by decide) _ _ rfl rfl).2 (by rw [hE]; decide!)
    have hB := (visitNodes_lane_form sceneParams E (fun _ => sceneRootDirichlet) sceneSphere.c
      100 0 1 (by decide) _ _ rfl rfl).1 (by rw [hE]; decide!)
    rw [hA.2.2.2, hA.2.2.1, hB.2.2.2, hB.2.2.1]
    have hnd : decide (sceneRoot.minRobinCoeff 1 < sceneParams.maxFloat - sceneParams.epsilon) =
      false := by decide!
    simp only [hnd, Bool.and_false, Bool.false_and, Bool.false_eq_true, if_false, masked]
    rw [hE]
    intro h
    simp only [Prod.mk.injEq] at h
    rw [h.1] at h
    simp only [if_true, true_and] at h
    revert h
    decide!

end LaneCoupling

section LaneClear

variable {α : Type} [LinearOrderedField α] {D : Nat}

/-- Outputs of `visitNodes` for a lane that is not an overlapping non-Dirichlet
lane: the results of the box test, and `hasSilhouettes` is set exactly when no
lane of the node is an overlapping non-Dirichlet lane. -/
theorem visitNodes_lane_clear (P : Params α) (E : QueryOps α D)
    (flatTree : Int → RobinMbvhNode α D) (sc : Fin D → α) (r2 : α) (nodeIndex : Int) (w : Nat)
    (hw : w < P.W)
    (heps : P.epsilon < P.maxFloat - P.epsilon)
    (hcone : ∀ (axis : Fin D → Nat → α) (halfAngle radius : Nat → α) (o : Fin D → α)
      (bMin bMax : Fin D → Nat → α) (dist : Nat → α) (m : Nat → Bool) (v : Nat),
      m v = false → (E.overlapWideCone axis halfAngle radius o bMin bMax dist m).2.2 v = false)
    (ob : (Nat → Bool) × (Nat → α) × (Nat → α))
    (hob : ob = E.overlapWideBox (flatTree nodeIndex).boxMin (flatTree nodeIndex).boxMax sc r2)
    (hle : (flatTree nodeIndex).minRobinCoeff w ≤ (flatTree nodeIndex).maxRobinCoeff w)
    (hclear : ((decide ((flatTree nodeIndex).child w ≠ maxInt) && ob.1 w) &&
      decide ((flatTree nodeIndex).minRobinCoeff w < P.maxFloat - P.epsilon)) = false) :
    (visitNodes P E flatTree sc r2 nodeIndex).1 w =
      (decide ((flatTree nodeIndex).child w ≠ maxInt) && ob.1 w) ∧
    (visitNodes P E flatTree sc r2 nodeIndex).2.1 w = ob.2.1 w ∧
    (visitNodes P E flatTree sc r2 nodeIndex).2.2.1 w = ob.2.2 w ∧
    (visitNodes P E flatTree sc r2 nodeIndex).2.2.2 w =
      !anyLane P.W (fun w => (decide ((flatTree nodeIndex).child w ≠ maxInt) && ob.1 w) &&
        decide ((flatTree nodeIndex).minRobinCoeff w < P.maxFloat - P.epsilon)) := by
  have hform := visitNodes_lane_form P E flatTree sc r2 nodeIndex w hw ob _ hob rfl
  cases hany : anyLane P.W (fun w => (decide ((flatTree nodeIndex).child w ≠ maxInt) &&
      ob.1 w) && decide ((flatTree nodeIndex).minRobinCoeff w < P.maxFloat - P.epsilon)) with
  | false =>
    have h := hform.1 hany
    exact ⟨h.1, h.2.1, h.2.2.1, by rw [h.2.2.2]; rfl⟩
  | true =>
    have h := hform.2 hany
    have hc := hcone (flatTree nodeIndex).coneAxis (flatTree nodeIndex).coneHalfAngle
      (flatTree nodeIndex).coneRadius sc (flatTree nodeIndex).boxMin
      (flatTree nodeIndex).boxMax ob.2.1
      (fun w => (decide ((flatTree nodeIndex).child w ≠ maxInt) && ob.1 w) &&
        decide ((flatTree nodeIndex).minRobinCoeff w < P.maxFloat - P.epsilon)) w hclear
    rw [h.1, h.2.1, h.2.2.1, h.2.2.2]
    simp only [masked]
    simp only [hc, hclear, Bool.false_and, Bool.false_eq_true, if_false, Bool.not_true,
      and_true, true_and]
    by_cases hb : (decide ((flatTree nodeIndex).child w ≠ maxInt) && ob.1 w) = true
    · have hnd : ¬ (flatTree nodeIndex).minRobinCoeff w < P.maxFloat - P.epsilon := by
        intro hlt
        rw [hb, Bool.true_and, decide_eq_false_iff_not] at hclear
        exact hclear hlt
      have hnn : (flatTree nodeIndex).maxRobinCoeff w > P.epsilon :=
        lt_of_lt_of_le heps (le_trans (not_lt.mp hnd) hle)
      simp [hb, hnn]
    · simp only [Bool.not_eq_true] at hb
      rw [hb]
      simp

/-- C20, amended: for external packet routines that work lane by lane, a cone
test that only narrows its mask, `epsilon < maxFloat − epsilon` and a slot
`w` with `minRobinCoeff ≤ maxRobinCoeff`, two nodes that agree on slot `w`
give the same visit bit, min bound and max bound for slot `w`, whatever their
other slots hold. They give the same `hasSilhouettes[w]` when slot `w` is an
overlapping non-Dirichlet child, or when the two nodes agree on whether some
slot is one; for any other slot `hasSilhouettes[w]` is set exactly when no
slot of the node is an overlapping non-Dirichlet child. -/
theorem visitNodes_lane_independent (P : Params α) (E : QueryOps α D) (hloc : LaneLocal E)
    (heps : P.epsilon < P.maxFloat - P.epsilon)
    (hcone : ∀ (axis : Fin D → Nat → α) (halfAngle radius : Nat → α) (o : Fin D → α)
      (bMin bMax : Fin D → Nat → α) (dist : Nat → α) (m : Nat → Bool) (v : Nat),
      m v = false → (E.overlapWideCone axis halfAngle radius o bMin bMax dist m).2.2 v = false)
    (flatTree flatTree1 : Int → RobinMbvhNode α D) (sc : Fin D → α) (r2 : α) (i j : Int)
    (w : Nat) (hw : w < P.W) (hslot : SlotEq (flatTree i) (flatTree1 j) w)
    (hle : (flatTree i).minRobinCoeff w ≤ (flatTree i).maxRobinCoeff w) :
    ((visitNodes P E flatTree sc r2 i).1 w = (visitNodes P E flatTree1 sc r2 j).1 w ∧
      (visitNodes P E flatTree sc r2 i).2.1 w = (visitNodes P E flatTree1 sc r2 j).2.1 w ∧
      (visitNodes P E flatTree sc r2 i).2.2.1 w = (visitNodes P E flatTree1 sc r2 j).2.2.1 w) ∧
    (anyLane P.W (fun v => (decide ((flatTree i).child v ≠ maxInt) &&
          (E.overlapWideBox (flatTree i).boxMin (flatTree i).boxMax sc r2).1 v) &&
          decide ((flatTree i).minRobinCoeff v < P.maxFloat - P.epsilon)) =
        anyLane P.W (fun v => (decide ((flatTree1 j).child v ≠ maxInt) &&
          (E.overlapWideBox (flatTree1 j).boxMin (flatTree1 j).boxMax sc r2).1 v) &&
          decide ((flatTree1 j).minRobinCoeff v < P.maxFloat - P.epsilon)) →
      (visitNodes P E flatTree sc r2 i).2.2.2 w = (visitNodes P E flatTree1 sc r2 j).2.2.2 w) ∧
    (((decide ((flatTree i).child w ≠ maxInt) &&
          (E.overlapWideBox (flatTree i).boxMin (flatTree i).boxMax sc r2).1 w) &&
          decide ((flatTree i).minRobinCoeff w < P.maxFloat - P.epsilon)) = true →
      (visitNodes P E flatTree sc r2 i).2.2.2 w = (visitNodes P E flatTree1 sc r2 j).2.2.2 w) ∧
    (((decide ((flatTree i).child w ≠ maxInt) &&
          (E.overlapWideBox (flatTree i).boxMin (flatTree i).boxMax sc r2).1 w) &&
          decide ((flatTree i).minRobinCoeff w < P.maxFloat - P.epsilon)) = false →
      (visitNodes P E flatTree sc r2 i).2.2.2 w =
        !anyLane P.W (fun v => (decide ((flatTree i).child v ≠ maxInt) &&
          (E.overlapWideBox (flatTree i).boxMin (flatTree i).boxMax sc r2).1 v) &&
          decide ((flatTree i).minRobinCoeff v < P.maxFloat - P.epsilon))) := by
  obtain ⟨hbm, hbM, hax, hha, hrad, hmin, hmax, hch⟩ := hslot
  have hbox := hloc.box (flatTree i).boxMin (flatTree i).boxMax (flatTree1 j).boxMin
    (flatTree1 j).boxMax sc r2 w hbm hbM
  have hm : ((decide ((flatTree i).child w ≠ maxInt) &&
      (E.overlapWideBox (flatTree i).boxMin (flatTree i).boxMax sc r2).1 w) &&
      decide ((flatTree i).minRobinCoeff w < P.maxFloat - P.epsilon)) =
      ((decide ((flatTree1 j).child w ≠ maxInt) &&
      (E.overlapWideBox (flatTree1 j).boxMin (flatTree1 j).boxMax sc r2).1 w) &&
      decide ((flatTree1 j).minRobinCoeff w < P.maxFloat - P.epsilon)) := by
    rw [hch, hbox.1, hmin]
  have hc := hloc.cone (flatTree i).coneAxis (flatTree1 j).coneAxis (flatTree i).coneHalfAngle
    (flatTree1 j).coneHalfAngle (flatTree i).coneRadius (flatTree1 j).coneRadius sc
    (flatTree i).boxMin (flatTree i).boxMax (flatTree1 j).boxMin (flatTree1 j).boxMax
    (E.overlapWideBox (flatTree i).boxMin (flatTree i).boxMax sc r2).2.1
    (E.overlapWideBox (flatTree1 j).boxMin (flatTree1 j).boxMax sc r2).2.1
    (fun v => (decide ((flatTree i).child v ≠ maxInt) &&
      (E.overlapWideBox (flatTree i).boxMin (flatTree i).boxMax sc r2).1 v) &&
      decide ((flatTree i).minRobinCoeff v < P.maxFloat - P.epsilon))
    (fun v => (decide ((flatTree1 j).child v ≠ maxInt) &&
      (E.overlapWideBox (flatTree1 j).boxMin (flatTree1 j).boxMax sc r2).1 v) &&
      decide ((flatTree1 j).minRobinCoeff v < P.maxFloat - P.epsilon))
    w hax hha hrad hbm hbM hbox.2.1 hm
  by_cases hmw : ((decide ((flatTree i).child w ≠ maxInt) &&
      (E.overlapWideBox (flatTree i).boxMin (flatTree i).boxMax sc r2).1 w) &&
      decide ((flatTree i).minRobinCoeff w < P.maxFloat - P.epsilon)) = true
  · have hanyA := anyLane_of_lane P.W
      (fun v => (decide ((flatTree i).child v ≠ maxInt) &&
      (E.overlapWideBox (flatTree i).boxMin (flatTree i).boxMax sc r2).1 v) &&
      decide ((flatTree i).minRobinCoeff v < P.maxFloat - P.epsilon)) w hw hmw
    have hanyB := anyLane_of_lane P.W
      (fun v => (decide ((flatTree1 j).child v ≠ maxInt) &&
      (E.overlapWideBox (flatTree1 j).boxMin (flatTree1 j).boxMax sc r2).1 v) &&
      decide ((flatTree1 j).minRobinCoeff v < P.maxFloat - P.epsilon)) w hw (hm.symm.trans hmw)
    have fA := (visitNodes_lane_form P E flatTree sc r2 i w hw _ _ rfl rfl).2 hanyA
    have fB := (visitNodes_lane_form P E flatTree1 sc r2 j w hw _ _ rfl rfl).2 hanyB
    have hsil : (visitNodes P E flatTree sc r2 i).2.2.2 w =
        (visitNodes P E flatTree1 sc r2 j).2.2.2 w := by
      rw [fA.2.2.2, fB.2.2.2, hc.2.2]
    have hnbMin := hloc.minBound
      (fun w => E.sqrt ((E.overlapWideBox (flatTree i).boxMin (flatTree i).boxMax sc r2).2.1 w))
      (fun w => E.sqrt (masked (E.overlapWideBox (flatTree i).boxMin (flatTree i).boxMax sc
        r2).2.2 (E.overlapWideCone (flatTree i).coneAxis (flatTree i).coneHalfAngle
          (flatTree i).coneRadius sc (flatTree i).boxMin (flatTree i).boxMax
          (E.overlapWideBox (flatTree i).boxMin (flatTree i).boxMax sc r2).2.1
          (fun v => (decide ((flatTree i).child v ≠ maxInt) &&
            (E.overlapWideBox (flatTree i).boxMin (flatTree i).boxMax sc r2).1 v) &&
            decide ((flatTree i).minRobinCoeff v < P.maxFloat - P.epsilon))).2.2
        (fun _ => P.maxFloat) w))
      (flatTree i).minRobinCoeff (flatTree i).maxRobinCoeff
      (fun w => min |E.cos ((E.overlapWideCone (flatTree i).coneAxis (flatTree i).coneHalfAngle
          (flatTree i).coneRadius sc (flatTree i).boxMin (flatTree i).boxMax
          (E.overlapWideBox (flatTree i).boxMin (flatTree i).boxMax sc r2).2.1
          (fun v => (decide ((flatTree i).child v ≠ maxInt) &&
            (E.overlapWideBox (flatTree i).boxMin (flatTree i).boxMax sc r2).1 v) &&
            decide ((flatTree i).minRobinCoeff v < P.maxFloat - P.epsilon))).1 w)|
        |E.cos ((E.overlapWideCone (flatTree i).coneAxis (flatTree i).coneHalfAngle
          (flatTree i).coneRadius sc (flatTree i).boxMin (flatTree i).boxMax
          (E.overlapWideBox (flatTree i).boxMin (flatTree i).boxMax sc r2).2.1
          (fun v => (decide ((flatTree i).child v ≠ maxInt) &&
            (E.overlapWideBox (flatTree i).boxMin (flatTree i).boxMax sc r2).1 v) &&
            decide ((flatTree i).minRobinCoeff v < P.maxFloat - P.epsilon))).2.1 w)|)
      (fun _ => 1)
      (fun w => E.sqrt ((E.overlapWideBox (flatTree1 j).boxMin (flatTree1 j).boxMax sc
        r2).2.1 w))
      (fun w => E.sqrt (masked (E.overlapWideBox (flatTree1 j).boxMin (flatTree1 j).boxMax sc
        r2).2.2 (E.overlapWideCone (flatTree1 j).coneAxis (flatTree1 j).coneHalfAngle
          (flatTree1 j).coneRadius sc (flatTree1 j).boxMin (flatTree1 j).boxMax
          (E.overlapWideBox (flatTree1 j).boxMin (flatTree1 j).boxMax sc r2).2.1
          (fun v => (decide ((flatTree1 j).child v ≠ maxInt) &&
            (E.overlapWideBox (flatTree1 j).boxMin (flatTree1 j).boxMax sc r2).1 v) &&
            decide ((flatTree1 j).minRobinCoeff v < P.maxFloat - P.epsilon))).2.2
        (fun _ => P.maxFloat) w))
      (flatTree1 j).minRobinCoeff (flatTree1 j).maxRobinCoeff
      (fun w => min |E.cos ((E.overlapWideCone (flatTree1 j).coneAxis
          (flatTree1 j).coneHalfAngle
          (flatTree1 j).coneRadius sc (flatTree1 j).boxMin (flatTree1 j).boxMax
          (E.overlapWideBox (flatTree1 j).boxMin (flatTree1 j).boxMax sc r2).2.1
          (fun v => (decide ((flatTree1 j).child v ≠ maxInt) &&
            (E.overlapWideBox (flatTree1 j).boxMin (flatTree1 j).boxMax sc r2).1 v) &&
            decide ((flatTree1 j).minRobinCoeff v < P.maxFloat - P.epsilon))).1 w)|
        |E.cos ((E.overlapWideCone (flatTree1 j).coneAxis (flatTree1 j).coneHalfAngle
          (flatTree1 j).coneRadius sc (flatTree1 j).boxMin (flatTree1 j).boxMax
          (E.overlapWideBox (flatTree1 j).boxMin (flatTree1 j).boxMax sc r2).2.1
          (fun v => (decide ((flatTree1 j).child v ≠ maxInt) &&
            (E.overlapWideBox (flatTree1 j).boxMin (flatTree1 j).boxMax sc r2).1 v) &&
            decide ((flatTree1 j).minRobinCoeff v < P.maxFloat - P.epsilon))).2.1 w)|)
      (fun _ => 1) w
      (by simp only [hbox.2.1]) (by simp only [masked, hc.2.2, hbox.2.2]) hmin hmax
      (by simp only [hc.1, hc.2.1]) rfl
    have hnbMax := hloc.maxBound
      (fun w => E.sqrt ((E.overlapWideBox (flatTree i).boxMin (flatTree i).boxMax sc r2).2.1 w))
      (fun w => E.sqrt (masked (E.overlapWideBox (flatTree i).boxMin (flatTree i).boxMax sc
        r2).2.2 (E.overlapWideCone (flatTree i).coneAxis (flatTree i).coneHalfAngle
          (flatTree i).coneRadius sc (flatTree i).boxMin (flatTree i).boxMax
          (E.overlapWideBox (flatTree i).boxMin (flatTree i).boxMax sc r2).2.1
          (fun v => (decide ((flatTree i).child v ≠ maxInt) &&
            (E.overlapWideBox (flatTree i).boxMin (flatTree i).boxMax sc r2).1 v) &&
            decide ((flatTree i).minRobinCoeff v < P.maxFloat - P.epsilon))).2.2
        (fun _ => P.maxFloat) w))
      (flatTree i).minRobinCoeff (flatTree i).maxRobinCoeff
      (fun w => min |E.cos ((E.overlapWideCone (flatTree i).coneAxis (flatTree i).coneHalfAngle
          (flatTree i).coneRadius sc (flatTree i).boxMin (flatTree i).boxMax
          (E.overlapWideBox (flatTree i).boxMin (flatTree i).boxMax sc r2).2.1
          (fun v => (decide ((flatTree i).child v ≠ maxInt) &&
            (E.overlapWideBox (flatTree i).boxMin (flatTree i).boxMax sc r2).1 v) &&
            decide ((flatTree i).minRobinCoeff v < P.maxFloat - P.epsilon))).1 w)|
        |E.cos ((E.overlapWideCone (flatTree i).coneAxis (flatTree i).coneHalfAngle
          (flatTree i).coneRadius sc (flatTree i).boxMin (flatTree i).boxMax
          (E.overlapWideBox (flatTree i).boxMin (flatTree i).boxMax sc r2).2.1
          (fun v => (decide ((flatTree i).child v ≠ maxInt) &&
            (E.overlapWideBox (flatTree i).boxMin (flatTree i).boxMax sc r2).1 v) &&
            decide ((flatTree i).minRobinCoeff v < P.maxFloat - P.epsilon))).2.1 w)|)
      (fun _ => 1)
      (fun w => E.sqrt ((E.overlapWideBox (flatTree1 j).boxMin (flatTree1 j).boxMax sc
        r2).2.1 w))
      (fun w => E.sqrt (masked (E.overlapWideBox (flatTree1 j).boxMin (flatTree1 j).boxMax sc
        r2).2.2 (E.overlapWideCone (flatTree1 j).coneAxis (flatTree1 j).coneHalfAngle
          (flatTree1 j).coneRadius sc (flatTree1 j).boxMin (flatTree1 j).boxMax
          (E.overlapWideBox (flatTree1 j).boxMin (flatTree1 j).boxMax sc r2).2.1
          (fun v => (decide ((flatTree1 j).child v ≠ maxInt) &&
            (E.overlapWideBox (flatTree1 j).boxMin (flatTree1 j).boxMax sc r2).1 v) &&
            decide ((flatTree1 j).minRobinCoeff v < P.maxFloat - P.epsilon))).2.2
        (fun _ => P.maxFloat) w))
      (flatTree1 j).minRobinCoeff (flatTree1 j).maxRobinCoeff
      (fun w => min |E.cos ((E.overlapWideCone (flatTree1 j).coneAxis
          (flatTree1 j).coneHalfAngle
          (flatTree1 j).coneRadius sc (flatTree1 j).boxMin (flatTree1 j).boxMax
          (E.overlapWideBox (flatTree1 j).boxMin (flatTree1 j).boxMax sc r2).2.1
          (fun v => (decide ((flatTree1 j).child v ≠ maxInt) &&
            (E.overlapWideBox (flatTree1 j).boxMin (flatTree1 j).boxMax sc r2).1 v) &&
            decide ((flatTree1 j).minRobinCoeff v < P.maxFloat - P.epsilon))).1 w)|
        |E.cos ((E.overlapWideCone (flatTree1 j).coneAxis (flatTree1 j).coneHalfAngle
          (flatTree1 j).coneRadius sc (flatTree1 j).boxMin (flatTree1 j).boxMax
          (E.overlapWideBox (flatTree1 j).boxMin (flatTree1 j).boxMax sc r2).2.1
          (fun v => (decide ((flatTree1 j).child v ≠ maxInt) &&
            (E.overlapWideBox (flatTree1 j).boxMin (flatTree1 j).boxMax sc r2).1 v) &&
            decide ((flatTree1 j).minRobinCoeff v < P.maxFloat - P.epsilon))).2.1 w)|)
      (fun _ => 1) w
      (by simp only [hbox.2.1]) (by simp only [masked, hc.2.2, hbox.2.2]) hmin hmax
      (by simp only [hc.1, hc.2.1]) rfl
    refine ⟨⟨?_, ?_, ?_⟩, fun _ => hsil, fun _ => hsil, fun h => ?_⟩
    · rw [fA.1, fB.1, hc.2.2, hch, hbox.1, hmax]
    · rw [fA.2.1, fB.2.1, hnbMin, hc.2.2, hch, hbox.1, hbox.2.1, hmin, hmax]
    · rw [fA.2.2.1, fB.2.2.1, hnbMax, hc.2.2, hch, hbox.1, hmin, hmax]
      simp only [masked, hc.2.2, hbox.2.2]
    · rw [hmw] at h; cases h
  · simp only [Bool.not_eq_true] at hmw
    have cA := visitNodes_lane_clear P E flatTree sc r2 i w hw heps hcone _ rfl hle hmw
    have cB := visitNodes_lane_clear P E flatTree1 sc r2 j w hw heps hcone _ rfl
      (by rw [← hmin, ← hmax]; exact hle) (hm.symm.trans hmw)
    refine ⟨⟨?_, ?_, ?_⟩, fun h => ?_, fun h => ?_, fun _ => cA.2.2.2⟩
    · rw [cA.1, cB.1, hch, hbox.1]
    · rw [cA.2.1, cB.2.1, hbox.2.1]
    · rw [cA.2.2.1, cB.2.2.1, hbox.2.2]
    · rw [cA.2.2.2, cB.2.2.2, h]
    · rw [hmw] at h; cases h

end LaneClear

section LaneWitness

/-- The packet routines of the scene work lane by lane. -/
theorem scene_laneLocal : LaneLocal sceneQueryOps where
  box := by
    intro bMin bMax bMin1 bMax1 sc r2 w h1 h2
    simp only [sceneQueryOps, sum3, h1, h2, and_self]
  cone := by
    intro _ _ _ _ _ _ _ _ _ _ _ _ _ _ _ w _ _ _ _ _ _ _
    exact ⟨rfl, rfl, rfl⟩
  minBound := by
    intro a b c d e f a1 b1 c1 d1 e1 f1 w h1 h2 h3 h4 h5 h6
    simp only [sceneQueryOps, RobinMbvhNodeBound3.computeMinSquaredStarRadiusBound, masked, h1,
      h2, h4, h5]
  maxBound := by
    intro a b c d e f a1 b1 c1 d1 e1 f1 w h1 h2 h3 h4 h5 h6
    simp only [sceneQueryOps, RobinMbvhNodeBound3.computeMaxSquaredStarRadiusBound, masked, h1,
      h2, h3, h6]

set_option maxRecDepth 100000 in
/-- Witness for the amended C20: the root of the scene and the node obtained by
turning its first child into a Dirichlet child give the same visit bit and
bounds for slot 1. -/
theorem visitNodes_lane_independent_witness :
    (visitNodes sceneParams sceneQueryOps (fun _ => sceneRoot) sceneSphere.c 100 0).1 1 =
      (visitNodes sceneParams sceneQueryOps (fun _ => sceneRootDirichlet) sceneSphere.c 100
        0).1 1 ∧
    (visitNodes sceneParams sceneQueryOps (fun _ => sceneRoot) sceneSphere.c 100 0).2.1 1 =
      (visitNodes sceneParams sceneQueryOps (fun _ => sceneRootDirichlet) sceneSphere.c 100
        0).2.1 1 ∧
    (visitNodes sceneParams sceneQueryOps (fun _ => sceneRoot) sceneSphere.c 100 0).2.2.1 1 =
      (visitNodes sceneParams sceneQueryOps (fun _ => sceneRootDirichlet) sceneSphere.c 100
        0).2.2.1 1 :=
  (visitNodes_lane_independent sceneParams sceneQueryOps scene_laneLocal (by decide!)
    (fun _ _ _ _ _ _ _ _ _ _ => rfl) (fun _ => sceneRoot) (fun _ => sceneRootDirichlet)
    sceneSphere.c 100 0 0 1 (by decide) (by unfold SlotEq; decide!) (by decide!)).1

end LaneWitness

/-! ### Termination of the traversal -/

section Termination

variable {α : Type} [LinearOrderedField α] {D : Nat}

theorem filter_flatMap_sublist {β γ : Type} (p : β → Bool) (g : β → List γ) :
    ∀ l : List β, ((l.filter p).flatMap g).Sublist (l.flatMap g) := by
  intro l
  induction l with
  | nil => simp
  | cons a l ih =>
    by_cases hp : p a = true
    · simp only [List.filter_cons, hp, if_true, List.flatMap_cons]
      exact List.Sublist.append (List.Sublist.refl _) ih
    · simp only [List.filter_cons, hp, if_false, List.flatMap_cons, Bool.false_eq_true]
      exact ih.trans (List.sublist_append_right _ _)

theorem subperm_nodup {β : Type} {l1 l2 : List β} (h : l1.Subperm l2) (hnd : l2.Nodup) :
    l1.Nodup := by
  obtain ⟨l, hp, hs⟩ := h
  exact hp.nodup_iff.mp (hnd.sublist hs)

theorem subtreeNodes_indep (W : Nat) (nNodes : Int) (child : Int → Nat → Int) :
    ∀ (h k : Nat) (i : Int), wellFormedAt W nNodes child h i = true →
      wellFormedAt W nNodes child k i = true →
      subtreeNodes W child h i = subtreeNodes W child k i := by
  intro h
  induction h with
  | zero => intro k i hi; simp [wellFormedAt] at hi
  | succ h ih =>
    intro k i hi hk
    cases k with
    | zero => simp [wellFormedAt] at hk
    | succ k =>
      rw [wellFormedAt_succ_iff] at hi hk
      unfold subtreeNodes
      by_cases hleaf : child i 0 < 0
      · simp [hleaf]
      · simp only [hleaf, if_false]
        congr 1
        apply List.flatMap_congr
        intro w hw
        have hw' : w < W := List.mem_range.mp hw
        by_cases hp : child i w = maxInt
        · simp [hp]
        · have h1 := (hi.2.2.resolve_left hleaf w hw').resolve_left hp
          have h2 := (hk.2.2.resolve_left hleaf w hw').resolve_left hp
          simp only [ne_eq, hp, not_false_eq_true, if_true]
          exact ih k _ h1 h2

/-- The root of a well-formed subtree is the first node of its preorder. -/
theorem subtreeNodes_head (W : Nat) (nNodes : Int) (child : Int → Nat → Int) (h : Nat)
    (i : Int) (hwf : wellFormedAt W nNodes child h i = true) :
    ∃ rest, subtreeNodes W child h i = i :: rest := by
  cases h with
  | zero => simp [wellFormedAt] at hwf
  | succ h =>
    unfold subtreeNodes
    by_cases hleaf : child i 0 < 0
    · exact ⟨[], by simp [hleaf]⟩
    · rw [if_neg hleaf]
      exact ⟨_, rfl⟩

/-- Call `enqueueNodes<FCPW_MBVH_BRANCHING_FACTOR>`: the old stack is kept and the
entries of the masked lanes are pushed above it, each lane once. -/
theorem enqueueNodesW_stack_perm (P : Params α) (E : QueryOps α D) (child : Nat → Int)
    (tMin tMax : Nat → α) (hasSilhouettes mask : Nat → Bool) (minDist tMaxMin : α)
    (subtree : List (TraversalStack α))
    (hsort : P.W = 4 → (E.sortOrder4 tMin).Perm (List.range 4)) :
    ∃ pushed : List (TraversalStack α),
      (enqueueNodesW P E child tMin tMax hasSilhouettes mask minDist tMaxMin subtree).1 =
        subtree ++ pushed ∧
      pushed.Perm (((List.range P.W).filter mask).map
        (stackEntry child tMin hasSilhouettes)) := by
  unfold enqueueNodesW
  by_cases h4 : P.W = 4
  · simp only [h4, if_true]
    refine ⟨_, enqueueNodes4_stack E child tMin tMax hasSilhouettes mask minDist tMaxMin subtree,
      ?_⟩
    exact ((hsort h4).filter mask).map _
  · simp only [h4, if_false]
    exact enqueueNodes_stack P.W child tMin tMax hasSilhouettes mask minDist tMaxMin subtree

end Termination

section Termination2

variable {α : Type} [LinearOrderedField α] {D : Nat}

/-- One iteration of the loop keeps the stack below the popped entry; what it
pushes is empty, or the popped node is internal and the pushed entries are
those of the lanes of the mask, each lane once. -/
theorem traversalStep_stack_perm (P : Params α) (E : QueryOps α D) (T : RobinMbvh α D)
    (sc : Fin D → α) (flip : Bool) (prec : α)
    (hsort : P.W = 4 → ∀ t, (E.sortOrder4 t).Perm (List.range 4))
    (st : TraversalState α D) (top : TraversalStack α)
    (htop : st.subtree.getLast? = some top) :
    ∃ pushed : List (TraversalStack α),
      (traversalStep P E T sc flip prec st).subtree = st.subtree.dropLast ++ pushed ∧
      (pushed = [] ∨
        (isLeafNode (T.flatTree top.node) = false ∧
          pushed.Perm (((List.range P.W).filter
              (visitNodes P E T.flatTree sc st.s.r2 top.node).1).map
            (stackEntry (T.flatTree top.node).child
              (visitNodes P E T.flatTree sc st.s.r2 top.node).2.1
              (visitNodes P E T.flatTree sc st.s.r2 top.node).2.2.2)))) := by
  unfold traversalStep
  simp only [htop]
  by_cases hfar : |top.distance| > st.s.r2
  · simp only [hfar, if_true]
    exact ⟨[], by simp, Or.inl rfl⟩
  · simp only [hfar, if_false]
    by_cases hl : isLeafNode (T.flatTree top.node) = true
    · simp only [hl, if_true]
      by_cases hb : T.primitiveTypeSupportsVectorizedQueries = true
      · simp only [hb, if_true]
        exact ⟨[], by simp, Or.inl rfl⟩
      · simp only [hb, if_false]
        exact ⟨[], by simp, Or.inl rfl⟩
    · simp only [hl, if_false]
      by_cases hany : anyLane P.W (visitNodes P E T.flatTree sc st.s.r2 top.node).1 = true
      · simp only [hany, if_true]
        obtain ⟨pushed, h1, h2⟩ := enqueueNodesW_stack_perm P E (T.flatTree top.node).child
          (visitNodes P E T.flatTree sc st.s.r2 top.node).2.1
          (visitNodes P E T.flatTree sc st.s.r2 top.node).2.2.1
          (visitNodes P E T.flatTree sc st.s.r2 top.node).2.2.2
          (visitNodes P E T.flatTree sc st.s.r2 top.node).1 st.s.r2 st.s.r2 st.subtree.dropLast
          (fun h4 => hsort h4 _)
        exact ⟨pushed, h1, Or.inr ⟨by simp [hl], h2⟩⟩
      · simp only [hany, if_false]
        exact ⟨[], by simp, Or.inl rfl⟩

/-- One iteration of the loop on a stack of roots of well-formed subtrees: the
stack stays one, and the popped node together with the nodes below the new
stack are among the nodes below the old stack, counted with multiplicity. -/
theorem traversalStep_nodes (P : Params α) (E : QueryOps α D) (T : RobinMbvh α D)
    (sc : Fin D → α) (flip : Bool) (prec : α) (H : Nat)
    (hsort : P.W = 4 → ∀ t, (E.sortOrder4 t).Perm (List.range 4))
    (st : TraversalState α D) (top : TraversalStack α)
    (htop : st.subtree.getLast? = some top)
    (hinv : ∀ e ∈ st.subtree,
      wellFormedAt P.W T.nNodes (childOf T.flatTree) H e.node = true) :
    (∀ e ∈ (traversalStep P E T sc flip prec st).subtree,
      wellFormedAt P.W T.nNodes (childOf T.flatTree) H e.node = true) ∧
    (top.node :: (traversalStep P E T sc flip prec st).subtree.flatMap
        (fun e => subtreeNodes P.W (childOf T.flatTree) H e.node)).Subperm
      (st.subtree.flatMap (fun e => subtreeNodes P.W (childOf T.flatTree) H e.node)) := by
  obtain ⟨pushed, h1, h2⟩ := traversalStep_stack_perm P E T sc flip prec hsort st top htop
  have hsplit : st.subtree.dropLast ++ [top] = st.subtree :=
    List.dropLast_append_getLast? top (by simp [htop])
  have htopmem : top ∈ st.subtree := by rw [← hsplit]; simp
  have hwtop := hinv top htopmem
  cases H with
  | zero => simp [wellFormedAt] at hwtop
  | succ h =>
    have hwtop1 := (wellFormedAt_succ_iff _ _ _ _ _).mp hwtop
    have hR : st.subtree.flatMap
        (fun e => subtreeNodes P.W (childOf T.flatTree) (h + 1) e.node) =
        st.subtree.dropLast.flatMap
          (fun e => subtreeNodes P.W (childOf T.flatTree) (h + 1) e.node) ++
        subtreeNodes P.W (childOf T.flatTree) (h + 1) top.node := by
      conv_lhs => rw [← hsplit]
      simp [List.flatMap_append]
    rw [h1, hR, List.flatMap_append]
    rcases h2 with h2 | ⟨hint, hperm⟩
    · subst h2
      constructor
      · intro e he
        simp only [List.append_nil] at he
        exact hinv e (List.dropLast_subset _ he)
      · simp only [List.flatMap_nil, List.append_nil]
        obtain ⟨rest, hrest⟩ := subtreeNodes_head P.W T.nNodes (childOf T.flatTree) (h + 1)
          top.node hwtop
        rw [hrest]
        refine (List.Perm.subperm (List.perm_append_singleton _ _).symm).trans ?_
        exact (List.subperm_append_left _).mpr
          (List.Sublist.subperm (List.Sublist.cons₂ _ (List.nil_sublist _)))
    · have hnl : ¬ childOf T.flatTree top.node 0 < 0 := (isLeafNode_eq_false_iff _).mp hint
      have hch := hwtop1.2.2.resolve_left hnl
      have hlane : ∀ w ∈ (List.range P.W).filter
          (visitNodes P E T.flatTree sc st.s.r2 top.node).1,
          childOf T.flatTree top.node w ≠ maxInt ∧
          wellFormedAt P.W T.nNodes (childOf T.flatTree) h
            (childOf T.flatTree top.node w) = true := by
        intro w hw
        rw [List.mem_filter, List.mem_range] at hw
        have hp := (visitNodes_mask_sub P E T.flatTree sc st.s.r2 top.node w hw.2).1
        exact ⟨hp, (hch w hw.1).resolve_left hp⟩
      constructor
      · intro e he
        rw [List.mem_append] at he
        rcases he with he | he
        · exact hinv e (List.dropLast_subset _ he)
        · rw [hperm.mem_iff] at he
          obtain ⟨w, hw, rfl⟩ := List.mem_map.mp he
          exact wellFormedAt_mono _ _ _ _ _ (hlane w hw).2
      · refine (List.Perm.subperm List.perm_middle.symm).trans ?_
        refine (List.subperm_append_left _).mpr ?_
        have hnodes : subtreeNodes P.W (childOf T.flatTree) (h + 1) top.node =
            top.node :: (List.range P.W).flatMap fun w =>
              if childOf T.flatTree top.node w ≠ maxInt then
                subtreeNodes P.W (childOf T.flatTree) h (childOf T.flatTree top.node w)
              else [] := by
          conv_lhs => unfold subtreeNodes
          rw [if_neg hnl]
        rw [hnodes]
        refine (List.subperm_cons _).mpr ?_
        refine (List.Perm.subperm (hperm.flatMap_right _)).trans ?_
        rw [List.flatMap_map]
        have hcongr : ((List.range P.W).filter
            (visitNodes P E T.flatTree sc st.s.r2 top.node).1).flatMap
            (fun w => subtreeNodes P.W (childOf T.flatTree) (h + 1)
              (stackEntry (T.flatTree top.node).child
                (visitNodes P E T.flatTree sc st.s.r2 top.node).2.1
                (visitNodes P E T.flatTree sc st.s.r2 top.node).2.2.2 w).node) =
            ((List.range P.W).filter
              (visitNodes P E T.flatTree sc st.s.r2 top.node).1).flatMap
            (fun w => if childOf T.flatTree top.node w ≠ maxInt then
                subtreeNodes P.W (childOf T.flatTree) h (childOf T.flatTree top.node w)
              else []) := by
          apply List.flatMap_congr
          intro w hw
          have hl := hlane w hw
          rw [if_pos hl.1]
          exact subtreeNodes_indep P.W T.nNodes (childOf T.flatTree) (h + 1) h _
            (wellFormedAt_mono _ _ _ _ _ hl.2) hl.2
        rw [hcongr]
        exact List.Sublist.subperm (filter_flatMap_sublist _ _ _)

end Termination2

section Termination3

variable {α : Type} [LinearOrderedField α] {D : Nat}

/-- The loop started on a stack of roots of well-formed subtrees returns, with
an empty stack, within as many iterations as there are nodes below the stack. -/
theorem traversalLoop_terminates (P : Params α) (E : QueryOps α D) (T : RobinMbvh α D)
    (sc : Fin D → α) (flip : Bool) (prec : α) (H : Nat)
    (hsort : P.W = 4 → ∀ t, (E.sortOrder4 t).Perm (List.range 4)) :
    ∀ (fuel : Nat) (st : TraversalState α D),
      (∀ e ∈ st.subtree, wellFormedAt P.W T.nNodes (childOf T.flatTree) H e.node = true) →
      (st.subtree.flatMap
        (fun e => subtreeNodes P.W (childOf T.flatTree) H e.node)).length ≤ fuel →
      ∃ st1, traversalLoop P E T sc flip prec fuel st = some st1 ∧ st1.subtree = [] := by
  intro fuel
  induction fuel with
  | zero =>
    intro st hinv hlen
    cases hs : st.subtree with
    | nil => exact ⟨st, by simp [traversalLoop, hs], hs⟩
    | cons e l =>
      exfalso
      obtain ⟨rest, hrest⟩ := subtreeNodes_head P.W T.nNodes (childOf T.flatTree) H e.node
        (hinv e (by rw [hs]; simp))
      rw [hs, List.flatMap_cons, hrest] at hlen
      simp at hlen
  | succ fuel ih =>
    intro st hinv hlen
    cases htop : st.subtree.getLast? with
    | none =>
      have hs : st.subtree = [] := List.getLast?_eq_none_iff.mp htop
      exact ⟨st, by simp [traversalLoop, hs], hs⟩
    | some top =>
      have hne : st.subtree.isEmpty = false := by
        cases hs : st.subtree with
        | nil => rw [hs] at htop; simp at htop
        | cons e l => rfl
      have hstep := traversalStep_nodes P E T sc flip prec H hsort st top htop hinv
      have hl := hstep.2.length_le
      simp only [List.length_cons] at hl
      obtain ⟨st1, h1, h2⟩ := ih (traversalStep P E T sc flip prec st) hstep.1 (by omega)
      refine ⟨st1, ?_, h2⟩
      rw [traversalLoop]
      simp only [hne, Bool.false_eq_true, if_false]
      exact h1

/-- The nodes popped by the loop are among the nodes below the initial stack,
counted with multiplicity. -/
theorem popTrace_subperm (P : Params α) (E : QueryOps α D) (T : RobinMbvh α D)
    (sc : Fin D → α) (flip : Bool) (prec : α) (H : Nat)
    (hsort : P.W = 4 → ∀ t, (E.sortOrder4 t).Perm (List.range 4)) :
    ∀ (fuel : Nat) (st : TraversalState α D),
      (∀ e ∈ st.subtree, wellFormedAt P.W T.nNodes (childOf T.flatTree) H e.node = true) →
      ((popTrace P E T sc flip prec fuel st).map (fun e => e.1.node)).Subperm
        (st.subtree.flatMap (fun e => subtreeNodes P.W (childOf T.flatTree) H e.node)) := by
  intro fuel
  induction fuel with
  | zero => intro st _; simp [popTrace, List.nil_subperm]
  | succ fuel ih =>
    intro st hinv
    cases htop : st.subtree.getLast? with
    | none => simp [popTrace, htop, List.nil_subperm]
    | some top =>
      have hstep := traversalStep_nodes P E T sc flip prec H hsort st top htop hinv
      simp only [popTrace, htop, List.map_cons]
      exact ((List.subperm_cons _).mpr (ih _ hstep.1)).trans hstep.2

end Termination3

section TerminationClaim

variable {α : Type} [LinearOrderedField α] {D : Nat}

/-- C17: for a well-formed finite tree (every present child index of an
internal node is the index of a node and the height is bounded, so there is no
cycle) and every query sphere, the loop of `computeSquaredStarRadius` returns
with an empty stack as soon as the fuel is at least the number of nodes, the
method returns a result, and at most that many entries are popped; if moreover
no node is shared (the preorder of the tree has no duplicates) every node is
popped at most once. In the 4-wide version `sortOrder4` is assumed to return a
permutation of `0, 1, 2, 3`. -/
theorem traversal_terminates_popping_once (P : Params α) (E : QueryOps α D) (T : RobinMbvh α D)
    (s : BoundingSphere α D) (flip : Bool) (prec : α) (H fuel : Nat)
    (hwf : wellFormedAt P.W T.nNodes (childOf T.flatTree) H 0 = true)
    (hsort : P.W = 4 → ∀ t, (E.sortOrder4 t).Perm (List.range 4))
    (hfuel : (subtreeNodes P.W (childOf T.flatTree) H 0).length ≤ fuel) :
    (∃ st1, traversalLoop P E T s.c flip prec fuel
        { subtree := [{ node := 0, distance := 0 }], s := s, nodesVisited := 0 } = some st1 ∧
      st1.subtree = []) ∧
    (∃ result, computeSquaredStarRadius P E T fuel s flip prec = some result) ∧
    (popTrace P E T s.c flip prec fuel
        { subtree := [{ node := 0, distance := 0 }], s := s, nodesVisited := 0 }).length ≤
      (subtreeNodes P.W (childOf T.flatTree) H 0).length ∧
    ((subtreeNodes P.W (childOf T.flatTree) H 0).Nodup →
      ((popTrace P E T s.c flip prec fuel
        { subtree := [{ node := 0, distance := 0 }], s := s, nodesVisited := 0 }).map
          (fun e => e.1.node)).Nodup) := by
  have hinv : ∀ e ∈ [({ node := 0, distance := 0 } : TraversalStack α)],
      wellFormedAt P.W T.nNodes (childOf T.flatTree) H e.node = true := by
    intro e he
    simp only [List.mem_singleton] at he
    subst he
    exact hwf
  have hflat : [({ node := 0, distance := 0 } : TraversalStack α)].flatMap
      (fun e => subtreeNodes P.W (childOf T.flatTree) H e.node) =
      subtreeNodes P.W (childOf T.flatTree) H 0 := by
    simp
  have hterm := traversalLoop_terminates P E T s.c flip prec H hsort fuel
    { subtree := [{ node := 0, distance := 0 }], s := s, nodesVisited := 0 } hinv
    (by rw [hflat]; exact hfuel)
  have hsub := popTrace_subperm P E T s.c flip prec H hsort fuel
    { subtree := [{ node := 0, distance := 0 }], s := s, nodesVisited := 0 } hinv
  rw [hflat] at hsub
  refine ⟨hterm, ?_, ?_, fun hnd => subperm_nodup hsub hnd⟩
  · obtain ⟨st1, h1, _⟩ := hterm
    exact ⟨(st1.s, st1.nodesVisited), by simp only [computeSquaredStarRadius, h1]⟩
  · have := hsub.length_le
    simpa using this

/-- The sorting network of the scene returns a permutation of the four lanes. -/
theorem sceneSortOrder4_perm (t : Nat → ℚ) : (sceneSortOrder4 t).Perm (List.range 4) := by
  unfold sceneSortOrder4
  simp only []
  split_ifs <;> decide

set_option maxRecDepth 100000 in
/-- Witness for C17: the tree of the scene has three nodes, none shared; with
fuel 10 the query returns and pops each node at most once. -/
theorem traversal_terminates_popping_once_witness :
    (∃ result, computeSquaredStarRadius sceneParams sceneQueryOps sceneMbvh 10 sceneSphere
      false 0 = some result) ∧
    ((popTrace sceneParams sceneQueryOps sceneMbvh sceneSphere.c false 0 10
      { subtree := [{ node := 0, distance := 0 }], s := sceneSphere,
        nodesVisited := 0 }).map (fun e => e.1.node)).Nodup :=
  have h := traversal_terminates_popping_once sceneParams sceneQueryOps sceneMbvh sceneSphere
    false 0 2 10 (by decide) (fun _ t => sceneSortOrder4_perm t) (by decide)
  ⟨h.2.1, h.2.2.2 (by decide)⟩

end TerminationClaim

/-! ### Occlusion-relevant, Neumann and Robin children -/

section ChildKinds

variable {α : Type} [LinearOrderedField α] {D : Nat}

/-- Clearing from the mask a lane whose `tMax` is at least the running minimum
does not change the minimum returned by `enqueueNodes`. -/
theorem enqueueNodesW_drop_lane (P : Params α) (E : QueryOps α D) (child : Nat → Int)
    (tMin tMax : Nat → α) (hasSilhouettes mask : Nat → Bool) (minDist tMaxMin : α)
    (subtree : List (TraversalStack α)) (w : Nat) (hle : tMaxMin ≤ tMax w) :
    (enqueueNodesW P E child tMin tMax hasSilhouettes mask minDist tMaxMin subtree).2 =
      (enqueueNodesW P E child tMin tMax hasSilhouettes (fun v => mask v && decide (v ≠ w))
        minDist tMaxMin subtree).2 := by
  unfold enqueueNodesW
  by_cases h4 : P.W = 4
  · simp only [h4, if_true, enqueueNodes4]
    exact enqueueLane4_fold_drop_lane child tMin tMax hasSilhouettes mask w _ _ _ rfl hle
  · simp only [h4, if_false]
    rw [enqueueNodes_snd, enqueueNodes_snd]
    exact enqueueLane_fold_drop_lane child tMin tMax hasSilhouettes mask w _ _ _ rfl hle

/-- C21: an overlapping child that is not purely Dirichlet and whose cone test
is positive is returned by `visitNodes` in the mask, flagged
`hasSilhouettes`, with max bound `maxFloat` (the Robin step does not overwrite
it); when it is enqueued with a running squared radius of at most `maxFloat`
it does not lower that radius: the radius after the call is the one obtained
with the child cleared from the mask. -/
theorem cone_positive_child_unbounded (P : Params α) (E : QueryOps α D)
    (flatTree : Int → RobinMbvhNode α D) (sc : Fin D → α) (r2 : α) (nodeIndex : Int) (w : Nat)
    (ob : (Nat → Bool) × (Nat → α) × (Nat → α))
    (oc : (Nat → α) × (Nat → α) × (Nat → Bool))
    (hob : ob = E.overlapWideBox (flatTree nodeIndex).boxMin (flatTree nodeIndex).boxMax sc r2)
    (hoc : oc = E.overlapWideCone (flatTree nodeIndex).coneAxis
      (flatTree nodeIndex).coneHalfAngle (flatTree nodeIndex).coneRadius sc
      (flatTree nodeIndex).boxMin (flatTree nodeIndex).boxMax ob.2.1
      (fun w => (decide ((flatTree nodeIndex).child w ≠ maxInt) && ob.1 w) &&
        decide ((flatTree nodeIndex).minRobinCoeff w < P.maxFloat - P.epsilon)))
    (hw : w < P.W)
    (hpresent : (flatTree nodeIndex).child w ≠ maxInt)
    (hbox : ob.1 w = true)
    (hnd : (flatTree nodeIndex).minRobinCoeff w < P.maxFloat - P.epsilon)
    (hcone : oc.2.2 w = true) :
    (visitNodes P E flatTree sc r2 nodeIndex).1 w = true ∧
    (visitNodes P E flatTree sc r2 nodeIndex).2.2.2 w = true ∧
    (visitNodes P E flatTree sc r2 nodeIndex).2.2.1 w = P.maxFloat ∧
    ∀ (minDist tMaxMin : α) (subtree : List (TraversalStack α)), tMaxMin ≤ P.maxFloat →
      (enqueueNodesW P E (flatTree nodeIndex).child
          (visitNodes P E flatTree sc r2 nodeIndex).2.1
          (visitNodes P E flatTree sc r2 nodeIndex).2.2.1
          (visitNodes P E flatTree sc r2 nodeIndex).2.2.2
          (visitNodes P E flatTree sc r2 nodeIndex).1 minDist tMaxMin subtree).2 =
        (enqueueNodesW P E (flatTree nodeIndex).child
          (visitNodes P E flatTree sc r2 nodeIndex).2.1
          (visitNodes P E flatTree sc r2 nodeIndex).2.2.1
          (visitNodes P E flatTree sc r2 nodeIndex).2.2.2
          (fun v => (visitNodes P E flatTree sc r2 nodeIndex).1 v && decide (v ≠ w))
          minDist tMaxMin subtree).2 := by
  have hlane : ((decide ((flatTree nodeIndex).child w ≠ maxInt) && ob.1 w) &&
      decide ((flatTree nodeIndex).minRobinCoeff w < P.maxFloat - P.epsilon)) = true := by
    simp [hpresent, hbox, hnd]
  have hany := anyLane_of_lane P.W (fun w =>
      (decide ((flatTree nodeIndex).child w ≠ maxInt) && ob.1 w) &&
        decide ((flatTree nodeIndex).minRobinCoeff w < P.maxFloat - P.epsilon)) w hw hlane
  have hf := (visitNodes_lane_form P E flatTree sc r2 nodeIndex w hw ob oc hob hoc).2 hany
  have h1 : (visitNodes P E flatTree sc r2 nodeIndex).1 w = true := by
    rw [hf.1]
    simp [hpresent, hbox, hcone]
  have h3 : (visitNodes P E flatTree sc r2 nodeIndex).2.2.1 w = P.maxFloat := by
    rw [hf.2.2.1]
    simp [masked, hcone]
  refine ⟨h1, by rw [hf.2.2.2, hcone], h3, ?_⟩
  intro minDist tMaxMin subtree hle
  exact enqueueNodesW_drop_lane P E _ _ _ _ _ minDist tMaxMin subtree w (by rw [h3]; exact hle)

set_option maxRecDepth 100000 in
/-- Witness for C21: slot 0 of the root of the scene (a Robin child that
overlaps the sphere) with a cone test that is positive on its mask. -/
theorem cone_positive_child_unbounded_witness :
    (visitNodes sceneParams sceneQueryOpsCone sceneMbvh.flatTree sceneSphere.c 100 0).1 0 =
      true ∧
    (visitNodes sceneParams sceneQueryOpsCone sceneMbvh.flatTree sceneSphere.c 100 0).2.2.2 0 =
      true ∧
    (visitNodes sceneParams sceneQueryOpsCone sceneMbvh.flatTree sceneSphere.c 100 0).2.2.1 0 =
      sceneParams.maxFloat :=
  have h := cone_positive_child_unbounded sceneParams sceneQueryOpsCone sceneMbvh.flatTree
    sceneSphere.c 100 0 0 _ _ rfl rfl (by decide) (by decide) (by decide!) (by decide!)
    (by decide!)
  ⟨h.1, h.2.1, h.2.2.1⟩

end ChildKinds

section ChildKinds2

variable {α : Type} [LinearOrderedField α] {D : Nat}

/-- C22: for a purely Neumann child (`maxRobinCoeff ≤ epsilon`, with
`minRobinCoeff ≤ maxRobinCoeff` and `epsilon < maxFloat − epsilon`) whose box
overlaps the query sphere, the visit bit returned by `visitNodes` is the
result of the cone test, which is also the returned `hasSilhouettes` flag, and
the min bound is the one of the box test. -/
theorem neumann_child_visited_iff_cone (P : Params α) (E : QueryOps α D)
    (flatTree : Int → RobinMbvhNode α D) (sc : Fin D → α) (r2 : α) (nodeIndex : Int) (w : Nat)
    (ob : (Nat → Bool) × (Nat → α) × (Nat → α))
    (oc : (Nat → α) × (Nat → α) × (Nat → Bool))
    (hob : ob = E.overlapWideBox (flatTree nodeIndex).boxMin (flatTree nodeIndex).boxMax sc r2)
    (hoc : oc = E.overlapWideCone (flatTree nodeIndex).coneAxis
      (flatTree nodeIndex).coneHalfAngle (flatTree nodeIndex).coneRadius sc
      (flatTree nodeIndex).boxMin (flatTree nodeIndex).boxMax ob.2.1
      (fun w => (decide ((flatTree nodeIndex).child w ≠ maxInt) && ob.1 w) &&
        decide ((flatTree nodeIndex).minRobinCoeff w < P.maxFloat - P.epsilon)))
    (hw : w < P.W)
    (heps : P.epsilon < P.maxFloat - P.epsilon)
    (hpresent : (flatTree nodeIndex).child w ≠ maxInt)
    (hbox : ob.1 w = true)
    (hneu : (flatTree nodeIndex).maxRobinCoeff w ≤ P.epsilon)
    (hle : (flatTree nodeIndex).minRobinCoeff w ≤ (flatTree nodeIndex).maxRobinCoeff w) :
    (visitNodes P E flatTree sc r2 nodeIndex).1 w = oc.2.2 w ∧
    (visitNodes P E flatTree sc r2 nodeIndex).1 w =
      (visitNodes P E flatTree sc r2 nodeIndex).2.2.2 w ∧
    (visitNodes P E flatTree sc r2 nodeIndex).2.1 w = ob.2.1 w := by
  have hnd : (flatTree nodeIndex).minRobinCoeff w < P.maxFloat - P.epsilon :=
    lt_of_le_of_lt (le_trans hle hneu) heps
  have hnn : ¬ (flatTree nodeIndex).maxRobinCoeff w > P.epsilon := not_lt.mpr hneu
  have hlane : ((decide ((flatTree nodeIndex).child w ≠ maxInt) && ob.1 w) &&
      decide ((flatTree nodeIndex).minRobinCoeff w < P.maxFloat - P.epsilon)) = true := by
    simp [hpresent, hbox, hnd]
  have hany := anyLane_of_lane P.W (fun w =>
      (decide ((flatTree nodeIndex).child w ≠ maxInt) && ob.1 w) &&
        decide ((flatTree nodeIndex).minRobinCoeff w < P.maxFloat - P.epsilon)) w hw hlane
  have hf := (visitNodes_lane_form P E flatTree sc r2 nodeIndex w hw ob oc hob hoc).2 hany
  have h1 : (visitNodes P E flatTree sc r2 nodeIndex).1 w = oc.2.2 w := by
    rw [hf.1]
    simp [hpresent, hbox, hnn]
  refine ⟨h1, by rw [h1, hf.2.2.2], ?_⟩
  rw [hf.2.1]
  simp [hnn]

set_option maxRecDepth 100000 in
/-- Witness for C22: the root of the scene with its first child turned into a
Neumann child; the cone test of the scene is negative, so the child is not
visited. -/
theorem neumann_child_visited_iff_cone_witness :
    (visitNodes sceneParams sceneQueryOps (fun _ => sceneRootNeumann) sceneSphere.c 100 0).1 0 =
      false ∧
    (visitNodes sceneParams sceneQueryOps (fun _ => sceneRootNeumann) sceneSphere.c 100
      0).2.2.2 0 = false ∧
    (visitNodes sceneParams sceneQueryOpsCone (fun _ => sceneRootNeumann) sceneSphere.c 100
      0).1 0 = true :=
  have h := neumann_child_visited_iff_cone sceneParams sceneQueryOps (fun _ => sceneRootNeumann)
    sceneSphere.c 100 0 0 _ _ rfl rfl (by decide) (by decide!) (by decide) (by decide!)
    (by decide!) (by decide!)
  have h1 := neumann_child_visited_iff_cone sceneParams sceneQueryOpsCone
    (fun _ => sceneRootNeumann) sceneSphere.c 100 0 0 _ _ rfl rfl (by decide) (by decide!)
    (by decide) (by decide!) (by decide!) (by decide!)
  ⟨h.1, h.2.1 ▸ h.1, h1.1.trans (by decide!)⟩

/-- C23: for a child that overlaps the sphere, is neither purely Dirichlet nor
purely Neumann and is not occlusion-relevant, the min and max bounds returned
by `visitNodes` are `computeMinSquaredStarRadiusBound` and
`computeMaxSquaredStarRadiusBound` applied to the packets `sqrt(r2MinBound)`,
`sqrt(r2MaxBound)`, `minRobinCoeff`, `maxRobinCoeff`,
`min(|cos θ0|, |cos θ1|)` and `maxCosTheta = 1`, where lane `w` of
`r2MinBound` and `r2MaxBound` holds the bounds of the box test; for a strategy
that works lane by lane the packets can be replaced by those of the box test.
For every other lane the min bound is the one of the box test and the max
bound is the one of the box test or `maxFloat`. -/
theorem robin_child_bounds (P : Params α) (E : QueryOps α D)
    (flatTree : Int → RobinMbvhNode α D) (sc : Fin D → α) (r2 : α) (nodeIndex : Int)
    (ob : (Nat → Bool) × (Nat → α) × (Nat → α))
    (oc : (Nat → α) × (Nat → α) × (Nat → Bool))
    (hob : ob = E.overlapWideBox (flatTree nodeIndex).boxMin (flatTree nodeIndex).boxMax sc r2)
    (hoc : oc = E.overlapWideCone (flatTree nodeIndex).coneAxis
      (flatTree nodeIndex).coneHalfAngle (flatTree nodeIndex).coneRadius sc
      (flatTree nodeIndex).boxMin (flatTree nodeIndex).boxMax ob.2.1
      (fun w => (decide ((flatTree nodeIndex).child w ≠ maxInt) && ob.1 w) &&
        decide ((flatTree nodeIndex).minRobinCoeff w < P.maxFloat - P.epsilon))) :
    (∀ w, w < P.W → (flatTree nodeIndex).child w ≠ maxInt → ob.1 w = true →
      (flatTree nodeIndex).minRobinCoeff w < P.maxFloat - P.epsilon →
      (flatTree nodeIndex).maxRobinCoeff w > P.epsilon → oc.2.2 w = false →
      (visitNodes P E flatTree sc r2 nodeIndex).2.1 w =
        E.computeMinSquaredStarRadiusBound (fun w => E.sqrt (ob.2.1 w))
          (fun w => E.sqrt (masked ob.2.2 oc.2.2 (fun _ => P.maxFloat) w))
          (flatTree nodeIndex).minRobinCoeff (flatTree nodeIndex).maxRobinCoeff
          (fun w => min |E.cos (oc.1 w)| |E.cos (oc.2.1 w)|) (fun _ => 1) w ∧
      (visitNodes P E flatTree sc r2 nodeIndex).2.2.1 w =
        E.computeMaxSquaredStarRadiusBound (fun w => E.sqrt (ob.2.1 w))
          (fun w => E.sqrt (masked ob.2.2 oc.2.2 (fun _ => P.maxFloat) w))
          (flatTree nodeIndex).minRobinCoeff (flatTree nodeIndex).maxRobinCoeff
          (fun w => min |E.cos (oc.1 w)| |E.cos (oc.2.1 w)|) (fun _ => 1) w ∧
      E.sqrt (masked ob.2.2 oc.2.2 (fun _ => P.maxFloat) w) = E.sqrt (ob.2.2 w) ∧
      (LaneLocal E →
        (visitNodes P E flatTree sc r2 nodeIndex).2.1 w =
          E.computeMinSquaredStarRadiusBound (fun w => E.sqrt (ob.2.1 w))
            (fun w => E.sqrt (ob.2.2 w))
            (flatTree nodeIndex).minRobinCoeff (flatTree nodeIndex).maxRobinCoeff
            (fun w => min |E.cos (oc.1 w)| |E.cos (oc.2.1 w)|) (fun _ => 1) w ∧
        (visitNodes P E flatTree sc r2 nodeIndex).2.2.1 w =
          E.computeMaxSquaredStarRadiusBound (fun w => E.sqrt (ob.2.1 w))
            (fun w => E.sqrt (ob.2.2 w))
            (flatTree nodeIndex).minRobinCoeff (flatTree nodeIndex).maxRobinCoeff
            (fun w => min |E.cos (oc.1 w)| |E.cos (oc.2.1 w)|) (fun _ => 1) w)) ∧
    (∀ w, w < P.W →
      ¬ ((flatTree nodeIndex).child w ≠ maxInt ∧ ob.1 w = true ∧
        (flatTree nodeIndex).minRobinCoeff w < P.maxFloat - P.epsilon ∧
        (flatTree nodeIndex).maxRobinCoeff w > P.epsilon ∧ oc.2.2 w = false) →
      (visitNodes P E flatTree sc r2 nodeIndex).2.1 w = ob.2.1 w ∧
      ((visitNodes P E flatTree sc r2 nodeIndex).2.2.1 w = ob.2.2 w ∨
        (visitNodes P E flatTree sc r2 nodeIndex).2.2.1 w = P.maxFloat)) := by
  constructor
  · intro w hw hpresent hbox hnd hnn hns
    have hlane : ((decide ((flatTree nodeIndex).child w ≠ maxInt) && ob.1 w) &&
        decide ((flatTree nodeIndex).minRobinCoeff w < P.maxFloat - P.epsilon)) = true := by
      simp [hpresent, hbox, hnd]
    have hany := anyLane_of_lane P.W (fun w =>
        (decide ((flatTree nodeIndex).child w ≠ maxInt) && ob.1 w) &&
          decide ((flatTree nodeIndex).minRobinCoeff w < P.maxFloat - P.epsilon)) w hw hlane
    have hf := (visitNodes_lane_form P E flatTree sc r2 nodeIndex w hw ob oc hob hoc).2 hany
    have hmin : (visitNodes P E flatTree sc r2 nodeIndex).2.1 w =
        E.computeMinSquaredStarRadiusBound (fun w => E.sqrt (ob.2.1 w))
          (fun w => E.sqrt (masked ob.2.2 oc.2.2 (fun _ => P.maxFloat) w))
          (flatTree nodeIndex).minRobinCoeff (flatTree nodeIndex).maxRobinCoeff
          (fun w => min |E.cos (oc.1 w)| |E.cos (oc.2.1 w)|) (fun _ => 1) w := by
      rw [hf.2.1, hlane]
      simp [hnn, hns]
    have hmax : (visitNodes P E flatTree sc r2 nodeIndex).2.2.1 w =
        E.computeMaxSquaredStarRadiusBound (fun w => E.sqrt (ob.2.1 w))
          (fun w => E.sqrt (masked ob.2.2 oc.2.2 (fun _ => P.maxFloat) w))
          (flatTree nodeIndex).minRobinCoeff (flatTree nodeIndex).maxRobinCoeff
          (fun w => min |E.cos (oc.1 w)| |E.cos (oc.2.1 w)|) (fun _ => 1) w := by
      rw [hf.2.2.1, hlane]
      simp [hnn, hns]
    have hsq : E.sqrt (masked ob.2.2 oc.2.2 (fun _ => P.maxFloat) w) = E.sqrt (ob.2.2 w) := by
      simp [masked, hns]
    refine ⟨hmin, hmax, hsq, ?_⟩
    intro hloc
    rw [hmin, hmax]
    exact ⟨hloc.minBound _ _ _ _ _ _ _ _ _ _ _ _ w rfl hsq rfl rfl rfl rfl,
      hloc.maxBound _ _ _ _ _ _ _ _ _ _ _ _ w rfl hsq rfl rfl rfl rfl⟩
  · intro w hw hnot
    have hform := visitNodes_lane_form P E flatTree sc r2 nodeIndex w hw ob oc hob hoc
    cases hany : anyLane P.W (fun w =>
        (decide ((flatTree nodeIndex).child w ≠ maxInt) && ob.1 w) &&
          decide ((flatTree nodeIndex).minRobinCoeff w < P.maxFloat - P.epsilon)) with
    | false =>
      have hf := hform.1 hany
      exact ⟨hf.2.1, Or.inl hf.2.2.1⟩
    | true =>
      have hf := hform.2 hany
      have hcond : ((((decide ((flatTree nodeIndex).child w ≠ maxInt) && ob.1 w) &&
          decide ((flatTree nodeIndex).minRobinCoeff w < P.maxFloat - P.epsilon)) &&
          decide ((flatTree nodeIndex).maxRobinCoeff w > P.epsilon)) && !oc.2.2 w) = false := by
        rw [Bool.eq_false_iff]
        intro h
        simp only [Bool.and_eq_true, decide_eq_true_eq, Bool.not_eq_true'] at h
        exact hnot ⟨h.1.1.1.1, h.1.1.1.2, h.1.1.2, h.1.2, h.2⟩
      rw [hf.2.1, hf.2.2.1, hcond]
      simp only [Bool.false_eq_true, if_false, true_and, masked]
      by_cases hc : oc.2.2 w = true
      · right; simp [hc]
      · left; simp [hc]

set_option maxRecDepth 100000 in
/-- Witness for C23: slot 0 of the root of the scene is a Robin child that
overlaps the sphere and is not occlusion-relevant; its bounds are the values
of the 3-D strategy, here the square of `maxFloat` for the min bound. -/
theorem robin_child_bounds_witness :
    (visitNodes sceneParams sceneQueryOps sceneMbvh.flatTree sceneSphere.c 100 0).2.1 0 =
      sceneParams.maxFloat * sceneParams.maxFloat ∧
    (visitNodes sceneParams sceneQueryOps sceneMbvh.flatTree sceneSphere.c 100 0).2.2.1 0 =
      RobinMbvhNodeBound3.computeMaxSquaredStarRadiusBound sceneParams.maxFloat (fun _ => 3)
        (fun _ => 5) (fun _ => 1 / 8) (fun _ => 1 / 8) (fun _ => 1) (fun _ => 1) 0 :=
  have h := (robin_child_bounds sceneParams sceneQueryOps sceneMbvh.flatTree sceneSphere.c 100 0
    _ _ rfl rfl).1 0 (by decide) (by decide) (by decide!) (by decide!) (by decide!) (by decide!)
  ⟨h.1.trans (by decide!), h.2.1.trans (by decide!)⟩

end ChildKinds2

/-! ### The hard-coded `maxCosTheta = 1` -/

section MaxCosTheta

variable {α : Type} [LinearOrderedField α]

/-- C24: with `rMin`, `rMax`, `minRobinCoeff` positive and `c ≤ 1`, the upper
bound evaluated with `maxCosTheta = 1` is at least the upper bound evaluated
with `maxCosTheta = c`: in 2-D for every such input (for a monotone,
non-negative `exp`), in 3-D whenever the bound at 1 is non-degenerate
(`1 / minRobinCoeff < rMin`). -/
theorem maxCosTheta_one_over_approximates (exp : α → α) (hmono : Monotone exp)
    (hpos : ∀ x, 0 ≤ exp x) (maxFloat : α)
    (rMin rMax minRobinCoeff maxRobinCoeff minCosTheta c : Nat → α) (w : Nat)
    (hrMin : 0 < rMin w) (hrMax : 0 < rMax w) (hk : 0 < minRobinCoeff w) (hc : c w ≤ 1) :
    RobinMbvhNodeBound2.computeMaxSquaredStarRadiusBound exp rMin rMax minRobinCoeff
        maxRobinCoeff minCosTheta c w ≤
      RobinMbvhNodeBound2.computeMaxSquaredStarRadiusBound exp rMin rMax minRobinCoeff
        maxRobinCoeff minCosTheta (fun _ => 1) w ∧
    (1 / minRobinCoeff w < rMin w →
      RobinMbvhNodeBound3.computeMaxSquaredStarRadiusBound maxFloat rMin rMax minRobinCoeff
          maxRobinCoeff minCosTheta c w ≤
        RobinMbvhNodeBound3.computeMaxSquaredStarRadiusBound maxFloat rMin rMax minRobinCoeff
          maxRobinCoeff minCosTheta (fun _ => 1) w) := by
  constructor
  · simp only [RobinMbvhNodeBound2.computeMaxSquaredStarRadiusBound, rcp]
    have hinv : 0 ≤ (minRobinCoeff w * rMin w)⁻¹ := inv_nonneg.mpr (mul_pos hk hrMin).le
    have harg : c w * (minRobinCoeff w * rMin w)⁻¹ ≤ 1 * (minRobinCoeff w * rMin w)⁻¹ :=
      mul_le_mul_of_nonneg_right hc hinv
    have hle : rMax w * exp (c w * (minRobinCoeff w * rMin w)⁻¹) ≤
        rMax w * exp (1 * (minRobinCoeff w * rMin w)⁻¹) :=
      mul_le_mul_of_nonneg_left (hmono harg) hrMax.le
    exact mul_self_le_mul_self (mul_nonneg hrMax.le (hpos _)) hle
  · intro hnd
    have hkinv : 0 < (minRobinCoeff w)⁻¹ := inv_pos.mpr hk
    have hrinv : 0 < (rMin w)⁻¹ := inv_pos.mpr hrMin
    have h1 : 1 * (minRobinCoeff w)⁻¹ < rMin w := by rw [one_mul, ← one_div]; exact hnd
    have hcle : c w * (minRobinCoeff w)⁻¹ ≤ 1 * (minRobinCoeff w)⁻¹ :=
      mul_le_mul_of_nonneg_right hc hkinv.le
    have hm1 : ¬ rMin w < 1 * (minRobinCoeff w)⁻¹ := not_lt.mpr h1.le
    have hmc : ¬ rMin w < c w * (minRobinCoeff w)⁻¹ := not_lt.mpr (le_trans hcle h1.le)
    simp only [RobinMbvhNodeBound3.computeMaxSquaredStarRadiusBound, rcp, masked, hm1, hmc,
      decide_False, Bool.false_eq_true, if_false]
    have hd1 : 0 < 1 - 1 * (minRobinCoeff w)⁻¹ * (rMin w)⁻¹ := by
      have : 1 * (minRobinCoeff w)⁻¹ * (rMin w)⁻¹ < rMin w * (rMin w)⁻¹ :=
        mul_lt_mul_of_pos_right h1 hrinv
      rw [mul_inv_cancel₀ hrMin.ne'] at this
      linarith
    have hdle : 1 - 1 * (minRobinCoeff w)⁻¹ * (rMin w)⁻¹ ≤
        1 - c w * (minRobinCoeff w)⁻¹ * (rMin w)⁻¹ := by
      have := mul_le_mul_of_nonneg_right hcle hrinv.le
      linarith
    have hinvle : (1 - c w * (minRobinCoeff w)⁻¹ * (rMin w)⁻¹)⁻¹ ≤
        (1 - 1 * (minRobinCoeff w)⁻¹ * (rMin w)⁻¹)⁻¹ :=
      inv_anti₀ hd1 hdle
    have hle : rMax w * (1 - c w * (minRobinCoeff w)⁻¹ * (rMin w)⁻¹)⁻¹ ≤
        rMax w * (1 - 1 * (minRobinCoeff w)⁻¹ * (rMin w)⁻¹)⁻¹ :=
      mul_le_mul_of_nonneg_left hinvle hrMax.le
    exact mul_self_le_mul_self
      (mul_nonneg hrMax.le (inv_nonneg.mpr (lt_of_lt_of_le hd1 hdle).le)) hle

/-- Witness for C24: over the reals with the exponential function,
`rMin = rMax = 1`, `minRobinCoeff = 2` and `c = 1/2`. -/
theorem maxCosTheta_one_over_approximates_witness :
    RobinMbvhNodeBound2.computeMaxSquaredStarRadiusBound Real.exp (fun _ => 1) (fun _ => 1)
        (fun _ => 2) (fun _ => 2) (fun _ => 0) (fun _ => 1 / 2) 0 ≤
      RobinMbvhNodeBound2.computeMaxSquaredStarRadiusBound Real.exp (fun _ => 1) (fun _ => 1)
        (fun _ => 2) (fun _ => 2) (fun _ => 0) (fun _ => 1) 0 ∧
    RobinMbvhNodeBound3.computeMaxSquaredStarRadiusBound (1000 : ℝ) (fun _ => 1) (fun _ => 1)
        (fun _ => 2) (fun _ => 2) (fun _ => 0) (fun _ => 1 / 2) 0 ≤
      RobinMbvhNodeBound3.computeMaxSquaredStarRadiusBound (1000 : ℝ) (fun _ => 1) (fun _ => 1)
        (fun _ => 2) (fun _ => 2) (fun _ => 0) (fun _ => 1) 0 :=
  have h := maxCosTheta_one_over_approximates Real.exp Real.exp_monotone
    (fun x => (Real.exp_pos x).le) (1000 : ℝ) (fun _ => 1) (fun _ => 1) (fun _ => 2)
    (fun _ => 2) (fun _ => 0) (fun _ => 1 / 2) 0 (by norm_num) (by norm_num) (by norm_num)
    (by norm_num)
  ⟨h.1, h.2 (by norm_num)⟩

end MaxCosTheta

/-! ### Decoding the sign of the stored distance -/

section SignDecode

variable {α : Type} [LinearOrderedField α] {D : Nat}

set_option maxRecDepth 100000 in
/-- C29, counterexample: the query point `(0, 7, 1)` lies inside the box of the
second child of the root of the scene, so the min bound of that child is 0; the
child is in the mask with `hasSilhouettes` clear, and it is pushed with the
distance `0 · (−1) = 0`. When the entry is processed the evaluator receives
the flag `0 ≥ 0`, which is set. -/
theorem zero_min_bound_decodes_set :
    (visitNodes sceneParams sceneQueryOps sceneMbvh.flatTree (point3 0 7 1) 100 0).1 1 = true ∧
    (visitNodes sceneParams sceneQueryOps sceneMbvh.flatTree (point3 0 7 1) 100 0).2.1 1 = 0 ∧
    (visitNodes sceneParams sceneQueryOps sceneMbvh.flatTree (point3 0 7 1) 100 0).2.2.2 1 =
      false ∧
    ((2 : Int), (0 : ℚ)) ∈
      (traversalStep sceneParams sceneQueryOps sceneMbvh (point3 0 7 1) false 0
        { subtree := [{ node := 0, distance := 0 }], s := { c := point3 0 7 1, r2 := 100 },
          nodesVisited := 0 }).subtree.map (fun e => (e.node, e.distance)) ∧
    decide ((stackEntry (sceneMbvh.flatTree 0).child
      (visitNodes sceneParams sceneQueryOps sceneMbvh.flatTree (point3 0 7 1) 100 0).2.1
      (visitNodes sceneParams sceneQueryOps sceneMbvh.flatTree (point3 0 7 1) 100 0).2.2.2
      1).distance ≥ 0) = true := by
  refine ⟨by decide!, by decide!, by decide!, by decide!, by decide!⟩

/-- C29, amended: for a child pushed with a min bound that is strictly
positive, the flag decoded from the stored distance as `currentDist >= 0`,
which is the flag both leaf paths hand to the primitive evaluator, equals the
`hasSilhouettes` flag the child was pushed with; for a child pushed with min
bound 0 the decoded flag is set whatever `hasSilhouettes` was. -/
theorem stack_sign_round_trip (P : Params α) (E : QueryOps α D) (T : RobinMbvh α D)
    (sc : Fin D → α) (flip : Bool) (prec : α) (child : Nat → Int) (tMin : Nat → α)
    (hasSilhouettes : Nat → Bool) (w : Nat) :
    (0 < tMin w →
      decide ((stackEntry child tMin hasSilhouettes w).distance ≥ 0) = hasSilhouettes w ∧
      (∀ (leafOffset nReferences : Int) (st : α × Int) (l : Nat),
        leafRecordStep P E T sc flip prec (stackEntry child tMin hasSilhouettes w).distance
            leafOffset nReferences st l =
          (foldLanes st.1
            (E.computeSquaredStarRadiusWidePrimitive (T.leafNodes (leafOffset + l)).positions
              (T.leafNodes (leafOffset + l)).normals (T.leafNodes (leafOffset + l)).maxRobinCoeff
              (T.leafNodes (leafOffset + l)).hasAdjacentFace
              (T.leafNodes (leafOffset + l)).ignoreAdjacentFace sc st.1 flip prec
              (hasSilhouettes w))
            (min (P.WIDTH : Int) (nReferences - st.2)), st.2 + P.WIDTH)) ∧
      (∀ (referenceOffset : Int) (st : BoundingSphere α D × Int) (p : Nat),
        leafPrimitiveStep E T flip prec (stackEntry child tMin hasSilhouettes w).distance
            referenceOffset st p =
          (E.primitiveComputeSquaredStarRadius (T.primitives (referenceOffset + p)) st.1 flip
            prec (hasSilhouettes w), st.2 + 1))) ∧
    (tMin w = 0 →
      decide ((stackEntry child tMin hasSilhouettes w).distance ≥ 0) = true) := by
  constructor
  · intro hpos
    have hdec : decide ((stackEntry child tMin hasSilhouettes w).distance ≥ 0) =
        hasSilhouettes w := by
      unfold stackEntry
      cases hs : hasSilhouettes w with
      | true => simp [hpos.le]
      | false => simp [hpos]
    refine ⟨hdec, ?_, ?_⟩
    · intro leafOffset nReferences st l
      simp only [leafRecordStep, hdec]
    · intro referenceOffset st p
      simp only [leafPrimitiveStep, hdec]
  · intro h0
    unfold stackEntry
    simp [h0]

/-- Witness for the amended C29: a child pushed with min bound 9 and
`hasSilhouettes` clear is stored with distance `−9`, decoded as clear. -/
theorem stack_sign_round_trip_witness :
    decide ((stackEntry (fun _ => 7) (fun _ => (9 : ℚ)) (fun _ => false) 0).distance ≥ 0) =
      false :=
  ((stack_sign_round_trip sceneParams sceneQueryOps sceneMbvh sceneSphere.c false 0 (fun _ => 7)
    (fun _ => (9 : ℚ)) (fun _ => false) 0).1 (by norm_num)).1

end SignDecode

/-! ### The closest child on top of the stack -/

section ClosestOnTop

variable {α : Type} [LinearOrderedField α] {D : Nat}

/-- After `std::swap(l[last], l[j])` the last entry is the old entry `l[j]`. -/
theorem swapEntries_getLast? {β : Type} (l : List β) (j : Nat) (b : β) (hj : l[j]? = some b) :
    (swapEntries l (l.length - 1) j).getLast? = some b := by
  obtain ⟨hjl, _⟩ := List.getElem?_eq_some.mp hj
  have hlen : l.length - 1 < l.length := by omega
  obtain ⟨a, ha⟩ : ∃ a, l[l.length - 1]? = some a :=
    ⟨l[l.length - 1], List.getElem?_eq_some.mpr ⟨hlen, rfl⟩⟩
  unfold swapEntries
  simp only [ha, hj]
  rw [List.getLast?_eq_getElem?]
  simp only [List.length_set]
  by_cases hij : j = l.length - 1
  · rw [← hij] at ha ⊢
    rw [List.getElem?_set_self (by simpa using hjl)]
    rw [hj] at ha
    exact ha.symm
  · rw [List.getElem?_set_ne hij, List.getElem?_set_self hlen]

/-- Invariant of the loop of the generic `enqueueNodes` over the lanes seen so
far: `closestIndex` is `-1` and no masked lane seen is below the initial
`minDist`, or it is the position of the entry of a masked lane seen whose min
bound is the running `minDist`, below the initial one and least among the
masked lanes seen. -/
theorem enqueueLane_fold_closest_min (child : Nat → Int) (tMin tMax : Nat → α)
    (hasSilhouettes mask : Nat → Bool) (minDist0 : α) :
    ∀ (l seen : List Nat) (st : EnqueueState α),
      ((st.closestIndex = -1 ∧ st.minDist = minDist0 ∧
          ∀ v ∈ seen, mask v = true → minDist0 ≤ tMin v) ∨
        (∃ v0, v0 ∈ seen ∧ mask v0 = true ∧ 0 ≤ st.closestIndex ∧
          st.subtree[st.closestIndex.toNat]? = some (stackEntry child tMin hasSilhouettes v0) ∧
          st.minDist = tMin v0 ∧ tMin v0 < minDist0 ∧
          ∀ v ∈ seen, mask v = true → tMin v0 ≤ tMin v)) →
      (((l.foldl (enqueueLane child tMin tMax hasSilhouettes mask) st).closestIndex = -1 ∧
          (l.foldl (enqueueLane child tMin tMax hasSilhouettes mask) st).minDist = minDist0 ∧
          ∀ v ∈ seen ++ l, mask v = true → minDist0 ≤ tMin v) ∨
        (∃ v0, v0 ∈ seen ++ l ∧ mask v0 = true ∧
          0 ≤ (l.foldl (enqueueLane child tMin tMax hasSilhouettes mask) st).closestIndex ∧
          (l.foldl (enqueueLane child tMin tMax hasSilhouettes mask) st).subtree[
            (l.foldl (enqueueLane child tMin tMax hasSilhouettes mask)
              st).closestIndex.toNat]? = some (stackEntry child tMin hasSilhouettes v0) ∧
          (l.foldl (enqueueLane child tMin tMax hasSilhouettes mask) st).minDist = tMin v0 ∧
          tMin v0 < minDist0 ∧
          ∀ v ∈ seen ++ l, mask v = true → tMin v0 ≤ tMin v)) := by
  intro l
  induction l with
  | nil => intro seen st h; simpa using h
  | cons x l ih =>
    intro seen st h
    simp only [List.foldl_cons]
    have hrw : seen ++ x :: l = (seen ++ [x]) ++ l := by simp
    rw [hrw]
    apply ih
    by_cases hm : mask x = true
    · by_cases hlt : tMin x < st.minDist
      · right
        have hst : enqueueLane child tMin tMax hasSilhouettes mask st x =
            { subtree := st.subtree ++ [stackEntry child tMin hasSilhouettes x],
              tMaxMin := min st.tMaxMin (tMax x), minDist := tMin x,
              closestIndex :=
                ((st.subtree ++ [stackEntry child tMin hasSilhouettes x]).length : Int) - 1 } := by
          simp only [enqueueLane, hm, hlt, if_true]
        rw [hst]
        refine ⟨x, by simp, hm, by simp, ?_, rfl, ?_, ?_⟩
        · simp only [List.length_append, List.length_singleton]
          have : ((st.subtree.length + 1 : Nat) : Int) - 1 = (st.subtree.length : Int) := by
            push_cast; ring
          rw [this, Int.toNat_ofNat, List.getElem?_append_right (le_refl _)]
          simp
        · rcases h with ⟨_, hmd, _⟩ | ⟨v0, _, _, _, _, hmd, hv0, _⟩
          · rw [← hmd]; exact hlt
          · exact lt_trans (hmd ▸ hlt) hv0
        · intro v hv hmv
          rw [List.mem_append, List.mem_singleton] at hv
          rcases hv with hv | hv
          · rcases h with ⟨_, hmd, hall⟩ | ⟨v0, _, _, _, _, hmd, _, hall⟩
            · exact le_trans (le_of_lt (hmd ▸ hlt)) (hall v hv hmv)
            · exact le_trans (le_of_lt (hmd ▸ hlt)) (hall v hv hmv)
          · rw [hv]
      · have hst : enqueueLane child tMin tMax hasSilhouettes mask st x =
            { subtree := st.subtree ++ [stackEntry child tMin hasSilhouettes x],
              tMaxMin := min st.tMaxMin (tMax x), minDist := st.minDist,
              closestIndex := st.closestIndex } := by
          simp only [enqueueLane, hm, hlt, if_true, if_false]
        rw [hst]
        rcases h with ⟨hci, hmd, hall⟩ | ⟨v0, hv0s, hv0m, hci, hget, hmd, hv0, hall⟩
        · left
          refine ⟨hci, hmd, ?_⟩
          intro v hv hmv
          rw [List.mem_append, List.mem_singleton] at hv
          rcases hv with hv | hv
          · exact hall v hv hmv
          · rw [hv, ← hmd]; exact not_lt.mp hlt
        · right
          refine ⟨v0, by simp [hv0s], hv0m, hci, ?_, hmd, hv0, ?_⟩
          · obtain ⟨hlen, _⟩ := List.getElem?_eq_some.mp hget
            simp only
            rw [List.getElem?_append_left hlen]
            exact hget
          · intro v hv hmv
            rw [List.mem_append, List.mem_singleton] at hv
            rcases hv with hv | hv
            · exact hall v hv hmv
            · rw [hv, ← hmd]; exact not_lt.mp hlt
    · have hst : enqueueLane child tMin tMax hasSilhouettes mask st x = st := by
        simp only [enqueueLane, hm, Bool.false_eq_true, if_false]
      rw [hst]
      rcases h with ⟨hci, hmd, hall⟩ | ⟨v0, hv0s, hv0m, hci, hget, hmd, hv0, hall⟩
      · left
        refine ⟨hci, hmd, ?_⟩
        intro v hv hmv
        rw [List.mem_append, List.mem_singleton] at hv
        rcases hv with hv | hv
        · exact hall v hv hmv
        · rw [hv] at hmv; exact absurd hmv hm
      · right
        refine ⟨v0, by simp [hv0s], hv0m, hci, hget, hmd, hv0, ?_⟩
        intro v hv hmv
        rw [List.mem_append, List.mem_singleton] at hv
        rcases hv with hv | hv
        · exact hall v hv hmv
        · rw [hv] at hmv; exact absurd hmv hm

end ClosestOnTop

section ClosestOnTop2

variable {α : Type} [LinearOrderedField α] {D : Nat}

/-- Generic `enqueueNodes`: the entries pushed are those of the masked lanes in
lane order, or that list with its last entry exchanged with one other. -/
theorem enqueueNodes_stack_swap (WIDTH : Nat) (child : Nat → Int) (tMin tMax : Nat → α)
    (hasSilhouettes mask : Nat → Bool) (minDist tMaxMin : α)
    (subtree : List (TraversalStack α)) :
    ((List.foldl (enqueueLane child tMin tMax hasSilhouettes mask)
        { subtree := subtree, tMaxMin := tMaxMin, minDist := minDist, closestIndex := -1 }
        (List.range WIDTH)).closestIndex = -1 ∧
      (enqueueNodes WIDTH child tMin tMax hasSilhouettes mask minDist tMaxMin subtree).1 =
        subtree ++ ((List.range WIDTH).filter mask).map
          (stackEntry child tMin hasSilhouettes)) ∨
      ((List.foldl (enqueueLane child tMin tMax hasSilhouettes mask)
        { subtree := subtree, tMaxMin := tMaxMin, minDist := minDist, closestIndex := -1 }
        (List.range WIDTH)).closestIndex ≠ -1 ∧
      ∃ k, k < (((List.range WIDTH).filter mask).map
          (stackEntry child tMin hasSilhouettes)).length ∧
        (enqueueNodes WIDTH child tMin tMax hasSilhouettes mask minDist tMaxMin subtree).1 =
          subtree ++ swapEntries (((List.range WIDTH).filter mask).map
            (stackEntry child tMin hasSilhouettes))
            ((((List.range WIDTH).filter mask).map
              (stackEntry child tMin hasSilhouettes)).length - 1) k) := by
  have hsub := enqueueLane_fold_subtree child tMin tMax hasSilhouettes mask (List.range WIDTH)
    { subtree := subtree, tMaxMin := tMaxMin, minDist := minDist, closestIndex := -1 }
  have hci := enqueueLane_fold_closest child tMin tMax hasSilhouettes mask subtree.length
    (List.range WIDTH)
    { subtree := subtree, tMaxMin := tMaxMin, minDist := minDist, closestIndex := -1 }
    (Or.inl rfl) (le_refl _)
  simp only [enqueueNodes]
  generalize (List.range WIDTH).foldl (enqueueLane child tMin tMax hasSilhouettes mask)
    { subtree := subtree, tMaxMin := tMaxMin, minDist := minDist, closestIndex := -1 } = st
    at hsub hci
  simp only at hsub
  generalize ((List.range WIDTH).filter mask).map (stackEntry child tMin hasSilhouettes) = q
    at hsub
  by_cases hc : st.closestIndex = -1
  · simp only [hc, ne_eq, not_true_eq_false, if_false]
    exact Or.inl ⟨trivial, hsub⟩
  · simp only [hc, ne_eq, not_false_eq_true, if_true]
    rcases hci with h | ⟨h1, h2⟩
    · exact absurd h hc
    · rw [hsub, List.length_append] at h2
      have e1 : (st.subtree.length - 1) = subtree.length + (q.length - 1) := by
        rw [hsub, List.length_append]; push_cast at h2; omega
      have e2 : st.closestIndex.toNat =
          subtree.length + (st.closestIndex.toNat - subtree.length) := by
        omega
      rw [e1, e2, hsub, swapEntries_append]
      exact Or.inr ⟨trivial, st.closestIndex.toNat - subtree.length, by push_cast at h2; omega, rfl⟩

/-- C25: after the generic `enqueueNodes` returns, if some enqueued child has a
min bound strictly below `minDist`, the entry on top of the stack is the entry
of an enqueued child whose min bound is at most the min bound of every
enqueued child; the entries pushed by the call are those of the masked lanes
in lane order with the last one exchanged with one other entry. -/
theorem enqueueNodes_closest_on_top (WIDTH : Nat) (child : Nat → Int) (tMin tMax : Nat → α)
    (hasSilhouettes mask : Nat → Bool) (minDist tMaxMin : α)
    (subtree : List (TraversalStack α))
    (hex : ∃ v, v < WIDTH ∧ mask v = true ∧ tMin v < minDist) :
    (∃ v0, v0 < WIDTH ∧ mask v0 = true ∧
      (enqueueNodes WIDTH child tMin tMax hasSilhouettes mask minDist tMaxMin
        subtree).1.getLast? = some (stackEntry child tMin hasSilhouettes v0) ∧
      ∀ v, v < WIDTH → mask v = true → tMin v0 ≤ tMin v) ∧
    (∃ k, k < (((List.range WIDTH).filter mask).map
        (stackEntry child tMin hasSilhouettes)).length ∧
      (enqueueNodes WIDTH child tMin tMax hasSilhouettes mask minDist tMaxMin subtree).1 =
        subtree ++ swapEntries (((List.range WIDTH).filter mask).map
          (stackEntry child tMin hasSilhouettes))
          ((((List.range WIDTH).filter mask).map
            (stackEntry child tMin hasSilhouettes)).length - 1) k) := by
  obtain ⟨vx, hvx, hmx, hltx⟩ := hex
  have hinv := enqueueLane_fold_closest_min child tMin tMax hasSilhouettes mask minDist
    (List.range WIDTH) []
    { subtree := subtree, tMaxMin := tMaxMin, minDist := minDist, closestIndex := -1 }
    (Or.inl ⟨rfl, rfl, by simp⟩)
  simp only [List.nil_append, List.mem_range] at hinv
  have hswap := enqueueNodes_stack_swap WIDTH child tMin tMax hasSilhouettes mask minDist
    tMaxMin subtree
  rcases hinv with ⟨_, _, hall⟩ | ⟨v0, hv0, hm0, hci, hget, _, _, hall⟩
  · exact absurd hltx (not_lt.mpr (hall vx hvx hmx))
  · have hne : (List.foldl (enqueueLane child tMin tMax hasSilhouettes mask)
        { subtree := subtree, tMaxMin := tMaxMin, minDist := minDist, closestIndex := -1 }
        (List.range WIDTH)).closestIndex ≠ -1 := by omega
    have hres : (enqueueNodes WIDTH child tMin tMax hasSilhouettes mask minDist tMaxMin
        subtree).1 = swapEntries (List.foldl (enqueueLane child tMin tMax hasSilhouettes mask)
          { subtree := subtree, tMaxMin := tMaxMin, minDist := minDist, closestIndex := -1 }
          (List.range WIDTH)).subtree
        ((List.foldl (enqueueLane child tMin tMax hasSilhouettes mask)
          { subtree := subtree, tMaxMin := tMaxMin, minDist := minDist, closestIndex := -1 }
          (List.range WIDTH)).subtree.length - 1)
        (List.foldl (enqueueLane child tMin tMax hasSilhouettes mask)
          { subtree := subtree, tMaxMin := tMaxMin, minDist := minDist, closestIndex := -1 }
          (List.range WIDTH)).closestIndex.toNat := by
      simp only [enqueueNodes, hne, ne_eq, not_false_eq_true, if_true]
    refine ⟨⟨v0, hv0, hm0, ?_, hall⟩, ?_⟩
    · rw [hres]
      exact swapEntries_getLast? _ _ _ hget
    · rcases hswap with ⟨hno, _⟩ | ⟨_, hk⟩
      · exact absurd hno hne
      · exact hk

set_option maxRecDepth 100000 in
/-- Witness for C25: children `(5, 7)` with min bounds `(4, 9)` and
`minDist = 100`; the entry of the first child ends on top of the stack. -/
theorem enqueueNodes_closest_on_top_witness :
    ∃ v0, v0 < 2 ∧ (fun _ : Nat => true) v0 = true ∧
      (enqueueNodes 2 (fun w => if w = 0 then 5 else 7) (fun w => if w = 0 then (4 : ℚ) else 9)
        (fun _ => 100) (fun w => decide (w = 0)) (fun _ => true) 100 100
        [{ node := 3, distance := 1 }]).1.getLast? =
        some (stackEntry (fun w => if w = 0 then 5 else 7)
          (fun w => if w = 0 then (4 : ℚ) else 9) (fun w => decide (w = 0)) v0) ∧
      ∀ v, v < 2 → (fun _ : Nat => true) v = true →
        (fun w => if w = 0 then (4 : ℚ) else 9) v0 ≤ (fun w => if w = 0 then (4 : ℚ) else 9) v :=
  (enqueueNodes_closest_on_top 2 (fun w => if w = 0 then 5 else 7)
    (fun w => if w = 0 then (4 : ℚ) else 9) (fun _ => 100) (fun w => decide (w = 0))
    (fun _ => true) 100 100 [{ node := 3, distance := 1 }]
    ⟨0, by decide, rfl, by norm_num⟩).1

end ClosestOnTop2

/-! ### The 4-wide fast path against the generic version -/

section FastPath

variable {α : Type} [LinearOrderedField α] {D : Nat}

theorem minOver_perm {β : Type} [LinearOrder β] (s : β) {xs ys : List β} (h : xs.Perm ys) :
    minOver s xs = minOver s ys := by
  unfold minOver
  exact h.foldl_eq' (fun x _ y _ z => by rw [min_assoc, min_comm x y, ← min_assoc]) s

theorem enqueueLane_fold_tMaxMin (child : Nat → Int) (tMin tMax : Nat → α)
    (hasSilhouettes mask : Nat → Bool) :
    ∀ (l : List Nat) (st : EnqueueState α),
      (l.foldl (enqueueLane child tMin tMax hasSilhouettes mask) st).tMaxMin =
        minOver st.tMaxMin ((l.filter mask).map tMax) := by
  intro l
  induction l with
  | nil => intro st; rfl
  | cons v l ih =>
    intro st
    simp only [List.foldl_cons]
    rw [ih]
    by_cases hm : mask v = true
    · have : (enqueueLane child tMin tMax hasSilhouettes mask st v).tMaxMin =
          min st.tMaxMin (tMax v) := by
        simp only [enqueueLane, hm, if_true]; split <;> rfl
      rw [this]
      simp only [List.filter_cons, hm, if_true, List.map_cons]
      rfl
    · simp [enqueueLane, hm, List.filter_cons]

theorem enqueueLane4_fold_tMaxMin (child : Nat → Int) (tMin tMax : Nat → α)
    (hasSilhouettes mask : Nat → Bool) :
    ∀ (l : List Nat) (st : List (TraversalStack α) × α),
      (l.foldl (enqueueLane4 child tMin tMax hasSilhouettes mask) st).2 =
        minOver st.2 ((l.filter mask).map tMax) := by
  intro l
  induction l with
  | nil => intro st; rfl
  | cons v l ih =>
    intro st
    simp only [List.foldl_cons]
    rw [ih]
    by_cases hm : mask v = true
    · simp only [enqueueLane4, hm, if_true, List.filter_cons, List.map_cons]
      rfl
    · simp [enqueueLane4, hm, List.filter_cons]

/-- C26: for width 4 and a `sortOrder4` that returns a permutation of the four
lanes, `enqueueNodes<4>` and the generic `enqueueNodes` keep the old stack,
push above it the same multiset of entries, one entry per set mask bit (so
the stack grows by the number of set mask bits), and return the same
`tMaxMin`, the minimum of the old `tMaxMin` and `tMax` of the masked lanes. -/
theorem enqueueNodes4_refines_generic (E : QueryOps α D) (child : Nat → Int)
    (tMin tMax : Nat → α) (hasSilhouettes mask : Nat → Bool) (minDist tMaxMin : α)
    (subtree : List (TraversalStack α))
    (hsort : (E.sortOrder4 tMin).Perm (List.range 4)) :
    (∃ fast generic : List (TraversalStack α),
      (enqueueNodes4 E child tMin tMax hasSilhouettes mask minDist tMaxMin subtree).1 =
        subtree ++ fast ∧
      (enqueueNodes 4 child tMin tMax hasSilhouettes mask minDist tMaxMin subtree).1 =
        subtree ++ generic ∧
      fast.Perm generic ∧
      generic.Perm (((List.range 4).filter mask).map (stackEntry child tMin hasSilhouettes)) ∧
      fast.length = ((List.range 4).filter mask).length ∧
      generic.length = ((List.range 4).filter mask).length) ∧
    (enqueueNodes4 E child tMin tMax hasSilhouettes mask minDist tMaxMin subtree).1.length =
      subtree.length + ((List.range 4).filter mask).length ∧
    (enqueueNodes 4 child tMin tMax hasSilhouettes mask minDist tMaxMin subtree).1.length =
      subtree.length + ((List.range 4).filter mask).length ∧
    (enqueueNodes4 E child tMin tMax hasSilhouettes mask minDist tMaxMin subtree).2 =
      (enqueueNodes 4 child tMin tMax hasSilhouettes mask minDist tMaxMin subtree).2 ∧
    (enqueueNodes 4 child tMin tMax hasSilhouettes mask minDist tMaxMin subtree).2 =
      minOver tMaxMin (((List.range 4).filter mask).map tMax) := by
  obtain ⟨generic, hg1, hg2⟩ := enqueueNodes_stack 4 child tMin tMax hasSilhouettes mask minDist
    tMaxMin subtree
  have hf1 := enqueueNodes4_stack E child tMin tMax hasSilhouettes mask minDist tMaxMin subtree
  have hf2 : (((E.sortOrder4 tMin).filter mask).map
      (stackEntry child tMin hasSilhouettes)).Perm
      (((List.range 4).filter mask).map (stackEntry child tMin hasSilhouettes)) :=
    (hsort.filter mask).map _
  have hlf : (((E.sortOrder4 tMin).filter mask).map
      (stackEntry child tMin hasSilhouettes)).length = ((List.range 4).filter mask).length := by
    rw [hf2.length_eq, List.length_map]
  have hlg : generic.length = ((List.range 4).filter mask).length := by
    rw [hg2.length_eq, List.length_map]
  have hg : (enqueueNodes 4 child tMin tMax hasSilhouettes mask minDist tMaxMin subtree).2 =
      minOver tMaxMin (((List.range 4).filter mask).map tMax) := by
    rw [enqueueNodes_snd, enqueueLane_fold_tMaxMin]
  refine ⟨⟨_, generic, hf1, hg1, hf2.trans hg2.symm, hg2, hlf, hlg⟩, ?_, ?_, ?_, hg⟩
  · rw [hf1, List.length_append, hlf]
  · rw [hg1, List.length_append, hlg]
  · rw [hg]
    simp only [enqueueNodes4]
    rw [enqueueLane4_fold_tMaxMin]
    exact minOver_perm _ ((hsort.filter mask).map _)

set_option maxRecDepth 100000 in
/-- Witness for C26: the sorting network of the scene on min bounds
`(4, 9, 9, 9)` with the first two lanes in the mask. -/
theorem enqueueNodes4_refines_generic_witness :
    (enqueueNodes4 sceneQueryOps (fun w => if w = 0 then 5 else 7)
        (fun w => if w = 0 then (4 : ℚ) else 9) (fun _ => 100) (fun w => decide (w = 0))
        (fun w => decide (w < 2)) 100 100 [{ node := 3, distance := 1 }]).2 =
      (enqueueNodes 4 (fun w => if w = 0 then 5 else 7)
        (fun w => if w = 0 then (4 : ℚ) else 9) (fun _ => 100) (fun w => decide (w = 0))
        (fun w => decide (w < 2)) 100 100 [{ node := 3, distance := 1 }]).2 ∧
    (enqueueNodes4 sceneQueryOps (fun w => if w = 0 then 5 else 7)
        (fun w => if w = 0 then (4 : ℚ) else 9) (fun _ => 100) (fun w => decide (w = 0))
        (fun w => decide (w < 2)) 100 100 [{ node := 3, distance := 1 }]).1.length = 1 + 2 :=
  have h := enqueueNodes4_refines_generic sceneQueryOps (fun w => if w = 0 then 5 else 7)
    (fun w => if w = 0 then (4 : ℚ) else 9) (fun _ => 100) (fun w => decide (w = 0))
    (fun w => decide (w < 2)) 100 100 [{ node := 3, distance := 1 }]
    (sceneSortOrder4_perm (fun w => if w = 0 then (4 : ℚ) else 9))
  ⟨h.2.2.2.1, h.2.1⟩

end FastPath

/-! ### Layout written by `populateLeafNode` -/

section LeafLayout

variable {α : Type} {D : Nat}

/-- A reference `p` is determined by its record `p / WIDTH` and lane `p % WIDTH`. -/
theorem div_mod_inj (WIDTH p q : Nat) (hd : p / WIDTH = q / WIDTH) (hm : p % WIDTH = q % WIDTH) :
    p = q := by
  rw [← Nat.div_add_mod p WIDTH, ← Nat.div_add_mod q WIDTH, hd, hm]

/-- One iteration writes the data of primitive `referenceOffset + p` to lane
`p % WIDTH` of record `leafOffset + p / WIDTH`. -/
theorem populateLeafLane_holds (WIDTH : Nat) (leafOffset referenceOffset : Int)
    (primitives : Int → RobinPrimitive α D) (L : Int → MbvhLeafNode α D) (p : Nat) :
    LaneHolds (populateLeafLane WIDTH leafOffset referenceOffset primitives L p
        (leafOffset + ((p / WIDTH : Nat) : Int))) (p % WIDTH)
      (primitives (referenceOffset + p)) := by
  simp [LaneHolds, populateLeafLane]

theorem laneHolds_of_laneEq {A B : MbvhLeafNode α D} {w : Nat} {prim : RobinPrimitive α D}
    (h : LaneEq A B w) (hB : LaneHolds B w prim) : LaneHolds A w prim :=
  ⟨fun i j => (h.1 i j).trans (hB.1 i j), fun i j => (h.2.1 i j).trans (hB.2.1 i j),
    h.2.2.1.trans hB.2.2.1, h.2.2.2.1.trans hB.2.2.2.1,
    fun i => (h.2.2.2.2.1 i).trans (hB.2.2.2.2.1 i),
    fun i => (h.2.2.2.2.2 i).trans (hB.2.2.2.2.2 i)⟩

/-- The loop of `populateLeafNode` over the first `n` references. -/
theorem populateLeafLane_fold_spec (WIDTH : Nat) (leafOffset referenceOffset : Int)
    (primitives : Int → RobinPrimitive α D) (L : Int → MbvhLeafNode α D) :
    ∀ n : Nat,
      (∀ p, p < n →
        LaneHolds ((List.range n).foldl
            (populateLeafLane WIDTH leafOffset referenceOffset primitives) L
            (leafOffset + ((p / WIDTH : Nat) : Int))) (p % WIDTH)
          (primitives (referenceOffset + p))) ∧
      (∀ (r : Int) (w : Nat),
        (¬ ∃ p, p < n ∧ r = leafOffset + ((p / WIDTH : Nat) : Int) ∧ w = p % WIDTH) →
        LaneEq ((List.range n).foldl
          (populateLeafLane WIDTH leafOffset referenceOffset primitives) L r) (L r) w) := by
  intro n
  induction n with
  | zero =>
    refine ⟨fun p hp => absurd hp (Nat.not_lt_zero p), fun r w _ => ?_⟩
    simp only [List.range_zero, List.foldl_nil]
    exact laneEq_refl _ _
  | succ n ih =>
    simp only [List.range_succ, List.foldl_append, List.foldl_cons, List.foldl_nil]
    constructor
    · intro p hp
      by_cases hpn : p = n
      · subst hpn
        exact populateLeafLane_holds WIDTH leafOffset referenceOffset primitives _ p
      · have hlt : p < n := by omega
        have hne : ¬ (leafOffset + ((p / WIDTH : Nat) : Int) =
            leafOffset + ((n / WIDTH : Nat) : Int) ∧ p % WIDTH = n % WIDTH) := by
          rintro ⟨h1, h2⟩
          have h3 : p / WIDTH = n / WIDTH := by omega
          exact hpn (div_mod_inj WIDTH p n h3 h2)
        exact laneHolds_of_laneEq
          (populateLeafLane_other WIDTH leafOffset referenceOffset primitives _ n _ _ hne)
          (ih.1 p hlt)
    · intro r w hnot
      have hne : ¬ (r = leafOffset + ((n / WIDTH : Nat) : Int) ∧ w = n % WIDTH) := by
        rintro ⟨h1, h2⟩
        exact hnot ⟨n, by omega, h1, h2⟩
      have hprev : ¬ ∃ p, p < n ∧ r = leafOffset + ((p / WIDTH : Nat) : Int) ∧
          w = p % WIDTH := by
        rintro ⟨p, hp, h1, h2⟩
        exact hnot ⟨p, by omega, h1, h2⟩
      exact laneEq_trans
        (populateLeafLane_other WIDTH leafOffset referenceOffset primitives _ n r w hne)
        (ih.2 r w hprev)

/-- C28: after `populateLeafNode` on a node with `nReferences = child[3]`
primitives, for every `p < nReferences` the record `(−child[0] − 1) + p / WIDTH`
holds in lane `p % WIDTH` the vertex positions, vertex normals, adjacency
flags, `maxRobinCoeff` and external index of primitive `child[2] + p`;
distinct `p` are written to distinct (record, lane) pairs; and every lane that
is not one of these pairs is left as it was. -/
theorem populateLeafNode_layout (WIDTH : Nat) (hW : 0 < WIDTH) (node : RobinMbvhNode α D)
    (primitives : Int → RobinPrimitive α D) (L : Int → MbvhLeafNode α D) :
    (∀ p : Nat, (p : Int) < node.child 3 →
      LaneHolds (populateLeafNode WIDTH node primitives L
          (-node.child 0 - 1 + ((p / WIDTH : Nat) : Int))) (p % WIDTH)
        (primitives (node.child 2 + p))) ∧
    (∀ p q : Nat,
      (-node.child 0 - 1 + ((p / WIDTH : Nat) : Int) =
          -node.child 0 - 1 + ((q / WIDTH : Nat) : Int) ∧ p % WIDTH = q % WIDTH) → p = q) ∧
    (∀ (r : Int) (w : Nat),
      (¬ ∃ p : Nat, (p : Int) < node.child 3 ∧
        r = -node.child 0 - 1 + ((p / WIDTH : Nat) : Int) ∧ w = p % WIDTH) →
      LaneEq (populateLeafNode WIDTH node primitives L r) (L r) w) := by
  have hspec := populateLeafLane_fold_spec WIDTH (-node.child 0 - 1) (node.child 2) primitives L
    (node.child 3).toNat
  refine ⟨?_, ?_, ?_⟩
  · intro p hp
    exact hspec.1 p (by omega)
  · rintro p q ⟨h1, h2⟩
    exact div_mod_inj WIDTH p q (by omega) h2
  · intro r w hnot
    apply hspec.2 r w
    rintro ⟨p, hp, h1, h2⟩
    exact hnot ⟨p, by omega, h1, h2⟩

/-- Witness for C28: the first leaf of the scene holds two primitives; the
second one is written to lane 1 of record 0. -/
theorem populateLeafNode_layout_witness :
    LaneHolds (populateLeafNode 4 (sceneTree 1) scenePrimitives
        (fun _ => defaultLeaf sceneParams)
        (-(sceneTree 1).child 0 - 1 + (((1 : Nat) / 4 : Nat) : Int))) (1 % 4)
      (scenePrimitives ((sceneTree 1).child 2 + (1 : Nat))) :=
  (populateLeafNode_layout 4 (by decide) (sceneTree 1) scenePrimitives
    (fun _ => defaultLeaf sceneParams)).1 1 (by decide)

end LeafLayout

/-! ### The batch path over the records of a leaf -/

section BatchLeaf

variable {α : Type} [LinearOrderedField α] {D : Nat}

theorem foldLanes_eq_minOver (r2 : α) (d2 : Nat → α) (W : Int) :
    foldLanes r2 d2 W = minOver r2 ((List.range W.toNat).map d2) := by
  unfold foldLanes minOver
  rw [List.foldl_map]

theorem foldLanes_congr (r2 : α) (d2 d3 : Nat → α) (W : Int)
    (h : ∀ w, w < W.toNat → d2 w = d3 w) : foldLanes r2 d2 W = foldLanes r2 d3 W := by
  rw [foldLanes_eq_minOver, foldLanes_eq_minOver]
  congr 1
  apply List.map_congr_left
  intro w hw
  exact h w (List.mem_range.mp hw)

/-- A loop over the records of a leaf whose body folds the lanes
`w < min(WIDTH, n − startReference)` of the packet `d l r` into the radius `r`
and advances `startReference` by `WIDTH`: after `k` records the radius is the
minimum of the initial radius and the lanes `p < min(k · WIDTH, n)`, lane `p`
being lane `p % WIDTH` of the packet of record `p / WIDTH`. -/
theorem recordFold_formula (WIDTH : Nat) (hW : 0 < WIDTH) (nReferences : Int)
    (d : Nat → α → Nat → α) (r2 : α) (step : α × Int → Nat → α × Int)
    (hstep : ∀ st l, step st l =
      (foldLanes st.1 (d l st.1) (min (WIDTH : Int) (nReferences - st.2)), st.2 + WIDTH)) :
    ∀ k : Nat,
      ((List.range k).foldl step (r2, 0)).2 = ((k * WIDTH : Nat) : Int) ∧
      ((List.range k).foldl step (r2, 0)).1 =
        minOver r2 ((List.range (min (k * WIDTH) nReferences.toNat)).map fun p =>
          d (p / WIDTH) ((List.range (p / WIDTH)).foldl step (r2, 0)).1 (p % WIDTH)) := by
  intro k
  induction k with
  | zero => simp [minOver]
  | succ k ih =>
    rw [List.range_succ, List.foldl_append, List.foldl_cons, List.foldl_nil, hstep]
    constructor
    · simp only
      rw [ih.1]
      push_cast
      ring
    · simp only
      rw [foldLanes_eq_minOver, ih.1]
      have hm : (min (WIDTH : Int) (nReferences - ((k * WIDTH : Nat) : Int))).toNat =
          min WIDTH (nReferences.toNat - k * WIDTH) := by
        omega
      have hsplit : min ((k + 1) * WIDTH) nReferences.toNat =
          min (k * WIDTH) nReferences.toNat + min WIDTH (nReferences.toNat - k * WIDTH) := by
        have : (k + 1) * WIDTH = k * WIDTH + WIDTH := by ring
        omega
      rw [hm, hsplit, List.range_add, List.map_append, List.map_map]
      conv_lhs => rw [ih.2]
      unfold minOver
      rw [List.foldl_append]
      congr 1
      apply List.map_congr_left
      intro w hw
      have hw' := List.mem_range.mp hw
      by_cases hlt : k * WIDTH ≤ nReferences.toNat
      · have hmin : min (k * WIDTH) nReferences.toNat = k * WIDTH := min_eq_left hlt
        have hwW : w < WIDTH := lt_of_lt_of_le hw' (min_le_left _ _)
        have hdiv : (k * WIDTH + w) / WIDTH = k := by
          rw [Nat.mul_comm, Nat.mul_add_div hW, Nat.div_eq_of_lt hwW, Nat.add_zero]
        have hmod : (k * WIDTH + w) % WIDTH = w := by
          rw [Nat.mul_comm, Nat.mul_add_mod, Nat.mod_eq_of_lt hwW]
        simp only [Function.comp, hmin, hdiv, hmod]
        have hprev := ih.2
        rw [hmin] at hprev
        unfold minOver at hprev
        rw [← hprev]
      · exfalso
        have : nReferences.toNat - k * WIDTH = 0 := by omega
        rw [this, Nat.min_zero] at hw'
        exact Nat.not_lt_zero _ hw'

/-- Two such loops whose packets agree on the lanes `l · WIDTH + w < n` give the
same result: the other lanes are never read. -/
theorem recordFold_congr (WIDTH : Nat) (nReferences : Int) (d d1 : Nat → α → Nat → α) (r2 : α)
    (step step1 : α × Int → Nat → α × Int)
    (hstep : ∀ st l, step st l =
      (foldLanes st.1 (d l st.1) (min (WIDTH : Int) (nReferences - st.2)), st.2 + WIDTH))
    (hstep1 : ∀ st l, step1 st l =
      (foldLanes st.1 (d1 l st.1) (min (WIDTH : Int) (nReferences - st.2)), st.2 + WIDTH))
    (hagree : ∀ (l : Nat) (r : α) (w : Nat), w < WIDTH →
      ((l * WIDTH + w : Nat) : Int) < nReferences → d l r w = d1 l r w) :
    ∀ k : Nat, (List.range k).foldl step (r2, 0) = (List.range k).foldl step1 (r2, 0) ∧
      ((List.range k).foldl step (r2, 0)).2 = ((k * WIDTH : Nat) : Int) := by
  intro k
  induction k with
  | zero => simp
  | succ k ih =>
    rw [List.range_succ, List.foldl_append, List.foldl_append, List.foldl_cons, List.foldl_nil,
      List.foldl_cons, List.foldl_nil, ← ih.1, hstep, hstep1]
    refine ⟨?_, ?_⟩
    · congr 1
      apply foldLanes_congr
      intro w hw
      rw [ih.2] at hw
      apply hagree k _ w
      · omega
      · push_cast; omega
    · simp only
      rw [ih.2]
      push_cast
      ring

end BatchLeaf

section BatchLeaf2

variable {α : Type} [LinearOrderedField α] {D : Nat}

theorem leafRecordStep_eq (P : Params α) (E : QueryOps α D) (T : RobinMbvh α D) (sc : Fin D → α)
    (flip : Bool) (prec currentDist : α) (leafOffset nReferences : Int) (st : α × Int)
    (l : Nat) :
    leafRecordStep P E T sc flip prec currentDist leafOffset nReferences st l =
      (foldLanes st.1 (leafContribution E T sc flip prec currentDist leafOffset l st.1)
        (min (P.WIDTH : Int) (nReferences - st.2)), st.2 + P.WIDTH) := rfl

/-- Squared radius after one iteration that processes a leaf on the batch path. -/
theorem traversalStep_batch_leaf (P : Params α) (E : QueryOps α D) (T : RobinMbvh α D)
    (sc : Fin D → α) (flip : Bool) (prec : α) (st : TraversalState α D)
    (top : TraversalStack α) (htop : st.subtree.getLast? = some top)
    (hnear : ¬ |top.distance| > st.s.r2)
    (hleaf : isLeafNode (T.flatTree top.node) = true)
    (hbatch : T.primitiveTypeSupportsVectorizedQueries = true) :
    (traversalStep P E T sc flip prec st).s.r2 =
      ((List.range ((T.flatTree top.node).child 1).toNat).foldl
        (leafRecordStep P E T sc flip prec top.distance (-(T.flatTree top.node).child 0 - 1)
          ((T.flatTree top.node).child 3)) (st.s.r2, 0)).1 := by
  unfold traversalStep
  simp only [htop, hnear, hleaf, hbatch, if_true, if_false]

/-- C27: on the batch path, after a leaf with `nReferences = child[3]`
primitives packed into `nLeafs = child[1]` records of `WIDTH` lanes
(`nReferences ≤ nLeafs · WIDTH`) is processed, the squared radius is the
minimum of the radius before and the contributions of exactly the lanes
`p < nReferences`, lane `p` being lane `p % WIDTH` of the packet computed for
record `p / WIDTH` with the radius reached before that record. The result is
the same for an evaluator that differs only in the padding lanes; and when
the contributions do not depend on the running radius, the result is the
minimum over the contributions taken in any order. -/
theorem batch_leaf_radius (P : Params α) (E : QueryOps α D) (T : RobinMbvh α D)
    (sc : Fin D → α) (flip : Bool) (prec : α) (st : TraversalState α D)
    (top : TraversalStack α) (htop : st.subtree.getLast? = some top)
    (hnear : ¬ |top.distance| > st.s.r2)
    (hleaf : isLeafNode (T.flatTree top.node) = true)
    (hbatch : T.primitiveTypeSupportsVectorizedQueries = true)
    (hW : 0 < P.WIDTH)
    (hrec : (T.flatTree top.node).child 3 ≤
      ((((T.flatTree top.node).child 1).toNat * P.WIDTH : Nat) : Int)) :
    (traversalStep P E T sc flip prec st).s.r2 =
      minOver st.s.r2 ((List.range ((T.flatTree top.node).child 3).toNat).map fun p =>
        leafContribution E T sc flip prec top.distance (-(T.flatTree top.node).child 0 - 1)
          (p / P.WIDTH)
          ((List.range (p / P.WIDTH)).foldl
            (leafRecordStep P E T sc flip prec top.distance
              (-(T.flatTree top.node).child 0 - 1) ((T.flatTree top.node).child 3))
            (st.s.r2, 0)).1
          (p % P.WIDTH)) ∧
    (∀ E1 : QueryOps α D,
      (∀ (l : Nat) (r : α) (w : Nat), w < P.WIDTH →
        ((l * P.WIDTH + w : Nat) : Int) < (T.flatTree top.node).child 3 →
        leafContribution E T sc flip prec top.distance (-(T.flatTree top.node).child 0 - 1) l r
            w =
          leafContribution E1 T sc flip prec top.distance (-(T.flatTree top.node).child 0 - 1)
            l r w) →
      (traversalStep P E T sc flip prec st).s.r2 =
        (traversalStep P E1 T sc flip prec st).s.r2) ∧
    ((∀ (l : Nat) (r r1 : α) (w : Nat),
        leafContribution E T sc flip prec top.distance (-(T.flatTree top.node).child 0 - 1) l r
            w =
          leafContribution E T sc flip prec top.distance (-(T.flatTree top.node).child 0 - 1)
            l r1 w) →
      ∀ order : List Nat, order.Perm (List.range ((T.flatTree top.node).child 3).toNat) →
        (traversalStep P E T sc flip prec st).s.r2 =
          minOver st.s.r2 (order.map fun p =>
            leafContribution E T sc flip prec top.distance
              (-(T.flatTree top.node).child 0 - 1) (p / P.WIDTH) st.s.r2 (p % P.WIDTH))) := by
  have hform := (recordFold_formula P.WIDTH hW ((T.flatTree top.node).child 3)
    (leafContribution E T sc flip prec top.distance (-(T.flatTree top.node).child 0 - 1))
    st.s.r2
    (leafRecordStep P E T sc flip prec top.distance (-(T.flatTree top.node).child 0 - 1)
      ((T.flatTree top.node).child 3))
    (fun st l => leafRecordStep_eq P E T sc flip prec top.distance _ _ st l)
    ((T.flatTree top.node).child 1).toNat).2
  have hmin : min (((T.flatTree top.node).child 1).toNat * P.WIDTH)
      ((T.flatTree top.node).child 3).toNat = ((T.flatTree top.node).child 3).toNat := by
    apply min_eq_right
    omega
  rw [hmin] at hform
  have hA := (traversalStep_batch_leaf P E T sc flip prec st top htop hnear hleaf hbatch).trans
    hform
  refine ⟨hA, ?_, ?_⟩
  · intro E1 hagree
    rw [traversalStep_batch_leaf P E T sc flip prec st top htop hnear hleaf hbatch,
      traversalStep_batch_leaf P E1 T sc flip prec st top htop hnear hleaf hbatch]
    rw [(recordFold_congr P.WIDTH ((T.flatTree top.node).child 3) _ _ st.s.r2 _ _
      (fun st l => leafRecordStep_eq P E T sc flip prec top.distance _ _ st l)
      (fun st l => leafRecordStep_eq P E1 T sc flip prec top.distance _ _ st l)
      hagree ((T.flatTree top.node).child 1).toNat).1]
  · intro hfix order hperm
    rw [hA]
    rw [minOver_perm st.s.r2 (hperm.map _)]
    congr 1
    apply List.map_congr_left
    intro p _
    exact hfix _ _ _ _

set_option maxRecDepth 100000 in
/-- Witness for C27: the second leaf of the scene holds one primitive in one
record of four lanes; processing it with radius 100 gives the radius 36. -/
theorem batch_leaf_radius_witness :
    (traversalStep sceneParams sceneQueryOps sceneMbvh sceneSphere.c false 0
      { subtree := [{ node := 2, distance := 0 }], s := sceneSphere,
        nodesVisited := 0 }).s.r2 = 36 :=
  (batch_leaf_radius sceneParams sceneQueryOps sceneMbvh sceneSphere.c false 0
    { subtree := [{ node := 2, distance := 0 }], s := sceneSphere, nodesVisited := 0 }
    { node := 2, distance := 0 } rfl (by decide!) (by decide) rfl (by decide)
    (by decide)).1.trans (by decide!)

end BatchLeaf2

/-! ### Depth of the traversal stack -/

section StackDepth

variable {α : Type} [LinearOrderedField α] {D : Nat}

/-- One iteration of the loop keeps the invariant that the entry at position
`i` of the stack is the root of a well-formed subtree at some depth `d ≤ h`
(of height at most `h − d`) with `i ≤ d · (W − 1)`. -/
theorem traversalStep_depth_inv (P : Params α) (E : QueryOps α D) (T : RobinMbvh α D)
    (sc : Fin D → α) (flip : Bool) (prec : α) (h : Nat)
    (hsort : P.W = 4 → ∀ t, (E.sortOrder4 t).Perm (List.range 4))
    (st : TraversalState α D)
    (hinv : ∀ (i : Nat) (e : TraversalStack α), st.subtree[i]? = some e →
      ∃ d, d ≤ h ∧
        wellFormedAt P.W T.nNodes (childOf T.flatTree) (h + 1 - d) e.node = true ∧
        i ≤ d * (P.W - 1)) :
    ∀ (i : Nat) (e : TraversalStack α),
      (traversalStep P E T sc flip prec st).subtree[i]? = some e →
      ∃ d, d ≤ h ∧
        wellFormedAt P.W T.nNodes (childOf T.flatTree) (h + 1 - d) e.node = true ∧
        i ≤ d * (P.W - 1) := by
  cases htop : st.subtree.getLast? with
  | none =>
    rw [traversalStep_empty P E T sc flip prec st htop]
    exact hinv
  | some top =>
    obtain ⟨pushed, h1, h2⟩ := traversalStep_stack_perm P E T sc flip prec hsort st top htop
    have hsplit : st.subtree.dropLast ++ [top] = st.subtree :=
      List.dropLast_append_getLast? top (by simp [htop])
    have hlen : st.subtree.length = st.subtree.dropLast.length + 1 := by
      conv_lhs => rw [← hsplit]
      simp
    intro i e hget
    rw [h1] at hget
    by_cases hi : i < st.subtree.dropLast.length
    · rw [List.getElem?_append_left hi] at hget
      apply hinv i e
      rw [← hsplit, List.getElem?_append_left hi]
      exact hget
    · rw [List.getElem?_append_right (not_lt.mp hi)] at hget
      rcases h2 with h2 | ⟨hint, hperm⟩
      · subst h2
        simp at hget
      · obtain ⟨hj, hej⟩ := List.getElem?_eq_some.mp hget
        have hmem : e ∈ pushed := by rw [← hej]; exact List.getElem_mem _
        rw [hperm.mem_iff] at hmem
        obtain ⟨v, hv, rfl⟩ := List.mem_map.mp hmem
        rw [List.mem_filter, List.mem_range] at hv
        have hpl : pushed.length ≤ P.W := by
          rw [hperm.length_eq, List.length_map]
          exact le_trans (List.length_filter_le _ _) (by simp)
        have htopget : st.subtree[st.subtree.dropLast.length]? = some top := by
          rw [← hsplit, List.getElem?_append_right (by simp)]
          simp
        obtain ⟨d, hd, hwf, hpos⟩ := hinv _ top htopget
        have hnl : ¬ childOf T.flatTree top.node 0 < 0 := (isLeafNode_eq_false_iff _).mp hint
        have hpres := (visitNodes_mask_sub P E T.flatTree sc st.s.r2 top.node v hv.2).1
        have hk : h + 1 - d = (h - d) + 1 := by omega
        rw [hk, wellFormedAt_succ_iff] at hwf
        have hchild := ((hwf.2.2.resolve_left hnl) v hv.1).resolve_left hpres
        have hdlt : d < h := by
          by_contra hge
          have : h - d = 0 := by omega
          rw [this] at hchild
          simp [wellFormedAt] at hchild
        refine ⟨d + 1, by omega, ?_, ?_⟩
        · have : h + 1 - (d + 1) = h - d := by omega
          rw [this]
          exact hchild
        · have hW1 : i - st.subtree.dropLast.length ≤ P.W - 1 := by omega
          have : (d + 1) * (P.W - 1) = d * (P.W - 1) + (P.W - 1) := by ring
          omega

/-- C30: for a well-formed tree of height `h` (every leaf at depth at most `h`)
with branching factor `W`, after any number of iterations of the loop of
`computeSquaredStarRadius` the stack pointer (the length of the stack minus
one) is at most `h · (W − 1)`; hence the stack holds at most
`FCPW_MBVH_MAX_DEPTH` entries, and every write to it stays inside the array,
whenever `h · (W − 1) < FCPW_MBVH_MAX_DEPTH`. In the 4-wide version
`sortOrder4` is assumed to return a permutation of `0, 1, 2, 3`. -/
theorem stack_pointer_bounded (P : Params α) (E : QueryOps α D) (T : RobinMbvh α D)
    (s : BoundingSphere α D) (flip : Bool) (prec : α) (h : Nat)
    (hwf : wellFormedAt P.W T.nNodes (childOf T.flatTree) (h + 1) 0 = true)
    (hsort : P.W = 4 → ∀ t, (E.sortOrder4 t).Perm (List.range 4)) :
    (∀ n : Nat,
      ((traversalStep P E T s.c flip prec)^[n]
        { subtree := [{ node := 0, distance := 0 }], s := s, nodesVisited := 0 }).subtree.length
          - 1 ≤ h * (P.W - 1)) ∧
    (∀ FCPW_MBVH_MAX_DEPTH : Nat, h * (P.W - 1) < FCPW_MBVH_MAX_DEPTH → ∀ n : Nat,
      ((traversalStep P E T s.c flip prec)^[n]
        { subtree := [{ node := 0, distance := 0 }], s := s, nodesVisited := 0 }).subtree.length
          ≤ FCPW_MBVH_MAX_DEPTH) := by
  have hinv : ∀ n : Nat, ∀ (i : Nat) (e : TraversalStack α),
      ((traversalStep P E T s.c flip prec)^[n]
        { subtree := [{ node := 0, distance := 0 }], s := s, nodesVisited := 0 }).subtree[i]? =
          some e →
      ∃ d, d ≤ h ∧
        wellFormedAt P.W T.nNodes (childOf T.flatTree) (h + 1 - d) e.node = true ∧
        i ≤ d * (P.W - 1) := by
    intro n
    induction n with
    | zero =>
      intro i e hget
      simp only [Function.iterate_zero, id_eq] at hget
      cases i with
      | zero =>
        simp only [List.getElem?_cons_zero, Option.some.injEq] at hget
        subst hget
        exact ⟨0, Nat.zero_le _, hwf, by simp⟩
      | succ i => simp at hget
    | succ n ih =>
      rw [Function.iterate_succ_apply']
      exact traversalStep_depth_inv P E T s.c flip prec h hsort _ ih
  have hlen : ∀ stn : TraversalState α D,
      (∀ (i : Nat) (e : TraversalStack α), stn.subtree[i]? = some e →
        ∃ d, d ≤ h ∧
          wellFormedAt P.W T.nNodes (childOf T.flatTree) (h + 1 - d) e.node = true ∧
          i ≤ d * (P.W - 1)) →
      stn.subtree.length - 1 ≤ h * (P.W - 1) := by
    intro stn hn
    by_cases hemp : stn.subtree.length = 0
    · rw [hemp]; simp
    · have hlt : stn.subtree.length - 1 < stn.subtree.length := by omega
      obtain ⟨d, hd, _, hpos⟩ := hn (stn.subtree.length - 1) (stn.subtree[stn.subtree.length - 1])
        (List.getElem?_eq_some.mpr ⟨hlt, rfl⟩)
      exact le_trans hpos (Nat.mul_le_mul_right _ hd)
  have hbound : ∀ n : Nat,
      ((traversalStep P E T s.c flip prec)^[n]
        { subtree := [{ node := 0, distance := 0 }], s := s, nodesVisited := 0 }).subtree.length
          - 1 ≤ h * (P.W - 1) :=
    fun n => hlen _ (hinv n)
  refine ⟨hbound, ?_⟩
  intro M hM n
  have := hbound n
  omega

set_option maxRecDepth 100000 in
/-- Witness for C30: the tree of the scene has height 1 and branching factor 4,
so the stack pointer stays at most 3; after the first iteration it is 1. -/
theorem stack_pointer_bounded_witness :
    ((traversalStep sceneParams sceneQueryOps sceneMbvh sceneSphere.c false 0)^[1]
      { subtree := [{ node := 0, distance := 0 }], s := sceneSphere,
        nodesVisited := 0 }).subtree.length - 1 ≤ 1 * (sceneParams.W - 1) :=
  (stack_pointer_bounded sceneParams sceneQueryOps sceneMbvh sceneSphere false 0 1 (by decide)
    (fun _ t => sceneSortOrder4_perm t)).1 1

end StackDepth

/-! ### Processing an internal node shrinks the radius -/

section InternalShrink

variable {α : Type} [LinearOrderedField α] {D : Nat}

/-- The `tMaxMin` returned by `enqueueNodes<FCPW_MBVH_BRANCHING_FACTOR>` is the
minimum of its value on entry and of `tMax` over the lanes of the mask. -/
theorem enqueueNodesW_tMaxMin (P : Params α) (E : QueryOps α D) (child : Nat → Int)
    (tMin tMax : Nat → α) (hasSilhouettes mask : Nat → Bool) (minDist tMaxMin : α)
    (subtree : List (TraversalStack α))
    (hsort : P.W = 4 → ∀ t, (E.sortOrder4 t).Perm (List.range 4)) :
    (enqueueNodesW P E child tMin tMax hasSilhouettes mask minDist tMaxMin subtree).2 =
      minOver tMaxMin (((List.range P.W).filter mask).map tMax) := by
  unfold enqueueNodesW
  by_cases h4 : P.W = 4
  · rw [if_pos h4, h4]
    simp only [enqueueNodes4]
    rw [enqueueLane4_fold_tMaxMin]
    exact minOver_perm _ (((hsort h4 tMin).filter mask).map _)
  · rw [if_neg h4, enqueueNodes_snd, enqueueLane_fold_tMaxMin]

/-- One iteration that processes an internal node with a non-empty visit mask:
the state after the iteration, in terms of the call to `enqueueNodes`. -/
theorem traversalStep_internal (P : Params α) (E : QueryOps α D) (T : RobinMbvh α D)
    (sc : Fin D → α) (flip : Bool) (prec : α) (st : TraversalState α D)
    (top : TraversalStack α) (htop : st.subtree.getLast? = some top)
    (hnear : ¬ |top.distance| > st.s.r2)
    (hleaf : isLeafNode (T.flatTree top.node) = false)
    (hany : anyLane P.W (visitNodes P E T.flatTree sc st.s.r2 top.node).1 = true) :
    traversalStep P E T sc flip prec st =
      { subtree := (enqueueNodesW P E (T.flatTree top.node).child
          (visitNodes P E T.flatTree sc st.s.r2 top.node).2.1
          (visitNodes P E T.flatTree sc st.s.r2 top.node).2.2.1
          (visitNodes P E T.flatTree sc st.s.r2 top.node).2.2.2
          (visitNodes P E T.flatTree sc st.s.r2 top.node).1 st.s.r2 st.s.r2
          st.subtree.dropLast).1,
        s := { st.s with r2 := (enqueueNodesW P E (T.flatTree top.node).child
          (visitNodes P E T.flatTree sc st.s.r2 top.node).2.1
          (visitNodes P E T.flatTree sc st.s.r2 top.node).2.2.1
          (visitNodes P E T.flatTree sc st.s.r2 top.node).2.2.2
          (visitNodes P E T.flatTree sc st.s.r2 top.node).1 st.s.r2 st.s.r2
          st.subtree.dropLast).2 },
        nodesVisited := st.nodesVisited + 1 } := by
  unfold traversalStep
  simp only [htop, hnear, hleaf, hany, if_true, if_false, Bool.false_eq_true]

/-- C31: when an iteration of `computeSquaredStarRadius` pops an entry that
passes the pruning test and names an internal node whose visit mask is not
empty, `enqueueNodes` is called with `s.r2` both as `minDist` and as
`tMaxMin`, and the squared radius after the iteration is the minimum of the
squared radius before it and of the max bounds of the children in the visit
mask: it is at most the radius before, at most the max bound of every child
in the mask, and equal to one of these values. Max bounds of children outside
the mask do not enter: replacing them by anything leaves the result the same. -/
theorem internal_node_shrinks_radius (P : Params α) (E : QueryOps α D) (T : RobinMbvh α D)
    (sc : Fin D → α) (flip : Bool) (prec : α) (st : TraversalState α D)
    (top : TraversalStack α)
    (hsort : P.W = 4 → ∀ t, (E.sortOrder4 t).Perm (List.range 4))
    (htop : st.subtree.getLast? = some top)
    (hnear : ¬ |top.distance| > st.s.r2)
    (hleaf : isLeafNode (T.flatTree top.node) = false)
    (hany : anyLane P.W (visitNodes P E T.flatTree sc st.s.r2 top.node).1 = true) :
    (traversalStep P E T sc flip prec st).s.r2 =
        (enqueueNodesW P E (T.flatTree top.node).child
          (visitNodes P E T.flatTree sc st.s.r2 top.node).2.1
          (visitNodes P E T.flatTree sc st.s.r2 top.node).2.2.1
          (visitNodes P E T.flatTree sc st.s.r2 top.node).2.2.2
          (visitNodes P E T.flatTree sc st.s.r2 top.node).1 st.s.r2 st.s.r2
          st.subtree.dropLast).2 ∧
    (traversalStep P E T sc flip prec st).s.r2 =
        minOver st.s.r2 (((List.range P.W).filter
          (visitNodes P E T.flatTree sc st.s.r2 top.node).1).map
          (visitNodes P E T.flatTree sc st.s.r2 top.node).2.2.1) ∧
    (traversalStep P E T sc flip prec st).s.r2 ≤ st.s.r2 ∧
    (∀ w, w < P.W → (visitNodes P E T.flatTree sc st.s.r2 top.node).1 w = true →
      (traversalStep P E T sc flip prec st).s.r2 ≤
        (visitNodes P E T.flatTree sc st.s.r2 top.node).2.2.1 w) ∧
    ((traversalStep P E T sc flip prec st).s.r2 = st.s.r2 ∨
      ∃ w, w < P.W ∧ (visitNodes P E T.flatTree sc st.s.r2 top.node).1 w = true ∧
        (traversalStep P E T sc flip prec st).s.r2 =
          (visitNodes P E T.flatTree sc st.s.r2 top.node).2.2.1 w) ∧
    ∀ tMax : Nat → α,
      (∀ w, (visitNodes P E T.flatTree sc st.s.r2 top.node).1 w = true →
        tMax w = (visitNodes P E T.flatTree sc st.s.r2 top.node).2.2.1 w) →
      (enqueueNodesW P E (T.flatTree top.node).child
          (visitNodes P E T.flatTree sc st.s.r2 top.node).2.1 tMax
          (visitNodes P E T.flatTree sc st.s.r2 top.node).2.2.2
          (visitNodes P E T.flatTree sc st.s.r2 top.node).1 st.s.r2 st.s.r2
          st.subtree.dropLast).2 = (traversalStep P E T sc flip prec st).s.r2 := by
  have hstep := traversalStep_internal P E T sc flip prec st top htop hnear hleaf hany
  have hq := enqueueNodesW_tMaxMin P E (T.flatTree top.node).child
    (visitNodes P E T.flatTree sc st.s.r2 top.node).2.1
    (visitNodes P E T.flatTree sc st.s.r2 top.node).2.2.1
    (visitNodes P E T.flatTree sc st.s.r2 top.node).2.2.2
    (visitNodes P E T.flatTree sc st.s.r2 top.node).1 st.s.r2 st.s.r2 st.subtree.dropLast hsort
  have h1 : (traversalStep P E T sc flip prec st).s.r2 =
      (enqueueNodesW P E (T.flatTree top.node).child
        (visitNodes P E T.flatTree sc st.s.r2 top.node).2.1
        (visitNodes P E T.flatTree sc st.s.r2 top.node).2.2.1
        (visitNodes P E T.flatTree sc st.s.r2 top.node).2.2.2
        (visitNodes P E T.flatTree sc st.s.r2 top.node).1 st.s.r2 st.s.r2
        st.subtree.dropLast).2 := by rw [hstep]
  have h2 := h1.trans hq
  refine ⟨h1, h2, ?_, ?_, ?_, ?_⟩
  · rw [h2]; exact minOver_le_seed _ _
  · intro w hw hm
    rw [h2]
    apply minOver_le_of_mem
    exact List.mem_map.mpr ⟨w, List.mem_filter.mpr ⟨List.mem_range.mpr hw, hm⟩, rfl⟩
  · rw [h2]
    rcases minOver_eq_seed_or_mem st.s.r2 (((List.range P.W).filter
        (visitNodes P E T.flatTree sc st.s.r2 top.node).1).map
        (visitNodes P E T.flatTree sc st.s.r2 top.node).2.2.1) with e | e
    · exact Or.inl e
    · obtain ⟨w, hwm, hwe⟩ := List.mem_map.mp e
      have hwf := List.mem_filter.mp hwm
      exact Or.inr ⟨w, List.mem_range.mp hwf.1, hwf.2, hwe.symm⟩
  · intro tMax hagree
    rw [h2, enqueueNodesW_tMaxMin P E _ _ _ _ _ _ _ _ hsort]
    congr 1
    apply List.map_congr_left
    intro w hw
    exact hagree w (List.mem_filter.mp hw).2

set_option maxRecDepth 100000 in
/-- Witness for C31: an iteration on the scene pops the root with squared
radius 200; both children are in the visit mask, with max bounds `maxFloat²`
and 128, and the squared radius after the iteration is 128. -/
theorem internal_node_shrinks_radius_witness :
    (traversalStep sceneParams sceneQueryOps sceneMbvh sceneSphere.c false 0
      { subtree := [{ node := 0, distance := 0 }], s := { sceneSphere with r2 := 200 },
        nodesVisited := 0 }).s.r2 =
      minOver (200 : ℚ) (((List.range 4).filter
        (visitNodes sceneParams sceneQueryOps sceneMbvh.flatTree sceneSphere.c 200 0).1).map
        (visitNodes sceneParams sceneQueryOps sceneMbvh.flatTree sceneSphere.c 200 0).2.2.1) ∧
    ((List.range 4).filter
        (visitNodes sceneParams sceneQueryOps sceneMbvh.flatTree sceneSphere.c 200 0).1).map
        (visitNodes sceneParams sceneQueryOps sceneMbvh.flatTree sceneSphere.c 200 0).2.2.1 =
      [sceneParams.maxFloat * sceneParams.maxFloat, 128] ∧
    (traversalStep sceneParams sceneQueryOps sceneMbvh sceneSphere.c false 0
      { subtree := [{ node := 0, distance := 0 }], s := { sceneSphere with r2 := 200 },
        nodesVisited := 0 }).s.r2 = 128 :=
  ⟨(internal_node_shrinks_radius sceneParams sceneQueryOps sceneMbvh sceneSphere.c false 0
      { subtree := [{ node := 0, distance := 0 }], s := { sceneSphere with r2 := 200 },
        nodesVisited := 0 }
      { node := 0, distance := 0 } (fun _ t => sceneSortOrder4_perm t) rfl (by decide!)
      (by decide!) (by decide!)).2.1, by decide!, by decide!⟩

end InternalShrink

/-! ### The Robin lower bound against the Euclidean one -/

section LowerBoundEuclid

variable {α : Type} [LinearOrderedField α]

/-- In 2-D the lower bound is at least `rMin²` when `exp` is at least 1 on the
non-negative numbers. -/
theorem bound2_min_ge_sq (exp : α → α) (hexp : ∀ x, 0 ≤ x → 1 ≤ exp x)
    (rMin rMax minRobinCoeff maxRobinCoeff minCosTheta maxCosTheta : Nat → α) (w : Nat)
    (hrMin : 0 ≤ rMin w) (hrMax : 0 < rMax w) (hk : 0 < maxRobinCoeff w)
    (hc : 0 ≤ minCosTheta w) :
    rMin w ^ 2 ≤ RobinMbvhNodeBound2.computeMinSquaredStarRadiusBound exp rMin rMax
      minRobinCoeff maxRobinCoeff minCosTheta maxCosTheta w := by
  simp only [RobinMbvhNodeBound2.computeMinSquaredStarRadiusBound, rcp, sq]
  have harg : 0 ≤ minCosTheta w * (maxRobinCoeff w * rMax w)⁻¹ :=
    mul_nonneg hc (inv_nonneg.mpr (mul_pos hk hrMax).le)
  have hle : rMin w ≤ rMin w * exp (minCosTheta w * (maxRobinCoeff w * rMax w)⁻¹) :=
    le_mul_of_one_le_right hrMin (hexp _ harg)
  exact mul_self_le_mul_self hrMin hle

/-- In 3-D the lower bound is at least `rMin²` when it is non-degenerate. -/
theorem bound3_min_ge_sq (maxFloat : α)
    (rMin rMax minRobinCoeff maxRobinCoeff minCosTheta maxCosTheta : Nat → α) (w : Nat)
    (hrMin : 0 ≤ rMin w) (hrMax : 0 < rMax w) (hk : 0 < maxRobinCoeff w)
    (hc : 0 ≤ minCosTheta w) (hnd : minCosTheta w / maxRobinCoeff w < rMax w) :
    rMin w ^ 2 ≤ RobinMbvhNodeBound3.computeMinSquaredStarRadiusBound maxFloat rMin rMax
      minRobinCoeff maxRobinCoeff minCosTheta maxCosTheta w := by
  have hq : minCosTheta w / (maxRobinCoeff w * rMax w) =
      minCosTheta w / maxRobinCoeff w / rMax w := by rw [div_div]
  have hq0 : 0 ≤ minCosTheta w / (maxRobinCoeff w * rMax w) :=
    div_nonneg hc (mul_pos hk hrMax).le
  have hq1 : minCosTheta w / (maxRobinCoeff w * rMax w) < 1 := by
    rw [hq, div_lt_one hrMax]; exact hnd
  have hd0 : 0 < 1 - minCosTheta w / (maxRobinCoeff w * rMax w) := sub_pos.mpr hq1
  have hd1 : 1 - minCosTheta w / (maxRobinCoeff w * rMax w) ≤ 1 := sub_le_self _ hq0
  rw [bound3_min_regular maxFloat rMin rMax minRobinCoeff maxRobinCoeff minCosTheta maxCosTheta w
    hrMax hd0.le]
  have hle : rMin w ≤ rMin w / (1 - minCosTheta w / (maxRobinCoeff w * rMax w)) := by
    rw [le_div_iff₀ hd0]
    exact mul_le_of_le_one_right hrMin hd1
  exact pow_le_pow_left₀ hrMin hle 2

variable {D : Nat}

/-- Lane `w` of the min bound returned by `visitNodes`: the bound of the box
test, unless the lane is an overlapping Robin lane without silhouette, in
which case it is the value of the Radius-Bound Strategy. -/
theorem visitNodes_min_bound_cases (P : Params α) (E : QueryOps α D)
    (flatTree : Int → RobinMbvhNode α D) (sc : Fin D → α) (r2 : α) (nodeIndex : Int) (w : Nat)
    (hw : w < P.W)
    (ob : (Nat → Bool) × (Nat → α) × (Nat → α))
    (oc : (Nat → α) × (Nat → α) × (Nat → Bool))
    (hob : ob = E.overlapWideBox (flatTree nodeIndex).boxMin (flatTree nodeIndex).boxMax sc r2)
    (hoc : oc = E.overlapWideCone (flatTree nodeIndex).coneAxis
      (flatTree nodeIndex).coneHalfAngle (flatTree nodeIndex).coneRadius sc
      (flatTree nodeIndex).boxMin (flatTree nodeIndex).boxMax ob.2.1
      (fun w => (decide ((flatTree nodeIndex).child w ≠ maxInt) && ob.1 w) &&
        decide ((flatTree nodeIndex).minRobinCoeff w < P.maxFloat - P.epsilon))) :
    (visitNodes P E flatTree sc r2 nodeIndex).2.1 w = ob.2.1 w ∨
    (((flatTree nodeIndex).child w ≠ maxInt ∧ ob.1 w = true ∧
        (flatTree nodeIndex).minRobinCoeff w < P.maxFloat - P.epsilon ∧
        (flatTree nodeIndex).maxRobinCoeff w > P.epsilon ∧ oc.2.2 w = false) ∧
      (visitNodes P E flatTree sc r2 nodeIndex).2.1 w =
        E.computeMinSquaredStarRadiusBound (fun w => E.sqrt (ob.2.1 w))
          (fun w => E.sqrt (masked ob.2.2 oc.2.2 (fun _ => P.maxFloat) w))
          (flatTree nodeIndex).minRobinCoeff (flatTree nodeIndex).maxRobinCoeff
          (fun w => min |E.cos (oc.1 w)| |E.cos (oc.2.1 w)|) (fun _ => 1) w) := by
  have hform := visitNodes_lane_form P E flatTree sc r2 nodeIndex w hw ob oc hob hoc
  cases hany : anyLane P.W (fun w => (decide ((flatTree nodeIndex).child w ≠ maxInt) && ob.1 w) &&
      decide ((flatTree nodeIndex).minRobinCoeff w < P.maxFloat - P.epsilon)) with
  | false => exact Or.inl (hform.1 hany).2.1
  | true =>
    have h := (hform.2 hany).2.1
    by_cases hcond : ((((decide ((flatTree nodeIndex).child w ≠ maxInt) && ob.1 w) &&
        decide ((flatTree nodeIndex).minRobinCoeff w < P.maxFloat - P.epsilon)) &&
        decide ((flatTree nodeIndex).maxRobinCoeff w > P.epsilon)) && !oc.2.2 w) = true
    · rw [if_pos hcond] at h
      refine Or.inr ⟨?_, h⟩
      simp only [Bool.and_eq_true, decide_eq_true_eq, Bool.not_eq_true'] at hcond
      exact ⟨hcond.1.1.1.1, hcond.1.1.1.2, hcond.1.1.2, hcond.1.2, hcond.2⟩
    · rw [if_neg hcond] at h
      exact Or.inl h

/-- C32: for `rMin ≥ 0`, `rMax > 0`, `maxRobinCoeff > 0`, `minCosTheta ≥ 0` and
an `exp` that is at least 1 on the non-negative numbers, the lower bound is at
least `rMin²`: in 2-D always, in 3-D whenever
`minCosTheta / maxRobinCoeff < rMax`. Consequently, with a non-negative
`epsilon`, a non-negative `sqrt` that is exact on the min bound of the box
test, and a positive `sqrt` of the max bound, the min bound that `visitNodes`
returns for a lane is at least the min bound of the box test for that lane,
for the 2-D strategy and, when each refined lane is non-degenerate, for the
3-D strategy. -/
theorem robin_min_bound_ge_euclidean (exp : α → α) (hexp : ∀ x, 0 ≤ x → 1 ≤ exp x) :
    (∀ (maxFloat : α) (rMin rMax minRobinCoeff maxRobinCoeff minCosTheta maxCosTheta : Nat → α)
      (w : Nat), 0 ≤ rMin w → 0 < rMax w → 0 < maxRobinCoeff w → 0 ≤ minCosTheta w →
      rMin w ^ 2 ≤ RobinMbvhNodeBound2.computeMinSquaredStarRadiusBound exp rMin rMax
          minRobinCoeff maxRobinCoeff minCosTheta maxCosTheta w ∧
      (minCosTheta w / maxRobinCoeff w < rMax w →
        rMin w ^ 2 ≤ RobinMbvhNodeBound3.computeMinSquaredStarRadiusBound maxFloat rMin rMax
          minRobinCoeff maxRobinCoeff minCosTheta maxCosTheta w)) ∧
    (∀ (D : Nat) (P : Params α) (E : QueryOps α D) (flatTree : Int → RobinMbvhNode α D)
      (sc : Fin D → α) (r2 : α) (nodeIndex : Int) (w : Nat)
      (ob : (Nat → Bool) × (Nat → α) × (Nat → α))
      (oc : (Nat → α) × (Nat → α) × (Nat → Bool)),
      ob = E.overlapWideBox (flatTree nodeIndex).boxMin (flatTree nodeIndex).boxMax sc r2 →
      oc = E.overlapWideCone (flatTree nodeIndex).coneAxis
        (flatTree nodeIndex).coneHalfAngle (flatTree nodeIndex).coneRadius sc
        (flatTree nodeIndex).boxMin (flatTree nodeIndex).boxMax ob.2.1
        (fun w => (decide ((flatTree nodeIndex).child w ≠ maxInt) && ob.1 w) &&
          decide ((flatTree nodeIndex).minRobinCoeff w < P.maxFloat - P.epsilon)) →
      w < P.W → 0 ≤ P.epsilon → (∀ x, 0 ≤ E.sqrt x) →
      (((flatTree nodeIndex).child w ≠ maxInt ∧ ob.1 w = true ∧
          (flatTree nodeIndex).minRobinCoeff w < P.maxFloat - P.epsilon ∧
          (flatTree nodeIndex).maxRobinCoeff w > P.epsilon ∧ oc.2.2 w = false) →
        E.sqrt (ob.2.1 w) ^ 2 = ob.2.1 w ∧
        0 < E.sqrt (masked ob.2.2 oc.2.2 (fun _ => P.maxFloat) w) ∧
        (E.computeMinSquaredStarRadiusBound =
            RobinMbvhNodeBound2.computeMinSquaredStarRadiusBound exp ∨
          (E.computeMinSquaredStarRadiusBound =
              RobinMbvhNodeBound3.computeMinSquaredStarRadiusBound P.maxFloat ∧
            min |E.cos (oc.1 w)| |E.cos (oc.2.1 w)| / (flatTree nodeIndex).maxRobinCoeff w <
              E.sqrt (masked ob.2.2 oc.2.2 (fun _ => P.maxFloat) w)))) →
      ob.2.1 w ≤ (visitNodes P E flatTree sc r2 nodeIndex).2.1 w) := by
  refine ⟨?_, ?_⟩
  · intro maxFloat rMin rMax minRobinCoeff maxRobinCoeff minCosTheta maxCosTheta w hrMin hrMax hk
      hc
    exact ⟨bound2_min_ge_sq exp hexp rMin rMax minRobinCoeff maxRobinCoeff minCosTheta
        maxCosTheta w hrMin hrMax hk hc,
      fun hnd => bound3_min_ge_sq maxFloat rMin rMax minRobinCoeff maxRobinCoeff minCosTheta
        maxCosTheta w hrMin hrMax hk hc hnd⟩
  · intro D P E flatTree sc r2 nodeIndex w ob oc hob hoc hw heps hsqrt href
    rcases visitNodes_min_bound_cases P E flatTree sc r2 nodeIndex w hw ob oc hob hoc with h | h
    · exact le_of_eq h.symm
    · obtain ⟨hlane, hval⟩ := h
      obtain ⟨hsq, hrMax, hstrat⟩ := href hlane
      have hk : 0 < (flatTree nodeIndex).maxRobinCoeff w := lt_of_le_of_lt heps hlane.2.2.2.1
      have hc : 0 ≤ min |E.cos (oc.1 w)| |E.cos (oc.2.1 w)| :=
        le_min (abs_nonneg _) (abs_nonneg _)
      rw [hval]
      rcases hstrat with h2 | ⟨h3, hnd⟩
      · rw [h2]
        have := bound2_min_ge_sq exp hexp (fun w => E.sqrt (ob.2.1 w))
          (fun w => E.sqrt (masked ob.2.2 oc.2.2 (fun _ => P.maxFloat) w))
          (flatTree nodeIndex).minRobinCoeff (flatTree nodeIndex).maxRobinCoeff
          (fun w => min |E.cos (oc.1 w)| |E.cos (oc.2.1 w)|) (fun _ => 1) w (hsqrt _) hrMax hk hc
        rw [hsq] at this
        exact this
      · rw [h3]
        have := bound3_min_ge_sq P.maxFloat (fun w => E.sqrt (ob.2.1 w))
          (fun w => E.sqrt (masked ob.2.2 oc.2.2 (fun _ => P.maxFloat) w))
          (flatTree nodeIndex).minRobinCoeff (flatTree nodeIndex).maxRobinCoeff
          (fun w => min |E.cos (oc.1 w)| |E.cos (oc.2.1 w)|) (fun _ => 1) w (hsqrt _) hrMax hk hc
          hnd
        rw [hsq] at this
        exact this

set_option maxRecDepth 100000 in
/-- Witness for C32: over the reals with the exponential function, `rMin = 1`,
`rMax = 2`, `maxRobinCoeff = 1` and `minCosTheta = 1`, both lower bounds are at
least 1; on the scene with the coefficients of the first child set to 1, the
min bound of the box test for that child is 9 and `visitNodes` returns
`225/16`. -/
theorem robin_min_bound_ge_euclidean_witness :
    ((1 : ℝ) ^ 2 ≤ RobinMbvhNodeBound2.computeMinSquaredStarRadiusBound Real.exp (fun _ => 1)
        (fun _ => 2) (fun _ => 1) (fun _ => 1) (fun _ => 1) (fun _ => 1) 0 ∧
      (1 : ℝ) ^ 2 ≤ RobinMbvhNodeBound3.computeMinSquaredStarRadiusBound (1000 : ℝ) (fun _ => 1)
        (fun _ => 2) (fun _ => 1) (fun _ => 1) (fun _ => 1) (fun _ => 1) 0) ∧
    ((sceneQueryOps.overlapWideBox sceneRootRobin.boxMin sceneRootRobin.boxMax sceneSphere.c
        100).2.1 0 = 9 ∧
      (visitNodes sceneParams sceneQueryOps (fun _ => sceneRootRobin) sceneSphere.c 100
        0).2.1 0 = 225 / 16 ∧
      (sceneQueryOps.overlapWideBox sceneRootRobin.boxMin sceneRootRobin.boxMax sceneSphere.c
        100).2.1 0 ≤
        (visitNodes sceneParams sceneQueryOps (fun _ => sceneRootRobin) sceneSphere.c 100
          0).2.1 0) :=
  have hR := (robin_min_bound_ge_euclidean Real.exp (fun x hx => Real.one_le_exp hx)).1
    (1000 : ℝ) (fun _ => 1) (fun _ => 2) (fun _ => 1) (fun _ => 1) (fun _ => 1) (fun _ => 1) 0
    (by norm_num) (by norm_num) (by norm_num) (by norm_num)
  have hQ := (robin_min_bound_ge_euclidean (fun x : ℚ => 1 + x)
    (fun x hx => le_add_of_nonneg_right hx)).2 3 sceneParams sceneQueryOps
    (fun _ => sceneRootRobin) sceneSphere.c 100 0 0 _ _ rfl rfl (by decide) (by decide!)
    (fun x => by
      show 0 ≤ (if x = 9 then (3 : ℚ) else if x = 25 then 5 else if x = 36 then 6 else 0)
      split_ifs <;> norm_num)
    (fun _ => ⟨by decide!, by decide!, Or.inr ⟨rfl, by decide!⟩⟩)
  ⟨⟨hR.1, hR.2 (by norm_num)⟩, by decide!, by decide!, hQ⟩

end LowerBoundEuclid

/-! ### The lower bound against the upper bound -/

section BoundsConsistent

variable {α : Type} [LinearOrderedField α]

/-- C33: for `0 < rMin ≤ rMax`, `0 < minRobinCoeff ≤ maxRobinCoeff` and
`0 ≤ minCosTheta ≤ maxCosTheta`, the lower bound is at most the upper bound on
the same inputs: in 2-D for every such input (for a monotone, non-negative
`exp`), in 3-D whenever the upper bound is non-degenerate
(`maxCosTheta / minRobinCoeff < rMin`). -/
theorem min_bound_le_max_bound (exp : α → α) (hmono : Monotone exp) (hpos : ∀ x, 0 ≤ exp x)
    (maxFloat : α)
    (rMin rMax minRobinCoeff maxRobinCoeff minCosTheta maxCosTheta : Nat → α) (w : Nat)
    (hrMin : 0 < rMin w) (hr : rMin w ≤ rMax w)
    (hkMin : 0 < minRobinCoeff w) (hk : minRobinCoeff w ≤ maxRobinCoeff w)
    (hcMin : 0 ≤ minCosTheta w) (hc : minCosTheta w ≤ maxCosTheta w) :
    RobinMbvhNodeBound2.computeMinSquaredStarRadiusBound exp rMin rMax minRobinCoeff
        maxRobinCoeff minCosTheta maxCosTheta w ≤
      RobinMbvhNodeBound2.computeMaxSquaredStarRadiusBound exp rMin rMax minRobinCoeff
        maxRobinCoeff minCosTheta maxCosTheta w ∧
    (maxCosTheta w / minRobinCoeff w < rMin w →
      RobinMbvhNodeBound3.computeMinSquaredStarRadiusBound maxFloat rMin rMax minRobinCoeff
          maxRobinCoeff minCosTheta maxCosTheta w ≤
        RobinMbvhNodeBound3.computeMaxSquaredStarRadiusBound maxFloat rMin rMax minRobinCoeff
          maxRobinCoeff minCosTheta maxCosTheta w) := by
  have hrMax : 0 < rMax w := lt_of_lt_of_le hrMin hr
  have hkMax : 0 < maxRobinCoeff w := lt_of_lt_of_le hkMin hk
  have hcMax : 0 ≤ maxCosTheta w := le_trans hcMin hc
  have hden : minRobinCoeff w * rMin w ≤ maxRobinCoeff w * rMax w :=
    mul_le_mul hk hr hrMin.le hkMax.le
  have harg : minCosTheta w / (maxRobinCoeff w * rMax w) ≤
      maxCosTheta w / (minRobinCoeff w * rMin w) :=
    div_le_div₀ hcMax hc (mul_pos hkMin hrMin) hden
  constructor
  · simp only [RobinMbvhNodeBound2.computeMinSquaredStarRadiusBound,
      RobinMbvhNodeBound2.computeMaxSquaredStarRadiusBound, rcp, ← div_eq_mul_inv]
    have hle : rMin w * exp (minCosTheta w / (maxRobinCoeff w * rMax w)) ≤
        rMax w * exp (maxCosTheta w / (minRobinCoeff w * rMin w)) :=
      mul_le_mul hr (hmono harg) (hpos _) hrMax.le
    exact mul_self_le_mul_self (mul_nonneg hrMin.le (hpos _)) hle
  · intro hnd
    have hqmax : maxCosTheta w / (minRobinCoeff w * rMin w) < 1 := by
      rw [← div_div, div_lt_one hrMin]; exact hnd
    have hdmax : 0 < 1 - maxCosTheta w / (minRobinCoeff w * rMin w) := sub_pos.mpr hqmax
    have hdle : 1 - maxCosTheta w / (minRobinCoeff w * rMin w) ≤
        1 - minCosTheta w / (maxRobinCoeff w * rMax w) := sub_le_sub_left harg 1
    have hdmin : 0 < 1 - minCosTheta w / (maxRobinCoeff w * rMax w) := lt_of_lt_of_le hdmax hdle
    rw [bound3_min_regular maxFloat rMin rMax minRobinCoeff maxRobinCoeff minCosTheta maxCosTheta
        w hrMax hdmin.le,
      bound3_max_regular maxFloat rMin rMax minRobinCoeff maxRobinCoeff minCosTheta maxCosTheta
        w hrMin hdmax.le]
    have hle : rMin w / (1 - minCosTheta w / (maxRobinCoeff w * rMax w)) ≤
        rMax w / (1 - maxCosTheta w / (minRobinCoeff w * rMin w)) :=
      div_le_div₀ hrMax.le hr hdmax hdle
    exact pow_le_pow_left₀ (div_nonneg hrMin.le hdmin.le) hle 2

/-- Witness for C33: over the reals with the exponential function,
`rMin = 2`, `rMax = 3`, coefficients in `[1, 2]` and cosines in `[1/2, 1]`
(so `1/1 < 2`). -/
theorem min_bound_le_max_bound_witness :
    RobinMbvhNodeBound2.computeMinSquaredStarRadiusBound Real.exp (fun _ => 2) (fun _ => 3)
        (fun _ => 1) (fun _ => 2) (fun _ => 1 / 2) (fun _ => 1) 0 ≤
      RobinMbvhNodeBound2.computeMaxSquaredStarRadiusBound Real.exp (fun _ => 2) (fun _ => 3)
        (fun _ => 1) (fun _ => 2) (fun _ => 1 / 2) (fun _ => 1) 0 ∧
    RobinMbvhNodeBound3.computeMinSquaredStarRadiusBound (1000 : ℝ) (fun _ => 2) (fun _ => 3)
        (fun _ => 1) (fun _ => 2) (fun _ => 1 / 2) (fun _ => 1) 0 ≤
      RobinMbvhNodeBound3.computeMaxSquaredStarRadiusBound (1000 : ℝ) (fun _ => 2) (fun _ => 3)
        (fun _ => 1) (fun _ => 2) (fun _ => 1 / 2) (fun _ => 1) 0 :=
  have h := min_bound_le_max_bound Real.exp Real.exp_monotone (fun x => (Real.exp_pos x).le)
    (1000 : ℝ) (fun _ => 2) (fun _ => 3) (fun _ => 1) (fun _ => 2) (fun _ => 1 / 2) (fun _ => 1)
    0 (by norm_num) (by norm_num) (by norm_num) (by norm_num) (by norm_num) (by norm_num)
  ⟨h.1, h.2 (by norm_num)⟩

end BoundsConsistent

/-! ### Ordered coefficient ranges -/

section OrderedRanges

variable {α : Type} [LinearOrderedField α] {D : Nat}

/-- A step of the first loop of `updateRobinCoefficients` keeps a primitive
that already carries its new coefficient pair. -/
theorem updateLeafLane_written (T : RobinMbvh α D) (WIDTH : Nat) (minV maxV : Int → α)
    (r leafOffset referenceOffset : Int) (q : Nat)
    (st : (Int → RobinPrimitive α D) × (Int → MbvhLeafNode α D))
    (hJ : FirstPassFrame T st)
    (hQ : (st.1 r).minRobinCoeff = minV (T.primitives r).pIndex ∧
      (st.1 r).maxRobinCoeff = maxV (T.primitives r).pIndex) :
    ((updateLeafLane WIDTH minV maxV leafOffset referenceOffset st q).1 r).minRobinCoeff =
        minV (T.primitives r).pIndex ∧
      ((updateLeafLane WIDTH minV maxV leafOffset referenceOffset st q).1 r).maxRobinCoeff =
        maxV (T.primitives r).pIndex := by
  unfold updateLeafLane
  simp only
  by_cases hr : r = referenceOffset + (q : Int)
  · have hidx := (hJ.1 r).2.2.2.2
    rw [← hr, Function.update_same]
    simp only [hidx, and_self]
  · rw [Function.update_noteq hr]
    exact hQ

/-- After the first loop of `updateRobinCoefficients`, the `p`-th primitive of
leaf node `i` carries the pair of new coefficients of its external index. -/
theorem updatePrimitiveCoefficients_written (P : Params α) (minV maxV : Int → α)
    (T : RobinMbvh α D) (i p : Nat) (hi : (i : Int) < T.nNodes)
    (hleaf : (T.flatTree i).child 0 < 0) (hp : (p : Int) < (T.flatTree i).child 3) :
    ((updatePrimitiveCoefficients P minV maxV T).1
        ((T.flatTree i).child 2 + (p : Int))).minRobinCoeff =
      minV (T.primitives ((T.flatTree i).child 2 + (p : Int))).pIndex ∧
    ((updatePrimitiveCoefficients P minV maxV T).1
        ((T.flatTree i).child 2 + (p : Int))).maxRobinCoeff =
      maxV (T.primitives ((T.flatTree i).child 2 + (p : Int))).pIndex := by
  unfold updatePrimitiveCoefficients
  refine foldl_establish _ (FirstPassFrame T)
    (fun st => (st.1 ((T.flatTree i).child 2 + (p : Int))).minRobinCoeff =
        minV (T.primitives ((T.flatTree i).child 2 + (p : Int))).pIndex ∧
      (st.1 ((T.flatTree i).child 2 + (p : Int))).maxRobinCoeff =
        maxV (T.primitives ((T.flatTree i).child 2 + (p : Int))).pIndex) i _ _ ?_ ?_ ?_ ?_ ?_
  · exact fun s k _ hs => updateLeafCoefficients_frame T P.WIDTH minV maxV T.flatTree s k hs
  · intro s hs
    have hl : isLeafNode (T.flatTree i) = true := by simp [isLeafNode, hleaf]
    unfold updateLeafCoefficients
    simp only [hl, if_true]
    refine foldl_establish _ (FirstPassFrame T)
      (fun st => (st.1 ((T.flatTree i).child 2 + (p : Int))).minRobinCoeff =
          minV (T.primitives ((T.flatTree i).child 2 + (p : Int))).pIndex ∧
        (st.1 ((T.flatTree i).child 2 + (p : Int))).maxRobinCoeff =
          maxV (T.primitives ((T.flatTree i).child 2 + (p : Int))).pIndex) p _ _ ?_ ?_ ?_ ?_ hs
    · exact fun s q _ hs => updateLeafLane_frame T P.WIDTH minV maxV _ _ s q hs
    · intro s hs
      have h := updateLeafLane_establish T P.WIDTH minV maxV i p s hs
      exact ⟨h.1, h.2.1⟩
    · intro s q _ hs hQ
      exact updateLeafLane_written T P.WIDTH minV maxV _ _ _ q s hs hQ
    · rw [List.mem_range]; omega
  · intro s k _ hs hQ
    unfold updateLeafCoefficients
    simp only
    split
    · have := foldl_invariant
        (updateLeafLane P.WIDTH minV maxV (-(T.flatTree k).child 0 - 1) ((T.flatTree k).child 2))
        (fun s => FirstPassFrame T s ∧
          ((s.1 ((T.flatTree i).child 2 + (p : Int))).minRobinCoeff =
              minV (T.primitives ((T.flatTree i).child 2 + (p : Int))).pIndex ∧
            (s.1 ((T.flatTree i).child 2 + (p : Int))).maxRobinCoeff =
              maxV (T.primitives ((T.flatTree i).child 2 + (p : Int))).pIndex))
        (List.range ((T.flatTree k).child 3).toNat) s
        (fun s q _ hs =>
          ⟨updateLeafLane_frame T P.WIDTH minV maxV _ _ s q hs.1,
            updateLeafLane_written T P.WIDTH minV maxV _ _ _ q s hs.1 hs.2⟩)
        ⟨hs, hQ⟩
      exact this.2
    · exact hQ
  · rw [List.mem_range]; omega
  · exact ⟨fun r => ⟨rfl, rfl, rfl, rfl, rfl⟩, fun r => ⟨rfl, rfl, rfl, rfl, rfl⟩⟩

/-- The range that `updateRobinCoefficientsRecursive` computes for a node is
the seeded minimum of `minRobinCoeff` and the seeded maximum of
`maxRobinCoeff` over the primitives referenced below the node. -/
theorem update_value_range (P : Params α) (primitives : Int → RobinPrimitive α D)
    (child : Int → Nat → Int) :
    ∀ (h : Nat) (i : Int),
      (updatePass P primitives).value child h i =
        (minOver P.maxFloat ((subtreeReferences P.W child h i).map
            fun r => (primitives r).minRobinCoeff),
          maxOver P.minFloat ((subtreeReferences P.W child h i).map
            fun r => (primitives r).maxRobinCoeff)) := by
  intro h
  induction h with
  | zero => intro i; rfl
  | succ h ih =>
    intro i
    unfold Pass.value subtreeReferences
    by_cases hleaf : child i 0 < 0
    · simp only [hleaf, if_true]
      show leafRobinCoeffs P primitives (child i 2) (child i 3) = _
      rw [leafRobinCoeffs_eq]
      simp only [List.map_map, Function.comp_def]
    · simp only [hleaf, if_false]
      have hW : (updatePass P primitives).W = P.W := rfl
      rw [hW]
      have loop : ∀ n,
          (List.range n).foldl
              (fun v w =>
                if child i w ≠ maxInt then
                  (updatePass P primitives).combine v
                    ((updatePass P primitives).value child h (child i w))
                else v) (updatePass P primitives).init =
            (minOver P.maxFloat (((List.range n).flatMap fun w =>
                if child i w ≠ maxInt then subtreeReferences P.W child h (child i w)
                else []).map fun r => (primitives r).minRobinCoeff),
              maxOver P.minFloat (((List.range n).flatMap fun w =>
                if child i w ≠ maxInt then subtreeReferences P.W child h (child i w)
                else []).map fun r => (primitives r).maxRobinCoeff)) := by
        intro n
        induction n with
        | zero => rfl
        | succ n ihn =>
          simp only [List.range_succ, List.foldl_append, List.flatMap_append, List.map_append,
            minOver_append, maxOver_append, List.foldl_cons, List.foldl_nil, List.flatMap_cons,
            List.flatMap_nil, List.append_nil]
          rw [ihn]
          by_cases hp : child i n = maxInt
          · simp only [hp, ne_eq, not_true_eq_false, if_false, List.map_nil]
            rw [Prod.mk.injEq]
            exact ⟨(min_eq_left (minOver_le_seed _ _)).symm,
              (max_eq_left (seed_le_maxOver _ _)).symm⟩
          · simp only [hp, ne_eq, not_false_eq_true, if_true]
            rw [ih (child i n)]
            rfl
      exact loop P.W

/-- Every reference below a well-formed node is a reference of a leaf node of
the tree. -/
theorem subtreeReferences_mem (W : Nat) (nNodes : Int) (child : Int → Nat → Int) :
    ∀ (k : Nat) (c r : Int), wellFormedAt W nNodes child k c = true →
      r ∈ subtreeReferences W child k c →
      ∃ (j p : Nat), (j : Int) < nNodes ∧ child j 0 < 0 ∧ (p : Int) < child j 3 ∧
        r = child j 2 + (p : Int) := by
  intro k
  induction k with
  | zero => intro c r hwf; simp [wellFormedAt] at hwf
  | succ k ih =>
    intro c r hwf hr
    obtain ⟨h0, hn, hsub⟩ := (wellFormedAt_succ_iff W nNodes child k c).mp hwf
    unfold subtreeReferences at hr
    by_cases hleaf : child c 0 < 0
    · simp only [hleaf, if_true, List.mem_map, List.mem_range] at hr
      obtain ⟨p, hp, hpr⟩ := hr
      have hc : ((c.toNat : Nat) : Int) = c := Int.toNat_of_nonneg h0
      refine ⟨c.toNat, p, ?_, ?_, ?_, ?_⟩
      · rw [hc]; exact hn
      · rw [hc]; exact hleaf
      · rw [hc]; omega
      · rw [hc]; exact hpr.symm
    · simp only [hleaf, if_false, List.mem_flatMap, List.mem_range] at hr
      obtain ⟨w, hw, hrw⟩ := hr
      by_cases hp : child c w = maxInt
      · simp [hp] at hrw
      · simp only [ne_eq, hp, not_false_eq_true, if_true] at hrw
        rcases (hsub.resolve_left hleaf) w hw with e | e
        · exact absurd e hp
        · exact ih _ _ e hrw

/-- C34: if `minCoeffValues[i] ≤ maxCoeffValues[i]` for every index `i`, then
after `updateRobinCoefficients` on a well-formed tree the child arrays are
unchanged and, for every present child slot `w` of an internal node: when the
subtree of the child references at least one primitive,
`minRobinCoeff[w] ≤ maxRobinCoeff[w]`, so that (for
`epsilon < maxFloat − epsilon`) the tests `isNotDirichlet` and `isNotNeumann`
of `visitNodes` are not both false for the slot; when the subtree references
no primitive, the slot holds the empty range `(maxFloat, minFloat)`. -/
theorem updateRobinCoefficients_ranges_ordered (P : Params α) (minV maxV : Int → α)
    (T : RobinMbvh α D) (h : Nat)
    (hwf : wellFormedAt P.W T.nNodes (childOf T.flatTree) h 0 = true)
    (hord : ∀ i, minV i ≤ maxV i) :
    ∃ T1, updateRobinCoefficients P h minV maxV T = some T1 ∧
      childOf T1.flatTree = childOf T.flatTree ∧
      ∀ j w, Reachable P.W (childOf T1.flatTree) 0 j → isLeafNode (T1.flatTree j) = false →
        w < P.W → (T1.flatTree j).child w ≠ maxInt →
        (subtreeReferences P.W (childOf T1.flatTree) h ((T1.flatTree j).child w) ≠ [] →
          (T1.flatTree j).minRobinCoeff w ≤ (T1.flatTree j).maxRobinCoeff w ∧
          (P.epsilon < P.maxFloat - P.epsilon →
            (T1.flatTree j).minRobinCoeff w < P.maxFloat - P.epsilon ∨
              (T1.flatTree j).maxRobinCoeff w > P.epsilon)) ∧
        (subtreeReferences P.W (childOf T1.flatTree) h ((T1.flatTree j).child w) = [] →
          (T1.flatTree j).minRobinCoeff w = P.maxFloat ∧
          (T1.flatTree j).maxRobinCoeff w = P.minFloat) := by
  obtain ⟨t1, hupd, _, hrel, hgood, hwf1⟩ := updateRobinCoefficients_spec P minV maxV T h hwf
  have hce : childOf t1 = childOf T.flatTree := hrel.childOf_eq
  refine ⟨_, hupd, hce, ?_⟩
  intro j w hreach hleaf hw hp
  simp only at hreach hleaf hp ⊢
  have hint : ¬ (t1 j).child 0 < 0 := (isLeafNode_eq_false_iff _).mp hleaf
  obtain ⟨k, hk, _, hwfc, _, hread⟩ :=
    Pass.Good.slot (S := updatePass P (updatePrimitiveCoefficients P minV maxV T).1) hreach hwf1
      hgood hint hw hp
  have hwfc : wellFormedAt P.W T.nNodes (childOf t1) k ((t1 j).child w) = true := hwfc
  have hwfh : wellFormedAt P.W T.nNodes (childOf t1) h ((t1 j).child w) = true :=
    wellFormedAt_mono_le P.W T.nNodes (childOf t1) _ k h (by omega) hwfc
  have hrefs := subtreeReferences_indep P.W T.nNodes (childOf t1) h k ((t1 j).child w) hwfh hwfc
  have hpair : ((t1 j).minRobinCoeff w, (t1 j).maxRobinCoeff w) =
      (updatePass P (updatePrimitiveCoefficients P minV maxV T).1).value (childOf t1) k
        ((t1 j).child w) := hread
  rw [update_value_range, ← hrefs, Prod.mk.injEq] at hpair
  obtain ⟨hmin, hmax⟩ := hpair
  have hordered : ∀ r ∈ subtreeReferences P.W (childOf t1) h ((t1 j).child w),
      ((updatePrimitiveCoefficients P minV maxV T).1 r).minRobinCoeff ≤
        ((updatePrimitiveCoefficients P minV maxV T).1 r).maxRobinCoeff := by
    intro r hr
    obtain ⟨i, p, hi, hli, hpi, hri⟩ :=
      subtreeReferences_mem P.W T.nNodes (childOf t1) h _ r hwfh hr
    rw [hce] at hli hpi hri
    have hli' : (T.flatTree i).child 0 < 0 := hli
    have hpi' : (p : Int) < (T.flatTree i).child 3 := hpi
    have hri' : r = (T.flatTree i).child 2 + (p : Int) := hri
    obtain ⟨h1, h2⟩ := updatePrimitiveCoefficients_written P minV maxV T i p hi hli' hpi'
    rw [hri', h1, h2]
    exact hord _
  constructor
  · intro hne
    obtain ⟨r, hr⟩ := List.exists_mem_of_ne_nil _ hne
    have hle : (t1 j).minRobinCoeff w ≤ (t1 j).maxRobinCoeff w := by
      rw [hmin, hmax]
      exact le_trans (minOver_le_of_mem _ _ _ (List.mem_map_of_mem _ hr))
        (le_trans (hordered r hr) (le_maxOver_of_mem _ _ _ (List.mem_map_of_mem _ hr)))
    refine ⟨hle, ?_⟩
    intro heps
    by_contra hboth
    rw [not_or, not_lt, gt_iff_lt, not_lt] at hboth
    exact absurd (lt_of_lt_of_le heps (le_trans hboth.1 (le_trans hle hboth.2))) (lt_irrefl _)
  · intro hnil
    rw [hnil] at hmin hmax
    exact ⟨hmin, hmax⟩

set_option maxRecDepth 100000 in
/-- Witness for C34: on the scene, with `minValues[i] = 2i + 1` and
`maxValues[i] = 2i + 2`, slot 0 of the root (references 0 and 1) gets the
range `(1, 6)`; slots 0 and 1 both have a non-empty subtree. -/
theorem updateRobinCoefficients_ranges_ordered_witness :
    wellFormedAt sceneParams.W sceneMbvh.nNodes (childOf sceneMbvh.flatTree) 2 0 = true ∧
      (∀ i : Int, 2 * (i : ℚ) + 1 ≤ 2 * (i : ℚ) + 2) ∧
      ∃ T1, updateRobinCoefficients sceneParams 2 (fun i => 2 * (i : ℚ) + 1)
          (fun i => 2 * (i : ℚ) + 2) sceneMbvh = some T1 ∧
        subtreeReferences sceneParams.W (childOf T1.flatTree) 2 ((T1.flatTree 0).child 0) =
          [0, 1] ∧
        (T1.flatTree 0).minRobinCoeff 0 ≤ (T1.flatTree 0).maxRobinCoeff 0 ∧
        ((T1.flatTree 0).minRobinCoeff 0, (T1.flatTree 0).maxRobinCoeff 0) = (1, 6) := by
  have hw : wellFormedAt sceneParams.W sceneMbvh.nNodes (childOf sceneMbvh.flatTree) 2 0 = true := by
    decide
  have ho : ∀ i : Int, 2 * (i : ℚ) + 1 ≤ 2 * (i : ℚ) + 2 := fun i => by linarith
  obtain ⟨T1, h1, _, h2⟩ := updateRobinCoefficients_ranges_ordered sceneParams
    (fun i => 2 * (i : ℚ) + 1) (fun i => 2 * (i : ℚ) + 2) sceneMbvh 2 hw ho
  have hv : (updateRobinCoefficients sceneParams 2 (fun i => 2 * (i : ℚ) + 1)
      (fun i => 2 * (i : ℚ) + 2) sceneMbvh).map (fun T1 =>
      (subtreeReferences sceneParams.W (childOf T1.flatTree) 2 ((T1.flatTree 0).child 0),
        isLeafNode (T1.flatTree 0), (T1.flatTree 0).child 0,
        (T1.flatTree 0).minRobinCoeff 0, (T1.flatTree 0).maxRobinCoeff 0)) =
      some ([0, 1], false, 1, 1, 6) := by decide!
  rw [h1] at hv
  simp only [Option.map_some', Option.some.injEq, Prod.mk.injEq] at hv
  obtain ⟨hrefs, hleaf, hchild, hmin, hmax⟩ := hv
  have hslot := (h2 0 0 (Reachable.self 0) hleaf (by decide)
    (by rw [hchild]; decide)).1 (by rw [hrefs]; simp)
  exact ⟨hw, ho, T1, h1, hrefs, hslot.1, by rw [hmin, hmax]⟩

end OrderedRanges

end Zombie
